import Mathlib

/-!
# HARP variables: the array engine of `libharp/harp-variable.c`

A shallow embedding of the reshape primitives of `harp-variable.c`
(`harp_variable_rearrange_dimension`, `harp_variable_filter_dimension`,
`harp_variable_resize_dimension`, `harp_variable_add_dimension`,
`harp_variable_remove_dimension`) and of `harp_variable_verify`.

Modelling conventions:

* the data buffer of a variable is a list of cells, one cell per element, so
  every byte offset of the C code is an element offset here (the element size
  is one cell);
* C strings live in an explicit heap; `free` and `strdup` act on it;
* `malloc`, `realloc` and `strdup` never fail, except where a function takes an
  allocation oracle: the `realloc` of `harp_variable_resize_dimension`
  (`reallocates`), which can be asked for a buffer of 0 elements, and the
  `malloc` of the data buffer in `harp_variable_new` and `harp_variable_copy`
  (`allocates`); `long` arithmetic does not overflow;
* `while` loops take fuel; running out of fuel, a failed `assert`, the
  overflow of an `int` loop counter and a read through a null pointer (or of
  a union member that was not stored) are the ways a call can get stuck.

The second part embeds the translation of function calls of
`libharp/harp-operation-analyze.c`: the catalog of builtin functions,
`get_function_prototype_by_name`, the constructors `create_*` of the catalog
and `operation_from_function_call`.
-/

namespace Harp

/-! ## Data model -/

/-- The element data types of `harp_data_type`. -/
inductive harp_data_type
  | harp_type_int8
  | harp_type_int16
  | harp_type_int32
  | harp_type_float
  | harp_type_double
  | harp_type_string
  deriving DecidableEq, Repr

/-- The dimension types of `harp_dimension_type`. -/
inductive harp_dimension_type
  | harp_dimension_independent
  | harp_dimension_time
  | harp_dimension_latitude
  | harp_dimension_longitude
  | harp_dimension_vertical
  | harp_dimension_spectral
  deriving DecidableEq, Repr

/-- The error codes set through `harp_set_error`. -/
inductive harp_error
  | HARP_ERROR_INVALID_ARGUMENT
  | HARP_ERROR_INVALID_VARIABLE
  | HARP_ERROR_OUT_OF_MEMORY
  deriving DecidableEq, Repr

/-- A floating point value: not-a-number, an infinity, or a finite number. -/
inductive harp_float
  | nan
  | inf (negative : Bool)
  | finite (q : Rat)
  deriving DecidableEq, Repr

/-- One element of a data buffer (a member of the `harp_array` union); a string
element is a pointer, `none` being `NULL`.  `undef` is the indeterminate
content of memory that `realloc` hands out. -/
inductive Cell
  | int8_data (v : Int)
  | int16_data (v : Int)
  | int32_data (v : Int)
  | float_data (v : harp_float)
  | double_data (v : harp_float)
  | string_data (p : Option Nat)
  | undef
  deriving DecidableEq, Repr

/-- The heap of C strings: the live strings by address, the next address that
`strdup` hands out, and a flag that records a `free` or a `strdup` of an
address that is not live. -/
structure Heap where
  live : List (Nat × String)
  next : Nat
  faulted : Bool
  deriving DecidableEq, Repr

/-- The string stored at address `p`, if `p` is live. -/
def Heap.lookup (h : Heap) (p : Nat) : Option String :=
  (h.live.find? (fun e => e.1 == p)).map (fun e => e.2)

/-- The C call `free(p)`. -/
def Heap.free (h : Heap) (p : Nat) : Heap :=
  match h.lookup p with
  | some _ => { h with live := h.live.filter (fun e => e.1 != p) }
  | none => { h with faulted := true }

/-- The C call `strdup(p)`: the new heap and the address of the copy. -/
def Heap.strdup (h : Heap) (p : Nat) : Heap × Nat :=
  match h.lookup p with
  | some s => ({ h with live := (h.next, s) :: h.live, next := h.next + 1 }, h.next)
  | none => ({ live := (h.next, "") :: h.live, next := h.next + 1, faulted := true }, h.next)

/-- The structure `harp_variable`.  `dimension_type` and `dimension` are the
fixed capacity arrays of the C structure, `data` is `data.ptr` (`none` is
`NULL`). -/
structure harp_variable where
  name : Option String
  data_type : harp_data_type
  num_dimensions : Int
  dimension_type : List harp_dimension_type
  dimension : List Int
  num_elements : Int
  data : Option (List Cell)
  description : Option String
  unit : Option String
  valid_min : Cell
  valid_max : Cell
  deriving DecidableEq, Repr

/-- What a call leaves behind: the return value, the error set (if any), the
variable as the call left it and the heap. -/
structure Outcome where
  ret : Int
  harp_errno : Option harp_error
  var : Option harp_variable
  heap : Heap
  deriving DecidableEq, Repr

/-- The ways a call can fail to return. -/
inductive Stuck
  | out_of_fuel
  | assertion_failed
  | counter_overflow
  | invalid_read
  | invalid_write
  deriving DecidableEq, Repr

/-- The return path `harp_set_error(e, ...); return -1;`. -/
def fail_with (e : harp_error) (var : Option harp_variable) (heap : Heap) : Outcome :=
  { ret := -1, harp_errno := some e, var := var, heap := heap }

/-- The return path `return 0;`. -/
def succeed (var : harp_variable) (heap : Heap) : Outcome :=
  { ret := 0, harp_errno := none, var := some var, heap := heap }

/-! ## Memory primitives -/

/-- Read the cell at offset `i`. -/
def peek (mem : List Cell) (i : Nat) : Cell := mem.getD i Cell.undef

/-- The C calls `memmove(mem + dst, mem + src, len)` and `memcpy` (on
non-overlapping ranges): cell `dst + i` receives the old cell `src + i`. -/
def memmove (mem : List Cell) (dst src len : Nat) : List Cell :=
  (List.range mem.length).map
    (fun i => if dst ≤ i ∧ i < dst + len then peek mem (src + (i - dst)) else peek mem i)

/-- The C call `memcpy(buffer, mem + off, len)` into a temporary buffer. -/
def read_block (mem : List Cell) (off len : Nat) : List Cell :=
  (List.range len).map (fun i => peek mem (off + i))

/-- The C call `memcpy(mem + off, buffer, len)` from a temporary buffer. -/
def write_block (mem : List Cell) (off : Nat) (buffer : List Cell) (len : Nat) : List Cell :=
  (List.range mem.length).map
    (fun i => if off ≤ i ∧ i < off + len then buffer.getD (i - off) Cell.undef else peek mem i)

/-- The C call `realloc(mem, size)`: the old content up to `size`, new cells
indeterminate. -/
def realloc (mem : List Cell) (size : Nat) : List Cell :=
  mem.take size ++ List.replicate (size - mem.length) Cell.undef

/-- The loop `for (k = 0; k < num_block_elements; k++) if (string_data[k] != NULL)
free(string_data[k]);` on the block at offset `off`. -/
def free_block_strings (num_block_elements : Nat) (mem : List Cell) (off : Nat) (heap : Heap) : Heap :=
  (List.range num_block_elements).foldl
    (fun h k =>
      match peek mem (off + k) with
      | Cell.string_data (some p) => h.free p
      | _ => h)
    heap

/-- The loop `for (k = 0; k < num_block_elements; k++) if (string_data[k] != NULL)
string_data[k] = strdup(string_data[k]);` on the block at offset `off`. -/
def dup_block_strings (num_block_elements : Nat) (off : Nat) (st : List Cell × Heap) : List Cell × Heap :=
  (List.range num_block_elements).foldl
    (fun s k =>
      match peek s.1 (off + k) with
      | Cell.string_data (some p) =>
        ((s.1).set (off + k) (Cell.string_data (some (s.2.strdup p).2)), (s.2.strdup p).1)
      | _ => s)
    st

/-- The product `dimension[from] * ... * dimension[to - 1]` as computed by the
loops `for (i = from; i < to; i++) acc *= variable->dimension[i];`. -/
def dimension_product (dimension : List Int) (from_index to_index : Nat) : Int :=
  ((List.range (to_index - from_index)).map (fun i => from_index + i)).foldl
    (fun acc i => acc * dimension.getD i 0) 1

/-! ## harp_variable_rearrange_dimension -/

/-- The entry `dim_element_ids[i]`. -/
def id_at (dim_element_ids : List Int) (i : Nat) : Nat := (dim_element_ids.getD i 0).toNat

/-- The table `move_to_id` (lines 146-156): for each old position the first
new position that takes it, `none` standing for `-1`. -/
def build_move_to_id (dim num_dim_elements : Nat) (dim_element_ids : List Int) : List (Option Nat) :=
  (List.range num_dim_elements).foldl
    (fun move_to_id i =>
      if move_to_id.getD (id_at dim_element_ids i) none = none then
        move_to_id.set (id_at dim_element_ids i) (some i)
      else move_to_id)
    (List.replicate dim none)

/-- The loop of lines 254-257, `while (k < dim && move_to_id[k] != -1 && !moved[k]
&& move_to_id[k] != to_id) k = move_to_id[k];`, returning the final `k`. -/
def walk_forward (dim : Nat) (move_to_id : List (Option Nat)) (moved : List Bool) (to_id : Nat) :
    Nat → Nat → Option Nat
  | 0, _ => none
  | fuel + 1, k =>
    match move_to_id.getD k none with
    | some next =>
      if k < dim ∧ moved.getD k false = false ∧ next ≠ to_id then
        walk_forward dim move_to_id moved to_id fuel next
      else some k
    | none => some k

/-- The loop of lines 267-273, `while (k != to_id) { memcpy(block k, block
dim_element_ids[k]); k = dim_element_ids[k]; moved[k] = 1; }`. -/
def walk_backward (num_block_elements base : Nat) (dim_element_ids : List Int) (to_id : Nat) :
    Nat → Nat → List Cell × List Bool → Option (List Cell × List Bool)
  | 0, _, _ => none
  | fuel + 1, k, st =>
    if k ≠ to_id then
      walk_backward num_block_elements base dim_element_ids to_id fuel (id_at dim_element_ids k)
        (memmove st.1 (base + k * num_block_elements)
            (base + id_at dim_element_ids k * num_block_elements) num_block_elements,
          st.2.set (id_at dim_element_ids k) true)
    else some st

/-- The state of the reordering of one group: the buffer, the heap and the
array `moved`. -/
structure Reorder where
  mem : List Cell
  heap : Heap
  moved : List Bool
  deriving DecidableEq, Repr

/-- What the move-away step of lines 250-274 leaves behind: the flag `is_cycle`,
the temporary `buffer`, the data buffer and the array `moved`. -/
structure Away where
  is_cycle : Bool
  buffer : List Cell
  mem : List Cell
  moved : List Bool
  deriving DecidableEq, Repr

/-- Lines 250-274: if the block at `to_id` is still needed elsewhere, move it
(and the blocks in its way) away first; a cycle is broken with the temporary
buffer. -/
def move_away (fuel : Nat) (dim num_block_elements base : Nat) (dim_element_ids : List Int)
    (move_to_id : List (Option Nat)) (mem : List Cell) (moved : List Bool) (to_id : Nat) :
    Except Stuck Away :=
  match move_to_id.getD to_id none with
  | some first =>
    if to_id < dim ∧ moved.getD to_id false = false then
      match walk_forward dim move_to_id moved to_id fuel first with
      | none => .error Stuck.out_of_fuel
      | some k =>
        if k < dim ∧ move_to_id.getD k none = some to_id then
          -- assert(k == from_id)
          if k ≠ id_at dim_element_ids to_id then .error Stuck.assertion_failed
          else
            match walk_backward num_block_elements base dim_element_ids to_id fuel k (mem, moved) with
            | none => .error Stuck.out_of_fuel
            | some r =>
              .ok { is_cycle := true
                    buffer := read_block mem (base + id_at dim_element_ids to_id * num_block_elements)
                      num_block_elements
                    mem := r.1
                    moved := r.2 }
        else
          match walk_backward num_block_elements base dim_element_ids to_id fuel k (mem, moved) with
          | none => .error Stuck.out_of_fuel
          | some r => .ok { is_cycle := false, buffer := [], mem := r.1, moved := r.2 }
    else .ok { is_cycle := false, buffer := [], mem := mem, moved := moved }
  | none => .ok { is_cycle := false, buffer := [], mem := mem, moved := moved }

/-- Lines 276-323: copy the source block to the current position. -/
def place_block (data_type : harp_data_type) (num_block_elements base : Nat)
    (dim_element_ids : List Int) (move_to_id : List (Option Nat)) (heap : Heap) (a : Away)
    (to_id : Nat) : Reorder :=
  if a.is_cycle = true then
    -- lines 280-281: the data comes from the temporary buffer
    { mem := write_block a.mem (base + to_id * num_block_elements) a.buffer num_block_elements
      heap := heap
      moved := a.moved.set (id_at dim_element_ids to_id) true }
  else if a.moved.getD (id_at dim_element_ids to_id) false = true then
    -- lines 288-315: a duplicate of a block that has already been moved
    if data_type = harp_data_type.harp_type_string then
      { mem := (dup_block_strings num_block_elements (base + to_id * num_block_elements)
          (memmove a.mem (base + to_id * num_block_elements)
            (base + (move_to_id.getD (id_at dim_element_ids to_id) none).getD 0 * num_block_elements)
            num_block_elements, heap)).1
        heap := (dup_block_strings num_block_elements (base + to_id * num_block_elements)
          (memmove a.mem (base + to_id * num_block_elements)
            (base + (move_to_id.getD (id_at dim_element_ids to_id) none).getD 0 * num_block_elements)
            num_block_elements, heap)).2
        moved := a.moved }
    else
      { mem := memmove a.mem (base + to_id * num_block_elements)
          (base + (move_to_id.getD (id_at dim_element_ids to_id) none).getD 0 * num_block_elements)
          num_block_elements
        heap := heap
        moved := a.moved }
  else
    -- lines 319-321
    { mem := memmove a.mem (base + to_id * num_block_elements)
        (base + id_at dim_element_ids to_id * num_block_elements) num_block_elements
      heap := heap
      moved := a.moved.set (id_at dim_element_ids to_id) true }

/-- The body of the loop `for (to_id = 0; to_id < num_dim_elements; to_id++)`
(lines 238-323) for the group whose blocks start at offset `base`. -/
def reorder_step (fuel : Nat) (data_type : harp_data_type) (dim num_block_elements base : Nat)
    (dim_element_ids : List Int) (move_to_id : List (Option Nat)) (st : Reorder) (to_id : Nat) :
    Except Stuck Reorder :=
  -- lines 244-247: skip a block that an earlier shuffle has already filled
  if move_to_id.getD (id_at dim_element_ids to_id) none = some to_id ∧
      st.moved.getD (id_at dim_element_ids to_id) false = true then
    .ok st
  else
    match move_away fuel dim num_block_elements base dim_element_ids move_to_id st.mem st.moved to_id with
    | .error e => .error e
    | .ok a => .ok (place_block data_type num_block_elements base dim_element_ids move_to_id st.heap a to_id)

/-- The body of the loop over the groups (lines 194-326) for group `i`. -/
def rearrange_group (fuel : Nat) (data_type : harp_data_type) (dim num_dim_elements num_block_elements : Nat)
    (dim_element_ids : List Int) (move_to_id : List (Option Nat)) (st : List Cell × Heap) (i : Nat) :
    Except Stuck (List Cell × Heap) :=
  let from_off := i * dim * num_block_elements
  let to_off := i * num_dim_elements * num_block_elements
  -- lines 202-205
  let mem1 := if to_off ≠ from_off then memmove st.1 to_off from_off (dim * num_block_elements) else st.1
  -- lines 208-229
  let heap1 :=
    if data_type = harp_data_type.harp_type_string then
      (List.range dim).foldl
        (fun h j =>
          if move_to_id.getD j none = none then
            free_block_strings num_block_elements mem1 (to_off + j * num_block_elements) h
          else h)
        st.2
    else st.2
  -- line 234 and the loop of lines 237-324
  match (List.range num_dim_elements).foldlM
      (reorder_step fuel data_type dim num_block_elements to_off dim_element_ids move_to_id)
      ({ mem := mem1, heap := heap1, moved := List.replicate dim false } : Reorder) with
  | .error e => .error e
  | .ok r => .ok (r.mem, r.heap)

/-- The function `harp_variable_rearrange_dimension` (lines 48-353). -/
def harp_variable_rearrange_dimension (fuel : Nat) (heap : Heap) (var : Option harp_variable)
    (dim_index : Int) (num_dim_elements : Int) (dim_element_ids : Option (List Int)) :
    Except Stuck Outcome :=
  match var with
  | none => .ok (fail_with harp_error.HARP_ERROR_INVALID_ARGUMENT none heap)
  | some v =>
    if num_dim_elements ≤ 0 then
      .ok (fail_with harp_error.HARP_ERROR_INVALID_ARGUMENT (some v) heap)
    else
      match dim_element_ids with
      | none => .ok (fail_with harp_error.HARP_ERROR_INVALID_ARGUMENT (some v) heap)
      | some ids =>
        if dim_index < 0 ∨ dim_index ≥ v.num_dimensions then
          .ok (fail_with harp_error.HARP_ERROR_INVALID_ARGUMENT (some v) heap)
        else if v.num_elements = 0 then
          .ok (fail_with harp_error.HARP_ERROR_INVALID_ARGUMENT (some v) heap)
        else if (List.range num_dim_elements.toNat).any
            (fun i => decide (ids.getD i 0 < 0 ∨ ids.getD i 0 ≥ v.dimension.getD dim_index.toNat 0)) then
          .ok (fail_with harp_error.HARP_ERROR_INVALID_ARGUMENT (some v) heap)
        else
          let num_groups := dimension_product v.dimension 0 dim_index.toNat
          let num_block_elements :=
            Int.tdiv v.num_elements (num_groups * v.dimension.getD dim_index.toNat 0)
          let new_num_elements := num_groups * num_dim_elements * num_block_elements
          let dim := (v.dimension.getD dim_index.toNat 0).toNat
          -- lines 122-135
          let mem0 :=
            if num_dim_elements > v.dimension.getD dim_index.toNat 0 then
              realloc (v.data.getD []) new_num_elements.toNat
            else v.data.getD []
          let move_to_id := build_move_to_id dim num_dim_elements.toNat ids
          -- lines 181-190: backwards when the data grows, forwards otherwise
          let groups :=
            if new_num_elements > v.num_elements then (List.range num_groups.toNat).reverse
            else List.range num_groups.toNat
          match groups.foldlM
              (rearrange_group fuel v.data_type dim num_dim_elements.toNat num_block_elements.toNat
                ids move_to_id)
              (mem0, heap) with
          | .error e => .error e
          | .ok r =>
            -- lines 334-346
            let mem2 :=
              if num_dim_elements < v.dimension.getD dim_index.toNat 0 then
                realloc r.1 new_num_elements.toNat
              else r.1
            .ok (succeed
              { v with
                data := some mem2
                num_elements := new_num_elements
                dimension := v.dimension.set dim_index.toNat num_dim_elements }
              r.2)

/-! ## harp_variable_filter_dimension -/

/-- The body of the loop over the groups (lines 440-478) for group `i`: the
inner loop over `from_id` carries the buffer, the heap and `to_id`. -/
def filter_group (data_type : harp_data_type) (dim num_dim_elements num_block_elements : Nat)
    (mask : List Nat) (st : List Cell × Heap) (i : Nat) : List Cell × Heap :=
  let from_block := i * dim * num_block_elements
  let to_block := i * num_dim_elements * num_block_elements
  ((List.range dim).foldl
    (fun (s : (List Cell × Heap) × Nat) from_id =>
      let from_ptr := from_block + from_id * num_block_elements
      let to_ptr := to_block + s.2 * num_block_elements
      if mask.getD from_id 0 ≠ 0 then
        ((if to_ptr ≠ from_ptr then memmove s.1.1 to_ptr from_ptr num_block_elements else s.1.1, s.1.2),
          s.2 + 1)
      else
        ((s.1.1,
          if data_type = harp_data_type.harp_type_string then
            free_block_strings num_block_elements s.1.1 from_ptr s.1.2
          else s.1.2),
          s.2))
    (st, 0)).1

/-- The function `harp_variable_filter_dimension` (lines 369-494); the entries
of `mask` are bytes. -/
def harp_variable_filter_dimension (heap : Heap) (var : Option harp_variable) (dim_index : Int)
    (mask : Option (List Nat)) : Outcome :=
  match var with
  | none => fail_with harp_error.HARP_ERROR_INVALID_ARGUMENT none heap
  | some v =>
    match mask with
    | none => fail_with harp_error.HARP_ERROR_INVALID_ARGUMENT (some v) heap
    | some mask =>
      if dim_index < 0 ∨ dim_index ≥ v.num_dimensions then
        fail_with harp_error.HARP_ERROR_INVALID_ARGUMENT (some v) heap
      else if v.num_elements = 0 then
        fail_with harp_error.HARP_ERROR_INVALID_ARGUMENT (some v) heap
      else
        let dim := (v.dimension.getD dim_index.toNat 0).toNat
        -- lines 406-410
        let num_dim_elements : Int :=
          (List.range dim).foldl (fun acc i => acc + (if mask.getD i 0 ≠ 0 then 1 else 0)) 0
        if num_dim_elements = 0 then
          fail_with harp_error.HARP_ERROR_INVALID_ARGUMENT (some v) heap
        else if num_dim_elements = v.dimension.getD dim_index.toNat 0 then
          succeed v heap
        else
          let num_groups := dimension_product v.dimension 0 dim_index.toNat
          let num_block_elements :=
            Int.tdiv v.num_elements (num_groups * v.dimension.getD dim_index.toNat 0)
          let new_num_elements := num_groups * num_dim_elements * num_block_elements
          let r := (List.range num_groups.toNat).foldl
            (filter_group v.data_type dim num_dim_elements.toNat num_block_elements.toNat mask)
            (v.data.getD [], heap)
          succeed
            { v with
              data := some (realloc r.1 new_num_elements.toNat)
              num_elements := new_num_elements
              dimension := v.dimension.set dim_index.toNat num_dim_elements }
            r.2

/-! ## harp_variable_resize_dimension -/

/-- The value written by the `switch` of lines 610-630: `0`, `harp_nan()` or `NULL`. -/
def fill_value : harp_data_type → Cell
  | harp_data_type.harp_type_int8 => Cell.int8_data 0
  | harp_data_type.harp_type_int16 => Cell.int16_data 0
  | harp_data_type.harp_type_int32 => Cell.int32_data 0
  | harp_data_type.harp_type_float => Cell.float_data harp_float.nan
  | harp_data_type.harp_type_double => Cell.double_data harp_float.nan
  | harp_data_type.harp_type_string => Cell.string_data none

/-- The body of the loop of lines 556-579 (shrinking) for block `i`. -/
def resize_shrink_block (data_type : harp_data_type) (dim length num_block_elements : Nat)
    (st : List Cell × Heap) (i : Nat) : List Cell × Heap :=
  let from_offset := i * dim * num_block_elements
  let to_offset := i * length * num_block_elements
  let heap1 :=
    if data_type = harp_data_type.harp_type_string then
      ((List.range (dim * num_block_elements - length * num_block_elements)).map
          (fun j => length * num_block_elements + j)).foldl
        (fun h j =>
          match peek st.1 (from_offset + j) with
          | Cell.string_data (some p) => h.free p
          | _ => h)
        st.2
    else st.2
  (if i > 0 then memmove st.1 to_offset from_offset (length * num_block_elements) else st.1, heap1)

/-- The body of the loop of lines 595-632 (growing) for block `i`. -/
def resize_expand_block (data_type : harp_data_type) (dim length num_block_elements : Nat)
    (mem : List Cell) (i : Nat) : List Cell :=
  let from_offset := i * dim * num_block_elements
  let to_offset := i * length * num_block_elements
  let mem1 := if i > 0 then memmove mem to_offset from_offset (dim * num_block_elements) else mem
  ((List.range (length * num_block_elements - dim * num_block_elements)).map
      (fun j => dim * num_block_elements + j)).foldl
    (fun m j => m.set (to_offset + j) (fill_value data_type))
    mem1

/-- The function `harp_variable_resize_dimension` (lines 508-638).  `reallocates n`
tells whether the `realloc` of line 582 returns a pointer for a buffer of `n`
elements; when it returns `NULL`, which the C library may also do for a buffer
of 0 elements, the function reports out of memory (lines 583-589) and leaves
the lengths as they are, with the buffer as the loop of lines 553-580 left
it. -/
def harp_variable_resize_dimension (reallocates : Int → Bool) (heap : Heap)
    (var : Option harp_variable) (dim_index : Int) (length : Int) : Outcome :=
  match var with
  | none => fail_with harp_error.HARP_ERROR_INVALID_ARGUMENT none heap
  | some v =>
    if dim_index < 0 ∨ dim_index ≥ v.num_dimensions then
      fail_with harp_error.HARP_ERROR_INVALID_ARGUMENT (some v) heap
    else if length ≤ 0 then
      fail_with harp_error.HARP_ERROR_INVALID_ARGUMENT (some v) heap
    else if length = v.dimension.getD dim_index.toNat 0 then
      succeed v heap
    else
      let num_blocks := dimension_product v.dimension 0 dim_index.toNat
      let num_block_elements :=
        dimension_product v.dimension (dim_index.toNat + 1) v.num_dimensions.toNat
      let new_num_elements := num_blocks * length * num_block_elements
      let dim := (v.dimension.getD dim_index.toNat 0).toNat
      -- lines 553-580
      let shrunk :=
        if length < v.dimension.getD dim_index.toNat 0 then
          (List.range num_blocks.toNat).foldl
            (resize_shrink_block v.data_type dim length.toNat num_block_elements.toNat)
            (v.data.getD [], heap)
        else (v.data.getD [], heap)
      -- lines 582-590
      if reallocates new_num_elements = false then
        fail_with harp_error.HARP_ERROR_OUT_OF_MEMORY
          (some { v with data := v.data.map (fun _ => shrunk.1) }) shrunk.2
      else
        let mem1 := realloc shrunk.1 new_num_elements.toNat
        -- lines 592-633
        let mem2 :=
          if length > v.dimension.getD dim_index.toNat 0 then
            (List.range num_blocks.toNat).reverse.foldl
              (resize_expand_block v.data_type dim length.toNat num_block_elements.toNat)
              mem1
          else mem1
        succeed
          { v with
            data := some mem2
            num_elements := new_num_elements
            dimension := v.dimension.set dim_index.toNat length }
          shrunk.2

/-! ## harp_variable_add_dimension -/

/-- The body of the loop of lines 740-774 for block `i`: the inner loop runs
`j` from `length - 1` down to `0`. -/
def add_dimension_block (data_type : harp_data_type) (length num_block_elements : Nat)
    (st : List Cell × Heap) (i : Nat) : List Cell × Heap :=
  let from_ptr := i * num_block_elements
  (List.range length).reverse.foldl
    (fun s j =>
      let to_ptr := (i * length + j) * num_block_elements
      let mem1 := memmove s.1 to_ptr from_ptr num_block_elements
      if data_type = harp_data_type.harp_type_string ∧ j ≠ 0 then
        dup_block_strings num_block_elements to_ptr (mem1, s.2)
      else (mem1, s.2))
    st

/-- The loop of lines 777-781, `for (i = num_dimensions - 1; i > dim_index; i--)`
with `num_dimensions` already incremented: entry `i` receives entry `i - 1`. -/
def shift_up {α : Type} (a : List α) (fallback : α) (dim_index num_dimensions : Nat) : List α :=
  ((List.range (num_dimensions - 1 - dim_index)).reverse.map (fun i => dim_index + 1 + i)).foldl
    (fun a i => a.set i (a.getD (i - 1) fallback))
    a

/-- The function `harp_variable_add_dimension` (lines 651-786); `HARP_MAX_NUM_DIMS`
is the constant of `harp.h`. -/
def harp_variable_add_dimension (HARP_MAX_NUM_DIMS : Nat) (heap : Heap) (var : Option harp_variable)
    (dim_index : Int) (dimension_type : harp_dimension_type) (length : Int) : Outcome :=
  match var with
  | none => fail_with harp_error.HARP_ERROR_INVALID_ARGUMENT none heap
  | some v =>
    if dim_index < 0 ∨ dim_index > v.num_dimensions then
      fail_with harp_error.HARP_ERROR_INVALID_ARGUMENT (some v) heap
    else if length ≤ 0 then
      fail_with harp_error.HARP_ERROR_INVALID_ARGUMENT (some v) heap
    else if v.num_dimensions = HARP_MAX_NUM_DIMS then
      fail_with harp_error.HARP_ERROR_INVALID_ARGUMENT (some v) heap
    else if v.num_elements = 0 then
      fail_with harp_error.HARP_ERROR_INVALID_ARGUMENT (some v) heap
    else if dimension_type = harp_dimension_type.harp_dimension_time ∧ dim_index ≠ 0 then
      fail_with harp_error.HARP_ERROR_INVALID_ARGUMENT (some v) heap
    else if dimension_type = harp_dimension_type.harp_dimension_time ∧ v.num_dimensions ≥ 1 ∧
        v.dimension_type.getD 0 harp_dimension_type.harp_dimension_independent =
          harp_dimension_type.harp_dimension_time then
      fail_with harp_error.HARP_ERROR_INVALID_ARGUMENT (some v) heap
    else if dimension_type ≠ harp_dimension_type.harp_dimension_independent ∧
        (List.range v.num_dimensions.toNat).any
          (fun i => decide (v.dimension_type.getD i harp_dimension_type.harp_dimension_independent =
              dimension_type ∧ v.dimension.getD i 0 ≠ length)) then
      fail_with harp_error.HARP_ERROR_INVALID_ARGUMENT (some v) heap
    else
      let num_block_elements := dimension_product v.dimension dim_index.toNat v.num_dimensions.toNat
      let num_blocks := Int.tdiv v.num_elements num_block_elements
      let new_num_elements := num_blocks * length * num_block_elements
      let mem0 := realloc (v.data.getD []) new_num_elements.toNat
      let r := (List.range num_blocks.toNat).reverse.foldl
        (add_dimension_block v.data_type length.toNat num_block_elements.toNat)
        (mem0, heap)
      succeed
        { v with
          data := some r.1
          num_elements := new_num_elements
          num_dimensions := v.num_dimensions + 1
          dimension_type :=
            (shift_up v.dimension_type harp_dimension_type.harp_dimension_independent
              dim_index.toNat (v.num_dimensions + 1).toNat).set dim_index.toNat dimension_type
          dimension :=
            (shift_up v.dimension 0 dim_index.toNat (v.num_dimensions + 1).toNat).set
              dim_index.toNat length }
        r.2

/-! ## harp_variable_remove_dimension -/

/-- The loop of lines 809-813, `for (i = dim_index; i < num_dimensions - 1; i++)`:
entry `i` receives entry `i + 1`. -/
def shift_down {α : Type} (a : List α) (fallback : α) (dim_index num_dimensions : Nat) : List α :=
  ((List.range (num_dimensions - 1 - dim_index)).map (fun i => dim_index + i)).foldl
    (fun a i => a.set i (a.getD (i + 1) fallback))
    a

/-- The function `harp_variable_remove_dimension` (lines 799-817). -/
def harp_variable_remove_dimension (fuel : Nat) (heap : Heap) (var : Option harp_variable)
    (dim_index : Int) (index : Int) : Except Stuck Outcome :=
  match harp_variable_rearrange_dimension fuel heap var dim_index 1 (some [index]) with
  | .error e => .error e
  | .ok r =>
    if r.ret ≠ 0 then .ok { r with ret := -1 }
    else
      match r.var with
      | none => .ok r
      | some v =>
        .ok (succeed
          { v with
            num_elements := Int.tdiv v.num_elements (v.dimension.getD dim_index.toNat 0)
            dimension := shift_down v.dimension 0 dim_index.toNat v.num_dimensions.toNat
            dimension_type :=
              shift_down v.dimension_type harp_dimension_type.harp_dimension_independent
                dim_index.toNat v.num_dimensions.toNat
            num_dimensions := v.num_dimensions - 1 }
          r.heap)

/-! ## harp_variable_verify -/

/-- The violations reported by `harp_variable_verify`, one per `harp_set_error`
call of the function, with the dimension index where the message has one. -/
inductive verify_error
  | variable_is_null
  | name_undefined
  | invalid_data_type
  | invalid_number_of_dimensions
  | dimension_invalid_type (i : Nat)
  | inner_time_dimension (i : Nat)
  | dimension_invalid_length (i : Nat)
  | dimension_length_mismatch (i : Nat)
  | invalid_number_of_elements
  | number_of_elements_mismatch
  | no_data
  | invalid_unit
  | valid_min_is_nan
  | valid_max_is_nan
  deriving DecidableEq, Repr

/-- Modelled from the spec: `harp_get_num_elements` is not part of the sources
at hand; it returns the product of the first `num_dimensions` dimension
lengths (the "total element count" of the data model). -/
def harp_get_num_elements (num_dimensions : Int) (dimension : List Int) : Int :=
  dimension_product dimension 0 num_dimensions.toNat

/-- The body of the loop of lines 1513-1563 for dimension `i`; the state is the
local array `dimension`, indexed by dimension type. -/
def verify_dimension (v : harp_variable) (seen : harp_dimension_type → Int) (i : Nat) :
    Except verify_error (harp_dimension_type → Int) :=
  let dimension_type := v.dimension_type.getD i harp_dimension_type.harp_dimension_independent
  if dimension_type = harp_dimension_type.harp_dimension_time ∧
      v.dimension_type.getD 0 harp_dimension_type.harp_dimension_independent ≠
        harp_dimension_type.harp_dimension_time then
    .error (verify_error.inner_time_dimension i)
  else if v.dimension.getD i 0 ≤ 0 then
    .error (verify_error.dimension_invalid_length i)
  else if dimension_type ≠ harp_dimension_type.harp_dimension_independent then
    if seen dimension_type = 0 then
      .ok (fun t => if t = dimension_type then v.dimension.getD i 0 else seen t)
    else if v.dimension.getD i 0 ≠ seen dimension_type then
      .error (verify_error.dimension_length_mismatch i)
    else .ok seen
  else .ok seen

/-- The function `harp_variable_verify` (lines 1474-1607).  `HARP_MAX_NUM_DIMS`
is the constant of `harp.h` and `harp_unit_is_valid` the unit parser, both
outside the sources at hand.  The `default:` branches of the two `switch`
statements have no counterpart: the enumerations have no other value.  The
test `harp_isnan` on the member of `valid_min` / `valid_max` selected by the
data type is the comparison with the NaN scalar of that type. -/
def harp_variable_verify (HARP_MAX_NUM_DIMS : Nat) (harp_unit_is_valid : String → Bool)
    (var : Option harp_variable) : Except verify_error Unit :=
  match var with
  | none => .error verify_error.variable_is_null
  | some v =>
    if v.name = none then .error verify_error.name_undefined
    else if v.num_dimensions < 0 ∨ v.num_dimensions > HARP_MAX_NUM_DIMS then
      .error verify_error.invalid_number_of_dimensions
    else
      match (List.range v.num_dimensions.toNat).foldlM (verify_dimension v) (fun _ => 0) with
      | .error e => .error e
      | .ok _ =>
        if v.num_elements < 0 then .error verify_error.invalid_number_of_elements
        else if v.num_elements ≠ harp_get_num_elements v.num_dimensions v.dimension then
          .error verify_error.number_of_elements_mismatch
        else if v.num_elements > 0 ∧ v.data = none then .error verify_error.no_data
        else if (match v.unit with
            | some u => !harp_unit_is_valid u
            | none => false) = true then .error verify_error.invalid_unit
        else if (v.data_type = harp_data_type.harp_type_float ∧ v.valid_min = Cell.float_data harp_float.nan) ∨
            (v.data_type = harp_data_type.harp_type_double ∧
              v.valid_min = Cell.double_data harp_float.nan) then
          .error verify_error.valid_min_is_nan
        else if (v.data_type = harp_data_type.harp_type_float ∧ v.valid_max = Cell.float_data harp_float.nan) ∨
            (v.data_type = harp_data_type.harp_type_double ∧
              v.valid_max = Cell.double_data harp_float.nan) then
          .error verify_error.valid_max_is_nan
        else .ok ()


/-- The error code passed to `harp_set_error` together with each violation in
`harp_variable_verify`: invalid argument for the null variable, invalid
variable for everything else. -/
def verify_error.errno : verify_error → harp_error
  | verify_error.variable_is_null => harp_error.HARP_ERROR_INVALID_ARGUMENT
  | _ => harp_error.HARP_ERROR_INVALID_VARIABLE

/-! ## `harp_variable_convert_data_type` (lines 1118-1400) -/

/-- The conversion of an integer to a signed integer type of `w` bits: the
value is reduced modulo `2 ^ w` into the range `[-2 ^ (w - 1), 2 ^ (w - 1))`
(what the C implementations with two's complement integers define for a value
out of range; a value in range is kept). -/
def wrap (w : Nat) (x : Int) : Int := (x + 2 ^ (w - 1)) % 2 ^ w - 2 ^ (w - 1)

/-- The cast `(float)x` of an integer: the value rounded to a `float` by
`round_to_float`, the rounding of the platform. -/
def int_to_float (round_to_float : Rat → harp_float) (x : Int) : harp_float :=
  round_to_float (x : Rat)

/-- The cast `(double)x` of an integer of at most 32 bits: every such value is a
`double`. -/
def int_to_double (x : Int) : harp_float := harp_float.finite (x : Rat)

/-- The cast `(double)x` of a `float`: every `float` is a `double`. -/
def float_to_double (x : harp_float) : harp_float := x

/-- The cast `(float)x` of a `double`: a finite value is rounded by
`round_to_float`, the rounding of the platform. -/
def double_to_float (round_to_float : Rat → harp_float) (x : harp_float) : harp_float :=
  match x with
  | harp_float.finite q => round_to_float q
  | harp_float.nan => harp_float.nan
  | harp_float.inf negative => harp_float.inf negative

/-- The cast of a floating point value to a signed integer type of `w` bits:
the fractional part is discarded (truncation toward zero).  When the result is
not a value of the type (or the operand is a NaN or an infinity) C leaves the
result undefined; it is `undefined_cast w x`, whatever the platform yields. -/
def float_to_int (undefined_cast : Nat → harp_float → Int) (w : Nat) (x : harp_float) : Int :=
  match x with
  | harp_float.finite q =>
    if -(2 ^ (w - 1)) ≤ Int.tdiv q.num q.den ∧ Int.tdiv q.num q.den < 2 ^ (w - 1) then
      Int.tdiv q.num q.den
    else undefined_cast w x
  | _ => undefined_cast w x

/-- The member `int8_data` of an element. -/
def read_int8 : Cell → Option Int
  | Cell.int8_data x => some x
  | _ => none

/-- The member `int16_data` of an element. -/
def read_int16 : Cell → Option Int
  | Cell.int16_data x => some x
  | _ => none

/-- The member `int32_data` of an element. -/
def read_int32 : Cell → Option Int
  | Cell.int32_data x => some x
  | _ => none

/-- The member `float_data` of an element. -/
def read_float : Cell → Option harp_float
  | Cell.float_data x => some x
  | _ => none

/-- The member `double_data` of an element. -/
def read_double : Cell → Option harp_float
  | Cell.double_data x => some x
  | _ => none

/-- One assignment `new.T_data = (T)old.S_data`: the member `S_data` of the old
element is read, cast, and stored as the member `T_data`.  An element that
does not hold a value of type `S` has indeterminate content under that
member, and so has the result. -/
def cast_member {α β : Type} (read : Cell → Option α) (cast : α → β) (store : β → Cell)
    (c : Cell) : Cell :=
  match read c with
  | some x => store (cast x)
  | none => Cell.undef

/-- The cast applied in the branch `case target: switch (source) case source:`
of the two nested `switch` statements (lines 1153-1393); `none` stands for the
`default:` branches, which are `assert(0)`. -/
def cast_cell (round_to_float : Rat → harp_float) (undefined_cast : Nat → harp_float → Int)
    (target source : harp_data_type) : Option (Cell → Cell) :=
  match target with
  | harp_data_type.harp_type_int8 =>
    match source with
    | harp_data_type.harp_type_int16 => some (cast_member read_int16 (wrap 8) Cell.int8_data)
    | harp_data_type.harp_type_int32 => some (cast_member read_int32 (wrap 8) Cell.int8_data)
    | harp_data_type.harp_type_float =>
      some (cast_member read_float (float_to_int undefined_cast 8) Cell.int8_data)
    | harp_data_type.harp_type_double =>
      some (cast_member read_double (float_to_int undefined_cast 8) Cell.int8_data)
    | _ => none
  | harp_data_type.harp_type_int16 =>
    match source with
    | harp_data_type.harp_type_int8 => some (cast_member read_int8 (wrap 16) Cell.int16_data)
    | harp_data_type.harp_type_int32 => some (cast_member read_int32 (wrap 16) Cell.int16_data)
    | harp_data_type.harp_type_float =>
      some (cast_member read_float (float_to_int undefined_cast 16) Cell.int16_data)
    | harp_data_type.harp_type_double =>
      some (cast_member read_double (float_to_int undefined_cast 16) Cell.int16_data)
    | _ => none
  | harp_data_type.harp_type_int32 =>
    match source with
    | harp_data_type.harp_type_int8 => some (cast_member read_int8 (wrap 32) Cell.int32_data)
    | harp_data_type.harp_type_int16 => some (cast_member read_int16 (wrap 32) Cell.int32_data)
    | harp_data_type.harp_type_float =>
      some (cast_member read_float (float_to_int undefined_cast 32) Cell.int32_data)
    | harp_data_type.harp_type_double =>
      some (cast_member read_double (float_to_int undefined_cast 32) Cell.int32_data)
    | _ => none
  | harp_data_type.harp_type_float =>
    match source with
    | harp_data_type.harp_type_int8 =>
      some (cast_member read_int8 (int_to_float round_to_float) Cell.float_data)
    | harp_data_type.harp_type_int16 =>
      some (cast_member read_int16 (int_to_float round_to_float) Cell.float_data)
    | harp_data_type.harp_type_int32 =>
      some (cast_member read_int32 (int_to_float round_to_float) Cell.float_data)
    | harp_data_type.harp_type_double =>
      some (cast_member read_double (double_to_float round_to_float) Cell.float_data)
    | _ => none
  | harp_data_type.harp_type_double =>
    match source with
    | harp_data_type.harp_type_int8 => some (cast_member read_int8 int_to_double Cell.double_data)
    | harp_data_type.harp_type_int16 =>
      some (cast_member read_int16 int_to_double Cell.double_data)
    | harp_data_type.harp_type_int32 =>
      some (cast_member read_int32 int_to_double Cell.double_data)
    | harp_data_type.harp_type_float =>
      some (cast_member read_float float_to_double Cell.double_data)
    | _ => none
  | harp_data_type.harp_type_string => none

/-- The function `harp_variable_convert_data_type` (lines 1118-1400).  `INT_MAX`
is the largest value of the loop counter `int i`: the loops
`for (i = 0; i < variable->num_elements; i++)` increment it past `INT_MAX` when
`num_elements` (a `long`) is larger, which is undefined; the call is stuck
then.  The new buffer holds `num_elements` elements, each the cast of the
element at the same offset of the old buffer; the numeric buffers are not on
the heap of strings, which is left as it is. -/
def harp_variable_convert_data_type (INT_MAX : Int) (round_to_float : Rat → harp_float)
    (undefined_cast : Nat → harp_float → Int) (heap : Heap) (var : Option harp_variable)
    (target_data_type : harp_data_type) : Except Stuck Outcome :=
  match var with
  | none => .ok (fail_with harp_error.HARP_ERROR_INVALID_ARGUMENT none heap)
  | some v =>
    if v.data_type = target_data_type then .ok (succeed v heap)
    else if v.data_type = harp_data_type.harp_type_string then
      .ok (fail_with harp_error.HARP_ERROR_INVALID_ARGUMENT (some v) heap)
    else if target_data_type = harp_data_type.harp_type_string then
      .ok (fail_with harp_error.HARP_ERROR_INVALID_ARGUMENT (some v) heap)
    else if v.num_elements = 0 ∨ v.data = none then
      .ok (succeed { v with data_type := target_data_type } heap)
    else
      match cast_cell round_to_float undefined_cast target_data_type v.data_type with
      | none => .error Stuck.assertion_failed
      | some cast =>
        if v.num_elements > INT_MAX then .error Stuck.counter_overflow
        else
          .ok (succeed
            { v with
              data := some ((List.range v.num_elements.toNat).map
                (fun i => cast (peek (v.data.getD []) i)))
              data_type := target_data_type
              valid_min := cast v.valid_min
              valid_max := cast v.valid_max } heap)

/-! ## `harp_variable_new` (lines 834-927) and `harp_variable_copy` (lines 979-1070) -/

/-- The body of the loop of lines 851-874 of `harp_variable_new` for dimension
`i`; the state is the local array `dimension_length`, indexed by dimension
type, with -1 for a type that has no length yet. -/
def new_check_dimension (dimension_type : List harp_dimension_type) (dimension : List Int)
    (dimension_length : harp_dimension_type → Int) (i : Nat) :
    Except harp_error (harp_dimension_type → Int) :=
  let type := dimension_type.getD i harp_dimension_type.harp_dimension_independent
  if type = harp_dimension_type.harp_dimension_independent then .ok dimension_length
  else if type = harp_dimension_type.harp_dimension_time ∧ i ≠ 0 then
    .error harp_error.HARP_ERROR_INVALID_ARGUMENT
  else if dimension_length type = -1 then
    .ok (fun t => if t = type then dimension.getD i 0 else dimension_length t)
  else if dimension_length type ≠ dimension.getD i 0 then
    .error harp_error.HARP_ERROR_INVALID_ARGUMENT
  else .ok dimension_length

/-- The content of a cell of the data type after `memset(ptr, 0, size)`: the
number 0, or the `NULL` string. -/
def zero_cell : harp_data_type → Cell
  | harp_data_type.harp_type_int8 => Cell.int8_data 0
  | harp_data_type.harp_type_int16 => Cell.int16_data 0
  | harp_data_type.harp_type_int32 => Cell.int32_data 0
  | harp_data_type.harp_type_float => Cell.float_data (harp_float.finite 0)
  | harp_data_type.harp_type_double => Cell.double_data (harp_float.finite 0)
  | harp_data_type.harp_type_string => Cell.string_data none

/-- The loops `for (i = 0; i < num_dimensions; i++) array[i] = source[i];` on
one of the two dimension arrays of a structure. -/
def assign_entries {α : Type} (array : List α) (source : Nat → α) (num_dimensions : Nat) : List α :=
  (List.range num_dimensions).foldl (fun a i => a.set i (source i)) array

/-- The function `harp_variable_new` (lines 834-927).  `dimension_type` is
`none` for a `NULL` argument; the entries of the two argument arrays are read
with `getD`.  `fresh` is the indeterminate content of the structure that
`malloc` returns; its two dimension arrays have `HARP_MAX_NUM_DIMS` entries, and
a write past them is stuck.  The allocation of the structure and the `strdup`
of the name are taken to succeed; `allocates n` tells whether the allocation
of the data buffer for `n` elements succeeds.  `harp_get_valid_min_for_type`
and `harp_get_valid_max_for_type` are outside the sources at hand. -/
def harp_variable_new (HARP_MAX_NUM_DIMS : Nat) (allocates : Int → Bool)
    (harp_get_valid_min_for_type harp_get_valid_max_for_type : harp_data_type → Cell)
    (fresh : harp_variable) (heap : Heap) (name : Option String) (data_type : harp_data_type)
    (num_dimensions : Int) (dimension_type : Option (List harp_dimension_type))
    (dimension : List Int) : Except Stuck Outcome :=
  -- lines 842-876
  match (match dimension_type with
      | some types =>
        (List.range num_dimensions.toNat).foldlM (new_check_dimension types dimension)
          (fun _ => -1)
      | none => .ok (fun _ => -1)) with
  | .error e => .ok (fail_with e none heap)
  | .ok _ =>
    -- lines 886-898
    if num_dimensions > HARP_MAX_NUM_DIMS then .error Stuck.invalid_write
    else
      -- line 900: strdup(name)
      match name with
      | none => .error Stuck.invalid_read
      | some s =>
        let num_elements := dimension_product dimension 0 num_dimensions.toNat
        -- lines 909-917
        if allocates num_elements = false then
          .ok (fail_with harp_error.HARP_ERROR_OUT_OF_MEMORY none heap)
        else
          .ok (succeed
            { fresh with
              name := some s
              data_type := data_type
              num_dimensions := num_dimensions
              dimension_type :=
                assign_entries fresh.dimension_type
                  (fun i =>
                    match dimension_type with
                    | some types =>
                      types.getD i harp_dimension_type.harp_dimension_independent
                    | none => harp_dimension_type.harp_dimension_independent)
                  num_dimensions.toNat
              dimension := assign_entries fresh.dimension (fun i => dimension.getD i 0)
                num_dimensions.toNat
              num_elements := num_elements
              data := some (List.replicate num_elements.toNat (zero_cell data_type))
              description := none
              unit := none
              valid_min :=
                if data_type ≠ harp_data_type.harp_type_string then
                  harp_get_valid_min_for_type data_type
                else fresh.valid_min
              valid_max :=
                if data_type ≠ harp_data_type.harp_type_string then
                  harp_get_valid_max_for_type data_type
                else fresh.valid_max }
            heap)

/-- The loop of lines 1050-1060 of `harp_variable_copy` over the elements that
are left: `string_data[i] = strdup(other_variable->data.string_data[i])`.  The
`strdup` of a `NULL` element, or of a cell that holds no string, is stuck. -/
def copy_strings : List Cell → Heap → Except Stuck (List Cell × Heap)
  | [], h => .ok ([], h)
  | Cell.string_data (some p) :: cells, h =>
    match copy_strings cells (h.strdup p).1 with
    | .error s => .error s
    | .ok r => .ok (Cell.string_data (some (h.strdup p).2) :: r.1, r.2)
  | _ :: _, _ => .error Stuck.invalid_read

/-- The function `harp_variable_copy` (lines 979-1070).  `fresh` is the
indeterminate content of the structure that `malloc` returns.  The allocation
of the structure and the calls of `strdup` are taken to succeed; `allocates n`
tells whether the allocation of the data buffer for `n` elements succeeds.
The variable in the result is the copy; the source is not written to. -/
def harp_variable_copy (HARP_MAX_NUM_DIMS : Nat) (allocates : Int → Bool) (fresh : harp_variable)
    (heap : Heap) (other_variable : Option harp_variable) : Except Stuck Outcome :=
  match other_variable with
  | none => .error Stuck.invalid_read
  | some other =>
    -- lines 993-997
    if other.num_dimensions > HARP_MAX_NUM_DIMS then .error Stuck.invalid_read
    else
      -- line 1006: strdup(other_variable->name)
      match other.name with
      | none => .error Stuck.invalid_read
      | some s =>
        -- lines 1039-1046
        if allocates other.num_elements = false then
          .ok (fail_with harp_error.HARP_ERROR_OUT_OF_MEMORY none heap)
        else
          let copied :=
            { fresh with
              name := some s
              data_type := other.data_type
              num_dimensions := other.num_dimensions
              dimension_type :=
                assign_entries fresh.dimension_type
                  (fun i =>
                    other.dimension_type.getD i harp_dimension_type.harp_dimension_independent)
                  other.num_dimensions.toNat
              dimension := assign_entries fresh.dimension (fun i => other.dimension.getD i 0)
                other.num_dimensions.toNat
              num_elements := other.num_elements
              description := other.description
              unit := other.unit
              valid_min := other.valid_min
              valid_max := other.valid_max }
          match other.data with
          | none =>
            -- the read of an element through the `NULL` pointer
            if other.num_elements > 0 then .error Stuck.invalid_read
            else .ok (succeed { copied with data := some [] } heap)
          | some D =>
            if other.data_type = harp_data_type.harp_type_string then
              -- lines 1047-1061
              match copy_strings (read_block D 0 other.num_elements.toNat) heap with
              | .error e => .error e
              | .ok r => .ok (succeed { copied with data := some r.1 } r.2)
            else
              -- lines 1062-1066
              .ok (succeed
                { copied with data := some (read_block D 0 other.num_elements.toNat) } heap)

/-! ## The abstract syntax tree (`harp-operation-analyze.c`) -/

/-- Modelled from the spec: the kinds of the nodes of the abstract syntax tree
(function call, qualified name, dimension list, quantity, unit, list, name,
string literal, number literal, the comparisons, the membership tests and the
bit mask tests).  The enumeration `ast_node_type` is declared in a header that
is not part of the sources at hand; the enumerators are the ones
`harp-operation-analyze.c` names. -/
inductive ast_node_type
  | ast_name
  | ast_qualified_name
  | ast_unit
  | ast_string
  | ast_number
  | ast_quantity
  | ast_dimension_list
  | ast_list
  | ast_function_call
  | ast_eq
  | ast_ne
  | ast_lt
  | ast_le
  | ast_gt
  | ast_ge
  | ast_bit_mask_any
  | ast_bit_mask_none
  | ast_in
  | ast_not_in
  deriving DecidableEq, Repr

/-- Modelled from the spec: the payload of a node, a string or a numeric
literal (the union `payload` with the members `string` and `number`);
`empty` is a payload that was never stored. -/
inductive ast_payload
  | empty
  | string (s : String)
  | number (x : harp_float)
  deriving DecidableEq, Repr

/-- Modelled from the spec: a node of the abstract syntax tree, with its kind,
the byte offset `position` in the source text, its payload and its child
nodes (`none` is a `NULL` entry of `child_node`, an optional child that is
absent); `num_child_nodes` is the length of `child_node`. -/
inductive ast_node
  | mk (type : ast_node_type) (position : Nat) (payload : ast_payload)
      (child_node : List (Option ast_node))

/-- The member `type` of a node. -/
def ast_node.type : ast_node → ast_node_type
  | ast_node.mk t _ _ _ => t

/-- The member `position` of a node. -/
def ast_node.position : ast_node → Nat
  | ast_node.mk _ p _ _ => p

/-- The member `payload` of a node. -/
def ast_node.payload : ast_node → ast_payload
  | ast_node.mk _ _ p _ => p

/-- The member `child_node` of a node. -/
def ast_node.child_node : ast_node → List (Option ast_node)
  | ast_node.mk _ _ _ c => c

/-- The member `num_child_nodes` of a node. -/
def ast_node.num_child_nodes (node : ast_node) : Int := node.child_node.length

/-- The pointer `node->child_node[i]`, which may be `NULL`; the read of an entry
that the node does not have is stuck. -/
def child_pointer (node : ast_node) (i : Nat) : Except Stuck (Option ast_node) :=
  match node.child_node[i]? with
  | some c => .ok c
  | none => .error Stuck.invalid_read

/-- The node `*node->child_node[i]`; the read through a `NULL` entry is stuck. -/
def child (node : ast_node) (i : Nat) : Except Stuck ast_node :=
  match node.child_node[i]? with
  | some (some c) => .ok c
  | _ => .error Stuck.invalid_read

/-- The member `payload.string` of a node. -/
def payload_string (node : ast_node) : Except Stuck String :=
  match node.payload with
  | ast_payload.string s => .ok s
  | _ => .error Stuck.invalid_read

/-- The member `payload.number` of a node. -/
def payload_number (node : ast_node) : Except Stuck harp_float :=
  match node.payload with
  | ast_payload.number x => .ok x
  | _ => .error Stuck.invalid_read

/-- The errors that the translation reports: the messages of the calls
`harp_set_error(HARP_ERROR_OPERATION, "char %lu: ...", ...)` with the
arguments of the format, `constructor_failed` for the failure of one of
the functions `harp_*_new` and `harp_parse_dimension_type` in `create_flatten`,
whose error is the one that function has set, and `add_operation_failed` for
the failure of `harp_program_add_operation`. -/
inductive analyze_error
  | undefined_function (position : Nat) (name : String)
  | function_expects_arguments (position : Nat) (num_arguments : Int)
  | invalid_argument_type (position : Nat)
  | function_expects_one_or_more_arguments (position : Nat)
  | unexpected_dimension_list (position : Nat)
  | unexpected_unit (position : Nat)
  | expected_dimension_list (position : Nat)
  | maximum_number_of_dimensions_exceeded (position : Nat)
  | unknown_dimension_type (position : Nat) (name : String)
  | constructor_failed
  | operator_not_supported_for_strings (position : Nat)
  | values_in_list_should_be_of_the_same_type (position : Nat)
  | add_operation_failed
  deriving DecidableEq, Repr

/-- Modelled from the spec: the two sides of a collocation filter (the
enumerators `harp_collocation_left` and `harp_collocation_right` of a header
that is not part of the sources at hand). -/
inductive harp_collocation_filter_type
  | harp_collocation_left
  | harp_collocation_right
  deriving DecidableEq, Repr

/-- Modelled from the spec: the comparison operators (the enumerators that
`get_operator_type` returns, of a header that is not part of the sources at
hand). -/
inductive harp_comparison_operator_type
  | harp_operator_eq
  | harp_operator_ne
  | harp_operator_lt
  | harp_operator_le
  | harp_operator_gt
  | harp_operator_ge
  deriving DecidableEq, Repr

/-- Modelled from the spec: the membership operators in and not in (the
enumerators `harp_operator_in` and `harp_operator_not_in`). -/
inductive harp_membership_operator_type
  | harp_operator_in
  | harp_operator_not_in
  deriving DecidableEq, Repr

/-- Modelled from the spec: the bit mask operators any and none (the
enumerators `harp_operator_bit_mask_any` and `harp_operator_bit_mask_none`). -/
inductive harp_bit_mask_operator_type
  | harp_operator_bit_mask_any
  | harp_operator_bit_mask_none
  deriving DecidableEq, Repr

/-- The functions that `harp-operation-analyze.c` calls to build an operation
(`harp-operation.c`) and to parse a dimension type name, none of them part of
the sources at hand: each is a parameter of the translation.  `Op` is the type
of the operations; a result `none` is the return value -1.  A `const char *`
argument that may be `NULL` is an `Option String`; the arguments
`num_dimensions, dimension_type`, `num_variables, variable_name` and
`num_values, value` are the lists of that length; the `uint32_t` bit mask is a
natural number. -/
structure Constructors (Op : Type) where
  harp_collocation_filter_new : String → harp_collocation_filter_type → Option Op
  harp_valid_range_filter_new : String → Option Op
  harp_longitude_range_filter_new :
    harp_float → Option String → harp_float → Option String → Option Op
  harp_point_distance_filter_new :
    harp_float → Option String → harp_float → Option String → harp_float → Option String →
      Option Op
  harp_area_mask_covers_point_filter_new : String → Option Op
  harp_area_mask_covers_area_filter_new : String → Option Op
  harp_area_mask_intersects_area_filter_new : String → harp_float → Option Op
  harp_variable_derivation_new : String → List harp_dimension_type → Option String → Option Op
  harp_variable_inclusion_new : List String → Option Op
  harp_variable_exclusion_new : List String → Option Op
  harp_regrid_new : String → Option Op
  harp_regrid_collocated_new : String → String → Char → String → Option Op
  harp_flatten_new : harp_dimension_type → Option Op
  harp_parse_dimension_type : String → Option harp_dimension_type
  harp_string_comparison_filter_new :
    String → harp_comparison_operator_type → String → Option Op
  harp_comparison_filter_new :
    String → harp_comparison_operator_type → harp_float → Option String → Option Op
  harp_bit_mask_filter_new : String → harp_bit_mask_operator_type → Nat → Option Op
  harp_string_membership_filter_new :
    String → harp_membership_operator_type → List String → Option Op
  harp_membership_filter_new :
    String → harp_membership_operator_type → List harp_float → Option String → Option Op

/-- The return path of a constructor `create_*` through a function `harp_*_new`:
`return harp_..._new(..., new_operation);`. -/
def constructed {Op : Type} (r : Option Op) : Except analyze_error Op :=
  match r with
  | some op => .ok op
  | none => .error analyze_error.constructor_failed

/-- The function `get_unit` (lines 143-147). -/
def get_unit (unit : Option ast_node) : Except Stuck (Option String) :=
  match unit with
  | none => .ok none
  | some u =>
    if u.type ≠ ast_node_type.ast_unit then .error Stuck.assertion_failed
    else
      match payload_string u with
      | .error s => .error s
      | .ok str => .ok (some str)

/-- The loop of `get_dimension_list` (lines 162-174) over the child nodes that
are left. -/
def parse_dimension_types {Op : Type} (K : Constructors Op) :
    List (Option ast_node) → Except Stuck (Except analyze_error (List harp_dimension_type))
  | [] => .ok (.ok [])
  | none :: _ => .error Stuck.invalid_read
  | some child_node :: rest =>
    match payload_string child_node with
    | .error s => .error s
    | .ok name =>
      match K.harp_parse_dimension_type name with
      | none => .ok (.error (analyze_error.unknown_dimension_type child_node.position name))
      | some t =>
        match parse_dimension_types K rest with
        | .error s => .error s
        | .ok (.error e) => .ok (.error e)
        | .ok (.ok ts) => .ok (.ok (t :: ts))

/-- The function `get_dimension_list` (lines 149-177); the result is the array
`dimension_type` with its `num_dimensions` entries. -/
def get_dimension_list {Op : Type} (K : Constructors Op) (HARP_MAX_NUM_DIMS : Nat)
    (dimension_list : ast_node) :
    Except Stuck (Except analyze_error (List harp_dimension_type)) :=
  if dimension_list.type ≠ ast_node_type.ast_dimension_list then .error Stuck.assertion_failed
  else if dimension_list.num_child_nodes > HARP_MAX_NUM_DIMS then
    match child dimension_list HARP_MAX_NUM_DIMS with
    | .error s => .error s
    | .ok c => .ok (.error (analyze_error.maximum_number_of_dimensions_exceeded c.position))
  else parse_dimension_types K dimension_list.child_node

/-- The function `verify_qualified_name_has_no_qualifiers` (lines 179-203). -/
def verify_qualified_name_has_no_qualifiers (qualified_name : ast_node) :
    Except Stuck (Except analyze_error Unit) :=
  if qualified_name.type ≠ ast_node_type.ast_qualified_name then .error Stuck.assertion_failed
  else if qualified_name.num_child_nodes ≠ 3 then .error Stuck.assertion_failed
  else
    match child_pointer qualified_name 1 with
    | .error s => .error s
    | .ok dimension_list =>
      match child_pointer qualified_name 2 with
      | .error s => .error s
      | .ok unit =>
        match dimension_list with
        | some d => .ok (.error (analyze_error.unexpected_dimension_list d.position))
        | none =>
          match unit with
          | some u => .ok (.error (analyze_error.unexpected_unit u.position))
          | none => .ok (.ok ())

/-- The function `verify_quantity_has_no_unit` (lines 205-221). -/
def verify_quantity_has_no_unit (quantity : ast_node) : Except Stuck (Except analyze_error Unit) :=
  if quantity.type ≠ ast_node_type.ast_quantity then .error Stuck.assertion_failed
  else if quantity.num_child_nodes ≠ 2 then .error Stuck.assertion_failed
  else
    match child_pointer quantity 1 with
    | .error s => .error s
    | .ok (some unit) => .ok (.error (analyze_error.unexpected_unit unit.position))
    | .ok none => .ok (.ok ())

/-- The function `split_quantity` (lines 223-237), called with both `value` and
`unit` not `NULL`. -/
def split_quantity (quantity : ast_node) : Except Stuck (harp_float × Option String) := do
  if quantity.type ≠ ast_node_type.ast_quantity then throw Stuck.assertion_failed
  if quantity.num_child_nodes ≠ 2 then throw Stuck.assertion_failed
  let value ← payload_number (← child quantity 0)
  let unit ← get_unit (← child_pointer quantity 1)
  pure (value, unit)

/-- The function `create_collocation_filter_left` (lines 239-245). -/
def create_collocation_filter_left {Op : Type} (K : Constructors Op) (argument_list : ast_node) :
    Except Stuck (Except analyze_error Op) := do
  let name ← child argument_list 0
  let s ← payload_string name
  pure (constructed (K.harp_collocation_filter_new s
    harp_collocation_filter_type.harp_collocation_left))

/-- The function `create_collocation_filter_right` (lines 247-253). -/
def create_collocation_filter_right {Op : Type} (K : Constructors Op) (argument_list : ast_node) :
    Except Stuck (Except analyze_error Op) := do
  let name ← child argument_list 0
  let s ← payload_string name
  pure (constructed (K.harp_collocation_filter_new s
    harp_collocation_filter_type.harp_collocation_right))

/-- The function `create_valid_range_filter` (lines 255-268). -/
def create_valid_range_filter {Op : Type} (K : Constructors Op) (argument_list : ast_node) :
    Except Stuck (Except analyze_error Op) := do
  let qualified_name ← child argument_list 0
  match ← verify_qualified_name_has_no_qualifiers qualified_name with
  | .error e => pure (.error e)
  | .ok () =>
    let name ← child qualified_name 0
    let s ← payload_string name
    pure (constructed (K.harp_valid_range_filter_new s))

/-- The function `create_longitude_range_filter` (lines 270-281). -/
def create_longitude_range_filter {Op : Type} (K : Constructors Op) (argument_list : ast_node) :
    Except Stuck (Except analyze_error Op) := do
  let (longitude_min, longitude_min_unit) ← split_quantity (← child argument_list 0)
  let (longitude_max, longitude_max_unit) ← split_quantity (← child argument_list 1)
  pure (constructed (K.harp_longitude_range_filter_new longitude_min longitude_min_unit
    longitude_max longitude_max_unit))

/-- The function `create_point_distance_filter` (lines 283-298). -/
def create_point_distance_filter {Op : Type} (K : Constructors Op) (argument_list : ast_node) :
    Except Stuck (Except analyze_error Op) := do
  let (longitude, longitude_unit) ← split_quantity (← child argument_list 0)
  let (latitude, latitude_unit) ← split_quantity (← child argument_list 1)
  let (distance, distance_unit) ← split_quantity (← child argument_list 2)
  pure (constructed (K.harp_point_distance_filter_new longitude longitude_unit latitude
    latitude_unit distance distance_unit))

/-- The function `create_area_mask_covers_point_filter` (lines 300-306). -/
def create_area_mask_covers_point_filter {Op : Type} (K : Constructors Op)
    (argument_list : ast_node) : Except Stuck (Except analyze_error Op) := do
  let name ← child argument_list 0
  let s ← payload_string name
  pure (constructed (K.harp_area_mask_covers_point_filter_new s))

/-- The function `create_area_mask_covers_area_filter` (lines 308-314). -/
def create_area_mask_covers_area_filter {Op : Type} (K : Constructors Op)
    (argument_list : ast_node) : Except Stuck (Except analyze_error Op) := do
  let name ← child argument_list 0
  let s ← payload_string name
  pure (constructed (K.harp_area_mask_covers_area_filter_new s))

/-- The function `create_area_mask_intersects_area_filter` (lines 316-333). -/
def create_area_mask_intersects_area_filter {Op : Type} (K : Constructors Op)
    (argument_list : ast_node) : Except Stuck (Except analyze_error Op) := do
  let name ← child argument_list 0
  let quantity ← child argument_list 1
  match ← verify_quantity_has_no_unit quantity with
  | .error e => pure (.error e)
  | .ok () =>
    let percentage ← payload_number (← child quantity 0)
    let s ← payload_string name
    pure (constructed (K.harp_area_mask_intersects_area_filter_new s percentage))

/-- The function `create_variable_derivation` (lines 335-363). -/
def create_variable_derivation {Op : Type} (K : Constructors Op) (HARP_MAX_NUM_DIMS : Nat)
    (argument_list : ast_node) : Except Stuck (Except analyze_error Op) := do
  let qualified_name ← child argument_list 0
  if qualified_name.num_child_nodes ≠ 3 then throw Stuck.assertion_failed
  let variable_name ← payload_string (← child qualified_name 0)
  match ← child_pointer qualified_name 1 with
  | none => pure (.error (analyze_error.expected_dimension_list qualified_name.position))
  | some dimension_list =>
    match ← get_dimension_list K HARP_MAX_NUM_DIMS dimension_list with
    | .error e => pure (.error e)
    | .ok dimension_type =>
      let unit ← get_unit (← child_pointer qualified_name 2)
      pure (constructed (K.harp_variable_derivation_new variable_name dimension_type unit))

/-- The first loop of `create_variable_inclusion` and of
`create_variable_exclusion` (lines 378-394, 436-452) over the arguments that
are left. -/
def check_variable_names :
    List (Option ast_node) → Except Stuck (Except analyze_error Unit)
  | [] => .ok (.ok ())
  | none :: _ => .error Stuck.invalid_read
  | some argument :: rest =>
    if argument.type ≠ ast_node_type.ast_qualified_name then
      .ok (.error (analyze_error.invalid_argument_type argument.position))
    else
      match verify_qualified_name_has_no_qualifiers argument with
      | .error s => .error s
      | .ok (.error e) => .ok (.error e)
      | .ok (.ok ()) => check_variable_names rest

/-- The second loop of `create_variable_inclusion` and of
`create_variable_exclusion` (lines 404-411, 462-469) over the arguments that
are left: the array `name_list`. -/
def collect_variable_names : List (Option ast_node) → Except Stuck (List String)
  | [] => .ok []
  | none :: _ => .error Stuck.invalid_read
  | some argument :: rest =>
    match child argument 0 with
    | .error s => .error s
    | .ok name =>
      if name.type ≠ ast_node_type.ast_name then .error Stuck.assertion_failed
      else
        match payload_string name with
        | .error s => .error s
        | .ok str =>
          match collect_variable_names rest with
          | .error s => .error s
          | .ok names => .ok (str :: names)

/-- The function `create_variable_inclusion` (lines 365-421). -/
def create_variable_inclusion {Op : Type} (K : Constructors Op) (argument_list : ast_node) :
    Except Stuck (Except analyze_error Op) :=
  if argument_list.num_child_nodes = 0 then
    .ok (.error (analyze_error.function_expects_one_or_more_arguments argument_list.position))
  else
    match check_variable_names argument_list.child_node with
    | .error s => .error s
    | .ok (.error e) => .ok (.error e)
    | .ok (.ok ()) =>
      match collect_variable_names argument_list.child_node with
      | .error s => .error s
      | .ok name_list => .ok (constructed (K.harp_variable_inclusion_new name_list))

/-- The function `create_variable_exclusion` (lines 423-479). -/
def create_variable_exclusion {Op : Type} (K : Constructors Op) (argument_list : ast_node) :
    Except Stuck (Except analyze_error Op) :=
  if argument_list.num_child_nodes = 0 then
    .ok (.error (analyze_error.function_expects_one_or_more_arguments argument_list.position))
  else
    match check_variable_names argument_list.child_node with
    | .error s => .error s
    | .ok (.error e) => .ok (.error e)
    | .ok (.ok ()) =>
      match collect_variable_names argument_list.child_node with
      | .error s => .error s
      | .ok name_list => .ok (constructed (K.harp_variable_exclusion_new name_list))

/-- The function `create_regrid` (lines 668-675). -/
def create_regrid {Op : Type} (K : Constructors Op) (argument_list : ast_node) :
    Except Stuck (Except analyze_error Op) := do
  let name ← child argument_list 0
  let s ← payload_string name
  pure (constructed (K.harp_regrid_new s))

/-- The function `create_regrid_collocated` (lines 677-699).  The two calls of
`verify_qualified_name_has_no_qualifiers` are made for their assertions only:
their return values are not looked at.  The call of `harp_set_error` for a
`target_dataset` of more than one character passes the string for `%lu` and
the position for `%s`; the read of a string at the address `position` is
stuck.  `strlen` counts the bytes of the string; a string of at most one byte
is empty or one character, and the character `payload.string[0]` of the empty
string is the terminating NUL. -/
def create_regrid_collocated {Op : Type} (K : Constructors Op) (argument_list : ast_node) :
    Except Stuck (Except analyze_error Op) := do
  let collocation_result ← child argument_list 0
  let dataset_dir ← child argument_list 1
  let target_dataset ← child argument_list 2
  let vertical_axis ← child argument_list 3
  let _ ← verify_qualified_name_has_no_qualifiers target_dataset
  let _ ← verify_qualified_name_has_no_qualifiers vertical_axis
  let target_dataset ← child target_dataset 0
  let vertical_axis ← child vertical_axis 0
  let target ← payload_string target_dataset
  if target.utf8ByteSize > 1 then throw Stuck.invalid_read
  let result ← payload_string collocation_result
  let dir ← payload_string dataset_dir
  let axis ← payload_string vertical_axis
  pure (constructed (K.harp_regrid_collocated_new result dir
    (target.data.headD (Char.ofNat 0)) axis))

/-- The function `create_flatten` (lines 701-724). -/
def create_flatten {Op : Type} (K : Constructors Op) (argument_list : ast_node) :
    Except Stuck (Except analyze_error Op) := do
  let argument ← child argument_list 0
  if argument.type ≠ ast_node_type.ast_qualified_name then
    pure (.error (analyze_error.invalid_argument_type argument.position))
  else
    match ← verify_qualified_name_has_no_qualifiers argument with
    | .error e => pure (.error e)
    | .ok () =>
      let s ← payload_string (← child argument 0)
      match K.harp_parse_dimension_type s with
      | none => pure (.error analyze_error.constructor_failed)
      | some dim_type => pure (constructed (K.harp_flatten_new dim_type))

/-- The structure `function_prototype` (lines 37-43).  `argument_type` holds the
entries of the array that the initialiser of the catalog spells out for the
arguments; the entries after them (and the entry `0` of the two variadic
functions `keep` and `exclude`) are zero filled and never read, the loop of
`operation_from_function_call` reading the first `num_arguments` entries. -/
structure function_prototype (Op : Type) where
  name : String
  num_arguments : Int
  argument_type : List ast_node_type
  create_func : ast_node → Except Stuck (Except analyze_error Op)

/-- The table `builtin_function` (lines 61-78). -/
def builtin_function {Op : Type} (K : Constructors Op) (HARP_MAX_NUM_DIMS : Nat) :
    List (function_prototype Op) :=
  [ { name := "collocate-left", num_arguments := 1,
      argument_type := [ast_node_type.ast_string],
      create_func := create_collocation_filter_left K },
    { name := "collocate-right", num_arguments := 1,
      argument_type := [ast_node_type.ast_string],
      create_func := create_collocation_filter_right K },
    { name := "valid", num_arguments := 1,
      argument_type := [ast_node_type.ast_qualified_name],
      create_func := create_valid_range_filter K },
    { name := "longitude-range", num_arguments := 2,
      argument_type := [ast_node_type.ast_quantity, ast_node_type.ast_quantity],
      create_func := create_longitude_range_filter K },
    { name := "point-distance", num_arguments := 3,
      argument_type :=
        [ast_node_type.ast_quantity, ast_node_type.ast_quantity, ast_node_type.ast_quantity],
      create_func := create_point_distance_filter K },
    { name := "area-mask-covers-point", num_arguments := 1,
      argument_type := [ast_node_type.ast_string],
      create_func := create_area_mask_covers_point_filter K },
    { name := "area-mask-covers-area", num_arguments := 1,
      argument_type := [ast_node_type.ast_string],
      create_func := create_area_mask_covers_area_filter K },
    { name := "area-mask-intersects-area", num_arguments := 2,
      argument_type := [ast_node_type.ast_string, ast_node_type.ast_quantity],
      create_func := create_area_mask_intersects_area_filter K },
    { name := "derive", num_arguments := 1,
      argument_type := [ast_node_type.ast_qualified_name],
      create_func := create_variable_derivation K HARP_MAX_NUM_DIMS },
    { name := "keep", num_arguments := -1, argument_type := [],
      create_func := create_variable_inclusion K },
    { name := "exclude", num_arguments := -1, argument_type := [],
      create_func := create_variable_exclusion K },
    { name := "regrid", num_arguments := 1,
      argument_type := [ast_node_type.ast_string],
      create_func := create_regrid K },
    { name := "regrid_collocated", num_arguments := 4,
      argument_type :=
        [ast_node_type.ast_string, ast_node_type.ast_string, ast_node_type.ast_qualified_name,
          ast_node_type.ast_qualified_name],
      create_func := create_regrid_collocated K },
    { name := "flatten", num_arguments := 1,
      argument_type := [ast_node_type.ast_qualified_name],
      create_func := create_flatten K } ]

/-- The function `get_function_prototype_by_name` (lines 80-93): the first entry
of the table whose name is `name`; `none` is `NULL`. -/
def get_function_prototype_by_name {Op : Type} (K : Constructors Op) (HARP_MAX_NUM_DIMS : Nat)
    (name : String) : Option (function_prototype Op) :=
  (builtin_function K HARP_MAX_NUM_DIMS).find? (fun p => decide (p.name = name))

/-- The loop of `operation_from_function_call` (lines 756-766) over the
argument indices that are left: the error of the first argument whose kind is
not the one of the prototype, if there is one. -/
def check_argument_types (argument_type : List ast_node_type) (argument_list : ast_node) :
    List Nat → Except Stuck (Option analyze_error)
  | [] => .ok none
  | i :: rest =>
    match child argument_list i with
    | .error s => .error s
    | .ok argument =>
      if some argument.type ≠ argument_type[i]? then
        .ok (some (analyze_error.invalid_argument_type argument.position))
      else check_argument_types argument_type argument_list rest

/-- The function `operation_from_function_call` (lines 726-770). -/
def operation_from_function_call {Op : Type} (K : Constructors Op) (HARP_MAX_NUM_DIMS : Nat)
    (node : ast_node) : Except Stuck (Except analyze_error Op) :=
  if node.type ≠ ast_node_type.ast_function_call then .error Stuck.assertion_failed
  else if node.num_child_nodes ≠ 2 then .error Stuck.assertion_failed
  else
    match child node 0 with
    | .error s => .error s
    | .ok function_name =>
      match payload_string function_name with
      | .error s => .error s
      | .ok name =>
        match get_function_prototype_by_name K HARP_MAX_NUM_DIMS name with
        | none => .ok (.error (analyze_error.undefined_function function_name.position name))
        | some prototype =>
          match child node 1 with
          | .error s => .error s
          | .ok argument_list =>
            if prototype.num_arguments ≥ 0 then
              if argument_list.num_child_nodes ≠ prototype.num_arguments then
                .ok (.error (analyze_error.function_expects_arguments argument_list.position
                  prototype.num_arguments))
              else
                match check_argument_types prototype.argument_type argument_list
                    (List.range prototype.num_arguments.toNat) with
                | .error s => .error s
                | .ok (some e) => .ok (.error e)
                | .ok none => prototype.create_func argument_list
            else prototype.create_func argument_list

/-! ## Comparisons, bit mask tests, membership tests and programs -/

/-- The function `is_homogeneous_list` (lines 94-119); the loop is over the
child nodes after the first. -/
def is_homogeneous_list (node : ast_node) : Except Stuck Bool :=
  if node.type ≠ ast_node_type.ast_list then .ok false
  else if node.num_child_nodes = 0 then .ok true
  else
    match child node 0 with
    | .error s => .error s
    | .ok first =>
      (List.range' 1 (node.child_node.length - 1)).foldlM
        (fun (so_far : Bool) i =>
          if so_far = false then .ok false
          else
            match child node i with
            | .error s => .error s
            | .ok c => .ok (decide (c.type = first.type)))
        true

/-- The function `get_operator_type` (lines 121-141); the `default:` branch is
`assert(0)`. -/
def get_operator_type (node_type : ast_node_type) :
    Except Stuck harp_comparison_operator_type :=
  match node_type with
  | ast_node_type.ast_eq => .ok harp_comparison_operator_type.harp_operator_eq
  | ast_node_type.ast_ne => .ok harp_comparison_operator_type.harp_operator_ne
  | ast_node_type.ast_lt => .ok harp_comparison_operator_type.harp_operator_lt
  | ast_node_type.ast_le => .ok harp_comparison_operator_type.harp_operator_le
  | ast_node_type.ast_gt => .ok harp_comparison_operator_type.harp_operator_gt
  | ast_node_type.ast_ge => .ok harp_comparison_operator_type.harp_operator_ge
  | _ => .error Stuck.assertion_failed

/-- The function `create_comparison` (lines 481-527). -/
def create_comparison {Op : Type} (K : Constructors Op) (node : ast_node) :
    Except Stuck (Except analyze_error Op) := do
  if node.num_child_nodes ≠ 2 then throw Stuck.assertion_failed
  let right ← child node 1
  if right.type = ast_node_type.ast_string then
    if node.type ≠ ast_node_type.ast_eq ∧ node.type ≠ ast_node_type.ast_ne then
      pure (.error (analyze_error.operator_not_supported_for_strings node.position))
    else
      let name ← payload_string (← child node 0)
      let operator_type ← get_operator_type node.type
      let value ← payload_string right
      pure (constructed (K.harp_string_comparison_filter_new name operator_type value))
  else
    let (value, unit) ←
      (if right.type = ast_node_type.ast_number then do
        let value ← payload_number right
        pure (value, (none : Option String))
      else do
        let value ← payload_number (← child right 0)
        match ← child_pointer right 1 with
        | none => pure (value, (none : Option String))
        | some u =>
          let str ← payload_string u
          pure (value, some str) : Except Stuck (harp_float × Option String))
    let name ← payload_string (← child node 0)
    let operator_type ← get_operator_type node.type
    pure (constructed (K.harp_comparison_filter_new name operator_type value unit))

/-- The cast `(uint32_t)x` of a `double`: the fractional part is discarded.
When the result is not a value of the type (or the operand is a NaN or an
infinity) C leaves the result undefined; it is `undefined_mask x`, whatever
the platform yields. -/
def double_to_uint32 (undefined_mask : harp_float → Nat) (x : harp_float) : Nat :=
  match x with
  | harp_float.finite q =>
    if 0 ≤ Int.tdiv q.num q.den ∧ Int.tdiv q.num q.den < 2 ^ 32 then
      (Int.tdiv q.num q.den).toNat
    else undefined_mask x
  | _ => undefined_mask x

/-- The function `create_bit_mask_test` (lines 529-557). -/
def create_bit_mask_test {Op : Type} (K : Constructors Op) (undefined_mask : harp_float → Nat)
    (node : ast_node) : Except Stuck (Except analyze_error Op) := do
  if ¬ (node.type = ast_node_type.ast_bit_mask_any ∨
      node.type = ast_node_type.ast_bit_mask_none) then
    throw Stuck.assertion_failed
  let operator_type :=
    if node.type = ast_node_type.ast_bit_mask_any then
      harp_bit_mask_operator_type.harp_operator_bit_mask_any
    else harp_bit_mask_operator_type.harp_operator_bit_mask_none
  if node.num_child_nodes ≠ 2 then throw Stuck.assertion_failed
  let mask ← child node 1
  if mask.type ≠ ast_node_type.ast_number then throw Stuck.assertion_failed
  let bit_mask := double_to_uint32 undefined_mask (← payload_number mask)
  let name ← payload_string (← child node 0)
  pure (constructed (K.harp_bit_mask_filter_new name operator_type bit_mask))

/-- The loop of lines 617-622 of `create_membership_test` over the values that
are left: the array `string_list`. -/
def collect_strings : List (Option ast_node) → Except Stuck (List String)
  | [] => .ok []
  | none :: _ => .error Stuck.invalid_read
  | some value :: rest =>
    if value.type ≠ ast_node_type.ast_string then .error Stuck.assertion_failed
    else
      match payload_string value with
      | .error s => .error s
      | .ok str =>
        match collect_strings rest with
        | .error s => .error s
        | .ok strs => .ok (str :: strs)

/-- The loop of lines 647-652 of `create_membership_test` over the values that
are left: the array `double_list`. -/
def collect_numbers : List (Option ast_node) → Except Stuck (List harp_float)
  | [] => .ok []
  | none :: _ => .error Stuck.invalid_read
  | some value :: rest =>
    if value.type ≠ ast_node_type.ast_number then .error Stuck.assertion_failed
    else
      match payload_number value with
      | .error s => .error s
      | .ok x =>
        match collect_numbers rest with
        | .error s => .error s
        | .ok xs => .ok (x :: xs)

/-- The function `create_membership_test` (lines 559-666). -/
def create_membership_test {Op : Type} (K : Constructors Op) (node : ast_node) :
    Except Stuck (Except analyze_error Op) := do
  if node.num_child_nodes ≠ 3 then throw Stuck.assertion_failed
  if ¬ (node.type = ast_node_type.ast_in ∨ node.type = ast_node_type.ast_not_in) then
    throw Stuck.assertion_failed
  let operator_type :=
    if node.type = ast_node_type.ast_in then harp_membership_operator_type.harp_operator_in
    else harp_membership_operator_type.harp_operator_not_in
  let list ← child node 1
  if list.type ≠ ast_node_type.ast_list then throw Stuck.assertion_failed
  if ¬ list.num_child_nodes > 0 then throw Stuck.assertion_failed
  let unit ← child_pointer node 2
  let first ← child list 0
  match (if first.type = ast_node_type.ast_string then unit else none) with
  | some u => pure (.error (analyze_error.unexpected_unit u.position))
  | none =>
    if (← is_homogeneous_list list) = false then
      pure (.error (analyze_error.values_in_list_should_be_of_the_same_type list.position))
    else if first.type = ast_node_type.ast_string then
      let string_list ← collect_strings list.child_node
      let name ← payload_string (← child node 0)
      pure (constructed (K.harp_string_membership_filter_new name operator_type string_list))
    else
      if first.type ≠ ast_node_type.ast_number then throw Stuck.assertion_failed
      let double_list ← collect_numbers list.child_node
      let name ← payload_string (← child node 0)
      let unit_string ← get_unit unit
      pure (constructed (K.harp_membership_filter_new name operator_type double_list
        unit_string))

/-- Modelled from the spec: a program is the sequence of its operations in the
order of insertion (`harp_program`, of `harp-program.c`, which is not part of
the sources at hand). -/
structure harp_program (Op : Type) where
  operation : List Op

/-- Modelled from the spec: `harp_program_new` returns the empty program. -/
def harp_program_new {Op : Type} : harp_program Op := { operation := [] }

/-- Modelled from the spec: `harp_program_add_operation` appends the operation
to the program and fails only when its allocation fails; `allocates n` tells
whether the allocation succeeds for a program that holds `n` operations. -/
def harp_program_add_operation {Op : Type} (allocates : Nat → Bool) (program : harp_program Op)
    (operation : Op) : Option (harp_program Op) :=
  if allocates program.operation.length = true then
    some { operation := program.operation ++ [operation] }
  else none

/-- The body of the loop of `create_program` (lines 782-824) over the child
nodes that are left, `program` being the program built so far. -/
def create_program_loop {Op : Type} (K : Constructors Op) (HARP_MAX_NUM_DIMS : Nat)
    (undefined_mask : harp_float → Nat) (allocates : Nat → Bool) :
    List (Option ast_node) → harp_program Op →
      Except Stuck (Except analyze_error (harp_program Op))
  | [], program => .ok (.ok program)
  | none :: _, _ => .error Stuck.invalid_read
  | some expression :: rest, program =>
    match
      (if expression.type = ast_node_type.ast_function_call then
        operation_from_function_call K HARP_MAX_NUM_DIMS expression
      else if expression.type = ast_node_type.ast_in ∨
          expression.type = ast_node_type.ast_not_in then
        create_membership_test K expression
      else if expression.type = ast_node_type.ast_bit_mask_any ∨
          expression.type = ast_node_type.ast_bit_mask_none then
        create_bit_mask_test K undefined_mask expression
      else create_comparison K expression) with
    | .error s => .error s
    | .ok (.error e) => .ok (.error e)
    | .ok (.ok operation) =>
      match harp_program_add_operation allocates program operation with
      | none => .ok (.error analyze_error.add_operation_failed)
      | some program' =>
        create_program_loop K HARP_MAX_NUM_DIMS undefined_mask allocates rest program'

/-- The function `create_program` (lines 772-829).  The program starts as the
empty program of `harp_program_new`, whose failure path has no counterpart;
`harp_program_delete` and `harp_operation_delete` on the failure paths release
what was built, so that a failure returns no program. -/
def create_program {Op : Type} (K : Constructors Op) (HARP_MAX_NUM_DIMS : Nat)
    (undefined_mask : harp_float → Nat) (allocates : Nat → Bool) (node : ast_node) :
    Except Stuck (Except analyze_error (harp_program Op)) :=
  create_program_loop K HARP_MAX_NUM_DIMS undefined_mask allocates node.child_node
    harp_program_new
/-! ## Definitions used by the proofs -/

/-- Block `s` of the group that starts at offset `base`. -/
def slot (num_block_elements base : Nat) (mem : List Cell) (s : Nat) : List Cell :=
  read_block mem (base + s * num_block_elements) num_block_elements

/-- The facts about the table `move_to_id` that the reordering relies on: an
entry is the first new position of an old position, and every old position
that is asked for has an entry. -/
structure MoveTable (dim n : Nat) (ids : List Int) (mt : List (Option Nat)) : Prop where
  len : mt.length = dim
  first : ∀ s d, mt.getD s none = some d →
    d < n ∧ id_at ids d = s ∧ s < dim ∧ ∀ d', d' < d → id_at ids d' ≠ s
  total : ∀ d, d < n → id_at ids d < dim → ∃ d', d' ≤ d ∧ mt.getD (id_at ids d) none = some d'

/-- The positions visited by the forward walk of the move-away step, last
visited first: each position is the new position of the next one (of `to_id`
for the last), and the positions they come from are old positions that have
not been moved yet. -/
structure BackPath (dim : Nat) (ids : List Int) (mt : List (Option Nat)) (moved : List Bool)
    (to_id : Nat) (L : List Nat) : Prop where
  link : L.map (id_at ids) = L.tail ++ [to_id]
  entry : ∀ x, x ∈ L → mt.getD (id_at ids x) none = some x ∧ id_at ids x < dim ∧
    moved.getD (id_at ids x) false = false
  nodup : (L.tail ++ [to_id]).Nodup

/-- The loop condition of the forward walk at position `k`. -/
def walk_continues (dim : Nat) (mt : List (Option Nat)) (moved : List Bool) (to_id k : Nat) : Prop :=
  ∃ next, mt.getD k none = some next ∧ k < dim ∧ moved.getD k false = false ∧ next ≠ to_id

/-- The strings of a list of cells are freed, first cell first. -/
def free_cells (cells : List Cell) (heap : Heap) : Heap :=
  cells.foldl
    (fun h c =>
      match c with
      | Cell.string_data (some p) => h.free p
      | _ => h)
    heap

/-- The strings of a list of cells are duplicated, first cell first: the
copies and the new heap. -/
def dup_cells : List Cell → Heap → List Cell × Heap
  | [], h => ([], h)
  | Cell.string_data (some p) :: cs, h =>
    (Cell.string_data (some (h.strdup p).2) :: (dup_cells cs (h.strdup p).1).1,
      (dup_cells cs (h.strdup p).1).2)
  | c :: cs, h => (c :: (dup_cells cs h).1, (dup_cells cs h).2)

/-- Out of place counterpart of one round of the reordering loop: the block
for new position `d` is appended to the blocks built so far; it is the old
block `ids[d]`, with its strings duplicated unless `d` is the first new
position of that old block. -/
def place_ref (data_type : harp_data_type) (ids : List Int) (mt : List (Option Nat))
    (orig : Nat → List Cell) (acc : List Cell × Heap) (d : Nat) : List Cell × Heap :=
  if data_type = harp_data_type.harp_type_string ∧ mt.getD (id_at ids d) none ≠ some d then
    (acc.1 ++ (dup_cells (orig (id_at ids d)) acc.2).1, (dup_cells (orig (id_at ids d)) acc.2).2)
  else (acc.1 ++ orig (id_at ids d), acc.2)

/-- Out of place counterpart of the loop that frees the strings of the blocks
without a new position. -/
def discard_ref (data_type : harp_data_type) (dim : Nat) (mt : List (Option Nat))
    (orig : Nat → List Cell) (heap : Heap) : Heap :=
  if data_type = harp_data_type.harp_type_string then
    (List.range dim).foldl
      (fun h j => if mt.getD j none = none then free_cells (orig j) h else h)
      heap
  else heap

/-- Out of place counterpart of the treatment of one group by
`harp_variable_rearrange_dimension`: from the old cells of the group and the
heap to the new cells of the group and the heap. -/
def rearrange_group_ref (data_type : harp_data_type) (dim n nbe : Nat) (ids : List Int)
    (mt : List (Option Nat)) (grp : List Cell) (heap : Heap) : List Cell × Heap :=
  (List.range n).foldl
    (place_ref data_type ids mt (fun s => read_block grp (s * nbe) nbe))
    ([], discard_ref data_type dim mt (fun s => read_block grp (s * nbe) nbe) heap)

/-- The invariant of the reordering loop of one group, before the round of new
position `t`; `mem1` and `heap1` are the buffer and the heap when the loop is
entered. -/
structure ReorderInv (data_type : harp_data_type) (dim n nbe base : Nat) (ids : List Int)
    (mt : List (Option Nat)) (mem1 : List Cell) (heap1 : Heap) (t : Nat) (st : Reorder) : Prop where
  len_mem : st.mem.length = mem1.length
  len_moved : st.moved.length = dim
  outside : ∀ j, (j < base ∨ base + max n dim * nbe ≤ j) → peek st.mem j = peek mem1 j
  unmoved : ∀ s d, mt.getD s none = some d → st.moved.getD s false = false →
    slot nbe base st.mem s = slot nbe base mem1 s
  arrived : ∀ s d, mt.getD s none = some d → st.moved.getD s false = true →
    slot nbe base st.mem d = slot nbe base mem1 s
  done : ∀ d, d < t → st.moved.getD (id_at ids d) false = true
  placed : (List.range t).foldl (place_ref data_type ids mt (slot nbe base mem1)) ([], heap1) =
    (read_block st.mem base (t * nbe), st.heap)

/-- The state between the move-away step and the placement of the block for
new position `t`. -/
structure AwayInv (dim n nbe base : Nat) (ids : List Int) (mt : List (Option Nat))
    (mem1 : List Cell) (t : Nat) (st : Reorder) (a : Away) : Prop where
  len_mem : a.mem.length = mem1.length
  len_moved : a.moved.length = dim
  outside : ∀ j, (j < base ∨ base + max n dim * nbe ≤ j) → peek a.mem j = peek mem1 j
  unmoved : ∀ s d, mt.getD s none = some d → a.moved.getD s false = false →
    (a.is_cycle = true → s ≠ id_at ids t) → slot nbe base a.mem s = slot nbe base mem1 s ∧ s ≠ t
  arrived : ∀ s d, mt.getD s none = some d → a.moved.getD s false = true →
    slot nbe base a.mem d = slot nbe base mem1 s
  done : ∀ d, d < t → a.moved.getD (id_at ids d) false = true
  pre : read_block a.mem base (t * nbe) = read_block st.mem base (t * nbe)
  noskip : mt.getD (id_at ids t) none = some t → a.moved.getD (id_at ids t) false = false
  cycle : a.is_cycle = true →
    mt.getD (id_at ids t) none = some t ∧ a.buffer = slot nbe base mem1 (id_at ids t)

/-- What the treatment of one group by a reshape primitive has to satisfy, for
groups of `a` old cells that become groups of `c` new cells: on a buffer with
room for it, round `i` returns, builds the new cells of group `i` as `F` does
from the old cells of group `i`, and changes nothing outside the old and new
extent of the group. -/
def LocalSpec (step : List Cell × Heap → Nat → Except Stuck (List Cell × Heap))
    (F : List Cell → Heap → List Cell × Heap) (a c : Nat) : Prop :=
  ∀ mem heap i, i * c + max c a ≤ mem.length →
    ∃ mem' heap', step (mem, heap) i = .ok (mem', heap') ∧ mem'.length = mem.length ∧
      (read_block mem' (i * c) c, heap') = F (read_block mem (i * a) a) heap ∧
      ∀ j, (j < i * c ∨ i * c + max c a ≤ j) → peek mem' j = peek mem j

/-- Out of place counterpart of a sweep over the groups in increasing order:
the new cells of all groups and the final heap. -/
def sweep_fwd (F : List Cell → Heap → List Cell × Heap) (a : Nat) (old : List Cell) (G : Nat)
    (h : Heap) : List Cell × Heap :=
  (List.range G).foldl
    (fun acc g =>
      (acc.1 ++ (F (read_block old (g * a) a) acc.2).1, (F (read_block old (g * a) a) acc.2).2))
    ([], h)

/-- Out of place counterpart of a sweep over the groups in decreasing order. -/
def sweep_bwd (F : List Cell → Heap → List Cell × Heap) (a : Nat) (old : List Cell) :
    Nat → Heap → List Cell × Heap
  | 0, h => ([], h)
  | G + 1, h =>
    ((sweep_bwd F a old G (F (read_block old (G * a) a) h).2).1 ++ (F (read_block old (G * a) a) h).1,
      (sweep_bwd F a old G (F (read_block old (G * a) a) h).2).2)

/-- Out of place counterpart of the treatment of one group by
`harp_variable_filter_dimension`: the blocks with a non-zero mask entry are
kept in order, the strings of the other blocks are freed. -/
def filter_group_ref (data_type : harp_data_type) (dim nbe : Nat) (mask : List Nat)
    (grp : List Cell) (h : Heap) : List Cell × Heap :=
  (List.range dim).foldl
    (fun acc j =>
      if mask.getD j 0 ≠ 0 then (acc.1 ++ read_block grp (j * nbe) nbe, acc.2)
      else
        (acc.1,
          if data_type = harp_data_type.harp_type_string then
            free_cells (read_block grp (j * nbe) nbe) acc.2
          else acc.2))
    ([], h)

/-- The number of non-zero entries among the first `k` entries of the mask. -/
def mask_count (mask : List Nat) (k : Nat) : Nat :=
  ((List.range k).filter (fun i => decide (mask.getD i 0 ≠ 0))).length

/-- Out of place counterpart of the treatment of one group by
`harp_variable_resize_dimension` when the dimension shrinks: the first
`length` blocks are kept, the strings of the others are freed. -/
def resize_shrink_ref (data_type : harp_data_type) (dim length nbe : Nat) (grp : List Cell)
    (h : Heap) : List Cell × Heap :=
  (read_block grp 0 (length * nbe),
    if data_type = harp_data_type.harp_type_string then
      free_cells (read_block grp (length * nbe) (dim * nbe - length * nbe)) h
    else h)

/-- Out of place counterpart of the treatment of one group by
`harp_variable_resize_dimension` when the dimension grows: the old blocks are
followed by blocks of fill values. -/
def resize_expand_ref (data_type : harp_data_type) (dim length nbe : Nat) (grp : List Cell)
    (h : Heap) : List Cell × Heap :=
  (grp ++ List.replicate (length * nbe - dim * nbe) (fill_value data_type), h)

/-- Out of place counterpart of the treatment of one block by
`harp_variable_add_dimension`: `length` copies of the block, made from the
last to the first, the strings of every copy but the first duplicated. -/
def add_dimension_ref (data_type : harp_data_type) (length : Nat) (grp : List Cell) (h : Heap) :
    List Cell × Heap :=
  (List.range length).reverse.foldl
    (fun acc j =>
      if data_type = harp_data_type.harp_type_string ∧ j ≠ 0 then
        ((dup_cells grp acc.2).1 ++ acc.1, (dup_cells grp acc.2).2)
      else (grp ++ acc.1, acc.2))
    ([], h)

/-- A heap is well formed when every live address lies below the next address
that `strdup` hands out. -/
def Heap.WF (h : Heap) : Prop := ∀ e, e ∈ h.live → e.1 < h.next

/-- Each non-null string of the cells is owned by exactly one element: the
string is live, and no other cell holds the same pointer. -/
def Owns (h : Heap) (cells : List Cell) : Prop :=
  ∀ j p, peek cells j = Cell.string_data (some p) →
    (h.lookup p).isSome = true ∧ ∀ j', peek cells j' = Cell.string_data (some p) → j' = j

/-- The string pointers of the old cells lie below the next address of the
heap, and no two old cells hold the same pointer. -/
structure OldPtrs (old : List Cell) (h : Heap) : Prop where
  lt : ∀ j p, peek old j = Cell.string_data (some p) → p < h.next
  unique : ∀ j j' p, peek old j = Cell.string_data (some p) →
    peek old j' = Cell.string_data (some p) → j' = j

/-- Where a new cell comes from: a plain copy of an old cell, a copy of an old
cell with its string duplicated, or a fill value. -/
inductive Origin
  | copy (j : Nat)
  | dup (j : Nat)
  | fill (v : Cell)

/-- The new cell `c` agrees with its origin; `h` is the heap before and `h'`
the heap after the step that made the cell. -/
def CellFrom (old : List Cell) (h h' : Heap) : Origin → Cell → Prop
  | Origin.copy j, c => c = peek old j
  | Origin.dup j, c =>
    (∀ p, peek old j = Cell.string_data (some p) →
      ∃ p', c = Cell.string_data (some p') ∧ h.next ≤ p' ∧ h'.lookup p' = h.lookup p) ∧
    ((∀ p, peek old j ≠ Cell.string_data (some p)) → c = peek old j)
  | Origin.fill v, c => c = v ∧ ∀ p, v ≠ Cell.string_data (some p)

/-- A step that starts with heap `h` and returns the cells and the heap `res`
produces `size` new cells from the old cells by the rule `origin`, and frees
the strings of the old cells at the positions `dropped`. -/
structure Produces (old : List Cell) (origin : Nat → Origin) (dropped : Nat → Prop) (size : Nat)
    (h : Heap) (res : List Cell × Heap) : Prop where
  length : res.1.length = size
  wf : h.WF → res.2.WF
  faulted : res.2.faulted = h.faulted
  next_le : h.next ≤ res.2.next
  freed : ∀ q j, dropped j → peek old j = Cell.string_data (some q) → res.2.lookup q = none
  kept : ∀ q, q < h.next → (∀ j, dropped j → peek old j ≠ Cell.string_data (some q)) →
    res.2.lookup q = h.lookup q
  cell : ∀ r, r < size → CellFrom old h res.2 (origin r) (peek res.1 r)
  fresh_unique : ∀ r1 r2 p, h.next ≤ p → peek res.1 r1 = Cell.string_data (some p) →
    peek res.1 r2 = Cell.string_data (some p) → r1 = r2
  fresh_lt : ∀ r p, h.next ≤ p → peek res.1 r = Cell.string_data (some p) → p < res.2.next

/-- A run of `N` steps in increasing order, each appending its cells. -/
def fwd_run (f : Nat → Heap → List Cell × Heap) (N : Nat) (h : Heap) : List Cell × Heap :=
  (List.range N).foldl (fun acc i => (acc.1 ++ (f i acc.2).1, (f i acc.2).2)) ([], h)

/-- A run of `N` steps in decreasing order, the cells of step `i` ending up
before those of step `i + 1`. -/
def bwd_run (f : Nat → Heap → List Cell × Heap) : Nat → Heap → List Cell × Heap
  | 0, h => ([], h)
  | N + 1, h => ((bwd_run f N (f N h).2).1 ++ (f N h).1, (bwd_run f N (f N h).2).2)

/-- The value of an element: the string a non-null string element points to,
the cell itself for every other element. -/
inductive Element
  | plain (c : Cell)
  | text (s : String)
  | dangling
  deriving DecidableEq, Repr

/-- The value of the element stored in cell `c`. -/
def element (h : Heap) : Cell → Element
  | Cell.string_data (some p) =>
    match h.lookup p with
    | some s => Element.text s
    | none => Element.dangling
  | c => Element.plain c

/-- The origin `o`, read in a list of old cells that starts `off` cells
earlier. -/
def Origin.shift (off : Nat) : Origin → Origin
  | Origin.copy j => Origin.copy (off + j)
  | Origin.dup j => Origin.dup (off + j)
  | Origin.fill v => Origin.fill v

/-- Where the new cell `x` of a sweep comes from, when each group of `a` old
cells yields `c` new cells by the rule `og`. -/
def sweep_origin (og : Nat → Origin) (a c : Nat) (x : Nat) : Origin :=
  (og (x % c)).shift (x / c * a)

/-- The old cells whose strings a sweep over `G` groups of `a` cells frees,
when `dg` tells it for one group. -/
def sweep_dropped (dg : Nat → Prop) (a G : Nat) (x : Nat) : Prop :=
  ∃ g, g < G ∧ g * a ≤ x ∧ x < g * a + a ∧ dg (x - g * a)

/-! ## The shape of a variable, as the claims address it -/

/-- The number of groups of a variable at dimension `dim_index`: the product of
the lengths of the dimensions before it. -/
def group_count (v : harp_variable) (dim_index : Int) : Nat :=
  (dimension_product v.dimension 0 dim_index.toNat).toNat

/-- The length of dimension `dim_index` of a variable. -/
def axis_length (v : harp_variable) (dim_index : Int) : Nat :=
  (v.dimension.getD dim_index.toNat 0).toNat

/-- The block size of a variable at dimension `dim_index`: the product of the
lengths of the dimensions after it. -/
def block_length (v : harp_variable) (dim_index : Int) : Nat :=
  (dimension_product v.dimension (dim_index.toNat + 1) v.num_dimensions.toNat).toNat

/-- The offset in a row-major buffer of the element at (group `g`, position
`j`, block offset `b`), where the dimension has length `len` and the blocks
have `nbe` elements. -/
def element_offset (len nbe g j b : Nat) : Nat := (g * len + j) * nbe + b

/-- The variable as `harp_variable_rearrange_dimension`, `_filter_dimension`
and `_resize_dimension` leave it on success: new buffer, new length `n` of
dimension `dim_index`, new element count. -/
def reshaped (v : harp_variable) (dim_index : Int) (n : Int) (data : List Cell) : harp_variable :=
  { v with
    data := some data
    num_elements := dimension_product v.dimension 0 dim_index.toNat * n *
      dimension_product v.dimension (dim_index.toNat + 1) v.num_dimensions.toNat
    dimension := v.dimension.set dim_index.toNat n }

/-- The number of elements that `harp_variable_resize_dimension` asks `realloc`
for: the local `new_num_elements` of the function. -/
def resized_num_elements (v : harp_variable) (dim_index : Int) (length : Int) : Int :=
  dimension_product v.dimension 0 dim_index.toNat * length *
    dimension_product v.dimension (dim_index.toNat + 1) v.num_dimensions.toNat

/-- The variable `v` with data buffer `D` is consistent in the heap `heap`: the
heap is well formed, each non-null string of the buffer is owned by exactly one
element, the buffer has one cell per element, and the element count is the
product of the dimension lengths. -/
structure Consistent (heap : Heap) (v : harp_variable) (D : List Cell) : Prop where
  wf : heap.WF
  owns : Owns heap D
  data : v.data = some D
  size : D.length = v.num_elements.toNat
  product : v.num_elements = dimension_product v.dimension 0 v.num_dimensions.toNat

/-- Whether each non-null string of the cells is owned by exactly one element,
as a check that can be evaluated. -/
def owns_check (h : Heap) (cells : List Cell) : Bool :=
  (List.range cells.length).all (fun j =>
    match peek cells j with
    | Cell.string_data (some p) =>
      (h.lookup p).isSome &&
        (List.range cells.length).all (fun k => peek cells k != Cell.string_data (some p) || k == j)
    | _ => true)

/-! ## A concrete variable -/

/-- A heap with the three strings of `sample_variable`. -/
def sample_heap : Heap := { live := [(0, "a"), (1, "b"), (2, "c")], next := 3, faulted := false }

/-- The data buffer of `sample_variable`. -/
def sample_data : List Cell :=
  [Cell.string_data (some 0), Cell.string_data (some 1), Cell.string_data (some 2)]

/-- A string variable with one time dimension of length 3; its dimension arrays
have room for 8 dimensions. -/
def sample_variable : harp_variable :=
  { name := some "station"
    data_type := harp_data_type.harp_type_string
    num_dimensions := 1
    dimension_type :=
      harp_dimension_type.harp_dimension_time ::
        List.replicate 7 harp_dimension_type.harp_dimension_independent
    dimension := 3 :: List.replicate 7 0
    num_elements := 3
    data := some sample_data
    description := none
    unit := none
    valid_min := Cell.undef
    valid_max := Cell.undef }

/-- The positions below `dim` whose mask entry is non-zero, in increasing
order. -/
def kept_positions (mask : List Nat) (dim : Nat) : List Nat :=
  (List.range dim).filter (fun i => decide (mask.getD i 0 ≠ 0))

/-- Where the new cell `x` of a group comes from in
`harp_variable_filter_dimension`: cell `x mod nbe` of the old block at the
`x / nbe`-th kept position. -/
def filter_origin (mask : List Nat) (dim nbe : Nat) (x : Nat) : Origin :=
  Origin.copy ((kept_positions mask dim).getD (x / nbe) 0 * nbe + x % nbe)

/-- The old cells of a group whose strings `harp_variable_filter_dimension`
frees: the cells of the blocks with a zero mask entry, in a variable that holds
strings. -/
def filter_dropped (data_type : harp_data_type) (mask : List Nat) (dim nbe : Nat) (x : Nat) : Prop :=
  data_type = harp_data_type.harp_type_string ∧
    ∃ j, j < dim ∧ mask.getD j 0 = 0 ∧ j * nbe ≤ x ∧ x < j * nbe + nbe

/-- Where the new cell `x` of a group comes from in
`harp_variable_resize_dimension`: the old cell `x` of the group when there is
one, the fill value of the data type otherwise. -/
def resize_origin (data_type : harp_data_type) (dim nbe : Nat) (x : Nat) : Origin :=
  if x < dim * nbe then Origin.copy x else Origin.fill (fill_value data_type)

/-- The old cells of a group whose strings `harp_variable_resize_dimension`
frees: the cells past the new extent of the group, in a variable that holds
strings. -/
def resize_dropped (data_type : harp_data_type) (dim length nbe : Nat) (x : Nat) : Prop :=
  data_type = harp_data_type.harp_type_string ∧ length * nbe ≤ x ∧ x < dim * nbe

/-- Where the new cell `x` of a block comes from in
`harp_variable_add_dimension`: cell `x mod nbe` of the old block, its string
duplicated in every copy of the block but the first. -/
def add_origin (data_type : harp_data_type) (nbe : Nat) (x : Nat) : Origin :=
  if data_type = harp_data_type.harp_type_string ∧ x / nbe ≠ 0 then Origin.dup (x % nbe)
  else Origin.copy (x % nbe)

/-- The number of elements of a variable per index combination of the
dimensions before `dim_index`: the product of the lengths of the dimensions
from `dim_index` on. -/
def inner_length (v : harp_variable) (dim_index : Int) : Nat :=
  (dimension_product v.dimension dim_index.toNat v.num_dimensions.toNat).toNat

/-- The checks of `harp_variable_add_dimension` on the type and the length of
the new dimension accept them: a time dimension goes to index 0 of a variable
whose dimension 0 is not a time dimension, and a dimension that is not
independent has the length of every dimension of its type. -/
def add_accepts (v : harp_variable) (dim_index : Int) (dimension_type : harp_dimension_type)
    (length : Int) : Prop :=
  (dimension_type = harp_dimension_type.harp_dimension_time →
    dim_index = 0 ∧
    ¬ (v.num_dimensions ≥ 1 ∧
      v.dimension_type.getD 0 harp_dimension_type.harp_dimension_independent =
        harp_dimension_type.harp_dimension_time)) ∧
  (dimension_type ≠ harp_dimension_type.harp_dimension_independent →
    ∀ i, i < v.num_dimensions.toNat →
      v.dimension_type.getD i harp_dimension_type.harp_dimension_independent = dimension_type →
      v.dimension.getD i 0 = length)

/-- The variable as `harp_variable_add_dimension` leaves it on success. -/
def extended (v : harp_variable) (dim_index : Int) (dimension_type : harp_dimension_type)
    (length : Int) (data : List Cell) : harp_variable :=
  { v with
    data := some data
    num_elements := dimension_product v.dimension 0 dim_index.toNat * length *
      dimension_product v.dimension dim_index.toNat v.num_dimensions.toNat
    num_dimensions := v.num_dimensions + 1
    dimension_type :=
      (shift_up v.dimension_type harp_dimension_type.harp_dimension_independent
        dim_index.toNat (v.num_dimensions + 1).toNat).set dim_index.toNat dimension_type
    dimension :=
      (shift_up v.dimension 0 dim_index.toNat (v.num_dimensions + 1).toNat).set
        dim_index.toNat length }

/-- The variable as `harp_variable_remove_dimension` leaves it on success, after
the call of `harp_variable_rearrange_dimension` has left the buffer `data`. -/
def collapsed (v : harp_variable) (dim_index : Int) (data : List Cell) : harp_variable :=
  { reshaped v dim_index 1 data with
    num_elements := Int.tdiv (reshaped v dim_index 1 data).num_elements
      ((reshaped v dim_index 1 data).dimension.getD dim_index.toNat 0)
    dimension := shift_down (reshaped v dim_index 1 data).dimension 0 dim_index.toNat
      v.num_dimensions.toNat
    dimension_type := shift_down v.dimension_type
      harp_dimension_type.harp_dimension_independent dim_index.toNat v.num_dimensions.toNat
    num_dimensions := v.num_dimensions - 1 }

/-! ## What harp_variable_verify checks -/

/-- The conditions that the loop of `harp_variable_verify` checks on the first
`k` dimensions: a time dimension only when dimension 0 is a time dimension,
positive lengths, and equal lengths for dimensions of the same type other than
independent. -/
structure DimsOK (v : harp_variable) (k : Nat) : Prop where
  time : ∀ i, i < k →
    v.dimension_type.getD i harp_dimension_type.harp_dimension_independent =
      harp_dimension_type.harp_dimension_time →
    v.dimension_type.getD 0 harp_dimension_type.harp_dimension_independent =
      harp_dimension_type.harp_dimension_time
  pos : ∀ i, i < k → 0 < v.dimension.getD i 0
  shared : ∀ i j, i < k → j < k →
    v.dimension_type.getD i harp_dimension_type.harp_dimension_independent =
      v.dimension_type.getD j harp_dimension_type.harp_dimension_independent →
    v.dimension_type.getD i harp_dimension_type.harp_dimension_independent ≠
      harp_dimension_type.harp_dimension_independent →
    v.dimension.getD i 0 = v.dimension.getD j 0

/-- The local array `dimension` of `harp_variable_verify` after `k` rounds of
the loop: the entry of a type is 0 until a dimension of that type has been
seen, and the length of the dimensions of that type afterwards. -/
structure SeenInv (v : harp_variable) (k : Nat) (seen : harp_dimension_type → Int) : Prop where
  unseen : ∀ t, (∀ i, i < k →
      v.dimension_type.getD i harp_dimension_type.harp_dimension_independent ≠ t) → seen t = 0
  seen : ∀ i, i < k →
    v.dimension_type.getD i harp_dimension_type.harp_dimension_independent ≠
      harp_dimension_type.harp_dimension_independent →
    seen (v.dimension_type.getD i harp_dimension_type.harp_dimension_independent) =
      v.dimension.getD i 0

/-- Everything that `harp_variable_verify` checks on a variable. -/
structure Verified (HARP_MAX_NUM_DIMS : Nat) (harp_unit_is_valid : String → Bool)
    (v : harp_variable) : Prop where
  name : v.name ≠ none
  dims_lo : 0 ≤ v.num_dimensions
  dims_hi : v.num_dimensions ≤ HARP_MAX_NUM_DIMS
  dims : DimsOK v v.num_dimensions.toNat
  count_nonneg : 0 ≤ v.num_elements
  count : v.num_elements = harp_get_num_elements v.num_dimensions v.dimension
  data : 0 < v.num_elements → v.data ≠ none
  unit : ∀ u, v.unit = some u → harp_unit_is_valid u = true
  valid_min : ¬ ((v.data_type = harp_data_type.harp_type_float ∧
      v.valid_min = Cell.float_data harp_float.nan) ∨
    (v.data_type = harp_data_type.harp_type_double ∧
      v.valid_min = Cell.double_data harp_float.nan))
  valid_max : ¬ ((v.data_type = harp_data_type.harp_type_float ∧
      v.valid_max = Cell.float_data harp_float.nan) ∨
    (v.data_type = harp_data_type.harp_type_double ∧
      v.valid_max = Cell.double_data harp_float.nan))

/-- The type of dimension `dim_index` is independent, or no other dimension of
the variable has it. -/
def unshared (v : harp_variable) (dim_index : Int) : Prop :=
  v.dimension_type.getD dim_index.toNat harp_dimension_type.harp_dimension_independent =
      harp_dimension_type.harp_dimension_independent ∨
    ∀ i, i < v.num_dimensions.toNat → i ≠ dim_index.toNat →
      v.dimension_type.getD i harp_dimension_type.harp_dimension_independent ≠
        v.dimension_type.getD dim_index.toNat harp_dimension_type.harp_dimension_independent

/-- A heap without strings. -/
def empty_heap : Heap := { live := [], next := 0, faulted := false }

/-- The data buffer of `grid_variable`. -/
def grid_data : List Cell := (List.range 9).map (fun i => Cell.int32_data i)

/-- An int32 variable with two latitude dimensions of length 3. -/
def grid_variable : harp_variable :=
  { name := some "grid"
    data_type := harp_data_type.harp_type_int32
    num_dimensions := 2
    dimension_type :=
      harp_dimension_type.harp_dimension_latitude ::
        harp_dimension_type.harp_dimension_latitude ::
          List.replicate 6 harp_dimension_type.harp_dimension_independent
    dimension := 3 :: 3 :: List.replicate 6 0
    num_elements := 9
    data := some grid_data
    description := none
    unit := none
    valid_min := Cell.int32_data 0
    valid_max := Cell.int32_data 100 }

/-- An int32 variable with a time dimension of length 2. -/
def series_variable : harp_variable :=
  { name := some "series"
    data_type := harp_data_type.harp_type_int32
    num_dimensions := 1
    dimension_type :=
      harp_dimension_type.harp_dimension_time ::
        List.replicate 7 harp_dimension_type.harp_dimension_independent
    dimension := 2 :: List.replicate 7 0
    num_elements := 2
    data := some [Cell.int32_data 5, Cell.int32_data 6]
    description := none
    unit := none
    valid_min := Cell.int32_data 0
    valid_max := Cell.int32_data 100 }

/-- An int32 variable with dimensions time, latitude, time of lengths 2, 3, 2. -/
def cube_variable : harp_variable :=
  { name := some "cube"
    data_type := harp_data_type.harp_type_int32
    num_dimensions := 3
    dimension_type :=
      harp_dimension_type.harp_dimension_time ::
        harp_dimension_type.harp_dimension_latitude ::
          harp_dimension_type.harp_dimension_time ::
            List.replicate 5 harp_dimension_type.harp_dimension_independent
    dimension := 2 :: 3 :: 2 :: List.replicate 5 0
    num_elements := 12
    data := some ((List.range 12).map (fun i => Cell.int32_data i))
    description := none
    unit := none
    valid_min := Cell.int32_data 0
    valid_max := Cell.int32_data 100 }

/-- An int32 variable with dimensions latitude, time of lengths 2, 3: its time
dimension is not dimension 0. -/
def swath_variable : harp_variable :=
  { name := some "swath"
    data_type := harp_data_type.harp_type_int32
    num_dimensions := 2
    dimension_type :=
      harp_dimension_type.harp_dimension_latitude ::
        harp_dimension_type.harp_dimension_time ::
          List.replicate 6 harp_dimension_type.harp_dimension_independent
    dimension := 2 :: 3 :: List.replicate 6 0
    num_elements := 6
    data := some ((List.range 6).map (fun i => Cell.int32_data i))
    description := none
    unit := none
    valid_min := Cell.int32_data 0
    valid_max := Cell.int32_data 100 }

/-- An int32 variable with two time dimensions of length 2. -/
def double_time_variable : harp_variable :=
  { name := some "pairs"
    data_type := harp_data_type.harp_type_int32
    num_dimensions := 2
    dimension_type :=
      harp_dimension_type.harp_dimension_time ::
        harp_dimension_type.harp_dimension_time ::
          List.replicate 6 harp_dimension_type.harp_dimension_independent
    dimension := 2 :: 2 :: List.replicate 6 0
    num_elements := 4
    data := some ((List.range 4).map (fun i => Cell.int32_data i))
    description := none
    unit := none
    valid_min := Cell.int32_data 0
    valid_max := Cell.int32_data 100 }

/-- The invariants of a variable in the words of the data model: a name, a
dimension count in [0, HARP_MAX_NUM_DIMS], a length > 0 for every dimension,
equal lengths for any two dimensions sharing a dimension type other than
independent, num_elements equal to the product of the dimension lengths, and a
data buffer whenever num_elements > 0.  (That the data type is one of the six
data types and that every dimension type is valid holds for every value of the
enumerations `harp_data_type` and `harp_dimension_type`.) -/
structure SpecInvariants (HARP_MAX_NUM_DIMS : Nat) (v : harp_variable) : Prop where
  name : v.name ≠ none
  dims_lo : 0 ≤ v.num_dimensions
  dims_hi : v.num_dimensions ≤ HARP_MAX_NUM_DIMS
  pos : ∀ i, i < v.num_dimensions.toNat → 0 < v.dimension.getD i 0
  shared : ∀ i j, i < v.num_dimensions.toNat → j < v.num_dimensions.toNat →
    v.dimension_type.getD i harp_dimension_type.harp_dimension_independent =
      v.dimension_type.getD j harp_dimension_type.harp_dimension_independent →
    v.dimension_type.getD i harp_dimension_type.harp_dimension_independent ≠
      harp_dimension_type.harp_dimension_independent →
    v.dimension.getD i 0 = v.dimension.getD j 0
  count : v.num_elements = dimension_product v.dimension 0 v.num_dimensions.toNat
  data : 0 < v.num_elements → v.data ≠ none

/-- The values of the signed integer type of `w` bits. -/
def in_range (w : Nat) (x : Int) : Prop := -(2 ^ (w - 1)) ≤ x ∧ x < 2 ^ (w - 1)

/-- An element of type int32: an `int32_data` member with a value of the type. -/
def is_int32 (c : Cell) : Prop := ∃ x, c = Cell.int32_data x ∧ in_range 32 x

/-- An int32 variable of 2147483648 elements, one more than the `INT_MAX` of a
platform with an `int` of 32 bits. -/
def huge_variable : harp_variable := { name := some "huge", data_type := harp_data_type.harp_type_int32, num_dimensions := 1, dimension_type := List.replicate 8 harp_dimension_type.harp_dimension_independent, dimension := 2147483648 :: List.replicate 7 0, num_elements := 2147483648, data := some (List.replicate 2147483648 (Cell.int32_data 0)), description := none, unit := none, valid_min := Cell.int32_data 0, valid_max := Cell.int32_data 100 }

/-- The catalog of builtin functions in the words of the spec: the name, the
arity (-1 for a variadic function) and the node kinds of the arguments. -/
def spec_catalog : List (String × Int × List ast_node_type) :=
  [ ("collocate-left", 1, [ast_node_type.ast_string]),
    ("collocate-right", 1, [ast_node_type.ast_string]),
    ("valid", 1, [ast_node_type.ast_qualified_name]),
    ("longitude-range", 2, [ast_node_type.ast_quantity, ast_node_type.ast_quantity]),
    ("point-distance", 3,
      [ast_node_type.ast_quantity, ast_node_type.ast_quantity, ast_node_type.ast_quantity]),
    ("area-mask-covers-point", 1, [ast_node_type.ast_string]),
    ("area-mask-covers-area", 1, [ast_node_type.ast_string]),
    ("area-mask-intersects-area", 2, [ast_node_type.ast_string, ast_node_type.ast_quantity]),
    ("derive", 1, [ast_node_type.ast_qualified_name]),
    ("keep", -1, []),
    ("exclude", -1, []),
    ("regrid", 1, [ast_node_type.ast_string]),
    ("regrid_collocated", 4,
      [ast_node_type.ast_string, ast_node_type.ast_string, ast_node_type.ast_qualified_name,
        ast_node_type.ast_qualified_name]),
    ("flatten", 1, [ast_node_type.ast_qualified_name]) ]

/-- The name, arity and argument kinds of a prototype. -/
def function_prototype.signature {Op : Type} (p : function_prototype Op) :
    String × Int × List ast_node_type :=
  (p.name, p.num_arguments, p.argument_type)

/-- Constructors that return a description of the operation they are asked
for. -/
def sample_constructors : Constructors String :=
  { harp_collocation_filter_new := fun s _ => some ("collocation " ++ s)
    harp_valid_range_filter_new := fun s => some ("valid " ++ s)
    harp_longitude_range_filter_new := fun _ _ _ _ => some "longitude-range"
    harp_point_distance_filter_new := fun _ _ _ _ _ _ => some "point-distance"
    harp_area_mask_covers_point_filter_new := fun s => some ("covers-point " ++ s)
    harp_area_mask_covers_area_filter_new := fun s => some ("covers-area " ++ s)
    harp_area_mask_intersects_area_filter_new := fun s _ => some ("intersects-area " ++ s)
    harp_variable_derivation_new := fun s _ _ => some ("derive " ++ s)
    harp_variable_inclusion_new := fun l => some ("keep " ++ " ".intercalate l)
    harp_variable_exclusion_new := fun l => some ("exclude " ++ " ".intercalate l)
    harp_regrid_new := fun s => some ("regrid " ++ s)
    harp_regrid_collocated_new := fun s _ _ _ => some ("regrid_collocated " ++ s)
    harp_flatten_new := fun _ => some "flatten"
    harp_parse_dimension_type := fun s =>
      if s = "time" then some harp_dimension_type.harp_dimension_time else none
    harp_string_comparison_filter_new := fun s _ t => some ("string-comparison " ++ s ++ " " ++ t)
    harp_comparison_filter_new := fun s _ _ u => some ("comparison " ++ s ++ " " ++ u.getD "")
    harp_bit_mask_filter_new := fun s _ _ => some ("bit-mask " ++ s)
    harp_string_membership_filter_new := fun s _ l =>
      some ("string-membership " ++ s ++ " " ++ " ".intercalate l)
    harp_membership_filter_new := fun s _ _ u => some ("membership " ++ s ++ " " ++ u.getD "") }

/-- The node of the string literal "file.csv" at offset 7. -/
def file_string : ast_node :=
  ast_node.mk ast_node_type.ast_string 7 (ast_payload.string "file.csv") []

/-- The node of the number literal 5 at offset 7. -/
def five_number : ast_node :=
  ast_node.mk ast_node_type.ast_number 7 (ast_payload.number (harp_float.finite 5)) []

/-- The node of a function call at offset 0 of the function `name`, with the
argument list `arguments` at offset 6. -/
def call_node (name : String) (arguments : List ast_node) : ast_node :=
  ast_node.mk ast_node_type.ast_function_call 0 ast_payload.empty
    [some (ast_node.mk ast_node_type.ast_name 0 (ast_payload.string name) []),
      some (ast_node.mk ast_node_type.ast_list 6 ast_payload.empty (arguments.map some))]

/-- The translation of one top-level expression in the words of the spec: an
expression node that is a function call routes through the catalog, in and
not-in nodes route to the membership test builder, bit mask any and bit mask
none nodes route to the bit mask builder, everything else routes to the
comparison builder. -/
def translation {Op : Type} (K : Constructors Op) (HARP_MAX_NUM_DIMS : Nat)
    (undefined_mask : harp_float → Nat) (expression : ast_node) :
    Except Stuck (Except analyze_error Op) :=
  match expression.type with
  | ast_node_type.ast_function_call =>
    operation_from_function_call K HARP_MAX_NUM_DIMS expression
  | ast_node_type.ast_in => create_membership_test K expression
  | ast_node_type.ast_not_in => create_membership_test K expression
  | ast_node_type.ast_bit_mask_any => create_bit_mask_test K undefined_mask expression
  | ast_node_type.ast_bit_mask_none => create_bit_mask_test K undefined_mask expression
  | _ => create_comparison K expression

/-- A qualified name node for the variable `name`: a node of kind qualified
name with three child entries, the name node (of kind name, with the name as
its payload), the optional dimension list and the optional unit. -/
def is_qualified_name (a : ast_node) (name : String) (dimension_list unit : Option ast_node) :
    Prop :=
  ∃ position payload name_node,
    a = ast_node.mk ast_node_type.ast_qualified_name position payload
      [some name_node, dimension_list, unit] ∧
    name_node.type = ast_node_type.ast_name ∧ name_node.payload = ast_payload.string name

/-- A unit node with the unit `unit` as its payload. -/
def is_unit (u : ast_node) (unit : String) : Prop :=
  u.type = ast_node_type.ast_unit ∧ u.payload = ast_payload.string unit

/-- The qualified name node at offset `position` of the variable `name`, with
an optional dimension list and an optional unit. -/
def qualified_name_node (position : Nat) (name : String) (dimension_list unit : Option ast_node) :
    ast_node :=
  ast_node.mk ast_node_type.ast_qualified_name position ast_payload.empty
    [some (ast_node.mk ast_node_type.ast_name position (ast_payload.string name) []),
      dimension_list, unit]

/-- The dimension list node at offset `position` with the dimension names
`names`, each at offset `position + 1`. -/
def dimension_list_node (position : Nat) (names : List String) : ast_node :=
  ast_node.mk ast_node_type.ast_dimension_list position ast_payload.empty
    (names.map (fun n =>
      some (ast_node.mk ast_node_type.ast_name (position + 1) (ast_payload.string n) [])))

/-- The unit node at offset `position` of the unit `unit`. -/
def unit_node (position : Nat) (unit : String) : ast_node :=
  ast_node.mk ast_node_type.ast_unit position (ast_payload.string unit) []

/-- The call `keep(latitude{time}, longitude{time})`, with the byte offsets of
the source text. -/
def keep_qualified_call : ast_node :=
  call_node "keep"
    [qualified_name_node 5 "latitude" (some (dimension_list_node 13 ["time"])) none,
      qualified_name_node 21 "longitude" (some (dimension_list_node 30 ["time"])) none]

/-- The call `keep(latitude, longitude)`. -/
def keep_plain_call : ast_node :=
  call_node "keep"
    [qualified_name_node 5 "latitude" none none, qualified_name_node 15 "longitude" none none]

/-- The error that `verify_qualified_name_has_no_qualifiers` reports for the
qualifiers of a qualified name: the dimension list if there is one, else the
unit if there is one. -/
def qualifier_error (dimension_list unit : Option ast_node) : Option analyze_error :=
  match dimension_list, unit with
  | some d, _ => some (analyze_error.unexpected_dimension_list d.position)
  | none, some u => some (analyze_error.unexpected_unit u.position)
  | none, none => none

/-- The membership test `x in ("a", 1) [m]`: a value list that mixes a string
and a number, with a unit. -/
def mixed_membership_node : ast_node :=
  ast_node.mk ast_node_type.ast_in 2 ast_payload.empty
    [some (ast_node.mk ast_node_type.ast_name 0 (ast_payload.string "x") []),
      some (ast_node.mk ast_node_type.ast_list 5 ast_payload.empty
        [some (ast_node.mk ast_node_type.ast_string 6 (ast_payload.string "a") []),
          some (ast_node.mk ast_node_type.ast_number 11
            (ast_payload.number (harp_float.finite 1)) [])]),
      some (unit_node 14 "m")]

/-- An int32 variable with one time dimension of length 0: no elements, and an
empty buffer. -/
def empty_series_variable : harp_variable :=
  { name := some "empty"
    data_type := harp_data_type.harp_type_int32
    num_dimensions := 1
    dimension_type :=
      harp_dimension_type.harp_dimension_time ::
        List.replicate 7 harp_dimension_type.harp_dimension_independent
    dimension := 0 :: List.replicate 7 0
    num_elements := 0
    data := some []
    description := none
    unit := none
    valid_min := Cell.int32_data 0
    valid_max := Cell.int32_data 100 }

/-- The argument list of the call
`regrid_collocated("file.csv", "dir", a{time}, altitude [m])`: the third
argument carries a dimension list, the fourth a unit. -/
def regrid_collocated_arguments : ast_node :=
  ast_node.mk ast_node_type.ast_list 17 ast_payload.empty
    [some file_string,
      some (ast_node.mk ast_node_type.ast_string 29 (ast_payload.string "dir") []),
      some (qualified_name_node 36 "a" (some (dimension_list_node 37 ["time"])) none),
      some (qualified_name_node 45 "altitude" none (some (unit_node 54 "m")))]

/-- The loop of lines 254-257 with a record of its course: the positions `k`
at which the loop condition is evaluated, in order; the last one is the
position at which the loop stops (the result of `walk_forward`). -/
def forward_positions (dim : Nat) (move_to_id : List (Option Nat)) (moved : List Bool)
    (to_id : Nat) : Nat → Nat → Option (List Nat)
  | 0, _ => none
  | fuel + 1, k =>
    match move_to_id.getD k none with
    | some next =>
      if k < dim ∧ moved.getD k false = false ∧ next ≠ to_id then
        (forward_positions dim move_to_id moved to_id fuel next).map (fun l => k :: l)
      else some [k]
    | none => some [k]

/-- The loop of lines 267-273 with a record of its course: the positions `k`
to which the loop copies a block, in order. -/
def backward_positions (dim_element_ids : List Int) (to_id : Nat) : Nat → Nat → Option (List Nat)
  | 0, _ => none
  | fuel + 1, k =>
    if k ≠ to_id then
      (backward_positions dim_element_ids to_id fuel (id_at dim_element_ids k)).map
        (fun l => k :: l)
    else some []

/-! ## What `harp_variable_new` checks and builds -/

/-- The conditions that the loop of `harp_variable_new` checks on the first `k`
dimensions: a time dimension only at index 0, and equal lengths for dimensions
of the same type other than independent. -/
structure NewDimsOK (types : List harp_dimension_type) (dimension : List Int) (k : Nat) :
    Prop where
  time : ∀ i, i < k →
    types.getD i harp_dimension_type.harp_dimension_independent =
      harp_dimension_type.harp_dimension_time → i = 0
  shared : ∀ i j, i < k → j < k →
    types.getD i harp_dimension_type.harp_dimension_independent =
      types.getD j harp_dimension_type.harp_dimension_independent →
    types.getD i harp_dimension_type.harp_dimension_independent ≠
      harp_dimension_type.harp_dimension_independent →
    dimension.getD i 0 = dimension.getD j 0

/-- The local array `dimension_length` of `harp_variable_new` after `k` rounds
of the loop: the entry of a type is -1 until a dimension of that type has been
seen, and the length of the dimensions of that type afterwards. -/
structure NewSeenInv (types : List harp_dimension_type) (dimension : List Int) (k : Nat)
    (seen : harp_dimension_type → Int) : Prop where
  unseen : ∀ t, (∀ i, i < k →
      types.getD i harp_dimension_type.harp_dimension_independent ≠ t) → seen t = -1
  seen : ∀ i, i < k →
    types.getD i harp_dimension_type.harp_dimension_independent ≠
      harp_dimension_type.harp_dimension_independent →
    seen (types.getD i harp_dimension_type.harp_dimension_independent) = dimension.getD i 0

/-- The dimension types that `harp_variable_new` stores for its argument
`dimension_type`: the given ones, or independent for every dimension when the
argument is `NULL`. -/
def given_type (dimension_type : Option (List harp_dimension_type)) (i : Nat) :
    harp_dimension_type :=
  match dimension_type with
  | some types => types.getD i harp_dimension_type.harp_dimension_independent
  | none => harp_dimension_type.harp_dimension_independent

/-- A structure as `malloc` may return it, with room for 8 dimensions. -/
def blank_variable : harp_variable :=
  { name := none
    data_type := harp_data_type.harp_type_int8
    num_dimensions := 0
    dimension_type := List.replicate 8 harp_dimension_type.harp_dimension_independent
    dimension := List.replicate 8 0
    num_elements := 0
    data := none
    description := none
    unit := none
    valid_min := Cell.undef
    valid_max := Cell.undef }

/-- Default bounds of the valid range of a data type, for the examples: the
bounds of the integer types, and infinities for the floating point types. -/
def sample_valid_min : harp_data_type → Cell
  | harp_data_type.harp_type_int8 => Cell.int8_data (-128)
  | harp_data_type.harp_type_int16 => Cell.int16_data (-32768)
  | harp_data_type.harp_type_int32 => Cell.int32_data (-2147483648)
  | harp_data_type.harp_type_float => Cell.float_data (harp_float.inf true)
  | harp_data_type.harp_type_double => Cell.double_data (harp_float.inf true)
  | harp_data_type.harp_type_string => Cell.undef

/-- The upper bounds that go with `sample_valid_min`. -/
def sample_valid_max : harp_data_type → Cell
  | harp_data_type.harp_type_int8 => Cell.int8_data 127
  | harp_data_type.harp_type_int16 => Cell.int16_data 32767
  | harp_data_type.harp_type_int32 => Cell.int32_data 2147483647
  | harp_data_type.harp_type_float => Cell.float_data (harp_float.inf false)
  | harp_data_type.harp_type_double => Cell.double_data (harp_float.inf false)
  | harp_data_type.harp_type_string => Cell.undef

/-- The checks of `harp_variable_new` accept the dimensions: no dimension types
are supplied, or the conditions of the loop hold for all dimensions. -/
def new_accepts (num_dimensions : Int) (dimension_type : Option (List harp_dimension_type))
    (dimension : List Int) : Prop :=
  match dimension_type with
  | some types => NewDimsOK types dimension num_dimensions.toNat
  | none => True

/-- The variable as `harp_variable_new` returns it on success. -/
def created (harp_get_valid_min_for_type harp_get_valid_max_for_type : harp_data_type → Cell)
    (fresh : harp_variable) (name : String) (data_type : harp_data_type) (num_dimensions : Int)
    (dimension_type : Option (List harp_dimension_type)) (dimension : List Int) : harp_variable :=
  { fresh with
    name := some name
    data_type := data_type
    num_dimensions := num_dimensions
    dimension_type :=
      assign_entries fresh.dimension_type (given_type dimension_type) num_dimensions.toNat
    dimension := assign_entries fresh.dimension (fun i => dimension.getD i 0)
      num_dimensions.toNat
    num_elements := dimension_product dimension 0 num_dimensions.toNat
    data := some (List.replicate (dimension_product dimension 0 num_dimensions.toNat).toNat
      (zero_cell data_type))
    description := none
    unit := none
    valid_min :=
      if data_type ≠ harp_data_type.harp_type_string then harp_get_valid_min_for_type data_type
      else fresh.valid_min
    valid_max :=
      if data_type ≠ harp_data_type.harp_type_string then harp_get_valid_max_for_type data_type
      else fresh.valid_max }

/-- The variable as `harp_variable_copy` returns it on success, with the data
buffer `data`. -/
def copied (fresh other : harp_variable) (data : List Cell) : harp_variable :=
  { fresh with
    name := other.name
    data_type := other.data_type
    num_dimensions := other.num_dimensions
    dimension_type :=
      assign_entries fresh.dimension_type
        (fun i => other.dimension_type.getD i harp_dimension_type.harp_dimension_independent)
        other.num_dimensions.toNat
    dimension := assign_entries fresh.dimension (fun i => other.dimension.getD i 0)
      other.num_dimensions.toNat
    num_elements := other.num_elements
    data := some data
    description := other.description
    unit := other.unit
    valid_min := other.valid_min
    valid_max := other.valid_max }

/-- The buffer of `sample_variable` after its dimension has been grown to the
length 4: the three strings and a null element. -/
def grown_data : List Cell :=
  [Cell.string_data (some 0), Cell.string_data (some 1), Cell.string_data (some 2),
    Cell.string_data none]

/-- An allocator whose `realloc` returns `NULL` for a buffer of 0 elements and a
pointer for every other size, as a C library does that frees the buffer on a
size of 0. -/
def realloc_frees_empty : Int → Bool := fun n => decide (n ≠ 0)

/-- An int32 variable with two independent dimensions of lengths 3 and 0: no
elements, and an empty buffer. -/
def empty_grid_variable : harp_variable :=
  { name := some "empty_grid"
    data_type := harp_data_type.harp_type_int32
    num_dimensions := 2
    dimension_type := List.replicate 8 harp_dimension_type.harp_dimension_independent
    dimension := 3 :: 0 :: List.replicate 6 0
    num_elements := 0
    data := some []
    description := none
    unit := none
    valid_min := Cell.int32_data 0
    valid_max := Cell.int32_data 100 }
/-! ## Memory lemmas -/

theorem peek_eq_getElem? (mem : List Cell) (i : Nat) : peek mem i = mem[i]?.getD Cell.undef := by
  simp [peek, List.getD_eq_getElem?_getD]

theorem peek_of_le {mem : List Cell} {i : Nat} (h : mem.length ≤ i) : peek mem i = Cell.undef := by
  simp [peek_eq_getElem?, List.getElem?_eq_none h]

theorem ext_peek {l1 l2 : List Cell} (hlen : l1.length = l2.length)
    (h : ∀ i, i < l1.length → peek l1 i = peek l2 i) : l1 = l2 := by
  apply List.ext_getElem hlen
  intro i h1 h2
  have := h i h1
  simpa [peek_eq_getElem?, List.getElem?_eq_getElem h1, List.getElem?_eq_getElem h2] using this

theorem length_memmove (mem : List Cell) (dst src len : Nat) :
    (memmove mem dst src len).length = mem.length := by
  simp [memmove]

theorem peek_memmove (mem : List Cell) (dst src len i : Nat) :
    peek (memmove mem dst src len) i =
      if dst ≤ i ∧ i < dst + len ∧ i < mem.length then peek mem (src + (i - dst)) else peek mem i := by
  by_cases hi : i < mem.length
  · simp only [memmove, peek_eq_getElem?, List.getElem?_map, List.getElem?_range hi, hi, and_true]
    by_cases hc : dst ≤ i ∧ i < dst + len
    · simp [hc]
    · simp [hc]
  · have h1 : mem.length ≤ i := Nat.le_of_not_lt hi
    rw [peek_of_le (by simpa [length_memmove] using h1), peek_of_le h1]
    simp [hi]

theorem length_write_block (mem : List Cell) (off : Nat) (buffer : List Cell) (len : Nat) :
    (write_block mem off buffer len).length = mem.length := by
  simp [write_block]

theorem peek_write_block (mem : List Cell) (off : Nat) (buffer : List Cell) (len i : Nat) :
    peek (write_block mem off buffer len) i =
      if off ≤ i ∧ i < off + len ∧ i < mem.length then peek buffer (i - off) else peek mem i := by
  by_cases hi : i < mem.length
  · simp only [write_block, peek_eq_getElem?, List.getElem?_map, List.getElem?_range hi, hi, and_true]
    by_cases hc : off ≤ i ∧ i < off + len
    · simp [hc, List.getD_eq_getElem?_getD]
    · simp [hc]
  · have h1 : mem.length ≤ i := Nat.le_of_not_lt hi
    rw [peek_of_le (by simpa [length_write_block] using h1), peek_of_le h1]
    simp [hi]

theorem length_read_block (mem : List Cell) (off len : Nat) :
    (read_block mem off len).length = len := by
  simp [read_block]

theorem peek_read_block (mem : List Cell) (off len i : Nat) :
    peek (read_block mem off len) i = if i < len then peek mem (off + i) else Cell.undef := by
  by_cases hi : i < len
  · simp [read_block, peek_eq_getElem?, List.getElem?_map, List.getElem?_range hi, hi]
  · rw [peek_of_le (by simpa [length_read_block] using Nat.le_of_not_lt hi)]
    simp [hi]

theorem read_block_congr {m1 m2 : List Cell} {o1 o2 len : Nat}
    (h : ∀ i, i < len → peek m1 (o1 + i) = peek m2 (o2 + i)) :
    read_block m1 o1 len = read_block m2 o2 len := by
  apply ext_peek (by simp [length_read_block])
  intro i hi
  rw [length_read_block] at hi
  simp [peek_read_block, hi, h i hi]

theorem peek_of_read_block_eq {m1 m2 : List Cell} {o1 o2 len : Nat}
    (h : read_block m1 o1 len = read_block m2 o2 len) {i : Nat} (hi : i < len) :
    peek m1 (o1 + i) = peek m2 (o2 + i) := by
  have := congrArg (fun l => peek l i) h
  simpa [peek_read_block, hi] using this

theorem length_realloc (mem : List Cell) (size : Nat) : (realloc mem size).length = size := by
  simp [realloc]
  omega

theorem peek_realloc (mem : List Cell) (size i : Nat) :
    peek (realloc mem size) i = if i < size then peek mem i else Cell.undef := by
  by_cases hi : i < size
  · simp only [hi, if_true, realloc, peek_eq_getElem?]
    by_cases h2 : i < mem.length
    · rw [List.getElem?_append_left (by simp; omega)]
      simp [List.getElem?_take, hi]
    · rw [List.getElem?_append_right (by simp; omega)]
      have : mem[i]? = none := List.getElem?_eq_none (by omega)
      simp [this]
  · rw [peek_of_le (by simpa [length_realloc] using Nat.le_of_not_lt hi)]
    simp [hi]

theorem peek_set (mem : List Cell) (j : Nat) (c : Cell) (i : Nat) :
    peek (mem.set j c) i = if i = j ∧ j < mem.length then c else peek mem i := by
  simp only [peek_eq_getElem?, List.getElem?_set]
  by_cases h : j = i
  · subst h
    by_cases h2 : j < mem.length
    · simp [h2]
    · simp [h2, List.getElem?_eq_none (Nat.le_of_not_lt h2)]
  · have : ¬ i = j := fun e => h e.symm
    simp [h, this]

/-! ## The table `move_to_id` -/

theorem getD_set_option {α : Type} (l : List α) (j : Nat) (x d : α) (i : Nat) :
    (l.set j x).getD i d = if i = j ∧ j < l.length then x else l.getD i d := by
  simp only [List.getD_eq_getElem?_getD, List.getElem?_set]
  by_cases h : j = i
  · subst h
    by_cases h2 : j < l.length
    · simp [h2]
    · simp [h2, List.getElem?_eq_none (Nat.le_of_not_lt h2)]
  · have : ¬ i = j := fun e => h e.symm
    simp [h, this]

theorem build_move_to_id_succ (dim n : Nat) (ids : List Int) :
    build_move_to_id dim (n + 1) ids =
      if (build_move_to_id dim n ids).getD (id_at ids n) none = none then
        (build_move_to_id dim n ids).set (id_at ids n) (some n)
      else build_move_to_id dim n ids := by
  simp [build_move_to_id, List.range_succ, List.foldl_append]

theorem length_build_move_to_id (dim n : Nat) (ids : List Int) :
    (build_move_to_id dim n ids).length = dim := by
  induction n with
  | zero => simp [build_move_to_id]
  | succ n ih =>
    rw [build_move_to_id_succ]
    split <;> simp [ih]

theorem build_move_to_id_bound (dim n : Nat) (ids : List Int) (s d : Nat)
    (h : (build_move_to_id dim n ids).getD s none = some d) :
    d < n ∧ id_at ids d = s ∧ s < dim := by
  induction n with
  | zero =>
    simp [build_move_to_id, List.getD_eq_getElem?_getD, List.getElem?_replicate] at h
    split at h <;> simp at h
  | succ n ih =>
    rw [build_move_to_id_succ] at h
    split at h
    · rw [getD_set_option] at h
      split at h
      · rename_i hc
        obtain ⟨hs, hlt⟩ := hc
        rw [length_build_move_to_id] at hlt
        have hd : d = n := by simpa using h.symm
        subst hd
        exact ⟨by omega, hs.symm, by omega⟩
      · obtain ⟨h1, h2, h3⟩ := ih h
        exact ⟨by omega, h2, h3⟩
    · obtain ⟨h1, h2, h3⟩ := ih h
      exact ⟨by omega, h2, h3⟩

/-- Every position of `ids` that holds an old position below `dim` gives that
old position an entry, at or before it. -/
theorem build_move_to_id_total (dim n : Nat) (ids : List Int) (d : Nat) (hd : d < n)
    (hs : id_at ids d < dim) :
    ∃ d', d' ≤ d ∧ (build_move_to_id dim n ids).getD (id_at ids d) none = some d' := by
  induction n with
  | zero => omega
  | succ n ih =>
    rw [build_move_to_id_succ]
    by_cases hdn : d < n
    · obtain ⟨d', h1, h2⟩ := ih hdn
      refine ⟨d', h1, ?_⟩
      split
      · rename_i hnone
        rw [getD_set_option]
        split
        · rename_i hc
          rw [hc.1, hnone] at h2
          simp at h2
        · exact h2
      · exact h2
    · have hdn' : d = n := by omega
      subst hdn'
      split
      · rw [getD_set_option]
        simp [length_build_move_to_id, hs]
      · rename_i hsome
        cases hm : (build_move_to_id dim d ids).getD (id_at ids d) none with
        | none => exact absurd hm hsome
        | some d' =>
          have := build_move_to_id_bound dim d ids _ _ hm
          exact ⟨d', by omega, rfl⟩

/-- An entry `some d` of the table is the first position of `ids` that holds `s`. -/
theorem build_move_to_id_first (dim n : Nat) (ids : List Int) (s d : Nat)
    (h : (build_move_to_id dim n ids).getD s none = some d) :
    d < n ∧ id_at ids d = s ∧ s < dim ∧ ∀ d', d' < d → id_at ids d' ≠ s := by
  induction n generalizing s d with
  | zero =>
    simp [build_move_to_id, List.getD_eq_getElem?_getD, List.getElem?_replicate] at h
    split at h <;> simp at h
  | succ n ih =>
    rw [build_move_to_id_succ] at h
    split at h
    · rename_i hnone
      rw [getD_set_option] at h
      split at h
      · rename_i hc
        obtain ⟨hs, hlt⟩ := hc
        rw [length_build_move_to_id] at hlt
        have hd : d = n := by simpa using h.symm
        subst hd
        refine ⟨by omega, hs.symm, by omega, ?_⟩
        intro d' hd' hcontra
        obtain ⟨d'', _, h2⟩ := build_move_to_id_total dim d ids d' hd' (by omega)
        rw [hcontra, hs, hnone] at h2
        simp at h2
      · obtain ⟨h1, h2, h3, h4⟩ := ih s d h
        exact ⟨by omega, h2, h3, h4⟩
    · obtain ⟨h1, h2, h3, h4⟩ := ih s d h
      exact ⟨by omega, h2, h3, h4⟩

/-! ## Blocks of a group -/

theorem block_disjoint {nbe s d b : Nat} (h : s ≠ d) (hb : b < nbe) (base : Nat) :
    ¬ (base + d * nbe ≤ base + s * nbe + b ∧ base + s * nbe + b < base + d * nbe + nbe) := by
  intro ⟨h1, h2⟩
  rcases Nat.lt_or_gt_of_ne h with hlt | hgt
  · have : (s + 1) * nbe ≤ d * nbe := Nat.mul_le_mul_right nbe hlt
    rw [Nat.add_mul] at this
    omega
  · have : (d + 1) * nbe ≤ s * nbe := Nat.mul_le_mul_right nbe hgt
    rw [Nat.add_mul] at this
    omega

theorem block_in_range {nbe s m b : Nat} (h : s < m) (hb : b < nbe) :
    s * nbe + b < m * nbe := by
  have : (s + 1) * nbe ≤ m * nbe := Nat.mul_le_mul_right nbe h
  rw [Nat.add_mul] at this
  omega

theorem slot_congr {nbe base1 base2 : Nat} {m1 m2 : List Cell} {s1 s2 : Nat}
    (h : ∀ b, b < nbe → peek m1 (base1 + s1 * nbe + b) = peek m2 (base2 + s2 * nbe + b)) :
    slot nbe base1 m1 s1 = slot nbe base2 m2 s2 :=
  read_block_congr h

theorem peek_of_slot_eq {nbe base1 base2 : Nat} {m1 m2 : List Cell} {s1 s2 : Nat}
    (h : slot nbe base1 m1 s1 = slot nbe base2 m2 s2) {b : Nat} (hb : b < nbe) :
    peek m1 (base1 + s1 * nbe + b) = peek m2 (base2 + s2 * nbe + b) :=
  peek_of_read_block_eq h hb

theorem slot_memmove_same {nbe base : Nat} {mem : List Cell} {d s0 : Nat}
    (h : base + d * nbe + nbe ≤ mem.length) :
    slot nbe base (memmove mem (base + d * nbe) (base + s0 * nbe) nbe) d = slot nbe base mem s0 := by
  apply slot_congr
  intro b hb
  rw [peek_memmove]
  have : base + d * nbe ≤ base + d * nbe + b ∧ base + d * nbe + b < base + d * nbe + nbe ∧
      base + d * nbe + b < mem.length := by omega
  rw [if_pos this]
  congr 1
  omega

theorem peek_memmove_outside {mem : List Cell} {dst src len j : Nat}
    (h : ¬ (dst ≤ j ∧ j < dst + len)) : peek (memmove mem dst src len) j = peek mem j := by
  rw [peek_memmove]
  have : ¬ (dst ≤ j ∧ j < dst + len ∧ j < mem.length) := fun hc => h ⟨hc.1, hc.2.1⟩
  rw [if_neg this]

theorem slot_memmove_other {nbe base : Nat} {mem : List Cell} {d s : Nat} (src : Nat) (h : s ≠ d) :
    slot nbe base (memmove mem (base + d * nbe) src nbe) s = slot nbe base mem s := by
  apply slot_congr
  intro b hb
  exact peek_memmove_outside (block_disjoint h hb base)

theorem peek_write_block_outside {mem buffer : List Cell} {off len j : Nat}
    (h : ¬ (off ≤ j ∧ j < off + len)) : peek (write_block mem off buffer len) j = peek mem j := by
  rw [peek_write_block]
  have : ¬ (off ≤ j ∧ j < off + len ∧ j < mem.length) := fun hc => h ⟨hc.1, hc.2.1⟩
  rw [if_neg this]

theorem slot_write_block_other {nbe base : Nat} {mem buffer : List Cell} {d s : Nat} (h : s ≠ d) :
    slot nbe base (write_block mem (base + d * nbe) buffer nbe) s = slot nbe base mem s := by
  apply slot_congr
  intro b hb
  exact peek_write_block_outside (block_disjoint h hb base)

theorem slot_write_block_same {nbe base : Nat} {mem buffer : List Cell} {d : Nat}
    (h : base + d * nbe + nbe ≤ mem.length) (hbuf : buffer.length = nbe) :
    slot nbe base (write_block mem (base + d * nbe) buffer nbe) d = buffer := by
  apply ext_peek (by simp [slot, length_read_block, hbuf])
  intro b hb
  simp only [slot, length_read_block] at hb
  simp only [slot, peek_read_block, hb, if_true]
  rw [peek_write_block]
  have : base + d * nbe ≤ base + d * nbe + b ∧ base + d * nbe + b < base + d * nbe + nbe ∧
      base + d * nbe + b < mem.length := by omega
  rw [if_pos this]
  congr 1
  omega

theorem length_slot (nbe base : Nat) (mem : List Cell) (s : Nat) : (slot nbe base mem s).length = nbe :=
  length_read_block _ _ _

/-! ## The two walks of the move-away step -/

theorem length_le_of_nodup_of_lt {l : List Nat} {dim : Nat} (hn : l.Nodup) (hlt : ∀ x, x ∈ l → x < dim) :
    l.length ≤ dim := by
  have h1 : l.toFinset.card = l.length := List.toFinset_card_of_nodup hn
  have h2 : l.toFinset ⊆ Finset.range dim := by
    intro x hx
    simp only [List.mem_toFinset] at hx
    simpa using hlt x hx
  have h3 := Finset.card_le_card h2
  simp only [Finset.card_range] at h3
  omega

theorem build_move_to_id_table (dim n : Nat) (ids : List Int) :
    MoveTable dim n ids (build_move_to_id dim n ids) :=
  { len := length_build_move_to_id dim n ids
    first := fun s d h => build_move_to_id_first dim n ids s d h
    total := fun d hd hs => build_move_to_id_total dim n ids d hd hs }

theorem BackPath.length_le {dim : Nat} {ids : List Int} {mt : List (Option Nat)} {moved : List Bool}
    {to_id : Nat} {L : List Nat} (h : BackPath dim ids mt moved to_id L) (hne : L ≠ []) :
    L.length ≤ dim := by
  have h1 : (L.tail ++ [to_id]).length ≤ dim := by
    apply length_le_of_nodup_of_lt h.nodup
    intro x hx
    rw [← h.link] at hx
    obtain ⟨y, hy, rfl⟩ := List.mem_map.1 hx
    exact (h.entry y hy).2.1
  cases L with
  | nil => exact absurd rfl hne
  | cons a t => simpa using h1

theorem walk_forward_spec {dim n : Nat} {ids : List Int} {mt : List (Option Nat)}
    (hmt : MoveTable dim n ids mt) (moved : List Bool) (to_id : Nat) :
    ∀ (fuel k : Nat) (acc : List Nat), BackPath dim ids mt moved to_id (k :: acc) →
      (acc ≠ [] → k ≠ to_id) → dim ≤ fuel + acc.length →
      ∃ L, L ≠ [] ∧ BackPath dim ids mt moved to_id L ∧
        walk_forward dim mt moved to_id fuel k = some (L.headD 0) ∧
        ¬ walk_continues dim mt moved to_id (L.headD 0) ∧
        (L.headD 0 = to_id → L = [to_id]) := by
  intro fuel
  induction fuel with
  | zero =>
    intro k acc hp _ hf
    have := hp.length_le (by simp)
    simp at this hf
    omega
  | succ fuel ih =>
    intro k acc hp hk hf
    by_cases hc : walk_continues dim mt moved to_id k
    · obtain ⟨next, h1, h2, h3, h4⟩ := hc
      have hfirst := hmt.first k next h1
      have hkne : k ≠ to_id := by
        intro hkt
        cases acc with
        | nil =>
          have hl := hp.link
          simp only [List.map_cons, List.map_nil, List.tail_cons, List.nil_append,
            List.cons.injEq, and_true] at hl
          have he := (hp.entry k (by simp)).1
          rw [hl, ← hkt, h1] at he
          simp only [Option.some.injEq] at he
          exact h4 (he.trans hkt)
        | cons a t => exact hk (by simp) hkt
      have hknotin : k ∉ acc := by
        intro hmem
        have hl := hp.link
        simp only [List.map_cons, List.tail_cons] at hl
        have hnd := hp.nodup
        simp only [List.tail_cons] at hnd
        rw [← hl] at hnd
        exact (List.nodup_cons.1 hnd).1 (List.mem_map.2 ⟨k, hmem, rfl⟩)
      have hp' : BackPath dim ids mt moved to_id (next :: k :: acc) := by
        refine ⟨?_, ?_, ?_⟩
        · have hl := hp.link
          simp only [List.map_cons, List.tail_cons] at hl ⊢
          rw [hfirst.2.1]
          simp only [List.cons_append, List.cons.injEq, true_and]
          simpa using hl
        · intro x hx
          rcases List.mem_cons.1 hx with rfl | hx
          · rw [hfirst.2.1]; exact ⟨h1, h2, h3⟩
          · exact hp.entry x hx
        · simp only [List.tail_cons, List.cons_append, List.nodup_cons]
          refine ⟨?_, hp.nodup⟩
          simp only [List.mem_append, List.mem_singleton, not_or]
          exact ⟨hknotin, hkne⟩
      obtain ⟨L, hL1, hL2, hL3, hL4, hL5⟩ := ih next (k :: acc) hp' (fun _ => h4)
        (by simp only [List.length_cons]; omega)
      refine ⟨L, hL1, hL2, ?_, hL4, hL5⟩
      rw [walk_forward, h1]
      simp only [h2, h3, h4, ne_eq, not_false_eq_true, and_self, if_true]
      exact hL3
    · refine ⟨k :: acc, by simp, hp, ?_, by simpa using hc, ?_⟩
      · rw [walk_forward]
        cases hm : mt.getD k none with
        | none => simp
        | some next =>
          simp only [List.headD_cons]
          have : ¬ (k < dim ∧ moved.getD k false = false ∧ next ≠ to_id) := by
            intro ⟨a, b, c⟩
            exact hc ⟨next, hm, a, b, c⟩
          rw [if_neg this]
      · intro hkt
        simp only [List.headD_cons] at hkt
        cases acc with
        | nil => rw [hkt]
        | cons a t => exact absurd hkt (hk (by simp))

theorem getD_set_bool (l : List Bool) (j : Nat) (i : Nat) :
    (l.set j true).getD i false = true ↔ (i = j ∧ i < l.length) ∨ l.getD i false = true := by
  rw [getD_set_option]
  split
  · rename_i h; simp [h]
  · rename_i h
    have : ¬ (i = j ∧ i < l.length) := fun hc => h ⟨hc.1, hc.1 ▸ hc.2⟩
    simp [this]

theorem walk_backward_spec (nbe base : Nat) (ids : List Int) (to_id : Nat) :
    ∀ (rest : List Nat) (x fuel : Nat) (mem : List Cell) (moved : List Bool),
      (x :: rest).map (id_at ids) = rest ++ [to_id] → (x :: rest ++ [to_id]).Nodup →
      rest.length + 1 < fuel →
      (∀ y, y ∈ x :: rest → base + y * nbe + nbe ≤ mem.length) →
      ∃ mem' moved', walk_backward nbe base ids to_id fuel x (mem, moved) = some (mem', moved') ∧
        mem'.length = mem.length ∧ moved'.length = moved.length ∧
        (∀ y, y ∈ x :: rest → slot nbe base mem' y = slot nbe base mem (id_at ids y)) ∧
        (∀ j, (∀ y, y ∈ x :: rest → ¬ (base + y * nbe ≤ j ∧ j < base + y * nbe + nbe)) →
          peek mem' j = peek mem j) ∧
        (∀ s, moved'.getD s false = true ↔
          (s ∈ (x :: rest).map (id_at ids) ∧ s < moved.length) ∨ moved.getD s false = true) := by
  intro rest
  induction rest with
  | nil =>
    intro x fuel mem moved hl hnd hf hr
    simp only [List.map_cons, List.map_nil, List.nil_append, List.cons.injEq, and_true] at hl
    have hx : x ≠ to_id := by
      intro h; subst h; simp at hnd
    obtain ⟨f, rfl⟩ : ∃ f, fuel = f + 2 := ⟨fuel - 2, by simp at hf; omega⟩
    refine ⟨memmove mem (base + x * nbe) (base + id_at ids x * nbe) nbe,
      moved.set (id_at ids x) true, ?_, length_memmove _ _ _ _, by simp, ?_, ?_, ?_⟩
    · rw [walk_backward, if_pos hx, hl, walk_backward]
      simp
    · intro y hy
      simp only [List.mem_singleton] at hy
      subst hy
      exact slot_memmove_same (hr y (by simp))
    · intro j hj
      exact peek_memmove_outside (hj x (by simp))
    · intro s
      rw [getD_set_bool]
      simp
  | cons y r ih =>
    intro x fuel mem moved hl hnd hf hr
    simp only [List.map_cons, List.cons_append, List.cons.injEq] at hl
    obtain ⟨hxy, hl'⟩ := hl
    have hx : x ≠ to_id := by
      intro h; subst h
      simp at hnd
    obtain ⟨f, rfl⟩ : ∃ f, fuel = f + 1 := ⟨fuel - 1, by simp at hf; omega⟩
    have hnd' : (y :: r ++ [to_id]).Nodup := by
      simp only [List.cons_append, List.nodup_cons] at hnd ⊢
      exact hnd.2
    have hxnot : x ∉ y :: r ++ [to_id] := by
      simp only [List.cons_append, List.nodup_cons] at hnd
      simpa using hnd.1
    obtain ⟨mem', moved', h1, h2, h3, h4, h5, h6⟩ :=
      ih y f (memmove mem (base + x * nbe) (base + id_at ids x * nbe) nbe)
        (moved.set (id_at ids x) true) (by simpa using hl') hnd' (by simp at hf ⊢; omega)
        (by
          intro z hz
          rw [length_memmove]
          exact hr z (List.mem_cons_of_mem _ hz))
    refine ⟨mem', moved', ?_, ?_, ?_, ?_, ?_, ?_⟩
    · rw [walk_backward, if_pos hx, hxy]
      rw [hxy] at h1
      exact h1
    · rw [h2, length_memmove]
    · rw [h3]; simp
    · intro z hz
      rcases List.mem_cons.1 hz with rfl | hz
      · -- the block at x was written first and is not touched afterwards
        have : slot nbe base mem' z =
            slot nbe base (memmove mem (base + z * nbe) (base + id_at ids z * nbe) nbe) z := by
          apply slot_congr
          intro b hb
          apply h5
          intro w hw
          have hzw : z ≠ w := by
            intro e
            apply hxnot
            rw [e]
            exact List.mem_append_left _ hw
          exact block_disjoint hzw hb base
        rw [this]
        exact slot_memmove_same (hr z (by simp))
      · rw [h4 z hz]
        -- the source of z was not overwritten by the first copy
        apply slot_memmove_other
        intro e
        apply hxnot
        rw [← e]
        have : id_at ids z ∈ (y :: r).map (id_at ids) := List.mem_map.2 ⟨z, hz, rfl⟩
        rw [List.map_cons, hl'] at this
        simp only [List.cons_append, List.mem_cons]
        right
        exact this
    · intro j hj
      rw [h5 j (fun w hw => hj w (List.mem_cons_of_mem _ hw))]
      exact peek_memmove_outside (hj x (by simp))
    · intro s
      rw [h6 s, getD_set_bool]
      simp only [List.length_set, List.map_cons, List.mem_cons]
      constructor
      · rintro (⟨h | h, hlt⟩ | ⟨h, hlt⟩ | h)
        · exact Or.inl ⟨Or.inr (Or.inl h), hlt⟩
        · exact Or.inl ⟨Or.inr (Or.inr h), hlt⟩
        · exact Or.inl ⟨Or.inl h, hlt⟩
        · exact Or.inr h
      · rintro (⟨h | h | h, hlt⟩ | h)
        · exact Or.inr (Or.inl ⟨h, hlt⟩)
        · exact Or.inl ⟨Or.inl h, hlt⟩
        · exact Or.inl ⟨Or.inr h, hlt⟩
        · exact Or.inr (Or.inr h)

/-! ## Helper lemmas on blocks and on the string loops -/

theorem foldl_range_succ {β : Type} (f : β → Nat → β) (a : β) (t : Nat) :
    (List.range (t + 1)).foldl f a = f ((List.range t).foldl f a) t := by
  simp [List.range_succ, List.foldl_append]

theorem read_block_add (mem : List Cell) (off a b : Nat) :
    read_block mem off (a + b) = read_block mem off a ++ read_block mem (off + a) b := by
  apply ext_peek (by simp [length_read_block])
  intro i hi
  rw [length_read_block] at hi
  rw [peek_read_block, if_pos hi]
  by_cases h : i < a
  · have e : peek (read_block mem off a ++ read_block mem (off + a) b) i =
        peek (read_block mem off a) i := by
      simp only [peek_eq_getElem?]
      rw [List.getElem?_append_left (by simp [length_read_block, h])]
    rw [e, peek_read_block, if_pos h]
  · have e : peek (read_block mem off a ++ read_block mem (off + a) b) i =
        peek (read_block mem (off + a) b) (i - a) := by
      simp only [peek_eq_getElem?]
      rw [List.getElem?_append_right (by simp [length_read_block]; omega)]
      simp [length_read_block]
    rw [e, peek_read_block, if_pos (by omega)]
    congr 1
    omega

theorem read_block_succ_mul (nbe base : Nat) (mem : List Cell) (t : Nat) :
    read_block mem base ((t + 1) * nbe) = read_block mem base (t * nbe) ++ slot nbe base mem t := by
  rw [Nat.add_mul, Nat.one_mul, read_block_add]
  rfl

theorem free_block_strings_eq (nbe : Nat) (mem : List Cell) (off : Nat) (heap : Heap) :
    free_block_strings nbe mem off heap = free_cells (read_block mem off nbe) heap := by
  unfold free_block_strings free_cells read_block
  rw [List.foldl_map]

theorem dup_cells_snoc_ptr (cells : List Cell) (p : Nat) (h : Heap) :
    dup_cells (cells ++ [Cell.string_data (some p)]) h =
      ((dup_cells cells h).1 ++ [Cell.string_data (some ((dup_cells cells h).2.strdup p).2)],
        ((dup_cells cells h).2.strdup p).1) := by
  induction cells generalizing h with
  | nil => simp [dup_cells]
  | cons a cs ih =>
    cases a with
    | string_data q => cases q <;> simp [dup_cells, ih]
    | _ => simp [dup_cells, ih]

theorem dup_cells_snoc_other (cells : List Cell) (c : Cell) (hc : ∀ p, c ≠ Cell.string_data (some p))
    (h : Heap) :
    dup_cells (cells ++ [c]) h = ((dup_cells cells h).1 ++ [c], (dup_cells cells h).2) := by
  induction cells generalizing h with
  | nil =>
    cases c with
    | string_data q =>
      cases q with
      | none => simp [dup_cells]
      | some q => exact absurd rfl (hc q)
    | _ => simp [dup_cells]
  | cons a cs ih =>
    cases a with
    | string_data q => cases q <;> simp [dup_cells, ih]
    | _ => simp [dup_cells, ih]

theorem length_dup_cells (cells : List Cell) (h : Heap) : (dup_cells cells h).1.length = cells.length := by
  induction cells generalizing h with
  | nil => simp [dup_cells]
  | cons a cs ih =>
    cases a with
    | string_data q => cases q <;> simp [dup_cells, ih]
    | _ => simp [dup_cells, ih]

theorem read_block_succ (mem : List Cell) (off k : Nat) :
    read_block mem off (k + 1) = read_block mem off k ++ [peek mem (off + k)] := by
  simp [read_block, List.range_succ]

theorem write_block_snoc (mem : List Cell) (off : Nat) (X : List Cell) (c : Cell) (k : Nat)
    (hX : X.length = k) :
    write_block mem off (X ++ [c]) (k + 1) = (write_block mem off X k).set (off + k) c := by
  apply ext_peek (by simp [length_write_block])
  intro i hi
  rw [length_write_block] at hi
  rw [peek_set, peek_write_block, peek_write_block, length_write_block]
  by_cases h1 : i = off + k
  · subst h1
    rw [if_pos ⟨by omega, by omega, hi⟩, if_pos ⟨rfl, hi⟩]
    simp [peek_eq_getElem?, hX]
  · have h1' : ¬ (i = off + k ∧ off + k < mem.length) := fun hc => h1 hc.1
    rw [if_neg h1']
    by_cases h2 : off ≤ i ∧ i < off + k
    · rw [if_pos ⟨h2.1, by omega, hi⟩, if_pos ⟨h2.1, h2.2, hi⟩]
      simp only [peek_eq_getElem?]
      rw [List.getElem?_append_left (by omega)]
    · rw [if_neg (by omega), if_neg (by omega)]

theorem write_block_nil (mem : List Cell) (off : Nat) : write_block mem off [] 0 = mem := by
  apply ext_peek (by simp [length_write_block])
  intro i hi
  rw [peek_write_block, if_neg (by omega)]

theorem set_peek_self (mem : List Cell) (j : Nat) : mem.set j (peek mem j) = mem := by
  apply ext_peek (by simp)
  intro i hi
  rw [peek_set]
  split
  · rename_i h; rw [h.1]
  · rfl

theorem dup_block_strings_eq (nbe off : Nat) (mem : List Cell) (h : Heap) (hr : off + nbe ≤ mem.length) :
    dup_block_strings nbe off (mem, h) =
      (write_block mem off (dup_cells (read_block mem off nbe) h).1 nbe,
        (dup_cells (read_block mem off nbe) h).2) := by
  induction nbe with
  | zero => simp [dup_block_strings, read_block, dup_cells, write_block_nil]
  | succ k ih =>
    have ih' := ih (by omega)
    unfold dup_block_strings at ih' ⊢
    rw [foldl_range_succ, ih']
    have hlen : (dup_cells (read_block mem off k) h).1.length = k := by
      rw [length_dup_cells, length_read_block]
    have hpk : peek (write_block mem off (dup_cells (read_block mem off k) h).1 k) (off + k) =
        peek mem (off + k) := peek_write_block_outside (by omega)
    simp only [hpk]
    rw [read_block_succ]
    cases hc : peek mem (off + k) with
    | string_data q =>
      cases q with
      | none =>
        rw [dup_cells_snoc_other _ _ (by simp)]
        simp only
        rw [write_block_snoc _ _ _ _ _ hlen, ← hc, ← hpk, set_peek_self]
      | some q =>
        rw [dup_cells_snoc_ptr]
        simp only
        rw [write_block_snoc _ _ _ _ _ hlen]
    | _ =>
      rw [dup_cells_snoc_other _ _ (by simp)]
      simp only
      rw [write_block_snoc _ _ _ _ _ hlen, ← hc, ← hpk, set_peek_self]

/-! ## The reordering loop of one group -/

theorem getD_bool_false_of_le {l : List Bool} {i : Nat} (h : l.length ≤ i) : l.getD i false = false := by
  simp [List.getD_eq_getElem?_getD, List.getElem?_eq_none h]

theorem read_block_prefix_congr {m1 m2 : List Cell} {base t nbe : Nat}
    (h : ∀ j, j < base + t * nbe → peek m1 j = peek m2 j) :
    read_block m1 base (t * nbe) = read_block m2 base (t * nbe) :=
  read_block_congr (fun i hi => h _ (by omega))

theorem read_block_prefix_write_block (m buf : List Cell) (base t nbe len : Nat) :
    read_block (write_block m (base + t * nbe) buf len) base (t * nbe) = read_block m base (t * nbe) := by
  apply read_block_prefix_congr
  intro j hj
  apply peek_write_block_outside
  omega

theorem read_block_prefix_memmove (m : List Cell) (base t nbe src len : Nat) :
    read_block (memmove m (base + t * nbe) src len) base (t * nbe) = read_block m base (t * nbe) := by
  apply read_block_prefix_congr
  intro j hj
  apply peek_memmove_outside
  omega

theorem place_block_inv {data_type : harp_data_type} {dim n nbe base : Nat} {ids : List Int}
    {mt : List (Option Nat)} {mem1 : List Cell} {heap1 : Heap} {t : Nat} {st : Reorder} {a : Away}
    (hmt : MoveTable dim n ids mt) (hids : ∀ d, d < n → id_at ids d < dim)
    (hroom : base + max n dim * nbe ≤ mem1.length) (ht : t < n)
    (hinv : ReorderInv data_type dim n nbe base ids mt mem1 heap1 t st)
    (ha : AwayInv dim n nbe base ids mt mem1 t st a) :
    ReorderInv data_type dim n nbe base ids mt mem1 heap1 (t + 1)
      (place_block data_type nbe base ids mt st.heap a t) := by
  have hfrom : id_at ids t < dim := hids t ht
  have htroom : base + t * nbe + nbe ≤ a.mem.length := by
    rw [ha.len_mem]
    have : (t + 1) * nbe ≤ max n dim * nbe := Nat.mul_le_mul_right nbe (by omega)
    rw [Nat.add_mul] at this
    omega
  have houtside_t : ∀ j, (j < base ∨ base + max n dim * nbe ≤ j) →
      ¬ (base + t * nbe ≤ j ∧ j < base + t * nbe + nbe) := by
    intro j hj
    have : (t + 1) * nbe ≤ max n dim * nbe := Nat.mul_le_mul_right nbe (by omega)
    rw [Nat.add_mul] at this
    omega
  have hplaced := hinv.placed
  obtain ⟨f, hf_le, hf⟩ := hmt.total t ht hfrom
  unfold place_block
  by_cases hcyc : a.is_cycle = true
  · -- the block comes from the temporary buffer
    rw [if_pos hcyc]
    obtain ⟨hfirst, hbuf⟩ := ha.cycle hcyc
    refine ⟨by simp [length_write_block, ha.len_mem], by simp [ha.len_moved], ?_, ?_, ?_, ?_, ?_⟩
    · intro j hj
      simp only
      rw [peek_write_block_outside (houtside_t j hj)]
      exact ha.outside j hj
    · intro s d hs hm
      simp only at hm ⊢
      have hm' : a.moved.getD s false = false ∧ s ≠ id_at ids t := by
        by_contra hc
        have : (a.moved.set (id_at ids t) true).getD s false = true := by
          rw [getD_set_bool]
          by_cases h1 : s = id_at ids t
          · left; exact ⟨h1, by rw [ha.len_moved, h1]; exact hfrom⟩
          · right
            cases hv : a.moved.getD s false with
            | true => rfl
            | false => exact absurd ⟨hv, h1⟩ hc
        rw [this] at hm
        exact Bool.noConfusion hm
      obtain ⟨h1, h2⟩ := ha.unmoved s d hs hm'.1 (fun _ => hm'.2)
      rw [slot_write_block_other h2]
      exact h1
    · intro s d hs hm
      simp only at hm ⊢
      rw [getD_set_bool] at hm
      by_cases h1 : s = id_at ids t
      · subst h1
        rw [hfirst] at hs
        have hd : d = t := by simpa using hs.symm
        subst hd
        rw [slot_write_block_same htroom (by rw [hbuf, length_slot]), hbuf]
      · have hm2 : a.moved.getD s false = true := by
          rcases hm with h | h
          · exact absurd h.1 h1
          · exact h
        have hdt : d ≠ t := by
          intro e
          subst e
          exact h1 (hmt.first s d hs).2.1.symm
        rw [slot_write_block_other hdt]
        exact ha.arrived s d hs hm2
    · intro d hd
      simp only
      rw [getD_set_bool]
      by_cases h1 : d = t
      · subst h1
        left; exact ⟨rfl, by rw [ha.len_moved]; exact hfrom⟩
      · right; exact ha.done d (by omega)
    · simp only
      rw [foldl_range_succ, hplaced, read_block_succ_mul]
      have hnd : ¬ (data_type = harp_data_type.harp_type_string ∧
          mt.getD (id_at ids t) none ≠ some t) := fun hc => hc.2 hfirst
      simp only [place_ref, if_neg hnd]
      rw [slot_write_block_same htroom (by rw [hbuf, length_slot]), hbuf]
      congr 1
      congr 1
      rw [← ha.pre, read_block_prefix_write_block]
  · rw [if_neg hcyc]
    have hnc : a.is_cycle = true → id_at ids t ≠ id_at ids t := fun h => absurd h hcyc
    by_cases hmv : a.moved.getD (id_at ids t) false = true
    · -- a duplicate of a block that has already been moved
      rw [if_pos hmv]
      have hft : f ≠ t := by
        intro e
        subst e
        have := ha.noskip hf
        rw [this] at hmv
        exact Bool.noConfusion hmv
      have hsrc : slot nbe base a.mem f = slot nbe base mem1 (id_at ids t) := ha.arrived _ _ hf hmv
      have hfget : (mt.getD (id_at ids t) none).getD 0 = f := by rw [hf]; rfl
      have hdup : mt.getD (id_at ids t) none ≠ some t := by
        rw [hf]
        intro e
        exact hft (by simpa using e)
      rw [hfget]
      -- the buffer after the copy of the block
      have hm2len : (memmove a.mem (base + t * nbe) (base + f * nbe) nbe).length = mem1.length := by
        rw [length_memmove, ha.len_mem]
      have hm2t : slot nbe base (memmove a.mem (base + t * nbe) (base + f * nbe) nbe) t =
          slot nbe base mem1 (id_at ids t) := by
        rw [slot_memmove_same htroom, hsrc]
      have hunm : ∀ s d, mt.getD s none = some d → a.moved.getD s false = false →
          slot nbe base (memmove a.mem (base + t * nbe) (base + f * nbe) nbe) s =
            slot nbe base mem1 s ∧ s ≠ t := by
        intro s d hs hm
        obtain ⟨h1, h2⟩ := ha.unmoved s d hs hm (fun h => absurd h hcyc)
        rw [slot_memmove_other _ h2]
        exact ⟨h1, h2⟩
      have harr : ∀ s d, mt.getD s none = some d → a.moved.getD s false = true →
          slot nbe base (memmove a.mem (base + t * nbe) (base + f * nbe) nbe) d =
            slot nbe base mem1 s ∧ d ≠ t := by
        intro s d hs hm
        have hdt : d ≠ t := by
          intro e
          subst e
          have e2 : id_at ids d = s := (hmt.first s d hs).2.1
          rw [← e2] at hs
          exact hdup hs
        rw [slot_memmove_other _ hdt]
        exact ⟨ha.arrived s d hs hm, hdt⟩
      have hpre : read_block (memmove a.mem (base + t * nbe) (base + f * nbe) nbe) base (t * nbe) =
          read_block st.mem base (t * nbe) := by
        rw [← ha.pre, read_block_prefix_memmove]
      have hdone : ∀ d, d < t + 1 → a.moved.getD (id_at ids d) false = true := by
        intro d hd
        by_cases h1 : d = t
        · subst h1; exact hmv
        · exact ha.done d (by omega)
      by_cases hstr : data_type = harp_data_type.harp_type_string
      · rw [if_pos hstr]
        rw [dup_block_strings_eq _ _ _ _ (by rw [length_memmove]; exact htroom)]
        simp only
        have hblk : read_block (memmove a.mem (base + t * nbe) (base + f * nbe) nbe) (base + t * nbe) nbe =
            slot nbe base mem1 (id_at ids t) := hm2t
        rw [hblk]
        have hdl : (dup_cells (slot nbe base mem1 (id_at ids t)) st.heap).1.length = nbe := by
          rw [length_dup_cells, length_slot]
        refine ⟨by simp [length_write_block, hm2len], ha.len_moved, ?_, ?_, ?_, hdone, ?_⟩
        · intro j hj
          simp only
          rw [peek_write_block_outside (houtside_t j hj), peek_memmove_outside (houtside_t j hj)]
          exact ha.outside j hj
        · intro s d hs hm
          simp only at hm ⊢
          obtain ⟨h1, h2⟩ := hunm s d hs hm
          rw [slot_write_block_other h2]
          exact h1
        · intro s d hs hm
          simp only at hm ⊢
          obtain ⟨h1, h2⟩ := harr s d hs hm
          rw [slot_write_block_other h2]
          exact h1
        · simp only
          rw [foldl_range_succ, hplaced, read_block_succ_mul]
          simp only [place_ref, if_pos (And.intro hstr hdup)]
          rw [slot_write_block_same (by rw [length_memmove]; exact htroom) hdl]
          congr 1
          congr 1
          rw [← hpre, read_block_prefix_write_block]
      · rw [if_neg hstr]
        refine ⟨hm2len, ha.len_moved, ?_, ?_, ?_, hdone, ?_⟩
        · intro j hj
          simp only
          rw [peek_memmove_outside (houtside_t j hj)]
          exact ha.outside j hj
        · intro s d hs hm
          exact (hunm s d hs hm).1
        · intro s d hs hm
          exact (harr s d hs hm).1
        · simp only
          rw [foldl_range_succ, hplaced, read_block_succ_mul]
          have hnd : ¬ (data_type = harp_data_type.harp_type_string ∧
              mt.getD (id_at ids t) none ≠ some t) := fun hc => hstr hc.1
          simp only [place_ref, if_neg hnd]
          rw [hm2t, hpre]
    · -- the first new position of the block
      rw [if_neg hmv]
      have hmv' : a.moved.getD (id_at ids t) false = false := by
        cases hv : a.moved.getD (id_at ids t) false with
        | true => exact absurd hv hmv
        | false => rfl
      have hft : f = t := by
        by_contra hne
        have hlt : f < t := by omega
        have := ha.done f hlt
        rw [(hmt.first _ _ hf).2.1, hmv'] at this
        exact Bool.noConfusion this
      subst hft
      obtain ⟨hsrc, hsrc_ne⟩ := ha.unmoved _ _ hf hmv' (fun h => absurd h hcyc)
      refine ⟨by simp [length_memmove, ha.len_mem], by simp [ha.len_moved], ?_, ?_, ?_, ?_, ?_⟩
      · intro j hj
        simp only
        rw [peek_memmove_outside (houtside_t j hj)]
        exact ha.outside j hj
      · intro s d hs hm
        simp only at hm ⊢
        have hm' : a.moved.getD s false = false := by
          cases hv : a.moved.getD s false with
          | false => rfl
          | true =>
            have : (a.moved.set (id_at ids f) true).getD s false = true := by
              rw [getD_set_bool]; right; exact hv
            rw [this] at hm
            exact Bool.noConfusion hm
        obtain ⟨h1, h2⟩ := ha.unmoved s d hs hm' (fun h => absurd h hcyc)
        rw [slot_memmove_other _ h2]
        exact h1
      · intro s d hs hm
        simp only at hm ⊢
        rw [getD_set_bool] at hm
        by_cases h1 : s = id_at ids f
        · subst h1
          rw [hf] at hs
          have hd : d = f := by simpa using hs.symm
          subst hd
          rw [slot_memmove_same htroom]
          exact hsrc
        · have hm2 : a.moved.getD s false = true := by
            rcases hm with h | h
            · exact absurd h.1 h1
            · exact h
          have hdt : d ≠ f := by
            intro e
            subst e
            exact h1 (hmt.first s d hs).2.1.symm
          rw [slot_memmove_other _ hdt]
          exact ha.arrived s d hs hm2
      · intro d hd
        simp only
        rw [getD_set_bool]
        by_cases h1 : d = f
        · subst h1
          left; exact ⟨rfl, by rw [ha.len_moved]; exact hfrom⟩
        · right; exact ha.done d (by omega)
      · simp only
        rw [foldl_range_succ, hplaced, read_block_succ_mul]
        have hnd : ¬ (data_type = harp_data_type.harp_type_string ∧
            mt.getD (id_at ids f) none ≠ some f) := fun hc => hc.2 hf
        simp only [place_ref, if_neg hnd]
        rw [slot_memmove_same htroom, hsrc]
        congr 1
        congr 1
        rw [← ha.pre, read_block_prefix_memmove]

theorem BackPath.head_not_mem {dim : Nat} {ids : List Int} {mt : List (Option Nat)} {moved : List Bool}
    {to_id x : Nat} {rest : List Nat} (h : BackPath dim ids mt moved to_id (x :: rest))
    (hx : x ≠ to_id) : (x :: rest ++ [to_id]).Nodup := by
  have hl := h.link
  have hnd := h.nodup
  simp only [List.map_cons, List.tail_cons] at hl hnd
  rw [List.cons_append, List.nodup_cons]
  refine ⟨?_, hnd⟩
  intro hmem
  rcases List.mem_append.1 hmem with hmem | hmem
  · rw [← hl] at hnd
    exact (List.nodup_cons.1 hnd).1 (List.mem_map.2 ⟨x, hmem, rfl⟩)
  · exact hx (by simpa using hmem)

theorem away_inv_of_free {data_type : harp_data_type} {dim n nbe base : Nat} {ids : List Int}
    {mt : List (Option Nat)} {mem1 : List Cell} {heap1 : Heap} {t : Nat} {st : Reorder}
    (hmt : MoveTable dim n ids mt)
    (hinv : ReorderInv data_type dim n nbe base ids mt mem1 heap1 t st)
    (hns : ¬ (mt.getD (id_at ids t) none = some t ∧ st.moved.getD (id_at ids t) false = true))
    (hfree : ∀ d, mt.getD t none = some d → ¬ (t < dim ∧ st.moved.getD t false = false)) :
    AwayInv dim n nbe base ids mt mem1 t st
      { is_cycle := false, buffer := [], mem := st.mem, moved := st.moved } := by
  refine ⟨hinv.len_mem, hinv.len_moved, hinv.outside, ?_, hinv.arrived, hinv.done, rfl, ?_, ?_⟩
  · intro s d hs hm _
    refine ⟨hinv.unmoved s d hs hm, ?_⟩
    intro e
    subst e
    exact hfree d hs ⟨(hmt.first s d hs).2.2.1, hm⟩
  · intro hf
    cases hv : st.moved.getD (id_at ids t) false with
    | false => rfl
    | true => exact absurd ⟨hf, hv⟩ hns
  · intro h
    exact Bool.noConfusion h

theorem move_away_spec {data_type : harp_data_type} {dim n nbe base : Nat} {ids : List Int}
    {mt : List (Option Nat)} {mem1 : List Cell} {heap1 : Heap} {t : Nat} {st : Reorder} {fuel : Nat}
    (hmt : MoveTable dim n ids mt) (hids : ∀ d, d < n → id_at ids d < dim)
    (hroom : base + max n dim * nbe ≤ mem1.length) (ht : t < n) (hfuel : dim < fuel)
    (hinv : ReorderInv data_type dim n nbe base ids mt mem1 heap1 t st)
    (hns : ¬ (mt.getD (id_at ids t) none = some t ∧ st.moved.getD (id_at ids t) false = true)) :
    ∃ a, move_away fuel dim nbe base ids mt st.mem st.moved t = .ok a ∧
      AwayInv dim n nbe base ids mt mem1 t st a := by
  have hfrom : id_at ids t < dim := hids t ht
  unfold move_away
  cases hk1 : mt.getD t none with
  | none =>
    exact ⟨_, rfl, away_inv_of_free hmt hinv hns (by intro d hd; rw [hk1] at hd; simp at hd)⟩
  | some k1 =>
    simp only
    by_cases hcond : t < dim ∧ st.moved.getD t false = false
    swap
    · rw [if_neg hcond]
      exact ⟨_, rfl, away_inv_of_free hmt hinv hns (fun _ _ => hcond)⟩
    rw [if_pos hcond]
    have hk1f := hmt.first t k1 hk1
    have hbp0 : BackPath dim ids mt st.moved t [k1] := by
      refine ⟨by simp [hk1f.2.1], ?_, by simp⟩
      intro x hx
      simp only [List.mem_singleton] at hx
      subst hx
      rw [hk1f.2.1]
      exact ⟨hk1, hcond.1, hcond.2⟩
    obtain ⟨L, hLne, hBP, hwf, hstop, hfix⟩ :=
      walk_forward_spec hmt st.moved t fuel k1 [] hbp0 (by simp) (by simp; omega)
    rw [hwf]
    simp only
    cases L with
    | nil => exact absurd rfl hLne
    | cons x rest =>
    simp only [List.headD_cons] at hstop hfix ⊢
    obtain ⟨fuel', rfl⟩ : ∃ f, fuel = f + 1 := ⟨fuel - 1, by omega⟩
    by_cases hxt : x = t
    · -- the block stays where it is
      have hL := hfix hxt
      simp only [List.cons.injEq] at hL
      obtain ⟨_, hrest⟩ := hL
      subst hxt hrest
      have hidx : id_at ids x = x := by
        have := hBP.link
        simpa using this
      have hmx : mt.getD x none = some x := by
        have := (hBP.entry x (by simp)).1
        rwa [hidx] at this
      rw [if_pos ⟨hcond.1, hmx⟩, if_neg (by rw [hidx]; simp)]
      rw [walk_backward, if_neg (by simp)]
      refine ⟨_, rfl, hinv.len_mem, hinv.len_moved, hinv.outside, ?_, hinv.arrived, hinv.done, rfl,
        ?_, ?_⟩
      · intro s d hs hm hne
        refine ⟨hinv.unmoved s d hs hm, ?_⟩
        have := hne rfl
        rwa [hidx] at this
      · intro _
        rw [hidx]; exact hcond.2
      · intro _
        rw [hidx]
        exact ⟨hmx, (hinv.unmoved x x hmx hcond.2).symm ▸ rfl⟩
    · -- the blocks on the path move one step
      have hnd := hBP.head_not_mem hxt
      have hlt_n : ∀ y, y ∈ x :: rest → y < n := fun y hy =>
        (hmt.first _ _ (hBP.entry y hy).1).1
      have hyroom : ∀ y, y ∈ x :: rest → base + y * nbe + nbe ≤ st.mem.length := by
        intro y hy
        rw [hinv.len_mem]
        have h1 := hlt_n y hy
        have : (y + 1) * nbe ≤ max n dim * nbe := Nat.mul_le_mul_right nbe (by omega)
        rw [Nat.add_mul] at this
        omega
      have hlen := hBP.length_le (by simp)
      obtain ⟨mem', moved', hwb, h2, h3, h4, h5, h6⟩ :=
        walk_backward_spec nbe base ids t rest x (fuel' + 1) st.mem st.moved hBP.link hnd
          (by simp only [List.length_cons] at hlen; omega) hyroom
      rw [hwb]
      simp only
      -- the array `moved` after the walk
      have hmoved : ∀ s, moved'.getD s false = true ↔
          s ∈ (x :: rest).map (id_at ids) ∨ st.moved.getD s false = true := by
        intro s
        rw [h6 s]
        constructor
        · rintro (⟨h, _⟩ | h)
          · exact Or.inl h
          · exact Or.inr h
        · rintro (h | h)
          · left
            refine ⟨h, ?_⟩
            obtain ⟨y, hy, rfl⟩ := List.mem_map.1 h
            rw [hinv.len_moved]
            exact (hBP.entry y hy).2.1
          · exact Or.inr h
      have hmoved_false : ∀ s, moved'.getD s false = false → st.moved.getD s false = false ∧
          s ∉ (x :: rest).map (id_at ids) := by
        intro s hs
        constructor
        · cases hv : st.moved.getD s false with
          | false => rfl
          | true =>
            rw [(hmoved s).2 (Or.inr hv)] at hs
            exact Bool.noConfusion hs
        · intro hmem
          rw [(hmoved s).2 (Or.inl hmem)] at hs
          exact Bool.noConfusion hs
      -- blocks that are not on the path are left alone
      have hkeep : ∀ s, s ∉ x :: rest → slot nbe base mem' s = slot nbe base st.mem s := by
        intro s hs
        apply slot_congr
        intro b hb
        apply h5
        intro y hy
        have hsy : s ≠ y := by
          intro e
          rw [e] at hs
          exact hs hy
        exact block_disjoint hsy hb base
      have hge : ∀ y, y ∈ x :: rest → t ≤ y := by
        intro y hy
        by_contra hlt
        have := hinv.done y (by omega)
        rw [(hBP.entry y hy).2.2] at this
        exact Bool.noConfusion this
      have hpeek_out : ∀ j, (j < base + t * nbe ∨ base + max n dim * nbe ≤ j) → peek mem' j = peek st.mem j := by
        intro j hj
        apply h5
        intro y hy
        have h1 := hlt_n y hy
        have h2 := hge y hy
        have h3 : (y + 1) * nbe ≤ max n dim * nbe := Nat.mul_le_mul_right nbe (by omega)
        have h4 : t * nbe ≤ y * nbe := Nat.mul_le_mul_right nbe h2
        rw [Nat.add_mul] at h3
        omega
      have harr : ∀ s d, mt.getD s none = some d → moved'.getD s false = true →
          slot nbe base mem' d = slot nbe base mem1 s := by
        intro s d hs hm
        by_cases hmem : s ∈ (x :: rest).map (id_at ids)
        · obtain ⟨y, hy, rfl⟩ := List.mem_map.1 hmem
          have hey := hBP.entry y hy
          rw [hey.1] at hs
          have hd : d = y := by simpa using hs.symm
          subst hd
          rw [h4 d hy]
          exact hinv.unmoved _ _ hey.1 hey.2.2
        · have hm0 : st.moved.getD s false = true := by
            rcases (hmoved s).1 hm with h | h
            · exact absurd h hmem
            · exact h
          have hd : d ∉ x :: rest := by
            intro hd
            have hey := hBP.entry d hd
            rw [(hmt.first s d hs).2.1, hm0] at hey
            exact Bool.noConfusion hey.2.2
          rw [hkeep d hd]
          exact hinv.arrived s d hs hm0
      have hdone : ∀ d, d < t → moved'.getD (id_at ids d) false = true := fun d hd =>
        (hmoved _).2 (Or.inr (hinv.done d hd))
      have hpre : read_block mem' base (t * nbe) = read_block st.mem base (t * nbe) :=
        read_block_prefix_congr (fun j hj => hpeek_out j (Or.inl hj))
      have hout : ∀ j, (j < base ∨ base + max n dim * nbe ≤ j) → peek mem' j = peek mem1 j := by
        intro j hj
        rw [hpeek_out j (by omega)]
        exact hinv.outside j hj
      have hmap : (x :: rest).map (id_at ids) = rest ++ [t] := hBP.link
      have ht_moved : moved'.getD t false = true :=
        (hmoved t).2 (Or.inl (by rw [hmap]; simp))
      have hunm : ∀ s d, mt.getD s none = some d → moved'.getD s false = false → s ≠ x →
          slot nbe base mem' s = slot nbe base mem1 s ∧ s ≠ t := by
        intro s d hs hm hsx
        obtain ⟨hm0, hnot⟩ := hmoved_false s hm
        have hs_notin : s ∉ x :: rest := by
          intro hmem
          rcases List.mem_cons.1 hmem with h | h
          · exact hsx h
          · apply hnot
            rw [hmap]
            exact List.mem_append_left _ h
        refine ⟨by rw [hkeep s hs_notin]; exact hinv.unmoved s d hs hm0, ?_⟩
        intro e
        rw [e, ht_moved] at hm
        exact Bool.noConfusion hm
      have hnoskip : mt.getD (id_at ids t) none = some t → moved'.getD (id_at ids t) false = false := by
        intro hf
        cases hv : moved'.getD (id_at ids t) false with
        | false => rfl
        | true =>
          exfalso
          rcases (hmoved _).1 hv with h | h
          · obtain ⟨y, hy, hye⟩ := List.mem_map.1 h
            have hey := (hBP.entry y hy).1
            rw [hye, hf] at hey
            have : y = t := by simpa using hey.symm
            subst this
            have := List.nodup_cons.1 (List.nodup_append_comm.1 hnd)
            simp only [List.nil_append] at this
            exact this.1 hy
          · exact hns ⟨hf, h⟩
      by_cases hcyc : x < dim ∧ mt.getD x none = some t
      · rw [if_pos hcyc]
        have hxfrom : x = id_at ids t := (hmt.first x t hcyc.2).2.1.symm
        rw [if_neg (by simp [hxfrom])]
        refine ⟨_, rfl, by rw [h2]; exact hinv.len_mem, by rw [h3]; exact hinv.len_moved, hout, ?_,
          harr, hdone, hpre, hnoskip, ?_⟩
        · intro s d hs hm hne
          exact hunm s d hs hm (by rw [hxfrom]; exact hne rfl)
        · intro _
          rw [← hxfrom]
          refine ⟨hcyc.2, ?_⟩
          have hx0 : st.moved.getD x false = false := by
            cases hv : st.moved.getD x false with
            | false => rfl
            | true => exact absurd ⟨by rw [← hxfrom]; exact hcyc.2, by rw [← hxfrom]; exact hv⟩ hns
          exact (hinv.unmoved x t hcyc.2 hx0).symm ▸ rfl
      · rw [if_neg hcyc]
        refine ⟨_, rfl, by rw [h2]; exact hinv.len_mem, by rw [h3]; exact hinv.len_moved, hout, ?_,
          harr, hdone, hpre, hnoskip, ?_⟩
        · intro s d hs hm _
          apply hunm s d hs hm
          intro e
          subst e
          obtain ⟨hm0, _⟩ := hmoved_false s hm
          have hsd := (hmt.first s d hs).2.2.1
          by_cases hdt : d = t
          · subst hdt
            exact hcyc ⟨hsd, hs⟩
          · exact hstop ⟨d, hs, hsd, hm0, hdt⟩
        · intro h
          exact Bool.noConfusion h

theorem reorder_step_inv {data_type : harp_data_type} {dim n nbe base : Nat} {ids : List Int}
    {mt : List (Option Nat)} {mem1 : List Cell} {heap1 : Heap} {t : Nat} {st : Reorder} {fuel : Nat}
    (hmt : MoveTable dim n ids mt) (hids : ∀ d, d < n → id_at ids d < dim)
    (hroom : base + max n dim * nbe ≤ mem1.length) (ht : t < n) (hfuel : dim < fuel)
    (hinv : ReorderInv data_type dim n nbe base ids mt mem1 heap1 t st) :
    ∃ st', reorder_step fuel data_type dim nbe base ids mt st t = .ok st' ∧
      ReorderInv data_type dim n nbe base ids mt mem1 heap1 (t + 1) st' := by
  unfold reorder_step
  by_cases hskip : mt.getD (id_at ids t) none = some t ∧ st.moved.getD (id_at ids t) false = true
  · rw [if_pos hskip]
    refine ⟨st, rfl, hinv.len_mem, hinv.len_moved, hinv.outside, hinv.unmoved, hinv.arrived, ?_, ?_⟩
    · intro d hd
      by_cases h1 : d = t
      · subst h1; exact hskip.2
      · exact hinv.done d (by omega)
    · rw [foldl_range_succ, hinv.placed, read_block_succ_mul]
      have hnd : ¬ (data_type = harp_data_type.harp_type_string ∧
          mt.getD (id_at ids t) none ≠ some t) := fun hc => hc.2 hskip.1
      simp only [place_ref, if_neg hnd]
      rw [hinv.arrived _ _ hskip.1 hskip.2]
  · rw [if_neg hskip]
    obtain ⟨a, ha1, ha2⟩ := move_away_spec hmt hids hroom ht hfuel hinv hskip
    rw [ha1]
    exact ⟨_, rfl, place_block_inv hmt hids hroom ht hinv ha2⟩

theorem foldlM_range_succ {β : Type} (f : β → Nat → Except Stuck β) (a : β) (t : Nat) :
    (List.range (t + 1)).foldlM f a =
      (match (List.range t).foldlM f a with
        | .ok b => f b t
        | .error e => .error e) := by
  rw [List.range_succ, List.foldlM_append]
  cases h : (List.range t).foldlM f a with
  | ok b =>
    simp only [bind, Except.bind, pure, Except.pure, List.foldlM_cons, List.foldlM_nil]
    cases f b t <;> rfl
  | error e => simp [bind, Except.bind]

theorem reorder_loop_inv (data_type : harp_data_type) {dim n nbe base : Nat} {ids : List Int}
    {mt : List (Option Nat)} {mem1 : List Cell} (heap1 : Heap) {fuel : Nat}
    (hmt : MoveTable dim n ids mt) (hids : ∀ d, d < n → id_at ids d < dim)
    (hroom : base + max n dim * nbe ≤ mem1.length) (hfuel : dim < fuel) :
    ∀ t, t ≤ n → ∃ st', (List.range t).foldlM (reorder_step fuel data_type dim nbe base ids mt)
        ({ mem := mem1, heap := heap1, moved := List.replicate dim false } : Reorder) = .ok st' ∧
      ReorderInv data_type dim n nbe base ids mt mem1 heap1 t st' := by
  intro t
  induction t with
  | zero =>
    intro _
    refine ⟨_, rfl, rfl, by simp, fun _ _ => rfl, fun _ _ _ _ => rfl, ?_, ?_, ?_⟩
    · intro s d _ hm
      simp only [List.getD_eq_getElem?_getD, List.getElem?_replicate] at hm
      split at hm <;> simp at hm
    · intro d hd
      omega
    · simp [read_block]
  | succ t ih =>
    intro ht
    obtain ⟨st, h1, h2⟩ := ih (by omega)
    obtain ⟨st', h3, h4⟩ := reorder_step_inv hmt hids hroom (by omega) hfuel h2
    refine ⟨st', ?_, h4⟩
    rw [foldlM_range_succ, h1]
    exact h3

/-- One group of `harp_variable_rearrange_dimension` agrees with its out of
place counterpart: the new cells of the group are those of
`rearrange_group_ref`, computed from the old cells of the group, and nothing
outside the old and the new extent of the group changes. -/
theorem rearrange_group_spec (data_type : harp_data_type) {dim n nbe : Nat} {ids : List Int}
    {fuel : Nat} (hids : ∀ d, d < n → id_at ids d < dim) (hfuel : dim < fuel)
    (mem : List Cell) (heap : Heap) (i : Nat)
    (hroom : i * n * nbe + max n dim * nbe ≤ mem.length) :
    ∃ mem' heap', rearrange_group fuel data_type dim n nbe ids (build_move_to_id dim n ids)
        (mem, heap) i = .ok (mem', heap') ∧
      mem'.length = mem.length ∧
      (read_block mem' (i * n * nbe) (n * nbe), heap') =
        rearrange_group_ref data_type dim n nbe ids (build_move_to_id dim n ids)
          (read_block mem (i * dim * nbe) (dim * nbe)) heap ∧
      ∀ j, (j < i * n * nbe ∨ i * n * nbe + max n dim * nbe ≤ j) → peek mem' j = peek mem j := by
  have hmt := build_move_to_id_table dim n ids
  generalize hmtdef : build_move_to_id dim n ids = mt at hmt ⊢
  -- the buffer after the move of the group
  obtain ⟨mem1, hmem1, hlen1, hslot1, hout1⟩ : ∃ mem1,
      (if i * n * nbe ≠ i * dim * nbe then memmove mem (i * n * nbe) (i * dim * nbe) (dim * nbe)
        else mem) = mem1 ∧ mem1.length = mem.length ∧
      (∀ s, s < dim → slot nbe (i * n * nbe) mem1 s =
        read_block (read_block mem (i * dim * nbe) (dim * nbe)) (s * nbe) nbe) ∧
      (∀ j, (j < i * n * nbe ∨ i * n * nbe + max n dim * nbe ≤ j) → peek mem1 j = peek mem j) := by
    refine ⟨_, rfl, ?_, ?_, ?_⟩
    · split <;> simp [length_memmove]
    · intro s hs
      apply read_block_congr
      intro b hb
      have hin := block_in_range hs hb
      rw [peek_read_block, if_pos hin]
      split
      · rw [peek_memmove]
        have hmx : dim * nbe ≤ max n dim * nbe := Nat.mul_le_mul_right nbe (by omega)
        rw [if_pos ⟨by omega, by omega, by omega⟩]
        congr 1
        omega
      · rename_i he
        have he' : i * n * nbe = i * dim * nbe := by
          by_contra hc; exact he hc
        rw [he']
        congr 1
        omega
    · intro j hj
      split
      · apply peek_memmove_outside
        have hmx : dim * nbe ≤ max n dim * nbe := Nat.mul_le_mul_right nbe (by omega)
        omega
      · rfl
  unfold rearrange_group
  simp only
  rw [hmem1]
  -- the heap after the strings of the dropped blocks are freed
  have hheap1 : (if data_type = harp_data_type.harp_type_string then
        (List.range dim).foldl
          (fun h j =>
            if mt.getD j none = none then
              free_block_strings nbe mem1 (i * n * nbe + j * nbe) h
            else h)
          heap
      else heap) =
      discard_ref data_type dim mt
        (fun s => read_block (read_block mem (i * dim * nbe) (dim * nbe)) (s * nbe) nbe) heap := by
    unfold discard_ref
    split
    · apply List.foldl_ext
      intro h j hj
      rw [List.mem_range] at hj
      have hsl := hslot1 j hj
      unfold slot at hsl
      rw [free_block_strings_eq, hsl]
    · rfl
  rw [hheap1]
  obtain ⟨st', h1, h2⟩ := reorder_loop_inv data_type (discard_ref data_type dim mt
      (fun s => read_block (read_block mem (i * dim * nbe) (dim * nbe)) (s * nbe) nbe) heap)
    hmt hids (by rw [hlen1]; exact hroom) hfuel n (Nat.le_refl n)
  rw [h1]
  refine ⟨st'.mem, st'.heap, rfl, by rw [h2.len_mem, hlen1], ?_, ?_⟩
  · rw [← h2.placed]
    unfold rearrange_group_ref
    apply List.foldl_ext
    intro acc d hd
    rw [List.mem_range] at hd
    simp only [place_ref, hslot1 _ (hids d hd)]
  · intro j hj
    rw [h2.outside j hj]
    exact hout1 j hj

/-! ## Sweeps over the groups -/

theorem foldlM_ok_eq_foldl {β : Type} (f : β → Nat → β) (l : List Nat) (a : β) :
    l.foldlM (fun s i => (Except.ok (f s i) : Except Stuck β)) a = .ok (l.foldl f a) := by
  induction l generalizing a with
  | nil => rfl
  | cons x xs ih =>
    simp only [List.foldlM_cons, List.foldl_cons, bind, Except.bind]
    exact ih _

theorem read_block_zero_len (mem : List Cell) (off : Nat) : read_block mem off 0 = [] := by
  simp [read_block]

theorem sweep_fwd_succ (F : List Cell → Heap → List Cell × Heap) (a : Nat) (old : List Cell) (G : Nat)
    (h : Heap) :
    sweep_fwd F a old (G + 1) h =
      ((sweep_fwd F a old G h).1 ++ (F (read_block old (G * a) a) (sweep_fwd F a old G h).2).1,
        (F (read_block old (G * a) a) (sweep_fwd F a old G h).2).2) := by
  simp only [sweep_fwd, foldl_range_succ]

/-- A sweep in increasing order over groups that do not grow. -/
theorem sweep_fwd_spec {step : List Cell × Heap → Nat → Except Stuck (List Cell × Heap)}
    {F : List Cell → Heap → List Cell × Heap} {a c : Nat} (hstep : LocalSpec step F a c)
    (hca : c ≤ a) (mem : List Cell) (heap : Heap) (G : Nat) (hroom : G * a ≤ mem.length) :
    ∃ mem' heap', (List.range G).foldlM step (mem, heap) = .ok (mem', heap') ∧
      mem'.length = mem.length ∧
      (read_block mem' 0 (G * c), heap') = sweep_fwd F a mem G heap ∧
      ∀ j, G * a ≤ j → peek mem' j = peek mem j := by
  induction G with
  | zero =>
    refine ⟨mem, heap, rfl, rfl, ?_, fun _ _ => rfl⟩
    simp [sweep_fwd, read_block_zero_len]
  | succ G ih =>
    have hGa : (G + 1) * a = G * a + a := by rw [Nat.add_mul, Nat.one_mul]
    have hGc : (G + 1) * c = G * c + c := by rw [Nat.add_mul, Nat.one_mul]
    have hle : G * c ≤ G * a := Nat.mul_le_mul_left G hca
    obtain ⟨m1, h1, e1, l1, s1, k1⟩ := ih (by omega)
    have hmax : max c a = a := by omega
    obtain ⟨m2, h2, e2, l2, s2, k2⟩ := hstep m1 h1 G (by rw [hmax, l1]; omega)
    refine ⟨m2, h2, ?_, by rw [l2, l1], ?_, ?_⟩
    · rw [foldlM_range_succ, e1]
      exact e2
    · rw [sweep_fwd_succ, ← s1]
      simp only
      have hold : read_block m1 (G * a) a = read_block mem (G * a) a :=
        read_block_congr (fun i _ => k1 _ (by omega))
      rw [← hold, ← s2, hGc, read_block_add]
      simp only [Nat.zero_add]
      congr 2
      exact read_block_congr (fun i hi => k2 _ (Or.inl (by omega)))
    · intro j hj
      rw [k2 j (Or.inr (by rw [hmax]; omega))]
      exact k1 j (by omega)

theorem sweep_bwd_congr (F : List Cell → Heap → List Cell × Heap) (a : Nat) (m1 m2 : List Cell) :
    ∀ (G : Nat) (h : Heap), (∀ j, j < G * a → peek m1 j = peek m2 j) →
      sweep_bwd F a m1 G h = sweep_bwd F a m2 G h := by
  intro G
  induction G with
  | zero => intro h _; rfl
  | succ G ih =>
    intro h hj
    have hGa : (G + 1) * a = G * a + a := by rw [Nat.add_mul, Nat.one_mul]
    have hb : read_block m1 (G * a) a = read_block m2 (G * a) a :=
      read_block_congr (fun i hi => hj _ (by omega))
    simp only [sweep_bwd, hb]
    rw [ih _ (fun j hlt => hj j (by omega))]

/-- A sweep in decreasing order over groups that do not shrink. -/
theorem sweep_bwd_spec {step : List Cell × Heap → Nat → Except Stuck (List Cell × Heap)}
    {F : List Cell → Heap → List Cell × Heap} {a c : Nat} (hstep : LocalSpec step F a c)
    (hac : a ≤ c) :
    ∀ (G : Nat) (mem : List Cell) (heap : Heap), G * c ≤ mem.length →
      ∃ mem' heap', (List.range G).reverse.foldlM step (mem, heap) = .ok (mem', heap') ∧
        mem'.length = mem.length ∧
        (read_block mem' 0 (G * c), heap') = sweep_bwd F a mem G heap ∧
        ∀ j, G * c ≤ j → peek mem' j = peek mem j := by
  intro G
  induction G with
  | zero =>
    intro mem heap _
    refine ⟨mem, heap, rfl, rfl, ?_, fun _ _ => rfl⟩
    simp [sweep_bwd, read_block_zero_len]
  | succ G ih =>
    intro mem heap hroom
    have hGa : (G + 1) * a = G * a + a := by rw [Nat.add_mul, Nat.one_mul]
    have hGc : (G + 1) * c = G * c + c := by rw [Nat.add_mul, Nat.one_mul]
    have hle : G * a ≤ G * c := Nat.mul_le_mul_left G hac
    have hmax : max c a = c := by omega
    obtain ⟨m1, h1, e1, l1, s1, k1⟩ := hstep mem heap G (by rw [hmax]; omega)
    obtain ⟨m2, h2, e2, l2, s2, k2⟩ := ih m1 h1 (by rw [l1]; omega)
    refine ⟨m2, h2, ?_, by rw [l2, l1], ?_, ?_⟩
    · rw [List.range_succ, List.reverse_append, List.reverse_singleton, List.singleton_append,
        List.foldlM_cons]
      simp only [bind, Except.bind, e1]
      exact e2
    · have hs1 : read_block m1 (G * c) c = (F (read_block mem (G * a) a) heap).1 :=
        congrArg Prod.fst s1
      have hh1 : h1 = (F (read_block mem (G * a) a) heap).2 := congrArg Prod.snd s1
      have hs2 : read_block m2 0 (G * c) = (sweep_bwd F a m1 G h1).1 := congrArg Prod.fst s2
      have hh2 : h2 = (sweep_bwd F a m1 G h1).2 := congrArg Prod.snd s2
      have hcg : sweep_bwd F a m1 G h1 = sweep_bwd F a mem G h1 :=
        sweep_bwd_congr F a m1 mem G h1 (fun j hj => k1 j (Or.inl (by omega)))
      simp only [sweep_bwd]
      rw [← hh1, ← hcg, ← hs2, ← hh2, ← hs1, hGc, read_block_add]
      simp only [Nat.zero_add]
      congr 2
      exact read_block_congr (fun i hi => k2 _ (by omega))
    · intro j hj
      rw [k2 j (by omega)]
      exact k1 j (Or.inr (by rw [hmax]; omega))

theorem max_mul_right (n dim nbe : Nat) : max n dim * nbe = max (n * nbe) (dim * nbe) := by
  rcases Nat.le_total n dim with h | h
  · have := Nat.mul_le_mul_right nbe h
    rw [Nat.max_eq_right h, Nat.max_eq_right this]
  · have := Nat.mul_le_mul_right nbe h
    rw [Nat.max_eq_left h, Nat.max_eq_left this]

theorem rearrange_group_local (data_type : harp_data_type) {dim n nbe : Nat} {ids : List Int}
    {fuel : Nat} (hids : ∀ d, d < n → id_at ids d < dim) (hfuel : dim < fuel) :
    LocalSpec (rearrange_group fuel data_type dim n nbe ids (build_move_to_id dim n ids))
      (rearrange_group_ref data_type dim n nbe ids (build_move_to_id dim n ids))
      (dim * nbe) (n * nbe) := by
  intro mem heap i hroom
  rw [← max_mul_right, ← Nat.mul_assoc] at hroom
  obtain ⟨mem', heap', h1, h2, h3, h4⟩ :=
    rearrange_group_spec data_type hids hfuel mem heap i hroom
  refine ⟨mem', heap', h1, h2, ?_, ?_⟩
  · rw [← Nat.mul_assoc, ← Nat.mul_assoc]
    exact h3
  · intro j hj
    rw [← max_mul_right, ← Nat.mul_assoc] at hj
    exact h4 j hj

theorem sweep_fwd_congr (F : List Cell → Heap → List Cell × Heap) (a : Nat) (m1 m2 : List Cell)
    (G : Nat) (h : Heap) (hj : ∀ j, j < G * a → peek m1 j = peek m2 j) :
    sweep_fwd F a m1 G h = sweep_fwd F a m2 G h := by
  unfold sweep_fwd
  apply List.foldl_ext
  intro acc g hg
  rw [List.mem_range] at hg
  have hb : read_block m1 (g * a) a = read_block m2 (g * a) a := by
    apply read_block_congr
    intro i hi
    apply hj
    have : (g + 1) * a ≤ G * a := Nat.mul_le_mul_right a hg
    rw [Nat.add_mul] at this
    omega
  rw [hb]

/-- The loop over the groups of `harp_variable_rearrange_dimension` returns
and agrees with the out of place sweep, backwards when the groups grow and
forwards when they do not. -/
theorem rearrange_groups_spec (data_type : harp_data_type) {dim n nbe : Nat} {ids : List Int}
    {fuel : Nat} (hids : ∀ d, d < n → id_at ids d < dim) (hfuel : dim < fuel)
    (mem : List Cell) (heap : Heap) (G : Nat) (grow : Bool)
    (hgrow : grow = true → dim * nbe ≤ n * nbe ∧ G * (n * nbe) ≤ mem.length)
    (hshrink : grow = false → n * nbe ≤ dim * nbe ∧ G * (dim * nbe) ≤ mem.length) :
    ∃ mem' heap',
      (if grow = true then (List.range G).reverse else List.range G).foldlM
          (rearrange_group fuel data_type dim n nbe ids (build_move_to_id dim n ids)) (mem, heap) =
        .ok (mem', heap') ∧
      mem'.length = mem.length ∧
      (read_block mem' 0 (G * (n * nbe)), heap') =
        (if grow = true then
          sweep_bwd (rearrange_group_ref data_type dim n nbe ids (build_move_to_id dim n ids))
            (dim * nbe) mem G heap
        else
          sweep_fwd (rearrange_group_ref data_type dim n nbe ids (build_move_to_id dim n ids))
            (dim * nbe) mem G heap) := by
  cases grow with
  | true =>
    obtain ⟨h1, h2⟩ := hgrow rfl
    obtain ⟨mem', heap', e1, e2, e3, _⟩ :=
      sweep_bwd_spec (rearrange_group_local data_type hids hfuel) h1 G mem heap h2
    exact ⟨mem', heap', by simpa using e1, e2, by simpa using e3⟩
  | false =>
    obtain ⟨h1, h2⟩ := hshrink rfl
    obtain ⟨mem', heap', e1, e2, e3, _⟩ :=
      sweep_fwd_spec (rearrange_group_local data_type hids hfuel) h1 mem heap G h2
    exact ⟨mem', heap', by simpa using e1, e2, by simpa using e3⟩

/-! ## harp_variable_filter_dimension: the loop over the groups -/

theorem mask_count_succ (mask : List Nat) (k : Nat) :
    mask_count mask (k + 1) = mask_count mask k + (if mask.getD k 0 ≠ 0 then 1 else 0) := by
  unfold mask_count
  rw [List.range_succ, List.filter_append, List.length_append]
  congr 1
  by_cases h : mask.getD k 0 ≠ 0
  · rw [List.filter_cons_of_pos (by simpa using h), if_pos h]
    rfl
  · rw [List.filter_cons_of_neg (by simpa using h), if_neg h]
    rfl

theorem mask_count_le (mask : List Nat) (k : Nat) : mask_count mask k ≤ k := by
  unfold mask_count
  have := List.length_filter_le (fun i => decide (mask.getD i 0 ≠ 0)) (List.range k)
  simpa using this

theorem mask_count_mono (mask : List Nat) {k l : Nat} (h : k ≤ l) : mask_count mask k ≤ mask_count mask l := by
  induction l with
  | zero =>
    have : k = 0 := by omega
    subst this
    exact Nat.le_refl _
  | succ l ih =>
    by_cases hk : k = l + 1
    · subst hk; exact Nat.le_refl _
    · have := ih (by omega)
      rw [mask_count_succ]
      omega

/-- The inner loop of `filter_group` on a group whose old blocks start at `fb`
and whose new blocks start at `tb`. -/
theorem filter_inner_spec (data_type : harp_data_type) (dim nbe : Nat) (mask : List Nat)
    (mem : List Cell) (heap : Heap) (tb fb : Nat) (htf : tb ≤ fb)
    (hroom : tb + mask_count mask dim * nbe ≤ mem.length) :
    ∀ f, f ≤ dim →
      ∃ m h', (List.range f).foldl
          (fun (s : (List Cell × Heap) × Nat) from_id =>
            if mask.getD from_id 0 ≠ 0 then
              ((if tb + s.2 * nbe ≠ fb + from_id * nbe then
                  memmove s.1.1 (tb + s.2 * nbe) (fb + from_id * nbe) nbe
                else s.1.1, s.1.2), s.2 + 1)
            else
              ((s.1.1,
                if data_type = harp_data_type.harp_type_string then
                  free_block_strings nbe s.1.1 (fb + from_id * nbe) s.1.2
                else s.1.2), s.2))
          ((mem, heap), 0) = ((m, h'), mask_count mask f) ∧
        m.length = mem.length ∧
        (read_block m tb (mask_count mask f * nbe), h') =
          (List.range f).foldl
            (fun acc j =>
              if mask.getD j 0 ≠ 0 then
                (acc.1 ++ read_block (read_block mem fb (dim * nbe)) (j * nbe) nbe, acc.2)
              else
                (acc.1,
                  if data_type = harp_data_type.harp_type_string then
                    free_cells (read_block (read_block mem fb (dim * nbe)) (j * nbe) nbe) acc.2
                  else acc.2))
            ([], heap) ∧
        ∀ j, (j < tb ∨ tb + mask_count mask f * nbe ≤ j) → peek m j = peek mem j := by
  intro f
  induction f with
  | zero =>
    intro _
    refine ⟨mem, heap, rfl, rfl, ?_, fun _ _ => rfl⟩
    simp [mask_count, read_block_zero_len]
  | succ f ih =>
    intro hf
    obtain ⟨m, h', e1, e2, e3, e4⟩ := ih (by omega)
    have hcf : mask_count mask f ≤ f := mask_count_le mask f
    have hcf' : mask_count mask f * nbe ≤ f * nbe := Nat.mul_le_mul_right nbe hcf
    have hfd : (f + 1) * nbe ≤ dim * nbe := Nat.mul_le_mul_right nbe hf
    rw [Nat.add_mul, Nat.one_mul] at hfd
    -- the block at `f` is still the old one
    have hsrc : read_block m (fb + f * nbe) nbe =
        read_block (read_block mem fb (dim * nbe)) (f * nbe) nbe := by
      apply read_block_congr
      intro b hb
      rw [peek_read_block, if_pos (by omega), e4 _ (Or.inr (by omega))]
      congr 1
      omega
    rw [foldl_range_succ, foldl_range_succ, e1, ← e3, mask_count_succ]
    by_cases hk : mask.getD f 0 ≠ 0
    · simp only [hk, ne_eq, not_false_eq_true, if_true]
      have hcnt : mask_count mask f + 1 ≤ mask_count mask dim := by
        have := mask_count_mono mask hf
        rw [mask_count_succ, if_pos hk] at this
        exact this
      have hcnt' : (mask_count mask f + 1) * nbe ≤ mask_count mask dim * nbe :=
        Nat.mul_le_mul_right nbe hcnt
      rw [Nat.add_mul, Nat.one_mul] at hcnt'
      refine ⟨_, h', rfl, ?_, ?_, ?_⟩
      · split <;> simp [length_memmove, e2]
      · rw [Nat.add_mul, Nat.one_mul, read_block_add, ← hsrc]
        congr 1
        congr 1
        · apply read_block_congr
          intro b hb
          split
          · apply peek_memmove_outside
            omega
          · rfl
        · apply read_block_congr
          intro b hb
          split
          · rw [peek_memmove, if_pos ⟨by omega, by omega, by rw [e2]; omega⟩]
            congr 1
            omega
          · rename_i he
            have he' : tb + mask_count mask f * nbe = fb + f * nbe := by
              by_contra hc; exact he hc
            rw [he']
      · intro j hj
        rw [Nat.add_mul, Nat.one_mul] at hj
        have : peek m j = peek mem j := e4 j (by omega)
        rw [← this]
        split
        · apply peek_memmove_outside
          omega
        · rfl
    · simp only [hk, if_false, Nat.add_zero]
      refine ⟨m, _, rfl, e2, ?_, e4⟩
      rw [free_block_strings_eq, hsrc]

theorem filter_group_local (data_type : harp_data_type) (dim nbe : Nat) (mask : List Nat) :
    LocalSpec
      (fun st i => .ok (filter_group data_type dim (mask_count mask dim) nbe mask st i))
      (filter_group_ref data_type dim nbe mask) (dim * nbe) (mask_count mask dim * nbe) := by
  intro mem heap i hroom
  have hn_le : mask_count mask dim ≤ dim := mask_count_le mask dim
  have hto_le : i * mask_count mask dim * nbe ≤ i * dim * nbe :=
    Nat.mul_le_mul_right nbe (Nat.mul_le_mul_left i hn_le)
  have hmx : mask_count mask dim * nbe ≤ max (mask_count mask dim * nbe) (dim * nbe) :=
    Nat.le_max_left _ _
  have ha1 : i * mask_count mask dim * nbe = i * (mask_count mask dim * nbe) := Nat.mul_assoc _ _ _
  have ha2 : i * dim * nbe = i * (dim * nbe) := Nat.mul_assoc _ _ _
  obtain ⟨m, h', e1, e2, e3, e4⟩ :=
    filter_inner_spec data_type dim nbe mask mem heap (i * mask_count mask dim * nbe) (i * dim * nbe)
      hto_le (by omega) dim (Nat.le_refl dim)
  refine ⟨m, h', ?_, e2, ?_, ?_⟩
  · unfold filter_group
    simp only
    rw [e1]
  · rw [ha1, ha2] at e3
    exact e3
  · intro j hj
    apply e4
    omega

/-! ## harp_variable_resize_dimension: the loops over the groups -/

theorem foldl_map_range {β : Type} (f : β → Nat → β) (g : Nat → Nat) (k : Nat) (a : β) :
    ((List.range k).map g).foldl f a = (List.range k).foldl (fun acc j => f acc (g j)) a := by
  rw [List.foldl_map]

theorem resize_shrink_local (data_type : harp_data_type) (dim length nbe : Nat) (hle : length ≤ dim) :
    LocalSpec
      (fun st i => .ok (resize_shrink_block data_type dim length nbe st i))
      (resize_shrink_ref data_type dim length nbe) (dim * nbe) (length * nbe) := by
  intro mem heap i hroom
  have hc : length * nbe ≤ dim * nbe := Nat.mul_le_mul_right nbe hle
  have hmax : max (length * nbe) (dim * nbe) = dim * nbe := Nat.max_eq_right hc
  have ha1 : i * length * nbe = i * (length * nbe) := Nat.mul_assoc _ _ _
  have ha2 : i * dim * nbe = i * (dim * nbe) := Nat.mul_assoc _ _ _
  have hto_le : i * (length * nbe) ≤ i * (dim * nbe) := Nat.mul_le_mul_left i hc
  rw [hmax] at hroom
  refine ⟨_, _, rfl, ?_, ?_, ?_⟩
  · simp only [resize_shrink_block]
    split <;> simp [length_memmove]
  on_goal 2 =>
    intro j hj
    rw [hmax] at hj
    clear hmax
    simp only [resize_shrink_block, ha1, ha2]
    split
    · apply peek_memmove_outside
      omega
    · rfl
  clear hmax
  · simp only [resize_shrink_block, resize_shrink_ref, ha1, ha2]
    congr 1
    · apply read_block_congr
      intro b hb
      have hb' : 0 + b < dim * nbe := by omega
      rw [peek_read_block, if_pos hb', Nat.zero_add]
      split
      · rw [peek_memmove, if_pos ⟨by omega, by omega, by omega⟩]
        congr 1
        omega
      · rename_i hi
        have : i = 0 := by omega
        subst this
        simp
    · split
      · rw [foldl_map_range]
        simp only [free_cells, read_block, List.foldl_map]
        apply List.foldl_ext
        intro h j hj
        rw [List.mem_range] at hj
        have e : peek (List.map (fun i_1 => peek mem (i * (dim * nbe) + i_1)) (List.range (dim * nbe)))
            (length * nbe + j) = peek mem (i * (dim * nbe) + (length * nbe + j)) := by
          have := peek_read_block mem (i * (dim * nbe)) (dim * nbe) (length * nbe + j)
          rw [if_pos (by omega)] at this
          exact this
        rw [e]
      · rfl

theorem length_fill_range (v : Cell) (off s : Nat) (k : Nat) (mem : List Cell) :
    (((List.range k).map (fun j => s + j)).foldl (fun m j => m.set (off + j) v) mem).length =
      mem.length := by
  induction k with
  | zero => rfl
  | succ k ih =>
    rw [List.range_succ, List.map_append, List.foldl_append]
    simp [ih]

theorem peek_fill_range (v : Cell) (off s : Nat) (k : Nat) (mem : List Cell) (x : Nat) :
    peek (((List.range k).map (fun j => s + j)).foldl (fun m j => m.set (off + j) v) mem) x =
      if off + s ≤ x ∧ x < off + s + k ∧ x < mem.length then v else peek mem x := by
  induction k with
  | zero =>
    simp only [List.range_zero, List.map_nil, List.foldl_nil]
    rw [if_neg (by omega)]
  | succ k ih =>
    rw [List.range_succ, List.map_append, List.foldl_append]
    simp only [List.map_cons, List.map_nil, List.foldl_cons, List.foldl_nil]
    rw [peek_set, length_fill_range, ih]
    by_cases h1 : x = off + (s + k) ∧ off + (s + k) < mem.length
    · rw [if_pos h1, if_pos (by omega)]
    · rw [if_neg h1]
      by_cases h2 : off + s ≤ x ∧ x < off + s + k ∧ x < mem.length
      · rw [if_pos h2, if_pos (by omega)]
      · rw [if_neg h2, if_neg (by omega)]

theorem resize_expand_local (data_type : harp_data_type) (dim length nbe : Nat) (hle : dim ≤ length) :
    LocalSpec
      (fun st i => .ok (resize_expand_block data_type dim length nbe st.1 i, st.2))
      (resize_expand_ref data_type dim length nbe) (dim * nbe) (length * nbe) := by
  intro mem heap i hroom
  have hc : dim * nbe ≤ length * nbe := Nat.mul_le_mul_right nbe hle
  have hmax : max (length * nbe) (dim * nbe) = length * nbe := Nat.max_eq_left hc
  have ha1 : i * length * nbe = i * (length * nbe) := Nat.mul_assoc _ _ _
  have ha2 : i * dim * nbe = i * (dim * nbe) := Nat.mul_assoc _ _ _
  have hto_le : i * (dim * nbe) ≤ i * (length * nbe) := Nat.mul_le_mul_left i hc
  rw [hmax] at hroom
  have hlen1 : (if i > 0 then memmove mem (i * (length * nbe)) (i * (dim * nbe)) (dim * nbe)
      else mem).length = mem.length := by
    split <;> simp [length_memmove]
  refine ⟨_, _, rfl, ?_, ?_, ?_⟩
  · simp only [resize_expand_block, ha1, ha2]
    rw [length_fill_range, hlen1]
  on_goal 2 =>
    intro j hj
    simp only [resize_expand_block, ha1, ha2]
    rw [hmax] at hj
    clear hmax
    rw [peek_fill_range, if_neg (by rw [hlen1]; omega)]
    split
    · apply peek_memmove_outside
      omega
    · rfl
  clear hmax
  · simp only [resize_expand_block, resize_expand_ref, ha1, ha2]
    congr 1
    apply ext_peek (by simp [length_read_block]; omega)
    intro x hx
    rw [length_read_block] at hx
    rw [peek_read_block, if_pos hx, peek_fill_range, hlen1]
    by_cases h1 : x < dim * nbe
    · rw [if_neg (by omega)]
      have e : peek (read_block mem (i * (dim * nbe)) (dim * nbe) ++
          List.replicate (length * nbe - dim * nbe) (fill_value data_type)) x =
          peek (read_block mem (i * (dim * nbe)) (dim * nbe)) x := by
        simp only [peek_eq_getElem?]
        rw [List.getElem?_append_left (by simp [length_read_block, h1])]
      rw [e, peek_read_block, if_pos h1]
      split
      · rw [peek_memmove, if_pos ⟨by omega, by omega, by omega⟩]
        congr 1
        omega
      · rename_i hi
        have : i = 0 := by omega
        subst this
        simp
    · rw [if_pos ⟨by omega, by omega, by omega⟩]
      simp only [peek_eq_getElem?]
      rw [List.getElem?_append_right (by simp [length_read_block]; omega)]
      simp only [length_read_block]
      rw [List.getElem?_replicate, if_pos (by omega)]
      rfl

/-! ## harp_variable_add_dimension: the loop over the blocks -/

theorem read_block_of_length {l : List Cell} {k : Nat} (h : l.length = k) : read_block l 0 k = l := by
  apply ext_peek (by simp [length_read_block, h])
  intro i hi
  rw [length_read_block] at hi
  rw [peek_read_block, if_pos hi, Nat.zero_add]

theorem read_block_write_block_same {mem buffer : List Cell} {off len : Nat}
    (h : off + len ≤ mem.length) (hbuf : buffer.length = len) :
    read_block (write_block mem off buffer len) off len = buffer := by
  apply ext_peek (by simp [length_read_block, hbuf])
  intro b hb
  rw [length_read_block] at hb
  rw [peek_read_block, if_pos hb, peek_write_block, if_pos ⟨by omega, by omega, by omega⟩]
  congr 1
  omega

theorem add_dimension_inner (data_type : harp_data_type) (L nbe : Nat) (hL : 1 ≤ L) (i : Nat)
    (grp : List Cell) (len : Nat) (hroom : i * L * nbe + L * nbe ≤ len) :
    ∀ (k : Nat) (m : List Cell) (h : Heap) (acc : List Cell), k ≤ L → m.length = len →
      (1 ≤ k → read_block m (i * nbe) nbe = grp) →
      read_block m ((i * L + k) * nbe) ((L - k) * nbe) = acc →
      ∃ m' h', (List.range k).reverse.foldl
          (fun s j =>
            if data_type = harp_data_type.harp_type_string ∧ j ≠ 0 then
              dup_block_strings nbe ((i * L + j) * nbe)
                (memmove s.1 ((i * L + j) * nbe) (i * nbe) nbe, s.2)
            else (memmove s.1 ((i * L + j) * nbe) (i * nbe) nbe, s.2))
          (m, h) = (m', h') ∧
        m'.length = len ∧
        (read_block m' (i * L * nbe) (L * nbe), h') =
          (List.range k).reverse.foldl
            (fun acc j =>
              if data_type = harp_data_type.harp_type_string ∧ j ≠ 0 then
                ((dup_cells grp acc.2).1 ++ acc.1, (dup_cells grp acc.2).2)
              else (grp ++ acc.1, acc.2))
            (acc, h) ∧
        ∀ x, (x < i * L * nbe ∨ i * L * nbe + L * nbe ≤ x) → peek m' x = peek m x := by
  intro k
  induction k with
  | zero =>
    intro m h acc _ hlen _ hacc
    refine ⟨m, h, rfl, hlen, ?_, fun _ _ => rfl⟩
    simp only [List.range_zero, List.reverse_nil, List.foldl_nil]
    rw [← hacc]
    simp
  | succ k ih =>
    intro m h acc hk hlen hsrc hacc
    have hgrp := hsrc (by omega)
    have hiL : i * nbe ≤ i * L * nbe :=
      Nat.mul_le_mul_right nbe (Nat.le_mul_of_pos_right i hL)
    have hkL : (k + 1) * nbe ≤ L * nbe := Nat.mul_le_mul_right nbe hk
    have e1 : (i * L + k) * nbe = i * L * nbe + k * nbe := Nat.add_mul _ _ _
    have e2 : (i * L + (k + 1)) * nbe = i * L * nbe + k * nbe + nbe := by
      rw [Nat.add_mul, Nat.add_mul, Nat.one_mul, Nat.add_assoc]
    have e3 : (L - k) * nbe = nbe + (L - (k + 1)) * nbe := by
      have : L - k = (L - (k + 1)) + 1 := by omega
      rw [this, Nat.add_mul, Nat.one_mul, Nat.add_comm]
    rw [Nat.add_mul, Nat.one_mul] at hkL
    rw [List.range_succ, List.reverse_append, List.reverse_singleton, List.singleton_append,
      List.foldl_cons, List.foldl_cons]
    -- the buffer after the copy of the block to position k
    have hm1len : (memmove m ((i * L + k) * nbe) (i * nbe) nbe).length = len := by
      rw [length_memmove, hlen]
    have hm1blk : read_block (memmove m ((i * L + k) * nbe) (i * nbe) nbe) ((i * L + k) * nbe) nbe =
        grp := by
      rw [← hgrp]
      apply read_block_congr
      intro b hb
      rw [peek_memmove, if_pos ⟨by omega, by omega, by rw [hlen]; omega⟩]
      congr 1
      omega
    have hm1out : ∀ x, ¬ ((i * L + k) * nbe ≤ x ∧ x < (i * L + k) * nbe + nbe) →
        peek (memmove m ((i * L + k) * nbe) (i * nbe) nbe) x = peek m x :=
      fun x hx => peek_memmove_outside hx
    have hto_room : (i * L + k) * nbe + nbe ≤ len := by omega
    have hkk : 1 ≤ k → nbe ≤ k * nbe := fun h1 => Nat.le_mul_of_pos_left nbe h1
    by_cases hdup : data_type = harp_data_type.harp_type_string ∧ k ≠ 0
    · rw [if_pos hdup, if_pos hdup]
      rw [dup_block_strings_eq _ _ _ _ (by rw [hm1len]; exact hto_room), hm1blk]
      have hdl : (dup_cells grp h).1.length = nbe := by
        rw [length_dup_cells, ← hgrp, length_read_block]
      obtain ⟨m', h', r1, r2, r3, r4⟩ := ih
        (write_block (memmove m ((i * L + k) * nbe) (i * nbe) nbe) ((i * L + k) * nbe)
          (dup_cells grp h).1 nbe)
        (dup_cells grp h).2 ((dup_cells grp h).1 ++ acc) (by omega)
        (by rw [length_write_block, hm1len])
        (by
          intro hk1
          rw [← hgrp]
          apply read_block_congr
          intro b hb
          have := hkk hk1
          rw [peek_write_block_outside (by omega), peek_memmove_outside (by omega)])
        (by
          rw [e3, read_block_add,
            read_block_write_block_same (by rw [hm1len]; exact hto_room) hdl]
          congr 1
          rw [← hacc]
          apply read_block_congr
          intro b hb
          rw [peek_write_block_outside (by omega), peek_memmove_outside (by omega)]
          congr 1
          omega)
      refine ⟨m', h', r1, r2, r3, ?_⟩
      intro x hx
      rw [r4 x hx, peek_write_block_outside (by omega), peek_memmove_outside (by omega)]
    · rw [if_neg hdup, if_neg hdup]
      obtain ⟨m', h', r1, r2, r3, r4⟩ := ih
        (memmove m ((i * L + k) * nbe) (i * nbe) nbe) h (grp ++ acc) (by omega) hm1len
        (by
          intro hk1
          rw [← hgrp]
          apply read_block_congr
          intro b hb
          have := hkk hk1
          rw [peek_memmove_outside (by omega)])
        (by
          rw [e3, read_block_add, hm1blk]
          congr 1
          rw [← hacc]
          apply read_block_congr
          intro b hb
          rw [peek_memmove_outside (by omega)]
          congr 1
          omega)
      refine ⟨m', h', r1, r2, r3, ?_⟩
      intro x hx
      rw [r4 x hx, peek_memmove_outside (by omega)]

theorem add_dimension_local (data_type : harp_data_type) (L nbe : Nat) (hL : 1 ≤ L) :
    LocalSpec
      (fun st i => .ok (add_dimension_block data_type L nbe st i))
      (add_dimension_ref data_type L) nbe (L * nbe) := by
  intro mem heap i hroom
  have hc : nbe ≤ L * nbe := Nat.le_mul_of_pos_left nbe hL
  rw [Nat.max_eq_left hc, ← Nat.mul_assoc] at hroom
  obtain ⟨m', h', r1, r2, r3, r4⟩ :=
    add_dimension_inner data_type L nbe hL i (read_block mem (i * nbe) nbe) mem.length hroom
      L mem heap [] (Nat.le_refl L) rfl (fun _ => rfl) (by simp [read_block_zero_len])
  refine ⟨m', h', ?_, r2, ?_, ?_⟩
  · unfold add_dimension_block
    simp only
    rw [r1]
  · rw [← Nat.mul_assoc]
    exact r3
  · intro j hj
    rw [Nat.max_eq_left hc, ← Nat.mul_assoc] at hj
    exact r4 j hj

/-! ## The heap -/

theorem find_filter_ne (live : List (Nat × String)) (p q : Nat) (h : q ≠ p) :
    (live.filter (fun e => e.1 != p)).find? (fun e => e.1 == q) = live.find? (fun e => e.1 == q) := by
  induction live with
  | nil => rfl
  | cons e es ih =>
    by_cases he : e.1 = p
    · have h1 : (e.1 != p) = false := by simp [he]
      have h2 : (e.1 == q) = false := by
        simp only [beq_eq_false_iff_ne, ne_eq]
        intro e2
        exact h (e2.symm.trans he)
      rw [List.filter_cons_of_neg (by simp [h1]), List.find?_cons_of_neg _ (by simp [h2])]
      exact ih
    · have h1 : (e.1 != p) = true := by simp [he]
      rw [List.filter_cons_of_pos (by simp [he])]
      by_cases h2 : e.1 = q
      · rw [List.find?_cons_of_pos _ (by simp [h2]), List.find?_cons_of_pos _ (by simp [h2])]
      · rw [List.find?_cons_of_neg _ (by simp [h2]), List.find?_cons_of_neg _ (by simp [h2])]
        exact ih

theorem find_filter_self (live : List (Nat × String)) (p : Nat) :
    (live.filter (fun e => e.1 != p)).find? (fun e => e.1 == p) = none := by
  induction live with
  | nil => rfl
  | cons e es ih =>
    by_cases he : e.1 = p
    · rw [List.filter_cons_of_neg (by simp [he])]
      exact ih
    · rw [List.filter_cons_of_pos (by simp [he]), List.find?_cons_of_neg _ (by simp [he])]
      exact ih

theorem Heap.lookup_free (h : Heap) (p q : Nat) :
    (h.free p).lookup q = if q = p then none else h.lookup q := by
  unfold Heap.free
  cases hl : h.lookup p with
  | none =>
    simp only
    split
    · rename_i e; rw [e]; unfold Heap.lookup at hl ⊢; exact hl
    · rfl
  | some s =>
    simp only [Heap.lookup]
    split
    · rename_i e; rw [e, find_filter_self]; rfl
    · rename_i e; rw [find_filter_ne _ _ _ e]

theorem Heap.next_free (h : Heap) (p : Nat) : (h.free p).next = h.next := by
  unfold Heap.free
  cases h.lookup p <;> rfl

theorem Heap.faulted_free (h : Heap) (p : Nat) (hl : (h.lookup p).isSome = true) :
    (h.free p).faulted = h.faulted := by
  unfold Heap.free
  cases hv : h.lookup p with
  | none => rw [hv] at hl; exact Bool.noConfusion hl
  | some s => rfl

theorem Heap.WF_free (h : Heap) (p : Nat) (hw : h.WF) : (h.free p).WF := by
  unfold Heap.free
  cases h.lookup p with
  | none => exact hw
  | some s =>
    intro e he
    exact hw e (List.mem_filter.1 he).1

theorem Heap.strdup_snd (h : Heap) (p : Nat) : (h.strdup p).2 = h.next := by
  unfold Heap.strdup
  cases h.lookup p <;> rfl

theorem Heap.next_strdup (h : Heap) (p : Nat) : (h.strdup p).1.next = h.next + 1 := by
  unfold Heap.strdup
  cases h.lookup p <;> rfl

theorem Heap.faulted_strdup (h : Heap) (p : Nat) (hl : (h.lookup p).isSome = true) :
    (h.strdup p).1.faulted = h.faulted := by
  unfold Heap.strdup
  cases hv : h.lookup p with
  | none => rw [hv] at hl; exact Bool.noConfusion hl
  | some s => rfl

theorem Heap.lookup_strdup (h : Heap) (p q : Nat) (hl : (h.lookup p).isSome = true) :
    (h.strdup p).1.lookup q = if q = h.next then h.lookup p else h.lookup q := by
  unfold Heap.strdup
  cases hv : h.lookup p with
  | none => rw [hv] at hl; exact Bool.noConfusion hl
  | some s =>
    simp only [Heap.lookup]
    split
    · rename_i e
      rw [List.find?_cons_of_pos _ (by simp [e])]
      rfl
    · rename_i e
      rw [List.find?_cons_of_neg _ (by simp; exact fun e2 => e e2.symm)]

theorem Heap.WF_strdup (h : Heap) (p : Nat) (hw : h.WF) : (h.strdup p).1.WF := by
  unfold Heap.strdup
  cases h.lookup p with
  | none =>
    intro e he
    simp only [List.mem_cons] at he
    rcases he with rfl | he
    · simp
    · have := hw e he
      simp only
      omega
  | some s =>
    intro e he
    simp only [List.mem_cons] at he
    rcases he with rfl | he
    · simp
    · have := hw e he
      simp only
      omega

theorem Heap.lt_next_of_lookup (h : Heap) (hw : h.WF) (p : Nat) (hl : (h.lookup p).isSome = true) :
    p < h.next := by
  unfold Heap.lookup at hl
  cases hf : h.live.find? (fun e => e.1 == p) with
  | none => rw [hf] at hl; exact Bool.noConfusion hl
  | some e =>
    have h1 := List.find?_some hf
    have h2 := List.mem_of_find?_eq_some hf
    simp only [beq_iff_eq] at h1
    rw [← h1]
    exact hw e h2

theorem OldPtrs.of_owns {old : List Cell} {h : Heap} (hw : h.WF) (ho : Owns h old) : OldPtrs old h :=
  { lt := fun j p hj => h.lt_next_of_lookup hw p (ho j p hj).1
    unique := fun j j' p hj hj' => (ho j p hj).2 j' hj' }

theorem OldPtrs.mono {old : List Cell} {h h' : Heap} (hp : OldPtrs old h) (hle : h.next ≤ h'.next) :
    OldPtrs old h' :=
  { lt := fun j p hj => Nat.lt_of_lt_of_le (hp.lt j p hj) hle
    unique := hp.unique }

/-! ## Steps that produce cells -/

theorem peek_not_ptr_of_le {cells : List Cell} {x p : Nat} (h : peek cells x = Cell.string_data (some p)) :
    x < cells.length := by
  by_contra hc
  rw [peek_of_le (Nat.le_of_not_lt hc)] at h
  exact Cell.noConfusion h

/-- Two steps in a row: the cells of the first step sit at the positions
`e1 r`, those of the second step at the positions `e2 r`. -/
theorem Produces.merge (e1 e2 : Nat → Nat) {old : List Cell} {o1 o2 o : Nat → Origin}
    {d1 d2 d : Nat → Prop} {s1 s2 : Nat} {h : Heap} {r1 r2 : List Cell × Heap} {cells : List Cell}
    (hp : OldPtrs old h) (P1 : Produces old o1 d1 s1 h r1) (P2 : Produces old o2 d2 s2 r1.2 r2)
    (hlen : cells.length = s1 + s2)
    (hc1 : ∀ r, r < s1 → peek cells (e1 r) = peek r1.1 r ∧ o (e1 r) = o1 r)
    (hc2 : ∀ r, r < s2 → peek cells (e2 r) = peek r2.1 r ∧ o (e2 r) = o2 r)
    (hcover : ∀ x, x < s1 + s2 → (∃ r, r < s1 ∧ x = e1 r) ∨ (∃ r, r < s2 ∧ x = e2 r))
    (hd : ∀ j, d j ↔ d1 j ∨ d2 j)
    (hsafe : ∀ r j, r < s2 → o2 r = Origin.dup j → ¬ d1 j) :
    Produces old o d (s1 + s2) h (cells, r2.2) := by
  have hp1 : OldPtrs old r1.2 := hp.mono P1.next_le
  -- a pointer at or above the first heap's next address, held by a cell of the second step,
  -- lies at or above the second heap's next address
  have hfresh2 : ∀ r p, r < s2 → h.next ≤ p → peek r2.1 r = Cell.string_data (some p) →
      r1.2.next ≤ p := by
    intro r p hr hpn hc
    have hcell := P2.cell r hr
    cases ho : o2 r with
    | copy j =>
      rw [ho] at hcell
      simp only [CellFrom] at hcell
      rw [hc] at hcell
      have := hp.lt j p hcell.symm
      omega
    | dup j =>
      rw [ho] at hcell
      simp only [CellFrom] at hcell
      by_cases hptr : ∃ q, peek old j = Cell.string_data (some q)
      · obtain ⟨q, hq⟩ := hptr
        obtain ⟨p', h1, h2, _⟩ := hcell.1 q hq
        rw [hc] at h1
        have : p = p' := by simpa using h1
        rw [this]; exact h2
      · have := hcell.2 (fun q hq => hptr ⟨q, hq⟩)
        rw [hc] at this
        exact absurd ⟨p, this.symm⟩ hptr
    | fill v =>
      rw [ho] at hcell
      simp only [CellFrom] at hcell
      rw [hc] at hcell
      exact absurd hcell.1.symm (hcell.2 p)
  refine ⟨hlen, fun hw => P2.wf (P1.wf hw), by rw [P2.faulted, P1.faulted],
    Nat.le_trans P1.next_le P2.next_le, ?_, ?_, ?_, ?_, ?_⟩
  · -- freed
    intro q j hdj hq
    rcases (hd j).1 hdj with h1 | h2
    · have hf1 := P1.freed q j h1 hq
      by_cases hd2 : ∀ j', d2 j' → peek old j' ≠ Cell.string_data (some q)
      · rw [P2.kept q (hp1.lt j q hq) hd2, hf1]
      · simp only [not_forall] at hd2
        obtain ⟨j', hj', hne⟩ := hd2
        exact P2.freed q j' hj' (by simpa using hne)
    · exact P2.freed q j h2 hq
  · -- kept
    intro q hq hnd
    rw [P2.kept q (Nat.lt_of_lt_of_le hq P1.next_le) (fun j hj => hnd j ((hd j).2 (Or.inr hj))),
      P1.kept q hq (fun j hj => hnd j ((hd j).2 (Or.inl hj)))]
  · -- cell
    intro x hx
    rcases hcover x hx with ⟨r, hr, rfl⟩ | ⟨r, hr, rfl⟩
    · obtain ⟨hc, ho⟩ := hc1 r hr
      rw [hc, ho]
      have hcell := P1.cell r hr
      cases hor : o1 r with
      | copy j => rw [hor] at hcell; exact hcell
      | fill v => rw [hor] at hcell; exact hcell
      | dup j =>
        rw [hor] at hcell
        simp only [CellFrom] at hcell ⊢
        refine ⟨?_, hcell.2⟩
        intro p hpj
        obtain ⟨p', h1, h2, h3⟩ := hcell.1 p hpj
        refine ⟨p', h1, h2, ?_⟩
        rw [← h3]
        apply P2.kept p' (P1.fresh_lt r p' h2 h1)
        intro j' _ hj'
        have := hp.lt j' p' hj'
        omega
    · obtain ⟨hc, ho⟩ := hc2 r hr
      rw [hc, ho]
      have hcell := P2.cell r hr
      cases hor : o2 r with
      | copy j => rw [hor] at hcell; exact hcell
      | fill v => rw [hor] at hcell; exact hcell
      | dup j =>
        rw [hor] at hcell
        simp only [CellFrom] at hcell ⊢
        refine ⟨?_, hcell.2⟩
        intro p hpj
        obtain ⟨p', h1, h2, h3⟩ := hcell.1 p hpj
        refine ⟨p', h1, Nat.le_trans P1.next_le h2, ?_⟩
        rw [h3]
        apply P1.kept p (hp.lt j p hpj)
        intro j' hj' hj'p
        have := hp.unique j j' p hpj hj'p
        rw [this] at hj'
        exact hsafe r j hr hor hj'
  · -- fresh_unique
    intro x1 x2 p hpn hx1 hx2
    have hl1 := peek_not_ptr_of_le hx1
    have hl2 := peek_not_ptr_of_le hx2
    rw [hlen] at hl1 hl2
    rcases hcover x1 hl1 with ⟨a, ha, rfl⟩ | ⟨a, ha, rfl⟩ <;>
      rcases hcover x2 hl2 with ⟨b, hb, rfl⟩ | ⟨b, hb, rfl⟩
    · rw [(hc1 a ha).1] at hx1
      rw [(hc1 b hb).1] at hx2
      rw [P1.fresh_unique a b p hpn hx1 hx2]
    · rw [(hc1 a ha).1] at hx1
      rw [(hc2 b hb).1] at hx2
      have := P1.fresh_lt a p hpn hx1
      have := hfresh2 b p hb hpn hx2
      omega
    · rw [(hc2 a ha).1] at hx1
      rw [(hc1 b hb).1] at hx2
      have := P1.fresh_lt b p hpn hx2
      have := hfresh2 a p ha hpn hx1
      omega
    · rw [(hc2 a ha).1] at hx1
      rw [(hc2 b hb).1] at hx2
      rw [P2.fresh_unique a b p (hfresh2 a p ha hpn hx1) hx1 hx2]
  · -- fresh_lt
    intro x p hpn hx
    have hl := peek_not_ptr_of_le hx
    rw [hlen] at hl
    rcases hcover x hl with ⟨a, ha, rfl⟩ | ⟨a, ha, rfl⟩
    · rw [(hc1 a ha).1] at hx
      exact Nat.lt_of_lt_of_le (P1.fresh_lt a p hpn hx) P2.next_le
    · rw [(hc2 a ha).1] at hx
      exact P2.fresh_lt a p (hfresh2 a p ha hpn hx) hx

theorem peek_append_left {l1 l2 : List Cell} {x : Nat} (h : x < l1.length) :
    peek (l1 ++ l2) x = peek l1 x := by
  simp only [peek_eq_getElem?]
  rw [List.getElem?_append_left h]

theorem peek_append_right (l1 l2 : List Cell) (x : Nat) :
    peek (l1 ++ l2) (l1.length + x) = peek l2 x := by
  simp only [peek_eq_getElem?]
  rw [List.getElem?_append_right (by omega)]
  simp

/-- Two steps in a row, the cells of the second step after those of the first. -/
theorem Produces.append {old : List Cell} {o1 o2 o : Nat → Origin} {d1 d2 d : Nat → Prop}
    {s1 s2 : Nat} {h : Heap} {r1 r2 : List Cell × Heap}
    (hp : OldPtrs old h) (P1 : Produces old o1 d1 s1 h r1) (P2 : Produces old o2 d2 s2 r1.2 r2)
    (ho1 : ∀ r, r < s1 → o r = o1 r) (ho2 : ∀ r, r < s2 → o (s1 + r) = o2 r)
    (hd : ∀ j, d j ↔ d1 j ∨ d2 j)
    (hsafe : ∀ r j, r < s2 → o2 r = Origin.dup j → ¬ d1 j) :
    Produces old o d (s1 + s2) h (r1.1 ++ r2.1, r2.2) := by
  apply Produces.merge (fun r => r) (fun r => s1 + r) hp P1 P2
    (by rw [List.length_append, P1.length, P2.length]) _ _ _ hd hsafe
  · intro r hr
    exact ⟨peek_append_left (by rw [P1.length]; exact hr), ho1 r hr⟩
  · intro r hr
    refine ⟨?_, ho2 r hr⟩
    have := peek_append_right r1.1 r2.1 r
    rw [P1.length] at this
    exact this
  · intro x hx
    by_cases h1 : x < s1
    · exact Or.inl ⟨x, h1, rfl⟩
    · exact Or.inr ⟨x - s1, by omega, by simp only; omega⟩

/-- Two steps in a row, the cells of the second step before those of the first. -/
theorem Produces.prepend {old : List Cell} {o1 o2 o : Nat → Origin} {d1 d2 d : Nat → Prop}
    {s1 s2 : Nat} {h : Heap} {r1 r2 : List Cell × Heap}
    (hp : OldPtrs old h) (P1 : Produces old o1 d1 s1 h r1) (P2 : Produces old o2 d2 s2 r1.2 r2)
    (ho1 : ∀ r, r < s1 → o (s2 + r) = o1 r) (ho2 : ∀ r, r < s2 → o r = o2 r)
    (hd : ∀ j, d j ↔ d1 j ∨ d2 j)
    (hsafe : ∀ r j, r < s2 → o2 r = Origin.dup j → ¬ d1 j) :
    Produces old o d (s2 + s1) h (r2.1 ++ r1.1, r2.2) := by
  rw [Nat.add_comm]
  apply Produces.merge (fun r => s2 + r) (fun r => r) hp P1 P2
    (by rw [List.length_append, P1.length, P2.length, Nat.add_comm]) _ _ _ hd hsafe
  · intro r hr
    refine ⟨?_, ho1 r hr⟩
    have := peek_append_right r2.1 r1.1 r
    rw [P2.length] at this
    exact this
  · intro r hr
    exact ⟨peek_append_left (by rw [P2.length]; exact hr), ho2 r hr⟩
  · intro x hx
    by_cases h1 : x < s2
    · exact Or.inr ⟨x, h1, rfl⟩
    · exact Or.inl ⟨x - s2, by omega, by simp only; omega⟩

theorem peek_cons_zero (c : Cell) (cs : List Cell) : peek (c :: cs) 0 = c := rfl

theorem peek_cons_succ (c : Cell) (cs : List Cell) (i : Nat) : peek (c :: cs) (i + 1) = peek cs i := rfl

theorem mem_iff_peek {cells : List Cell} {p : Nat} :
    Cell.string_data (some p) ∈ cells ↔ ∃ i, peek cells i = Cell.string_data (some p) := by
  constructor
  · intro h
    obtain ⟨i, hi, he⟩ := List.getElem_of_mem h
    refine ⟨i, ?_⟩
    rw [peek_eq_getElem?, List.getElem?_eq_getElem hi, he]
    rfl
  · rintro ⟨i, hi⟩
    have hlt := peek_not_ptr_of_le hi
    rw [peek_eq_getElem?, List.getElem?_eq_getElem hlt] at hi
    simp only [Option.getD_some] at hi
    rw [← hi]
    exact List.getElem_mem _

theorem free_cells_cons (c : Cell) (cs : List Cell) (h : Heap) :
    free_cells (c :: cs) h =
      free_cells cs (match c with
        | Cell.string_data (some p) => h.free p
        | _ => h) := rfl

theorem lookup_free_cells (cells : List Cell) (h : Heap) (q : Nat) :
    (free_cells cells h).lookup q =
      if Cell.string_data (some q) ∈ cells then none else h.lookup q := by
  induction cells generalizing h with
  | nil => simp [free_cells]
  | cons c cs ih =>
    rw [free_cells_cons, ih]
    by_cases hm : Cell.string_data (some q) ∈ cs
    · rw [if_pos hm, if_pos (List.mem_cons_of_mem _ hm)]
    · rw [if_neg hm]
      by_cases hc : c = Cell.string_data (some q)
      · subst hc
        simp only [Heap.lookup_free, if_true, List.mem_cons, true_or]
      · have : Cell.string_data (some q) ∉ c :: cs := by
          simp only [List.mem_cons, not_or]
          exact ⟨fun e => hc e.symm, hm⟩
        rw [if_neg this]
        cases c with
        | string_data o =>
          cases o with
          | none => rfl
          | some p =>
            simp only [Heap.lookup_free]
            rw [if_neg]
            intro e
            subst e
            exact hc rfl
        | _ => rfl

theorem next_free_cells (cells : List Cell) (h : Heap) : (free_cells cells h).next = h.next := by
  induction cells generalizing h with
  | nil => rfl
  | cons c cs ih =>
    rw [free_cells_cons, ih]
    cases c with
    | string_data o => cases o <;> simp [Heap.next_free]
    | _ => rfl

theorem WF_free_cells (cells : List Cell) (h : Heap) (hw : h.WF) : (free_cells cells h).WF := by
  induction cells generalizing h with
  | nil => exact hw
  | cons c cs ih =>
    rw [free_cells_cons]
    apply ih
    cases c with
    | string_data o =>
      cases o with
      | none => exact hw
      | some p => exact Heap.WF_free h p hw
    | _ => exact hw

theorem faulted_free_cells (cells : List Cell) (h : Heap) (ho : Owns h cells) :
    (free_cells cells h).faulted = h.faulted := by
  induction cells generalizing h with
  | nil => rfl
  | cons c cs ih =>
    rw [free_cells_cons]
    cases c with
    | string_data o =>
      cases o with
      | none =>
        apply ih
        intro j p hj
        obtain ⟨h1, h2⟩ := ho (j + 1) p hj
        exact ⟨h1, fun j' hj' => by have := h2 (j' + 1) hj'; omega⟩
      | some p =>
        simp only
        rw [ih, Heap.faulted_free h p (ho 0 p rfl).1]
        intro j q hj
        obtain ⟨h1, h2⟩ := ho (j + 1) q hj
        refine ⟨?_, fun j' hj' => by have := h2 (j' + 1) hj'; omega⟩
        rw [Heap.lookup_free, if_neg]
        · exact h1
        · intro e
          subst e
          have := h2 0 rfl
          omega
    | _ =>
      apply ih
      intro j p hj
      obtain ⟨h1, h2⟩ := ho (j + 1) p hj
      exact ⟨h1, fun j' hj' => by have := h2 (j' + 1) hj'; omega⟩

/-- Freeing the strings of a run of old cells is a step that produces no cell. -/
theorem produces_free (old : List Cell) (h : Heap) (off len : Nat) (o : Nat → Origin)
    (hp : OldPtrs old h)
    (hlive : ∀ r p, r < len → peek old (off + r) = Cell.string_data (some p) →
      (h.lookup p).isSome = true) :
    Produces old o (fun j => off ≤ j ∧ j < off + len) 0 h
      ([], free_cells (read_block old off len) h) := by
  have hmem : ∀ q, Cell.string_data (some q) ∈ read_block old off len ↔
      ∃ r, r < len ∧ peek old (off + r) = Cell.string_data (some q) := by
    intro q
    rw [mem_iff_peek]
    constructor
    · rintro ⟨i, hi⟩
      have hlt := peek_not_ptr_of_le hi
      rw [length_read_block] at hlt
      rw [peek_read_block, if_pos hlt] at hi
      exact ⟨i, hlt, hi⟩
    · rintro ⟨r, hr, hq⟩
      exact ⟨r, by rw [peek_read_block, if_pos hr]; exact hq⟩
  refine ⟨rfl, WF_free_cells _ _, ?_, Nat.le_of_eq (next_free_cells _ _).symm, ?_, ?_,
    fun r hr => absurd hr (Nat.not_lt_zero r), ?_, ?_⟩
  · apply faulted_free_cells
    intro j p hj
    have hlt := peek_not_ptr_of_le hj
    rw [length_read_block] at hlt
    rw [peek_read_block, if_pos hlt] at hj
    refine ⟨hlive j p hlt hj, ?_⟩
    intro j' hj'
    have hlt' := peek_not_ptr_of_le hj'
    rw [length_read_block] at hlt'
    rw [peek_read_block, if_pos hlt'] at hj'
    have := hp.unique _ _ p hj hj'
    omega
  · intro q j hj hq
    simp only
    rw [lookup_free_cells, if_pos]
    rw [hmem]
    exact ⟨j - off, by omega, by rw [Nat.add_sub_cancel' hj.1]; exact hq⟩
  · intro q _ hnd
    simp only
    rw [lookup_free_cells, if_neg]
    rw [hmem]
    rintro ⟨r, hr, hq⟩
    exact hnd (off + r) ⟨by omega, by omega⟩ hq
  · intro r1 r2 p _ h1
    exact absurd h1 (by simp [peek])
  · intro r p _ h1
    exact absurd h1 (by simp [peek])

/-- Doing nothing is a step that produces no cell. -/
theorem produces_nil (old : List Cell) (h : Heap) (o : Nat → Origin) :
    Produces old o (fun _ => False) 0 h ([], h) := by
  refine ⟨rfl, fun hw => hw, rfl, Nat.le_refl _, fun _ _ hf => absurd hf id, fun _ _ _ => rfl,
    fun r hr => absurd hr (Nat.not_lt_zero r), ?_, ?_⟩
  · intro r1 r2 p _ h1
    exact absurd h1 (by simp [peek])
  · intro r p _ h1
    exact absurd h1 (by simp [peek])

/-- Copying a run of old cells is a step. -/
theorem produces_copy (old : List Cell) (h : Heap) (off len : Nat) (hp : OldPtrs old h) :
    Produces old (fun r => Origin.copy (off + r)) (fun _ => False) len h
      (read_block old off len, h) := by
  have hold : ∀ r p, peek (read_block old off len) r = Cell.string_data (some p) → p < h.next := by
    intro r p hr
    have hlt := peek_not_ptr_of_le hr
    rw [length_read_block] at hlt
    rw [peek_read_block, if_pos hlt] at hr
    exact hp.lt _ p hr
  refine ⟨length_read_block _ _ _, fun hw => hw, rfl, Nat.le_refl _, fun _ _ hf => absurd hf id,
    fun _ _ _ => rfl, ?_, ?_, ?_⟩
  · intro r hr
    simp only [CellFrom]
    rw [peek_read_block, if_pos hr]
  · intro r1 r2 p hpn h1 _
    have := hold r1 p h1
    omega
  · intro r p hpn h1
    have := hold r p h1
    omega

/-- Writing fill values is a step. -/
theorem produces_fill (old : List Cell) (h : Heap) (len : Nat) (v : Cell)
    (hv : ∀ p, v ≠ Cell.string_data (some p)) :
    Produces old (fun _ => Origin.fill v) (fun _ => False) len h (List.replicate len v, h) := by
  have hpk : ∀ r, r < len → peek (List.replicate len v) r = v := by
    intro r hr
    rw [peek_eq_getElem?, List.getElem?_replicate, if_pos hr]
    rfl
  have hnp : ∀ r p, peek (List.replicate len v) r ≠ Cell.string_data (some p) := by
    intro r p hc
    have hlt := peek_not_ptr_of_le hc
    rw [List.length_replicate] at hlt
    rw [hpk r hlt] at hc
    exact hv p hc
  refine ⟨List.length_replicate _ _, fun hw => hw, rfl, Nat.le_refl _, fun _ _ hf => absurd hf id,
    fun _ _ _ => rfl, ?_, ?_, ?_⟩
  · intro r hr
    exact ⟨hpk r hr, hv⟩
  · intro r1 r2 p _ h1
    exact absurd h1 (hnp r1 p)
  · intro r p _ h1
    exact absurd h1 (hnp r p)

theorem dup_cells_spec (cells : List Cell) :
    ∀ (h : Heap),
      (∀ i p, peek cells i = Cell.string_data (some p) →
        (h.lookup p).isSome = true ∧ p < h.next) →
      ((h.WF → (dup_cells cells h).2.WF) ∧ (dup_cells cells h).2.faulted = h.faulted ∧
        h.next ≤ (dup_cells cells h).2.next ∧
        (∀ q, q < h.next → (dup_cells cells h).2.lookup q = h.lookup q) ∧
        (∀ i p, peek cells i = Cell.string_data (some p) →
          ∃ p', peek (dup_cells cells h).1 i = Cell.string_data (some p') ∧
            (dup_cells cells h).2.lookup p' = h.lookup p) ∧
        (∀ i, (∀ p, peek cells i ≠ Cell.string_data (some p)) →
          peek (dup_cells cells h).1 i = peek cells i) ∧
        (∀ i p', peek (dup_cells cells h).1 i = Cell.string_data (some p') →
          h.next ≤ p' ∧ p' < (dup_cells cells h).2.next) ∧
        (∀ i1 i2 p', peek (dup_cells cells h).1 i1 = Cell.string_data (some p') →
          peek (dup_cells cells h).1 i2 = Cell.string_data (some p') → i1 = i2)) := by
  induction cells with
  | nil =>
    intro h _
    refine ⟨fun hw => hw, rfl, Nat.le_refl _, fun _ _ => rfl, ?_, fun _ _ => rfl, ?_, ?_⟩
    · intro i p hi
      exact absurd hi (by simp [peek])
    · intro i p hi
      exact absurd hi (by simp [peek, dup_cells])
    · intro i1 i2 p hi
      exact absurd hi (by simp [peek, dup_cells])
  | cons c cs ih =>
    intro h hlive
    have hplain : (∀ p, c ≠ Cell.string_data (some p)) →
        dup_cells (c :: cs) h = (c :: (dup_cells cs h).1, (dup_cells cs h).2) := by
      intro hc
      cases c with
      | string_data o =>
        cases o with
        | none => rfl
        | some p => exact absurd rfl (hc p)
      | _ => rfl
    by_cases hc : ∃ p, c = Cell.string_data (some p)
    · obtain ⟨p, rfl⟩ := hc
      obtain ⟨hl0, hlt0⟩ := hlive 0 p rfl
      have hlive1 : ∀ i q, peek cs i = Cell.string_data (some q) →
          ((h.strdup p).1.lookup q).isSome = true ∧ q < (h.strdup p).1.next := by
        intro i q hi
        obtain ⟨h1, h2⟩ := hlive (i + 1) q hi
        rw [Heap.lookup_strdup h p q hl0, if_neg (by omega), Heap.next_strdup]
        exact ⟨h1, by omega⟩
      obtain ⟨a1, a2, a3, a4, a5, a6, a7, a8⟩ := ih (h.strdup p).1 hlive1
      have e : dup_cells (Cell.string_data (some p) :: cs) h =
          (Cell.string_data (some (h.strdup p).2) :: (dup_cells cs (h.strdup p).1).1,
            (dup_cells cs (h.strdup p).1).2) := rfl
      rw [e]
      simp only
      rw [Heap.next_strdup] at a3 a4 a7
      refine ⟨fun hw => a1 (Heap.WF_strdup h p hw), by rw [a2, Heap.faulted_strdup h p hl0], by omega,
        ?_, ?_, ?_, ?_, ?_⟩
      · intro q hq
        rw [a4 q (by omega), Heap.lookup_strdup h p q hl0, if_neg (by omega)]
      · intro i q hi
        cases i with
        | zero =>
          rw [peek_cons_zero] at hi
          have hq : p = q := by simpa using hi
          subst hq
          refine ⟨(h.strdup p).2, rfl, ?_⟩
          rw [Heap.strdup_snd, a4 h.next (by omega), Heap.lookup_strdup h p _ hl0, if_pos rfl]
        | succ i =>
          rw [peek_cons_succ] at hi
          obtain ⟨p', h1, h2⟩ := a5 i q hi
          refine ⟨p', h1, ?_⟩
          rw [h2, Heap.lookup_strdup h p q hl0, if_neg]
          have := (hlive (i + 1) q hi).2
          omega
      · intro i hi
        cases i with
        | zero => exact absurd rfl (hi p)
        | succ i => exact a6 i hi
      · intro i p' hi
        cases i with
        | zero =>
          rw [peek_cons_zero, Heap.strdup_snd] at hi
          have : h.next = p' := by simpa using hi
          omega
        | succ i =>
          have := a7 i p' hi
          omega
      · intro i1 i2 p' h1 h2
        cases i1 with
        | zero =>
          cases i2 with
          | zero => rfl
          | succ i2 =>
            rw [peek_cons_zero, Heap.strdup_snd] at h1
            have e1 : h.next = p' := by simpa using h1
            have := a7 i2 p' h2
            omega
        | succ i1 =>
          cases i2 with
          | zero =>
            rw [peek_cons_zero, Heap.strdup_snd] at h2
            have e1 : h.next = p' := by simpa using h2
            have := a7 i1 p' h1
            omega
          | succ i2 =>
            rw [a8 i1 i2 p' h1 h2]
    · have hc' : ∀ p, c ≠ Cell.string_data (some p) := fun p e => hc ⟨p, e⟩
      have hlive1 : ∀ i q, peek cs i = Cell.string_data (some q) →
          (h.lookup q).isSome = true ∧ q < h.next := fun i q hi => hlive (i + 1) q hi
      obtain ⟨a1, a2, a3, a4, a5, a6, a7, a8⟩ := ih h hlive1
      rw [hplain hc']
      simp only
      refine ⟨a1, a2, a3, a4, ?_, ?_, ?_, ?_⟩
      · intro i q hi
        cases i with
        | zero => exact absurd hi (hc' q)
        | succ i => exact a5 i q hi
      · intro i hi
        cases i with
        | zero => rfl
        | succ i => exact a6 i hi
      · intro i p' hi
        cases i with
        | zero => exact absurd hi (hc' p')
        | succ i => exact a7 i p' hi
      · intro i1 i2 p' h1 h2
        cases i1 with
        | zero => exact absurd h1 (hc' p')
        | succ i1 =>
          cases i2 with
          | zero => exact absurd h2 (hc' p')
          | succ i2 => rw [a8 i1 i2 p' h1 h2]

/-- Copying a run of old cells with their strings duplicated is a step. -/
theorem produces_dup (old : List Cell) (h : Heap) (off len : Nat) (hp : OldPtrs old h)
    (hlive : ∀ r p, r < len → peek old (off + r) = Cell.string_data (some p) →
      (h.lookup p).isSome = true) :
    Produces old (fun r => Origin.dup (off + r)) (fun _ => False) len h
      (dup_cells (read_block old off len) h) := by
  have hl : ∀ i p, peek (read_block old off len) i = Cell.string_data (some p) →
      (h.lookup p).isSome = true ∧ p < h.next := by
    intro i p hi
    have hlt := peek_not_ptr_of_le hi
    rw [length_read_block] at hlt
    rw [peek_read_block, if_pos hlt] at hi
    exact ⟨hlive i p hlt hi, hp.lt _ p hi⟩
  obtain ⟨a1, a2, a3, a4, a5, a6, a7, a8⟩ := dup_cells_spec (read_block old off len) h hl
  refine ⟨by rw [length_dup_cells, length_read_block], a1, a2, a3, fun _ _ hf => absurd hf id,
    fun q hq _ => a4 q hq, ?_, fun r1 r2 p _ h1 h2 => a8 r1 r2 p h1 h2, fun r p _ h1 => (a7 r p h1).2⟩
  intro r hr
  simp only [CellFrom]
  constructor
  · intro p hpj
    have hpk : peek (read_block old off len) r = Cell.string_data (some p) := by
      rw [peek_read_block, if_pos hr]; exact hpj
    obtain ⟨p', h1, h2⟩ := a5 r p hpk
    exact ⟨p', h1, (a7 r p' h1).1, h2⟩
  · intro hnp
    have := a6 r (by
      intro p
      rw [peek_read_block, if_pos hr]
      exact hnp p)
    rw [this, peek_read_block, if_pos hr]

/-! ## Runs of steps -/

theorem fwd_run_succ (f : Nat → Heap → List Cell × Heap) (N : Nat) (h : Heap) :
    fwd_run f (N + 1) h =
      ((fwd_run f N h).1 ++ (f N (fwd_run f N h).2).1, (f N (fwd_run f N h).2).2) := by
  simp only [fwd_run, foldl_range_succ]

theorem offset_cover (size offset : Nat → Nat) (N : Nat) (hoff0 : offset 0 = 0)
    (hoffs : ∀ i, i < N → offset (i + 1) = offset i + size i) :
    ∀ M, M ≤ N → ∀ x, x < offset M → ∃ i r, i < M ∧ r < size i ∧ x = offset i + r := by
  intro M
  induction M with
  | zero =>
    intro _ x hx
    rw [hoff0] at hx
    omega
  | succ M ih =>
    intro hM x hx
    rw [hoffs M (by omega)] at hx
    by_cases h1 : x < offset M
    · obtain ⟨i, r, hi, hr, he⟩ := ih (by omega) x h1
      exact ⟨i, r, by omega, hr, he⟩
    · exact ⟨M, x - offset M, by omega, by omega, by omega⟩

/-- A run of steps in increasing order is a step, when no step needs the
string of an old cell that an earlier step has freed. -/
theorem fwd_run_produces (old : List Cell) (f : Nat → Heap → List Cell × Heap)
    (size offset : Nat → Nat) (oi : Nat → Nat → Origin) (di : Nat → Nat → Prop)
    (needs : Nat → Nat → Prop) (o : Nat → Origin) (N : Nat)
    (hoff0 : offset 0 = 0) (hoffs : ∀ i, i < N → offset (i + 1) = offset i + size i)
    (hstep : ∀ i, i < N → ∀ h, OldPtrs old h →
      (∀ j p, needs i j → peek old j = Cell.string_data (some p) → (h.lookup p).isSome = true) →
      Produces old (oi i) (di i) (size i) h (f i h))
    (hdup : ∀ i r j, i < N → r < size i → oi i r = Origin.dup j → needs i j)
    (hsafe : ∀ i i' j, i' < i → i < N → needs i j → ¬ di i' j)
    (ho : ∀ i r, i < N → r < size i → o (offset i + r) = oi i r)
    (h0 : Heap) (hp : OldPtrs old h0)
    (hlive : ∀ i j p, i < N → needs i j → peek old j = Cell.string_data (some p) →
      (h0.lookup p).isSome = true) :
    ∀ M, M ≤ N → Produces old o (fun j => ∃ i, i < M ∧ di i j) (offset M) h0 (fwd_run f M h0) := by
  intro M
  induction M with
  | zero =>
    intro _
    rw [hoff0]
    have := produces_nil old h0 o
    refine ⟨this.length, this.wf, this.faulted, this.next_le, ?_, ?_, this.cell, this.fresh_unique,
      this.fresh_lt⟩
    · rintro q j ⟨i, hi, _⟩ _
      omega
    · intro q hq _
      rfl
  | succ M ih =>
    intro hM
    have P1 := ih (by omega)
    have hp1 : OldPtrs old (fwd_run f M h0).2 := hp.mono P1.next_le
    have P2 := hstep M (by omega) (fwd_run f M h0).2 hp1 (by
      intro j p hn hj
      rw [P1.kept p (hp.lt j p hj)]
      · exact hlive M j p (by omega) hn hj
      · rintro j' ⟨i', hi', hdi⟩ hj'
        have := hp.unique j j' p hj hj'
        rw [this] at hdi
        exact hsafe M i' j hi' (by omega) hn hdi)
    rw [fwd_run_succ, hoffs M (by omega)]
    apply Produces.append hp P1 P2 (fun _ _ => rfl) (fun r hr => ho M r (by omega) hr)
    · intro j
      constructor
      · rintro ⟨i, hi, hdi⟩
        by_cases h1 : i < M
        · exact Or.inl ⟨i, h1, hdi⟩
        · have : i = M := by omega
          subst this
          exact Or.inr hdi
      · rintro (⟨i, hi, hdi⟩ | hdi)
        · exact ⟨i, by omega, hdi⟩
        · exact ⟨M, by omega, hdi⟩
    · rintro r j hr hor ⟨i', hi', hdi⟩
      exact hsafe M i' j hi' (by omega) (hdup M r j (by omega) hr hor) hdi

/-- A run of steps in decreasing order is a step, when no step needs the
string of an old cell that a step run before it has freed. -/
theorem bwd_run_produces (old : List Cell) (f : Nat → Heap → List Cell × Heap)
    (size offset : Nat → Nat) (oi : Nat → Nat → Origin) (di : Nat → Nat → Prop)
    (needs : Nat → Nat → Prop) (o : Nat → Origin) (N : Nat)
    (hoff0 : offset 0 = 0) (hoffs : ∀ i, i < N → offset (i + 1) = offset i + size i)
    (hstep : ∀ i, i < N → ∀ h, OldPtrs old h →
      (∀ j p, needs i j → peek old j = Cell.string_data (some p) → (h.lookup p).isSome = true) →
      Produces old (oi i) (di i) (size i) h (f i h))
    (hdup : ∀ i r j, i < N → r < size i → oi i r = Origin.dup j → needs i j)
    (hsafe : ∀ i i' j, i < i' → i' < N → needs i j → ¬ di i' j)
    (ho : ∀ i r, i < N → r < size i → o (offset i + r) = oi i r) :
    ∀ M, M ≤ N → ∀ (h0 : Heap), OldPtrs old h0 →
      (∀ i j p, i < M → needs i j → peek old j = Cell.string_data (some p) →
        (h0.lookup p).isSome = true) →
      Produces old o (fun j => ∃ i, i < M ∧ di i j) (offset M) h0 (bwd_run f M h0) := by
  intro M
  induction M with
  | zero =>
    intro _ h0 _ _
    rw [hoff0]
    have := produces_nil old h0 o
    refine ⟨this.length, this.wf, this.faulted, this.next_le, ?_, ?_, this.cell, this.fresh_unique,
      this.fresh_lt⟩
    · rintro q j ⟨i, hi, _⟩ _
      omega
    · intro q hq _
      rfl
  | succ M ih =>
    intro hM h0 hp hlive
    have P1 := hstep M (by omega) h0 hp (fun j p hn hj => hlive M j p (by omega) hn hj)
    have hp1 : OldPtrs old (f M h0).2 := hp.mono P1.next_le
    have P2 := ih (by omega) (f M h0).2 hp1 (by
      intro i j p hi hn hj
      rw [P1.kept p (hp.lt j p hj)]
      · exact hlive i j p (by omega) hn hj
      · intro j' hdi hj'
        have := hp.unique j j' p hj hj'
        rw [this] at hdi
        exact hsafe i M j hi (by omega) hn hdi)
    rw [hoffs M (by omega)]
    simp only [bwd_run]
    apply Produces.prepend hp P1 P2 (fun r hr => ho M r (by omega) hr) (fun _ _ => rfl)
    · intro j
      constructor
      · rintro ⟨i, hi, hdi⟩
        by_cases h1 : i < M
        · exact Or.inr ⟨i, h1, hdi⟩
        · have : i = M := by omega
          subst this
          exact Or.inl hdi
      · rintro (hdi | ⟨i, hi, hdi⟩)
        · exact ⟨M, by omega, hdi⟩
        · exact ⟨i, by omega, hdi⟩
    · intro r j hr hor hdi
      obtain ⟨i, r', hi, hr', he⟩ := offset_cover size offset N hoff0 hoffs M (by omega) r hr
      rw [he, ho i r' (by omega) hr'] at hor
      exact hsafe i M j hi (by omega) (hdup i r' j (by omega) hr' hor) hdi

theorem Produces.congr {old : List Cell} {o o' : Nat → Origin} {d d' : Nat → Prop} {s : Nat}
    {h : Heap} {res : List Cell × Heap} (P : Produces old o d s h res)
    (ho : ∀ r, r < s → o' r = o r) (hd : ∀ j, d' j ↔ d j) : Produces old o' d' s h res :=
  { length := P.length
    wf := P.wf
    faulted := P.faulted
    next_le := P.next_le
    freed := fun q j hj hq => P.freed q j ((hd j).1 hj) hq
    kept := fun q hq hn => P.kept q hq (fun j hj => hn j ((hd j).2 hj))
    cell := fun r hr => by rw [ho r hr]; exact P.cell r hr
    fresh_unique := P.fresh_unique
    fresh_lt := P.fresh_lt }

/-- A step on the old cells of one group is a step on all old cells. -/
theorem Produces.rebase {old : List Cell} {off a : Nat} {o : Nat → Origin} {d : Nat → Prop}
    {s : Nat} {h : Heap} {res : List Cell × Heap}
    (P : Produces (read_block old off a) o d s h res)
    (hsrc : ∀ r j, r < s → (o r = Origin.copy j ∨ o r = Origin.dup j) → j < a) :
    Produces old (fun r => (o r).shift off) (fun x => off ≤ x ∧ x < off + a ∧ d (x - off)) s h res := by
  have hpk : ∀ j, j < a → peek (read_block old off a) j = peek old (off + j) := by
    intro j hj
    rw [peek_read_block, if_pos hj]
  refine ⟨P.length, P.wf, P.faulted, P.next_le, ?_, ?_, ?_, P.fresh_unique, P.fresh_lt⟩
  · rintro q x ⟨h1, h2, h3⟩ hq
    apply P.freed q (x - off) h3
    rw [hpk _ (by omega), Nat.add_sub_cancel' h1]
    exact hq
  · intro q hq hn
    apply P.kept q hq
    intro j hj hc
    have hlt := peek_not_ptr_of_le hc
    rw [length_read_block] at hlt
    rw [hpk j hlt] at hc
    exact hn (off + j) ⟨by omega, by omega, by rw [Nat.add_sub_cancel_left]; exact hj⟩ hc
  · intro r hr
    have hcell := P.cell r hr
    cases hor : o r with
    | copy j =>
      rw [hor] at hcell
      simp only [Origin.shift, CellFrom] at hcell ⊢
      rw [hcell, hpk j (hsrc r j hr (Or.inl hor))]
    | dup j =>
      rw [hor] at hcell
      simp only [Origin.shift, CellFrom] at hcell ⊢
      rw [hpk j (hsrc r j hr (Or.inr hor))] at hcell
      exact hcell
    | fill v =>
      rw [hor] at hcell
      exact hcell

theorem OldPtrs.read_block {old : List Cell} {h : Heap} (hp : OldPtrs old h) (off a : Nat) :
    OldPtrs (read_block old off a) h := by
  constructor
  · intro j p hj
    have hlt := peek_not_ptr_of_le hj
    rw [length_read_block] at hlt
    rw [peek_read_block, if_pos hlt] at hj
    exact hp.lt _ p hj
  · intro j j' p hj hj'
    have hlt := peek_not_ptr_of_le hj
    have hlt' := peek_not_ptr_of_le hj'
    rw [length_read_block] at hlt hlt'
    rw [peek_read_block, if_pos hlt] at hj
    rw [peek_read_block, if_pos hlt'] at hj'
    have := hp.unique _ _ p hj hj'
    omega

/-! ## harp_variable_rearrange_dimension: what the out of place counterpart produces -/

theorem block_unique {nbe a b x : Nat} (ha : a * nbe ≤ x ∧ x < a * nbe + nbe)
    (hb : b * nbe ≤ x ∧ x < b * nbe + nbe) : a = b := by
  by_contra hne
  rcases Nat.lt_or_gt_of_ne hne with hlt | hgt
  · have : (a + 1) * nbe ≤ b * nbe := Nat.mul_le_mul_right nbe hlt
    rw [Nat.add_mul] at this
    omega
  · have : (b + 1) * nbe ≤ a * nbe := Nat.mul_le_mul_right nbe hgt
    rw [Nat.add_mul] at this
    omega

theorem div_mod_block {nbe d r : Nat} (hr : r < nbe) :
    (d * nbe + r) / nbe = d ∧ (d * nbe + r) % nbe = r := by
  have hpos : 0 < nbe := by omega
  constructor
  · rw [Nat.mul_comm, Nat.mul_add_div hpos, Nat.div_eq_of_lt hr, Nat.add_zero]
  · rw [Nat.mul_comm, Nat.mul_add_mod, Nat.mod_eq_of_lt hr]

theorem block_of_lt {nbe n x : Nat} (hx : x < n * nbe) :
    x / nbe < n ∧ x % nbe < nbe ∧ x = x / nbe * nbe + x % nbe := by
  have hpos : 0 < nbe := by
    rcases Nat.eq_zero_or_pos nbe with h | h
    · rw [h] at hx; simp at hx
    · exact h
  refine ⟨?_, Nat.mod_lt _ hpos, ?_⟩
  · rw [Nat.div_lt_iff_lt_mul hpos]
    exact hx
  · rw [Nat.mul_comm]
    exact (Nat.div_add_mod x nbe).symm

theorem sweep_bwd_eq_bwd_run (F : List Cell → Heap → List Cell × Heap) (a : Nat) (old : List Cell) :
    ∀ (G : Nat) (h : Heap),
      sweep_bwd F a old G h = bwd_run (fun g h => F (read_block old (g * a) a) h) G h := by
  intro G
  induction G with
  | zero => intro h; rfl
  | succ G ih =>
    intro h
    simp only [sweep_bwd, bwd_run, ih]

theorem Origin.shift_dup {off j : Nat} {o : Origin} (h : o.shift off = Origin.dup j) :
    ∃ j', o = Origin.dup j' ∧ j = off + j' := by
  cases o with
  | copy k => exact Origin.noConfusion h
  | dup k =>
    refine ⟨k, rfl, ?_⟩
    simp only [Origin.shift, Origin.dup.injEq] at h
    exact h.symm
  | fill v => exact Origin.noConfusion h

theorem sweep_produces (F : List Cell → Heap → List Cell × Heap) (a c : Nat) (og : Nat → Origin)
    (dg : Nat → Prop)
    (hF : ∀ grp h, grp.length = a → OldPtrs grp h →
      (∀ j p, peek grp j = Cell.string_data (some p) → (h.lookup p).isSome = true) →
      Produces grp og dg c h (F grp h))
    (hsrc : ∀ r j, r < c → (og r = Origin.copy j ∨ og r = Origin.dup j) → j < a)
    (old : List Cell) (h0 : Heap) (hp : OldPtrs old h0)
    (hlive : ∀ j p, peek old j = Cell.string_data (some p) → (h0.lookup p).isSome = true)
    (G : Nat) :
    Produces old (sweep_origin og a c) (sweep_dropped dg a G) (G * c) h0 (sweep_fwd F a old G h0) ∧
    Produces old (sweep_origin og a c) (sweep_dropped dg a G) (G * c) h0 (sweep_bwd F a old G h0) := by
  have hstep : ∀ i, i < G → ∀ h, OldPtrs old h →
      (∀ j p, (i * a ≤ j ∧ j < i * a + a) → peek old j = Cell.string_data (some p) →
        (h.lookup p).isSome = true) →
      Produces old (fun r => (og r).shift (i * a))
        (fun x => i * a ≤ x ∧ x < i * a + a ∧ dg (x - i * a)) c h
        (F (read_block old (i * a) a) h) := by
    intro i _ h hp' hl'
    apply Produces.rebase _ hsrc
    apply hF _ _ (length_read_block _ _ _) (hp'.read_block _ _)
    intro j p hj
    rw [peek_read_block] at hj
    by_cases hja : j < a
    · rw [if_pos hja] at hj
      exact hl' _ p ⟨by omega, by omega⟩ hj
    · rw [if_neg hja] at hj
      exact Cell.noConfusion hj
  have hdup : ∀ i r j, i < G → r < c → (og r).shift (i * a) = Origin.dup j →
      (i * a ≤ j ∧ j < i * a + a) := by
    intro i r j _ hr hs
    obtain ⟨j', hj', e⟩ := Origin.shift_dup hs
    have := hsrc r j' hr (Or.inr hj')
    omega
  have hsafe : ∀ i i' j, i ≠ i' → (i * a ≤ j ∧ j < i * a + a) →
      ¬ (i' * a ≤ j ∧ j < i' * a + a ∧ dg (j - i' * a)) := by
    rintro i i' j hne h1 ⟨h2, h3, _⟩
    exact hne (block_unique h1 ⟨h2, h3⟩)
  have ho : ∀ i r, i < G → r < c → sweep_origin og a c (i * c + r) = (og r).shift (i * a) := by
    intro i r _ hr
    simp only [sweep_origin, (div_mod_block hr).1, (div_mod_block hr).2]
  constructor
  · exact fwd_run_produces old (fun g h => F (read_block old (g * a) a) h) (fun _ => c)
      (fun g => g * c) (fun i r => (og r).shift (i * a))
      (fun i x => i * a ≤ x ∧ x < i * a + a ∧ dg (x - i * a))
      (fun i x => i * a ≤ x ∧ x < i * a + a) (sweep_origin og a c) G (Nat.zero_mul _)
      (fun i _ => by simp only [Nat.add_mul, Nat.one_mul]) hstep hdup
      (fun i i' j hlt _ => hsafe i i' j (by omega)) ho h0 hp
      (fun i j p _ _ hj => hlive j p hj) G (Nat.le_refl G)
  · rw [sweep_bwd_eq_bwd_run]
    exact bwd_run_produces old (fun g h => F (read_block old (g * a) a) h) (fun _ => c)
      (fun g => g * c) (fun i r => (og r).shift (i * a))
      (fun i x => i * a ≤ x ∧ x < i * a + a ∧ dg (x - i * a))
      (fun i x => i * a ≤ x ∧ x < i * a + a) (sweep_origin og a c) G (Nat.zero_mul _)
      (fun i _ => by simp only [Nat.add_mul, Nat.one_mul]) hstep hdup
      (fun i i' j hlt _ => hsafe i i' j (by omega)) ho G (Nat.le_refl G) h0 hp
      (fun i j p _ _ hj => hlive j p hj)

/-! ## What a caller learns from a step that produces cells -/

theorem element_of_not_ptr {h h' : Heap} {c : Cell} (hc : ∀ p, c ≠ Cell.string_data (some p)) :
    element h' c = element h c := by
  cases c with
  | string_data p =>
    cases p with
    | none => rfl
    | some p => exact absurd rfl (hc p)
  | _ => rfl

theorem element_of_lookup {h h' : Heap} {p p' : Nat} (e : h'.lookup p' = h.lookup p) :
    element h' (Cell.string_data (some p')) = element h (Cell.string_data (some p)) := by
  simp only [element, e]

theorem ptr_or_not (c : Cell) : (∃ p, c = Cell.string_data (some p)) ∨
    ∀ p, c ≠ Cell.string_data (some p) := by
  cases c with
  | string_data p =>
    cases p with
    | none => exact Or.inr (fun p h => Option.noConfusion (Cell.string_data.inj h))
    | some p => exact Or.inl ⟨p, rfl⟩
  | _ => exact Or.inr (fun p h => Cell.noConfusion h)

/-- The value of a new cell is the value of the old cell it comes from. -/
theorem Produces.element_eq {old : List Cell} {o : Nat → Origin} {d : Nat → Prop} {s : Nat}
    {h : Heap} {res : List Cell × Heap} (P : Produces old o d s h res) (hp : OldPtrs old h)
    {r j : Nat} (hr : r < s) (ho : o r = Origin.copy j ∨ o r = Origin.dup j)
    (hkeep : o r = Origin.copy j → ¬ d j) :
    element res.2 (peek res.1 r) = element h (peek old j) := by
  have hc := P.cell r hr
  rcases ho with ho | ho
  · rw [ho] at hc
    simp only [CellFrom] at hc
    rw [hc]
    rcases ptr_or_not (peek old j) with ⟨p, hpj⟩ | hn
    · rw [hpj]
      apply element_of_lookup
      apply P.kept p (hp.lt j p hpj)
      intro j' hd' hq
      have := hp.unique j j' p hpj hq
      subst this
      exact hkeep ho hd'
    · exact element_of_not_ptr hn
  · rw [ho] at hc
    simp only [CellFrom] at hc
    rcases ptr_or_not (peek old j) with ⟨p, hpj⟩ | hn
    · obtain ⟨p', hc', _, hl⟩ := hc.1 p hpj
      rw [hc', hpj]
      exact element_of_lookup hl
    · rw [hc.2 hn]
      exact element_of_not_ptr hn

/-- A new cell made as a fill value holds that value. -/
theorem Produces.fill_eq {old : List Cell} {o : Nat → Origin} {d : Nat → Prop} {s : Nat}
    {h : Heap} {res : List Cell × Heap} (P : Produces old o d s h res)
    {r : Nat} {v : Cell} (hr : r < s) (ho : o r = Origin.fill v) : peek res.1 r = v := by
  have hc := P.cell r hr
  rw [ho] at hc
  exact hc.1

/-- After a step that never makes two plain copies of one old cell, and never
makes a plain copy of a cell whose string it frees, each non-null string of the
new cells is owned by exactly one element. -/
theorem Produces.owns {old : List Cell} {o : Nat → Origin} {d : Nat → Prop} {s : Nat}
    {h : Heap} {res : List Cell × Heap} (P : Produces old o d s h res) (hw : h.WF)
    (hown : Owns h old)
    (hinj : ∀ r r' j, r < s → r' < s → o r = Origin.copy j → o r' = Origin.copy j → r = r')
    (hkeep : ∀ r j, r < s → o r = Origin.copy j → ¬ d j) :
    Owns res.2 res.1 := by
  have hp : OldPtrs old h := OldPtrs.of_owns hw hown
  -- a new pointer is an old one copied, or a fresh one
  have hkind : ∀ r p, peek res.1 r = Cell.string_data (some p) →
      (∃ j, o r = Origin.copy j ∧ peek old j = Cell.string_data (some p)) ∨
      (h.next ≤ p ∧ (res.2.lookup p).isSome = true) := by
    intro r p hr
    have hrs : r < s := by
      have := peek_not_ptr_of_le hr
      rw [P.length] at this
      exact this
    have hc := P.cell r hrs
    cases hor : o r with
    | copy j =>
      rw [hor] at hc
      simp only [CellFrom] at hc
      exact Or.inl ⟨j, rfl, by rw [← hc]; exact hr⟩
    | dup j =>
      rw [hor] at hc
      simp only [CellFrom] at hc
      rcases ptr_or_not (peek old j) with ⟨q, hq⟩ | hn
      · obtain ⟨p', hc', hle, hl⟩ := hc.1 q hq
        rw [hr] at hc'
        have e : p = p' := by simpa using hc'
        subst e
        right
        exact ⟨hle, by rw [hl]; exact (hown j q hq).1⟩
      · rw [hc.2 hn] at hr
        exact absurd hr (hn p)
    | fill v =>
      rw [hor] at hc
      simp only [CellFrom] at hc
      rw [hr] at hc
      exact absurd hc.1 (fun e => hc.2 p e.symm)
  intro r p hr
  have hrs : r < s := by
    have := peek_not_ptr_of_le hr
    rw [P.length] at this
    exact this
  rcases hkind r p hr with ⟨j, hoj, hpj⟩ | ⟨hle, hlive⟩
  · constructor
    · rw [P.kept p (hp.lt j p hpj)]
      · exact (hown j p hpj).1
      · intro j' hd' hq
        have := hp.unique j j' p hpj hq
        subst this
        exact hkeep r _ hrs hoj hd'
    · intro r' hr'
      have hrs' : r' < s := by
        have := peek_not_ptr_of_le hr'
        rw [P.length] at this
        exact this
      rcases hkind r' p hr' with ⟨j', hoj', hpj'⟩ | ⟨hle', _⟩
      · have := hp.unique j j' p hpj hpj'
        subst this
        exact hinj r' r _ hrs' hrs hoj' hoj
      · have := hp.lt j p hpj
        omega
  · exact ⟨hlive, fun r' hr' => (P.fresh_unique r r' p hle hr hr').symm⟩

/-! ## The products of dimension lengths -/

theorem dimension_product_self (dimension : List Int) (a : Nat) :
    dimension_product dimension a a = 1 := by
  simp [dimension_product]

theorem dimension_product_succ (dimension : List Int) {a b : Nat} (h : a ≤ b) :
    dimension_product dimension a (b + 1) =
      dimension_product dimension a b * dimension.getD b 0 := by
  unfold dimension_product
  have e : b + 1 - a = (b - a) + 1 := by omega
  rw [e, List.range_succ, List.map_append, List.foldl_append]
  simp only [List.map_cons, List.map_nil, List.foldl_cons, List.foldl_nil]
  have e2 : a + (b - a) = b := by omega
  rw [e2]

theorem dimension_product_split (dimension : List Int) {a b : Nat} (hab : a ≤ b) :
    ∀ c, b ≤ c → dimension_product dimension a c =
      dimension_product dimension a b * dimension_product dimension b c := by
  intro c hbc
  induction c with
  | zero =>
    have hb : b = 0 := by omega
    have ha : a = 0 := by omega
    subst hb
    subst ha
    simp [dimension_product_self]
  | succ c ih =>
    by_cases hbc' : b = c + 1
    · subst hbc'
      rw [dimension_product_self, Int.mul_one]
    · have h1 : b ≤ c := by omega
      rw [dimension_product_succ dimension (Nat.le_trans hab h1), dimension_product_succ dimension h1,
        ih h1, Int.mul_assoc]

theorem dimension_product_first (dimension : List Int) {a b : Nat} (h : a < b) :
    dimension_product dimension a b =
      dimension.getD a 0 * dimension_product dimension (a + 1) b := by
  rw [dimension_product_split dimension (Nat.le_succ a) b h,
    dimension_product_succ dimension (Nat.le_refl a), dimension_product_self, Int.one_mul]

/-- The product of all lengths splits at a dimension. -/
theorem dimension_product_at (dimension : List Int) {i n : Nat} (h : i < n) :
    dimension_product dimension 0 n =
      dimension_product dimension 0 i * dimension.getD i 0 * dimension_product dimension (i + 1) n := by
  rw [dimension_product_split dimension (Nat.zero_le i) n (Nat.le_of_lt h),
    dimension_product_first dimension h, Int.mul_assoc]

theorem dimension_product_congr {d1 d2 : List Int} {a b : Nat}
    (h : ∀ i, a ≤ i → i < b → d1.getD i 0 = d2.getD i 0) :
    dimension_product d1 a b = dimension_product d2 a b := by
  induction b with
  | zero =>
    unfold dimension_product
    simp
  | succ b ih =>
    by_cases hab : a ≤ b
    · rw [dimension_product_succ d1 hab, dimension_product_succ d2 hab,
        ih (fun i h1 h2 => h i h1 (by omega)), h b hab (by omega)]
    · unfold dimension_product
      have e : b + 1 - a = 0 := by omega
      rw [e]
      rfl

theorem getD_set_int (l : List Int) (i j : Nat) (x : Int) :
    (l.set i x).getD j 0 = if i = j ∧ i < l.length then x else l.getD j 0 := by
  simp only [List.getD_eq_getElem?_getD, List.getElem?_set]
  by_cases hij : i = j
  · subst hij
    by_cases hl : i < l.length
    · simp [hl]
    · simp [hl]
      rw [List.getElem?_eq_none (by omega)]
      rfl
  · simp [hij]

theorem lt_length_of_getD_ne {l : List Int} {i : Nat} (h : l.getD i 0 ≠ 0) : i < l.length := by
  by_contra hn
  apply h
  rw [List.getD_eq_getElem?_getD, List.getElem?_eq_none (by omega)]
  rfl

/-- Replacing the length of dimension `i` replaces its factor in the product of
all lengths. -/
theorem dimension_product_set (dimension : List Int) {i n : Nat} (h : i < n)
    (hl : i < dimension.length) (x : Int) :
    dimension_product (dimension.set i x) 0 n =
      dimension_product dimension 0 i * x * dimension_product dimension (i + 1) n := by
  rw [dimension_product_at (dimension.set i x) h, getD_set_int, if_pos ⟨rfl, hl⟩]
  congr 1
  · congr 1
    apply dimension_product_congr
    intro j _ hj
    rw [getD_set_int, if_neg (by omega)]
  · apply dimension_product_congr
    intro j hj _
    rw [getD_set_int, if_neg (by omega)]

/-- The shape arithmetic shared by the reshape primitives: with a non-zero
element count equal to the product of the lengths, the count splits into
groups, the length of the dimension and the block size, none of them zero, and
the block size is the quotient the code computes. -/
theorem shape_split {dimension : List Int} {num_elements : Int} {i n : Nat} (h : i < n)
    (hprod : num_elements = dimension_product dimension 0 n) (hne : num_elements ≠ 0) :
    num_elements = dimension_product dimension 0 i * dimension.getD i 0 *
        dimension_product dimension (i + 1) n ∧
      dimension_product dimension 0 i ≠ 0 ∧ dimension.getD i 0 ≠ 0 ∧
      dimension_product dimension (i + 1) n ≠ 0 ∧
      Int.tdiv num_elements (dimension_product dimension 0 i * dimension.getD i 0) =
        dimension_product dimension (i + 1) n := by
  have e := dimension_product_at dimension h
  rw [← hprod] at e
  have h1 : dimension_product dimension 0 i * dimension.getD i 0 ≠ 0 := by
    intro h0
    rw [h0, Int.zero_mul] at e
    exact hne e
  have h2 : dimension_product dimension (i + 1) n ≠ 0 := by
    intro h0
    rw [h0, Int.mul_zero] at e
    exact hne e
  refine ⟨e, ?_, ?_, h2, ?_⟩
  · intro h0
    rw [h0, Int.zero_mul] at h1
    exact h1 rfl
  · intro h0
    rw [h0, Int.mul_zero] at h1
    exact h1 rfl
  · rw [e, Int.mul_comm _ (dimension_product dimension (i + 1) n)]
    exact Int.mul_tdiv_cancel _ h1

theorem toNat_mul3 {g n k : Int} (hg : 0 ≤ g) (hn : 0 ≤ n) (hk : 0 ≤ k) :
    (g * n * k).toNat = g.toNat * (n.toNat * k.toNat) := by
  obtain ⟨g', rfl⟩ := Int.eq_ofNat_of_zero_le hg
  obtain ⟨n', rfl⟩ := Int.eq_ofNat_of_zero_le hn
  obtain ⟨k', rfl⟩ := Int.eq_ofNat_of_zero_le hk
  simp only [Int.toNat_ofNat]
  rw [← Nat.mul_assoc]
  norm_cast

/-! ## harp_variable_rearrange_dimension: the call -/

theorem read_block_realloc {mem : List Cell} {size len : Nat} (h : len ≤ size) :
    read_block (realloc mem size) 0 len = read_block mem 0 len := by
  apply read_block_congr
  intro i hi
  rw [peek_realloc, if_pos (by omega)]

theorem any_range_false {n : Nat} {p : Nat → Bool} (h : ∀ i, i < n → p i = false) :
    (List.range n).any p = false := by
  rw [List.any_eq_false]
  intro i hi
  rw [h i (List.mem_range.1 hi)]
  exact Bool.false_ne_true

/-- The call of `harp_variable_rearrange_dimension` on a variable with a
consistent, non-zero element count and ids within the dimension returns, and
its buffer holds what the sweep of the out of place counterpart over the groups
yields. -/
theorem rearrange_run (fuel : Nat) (heap : Heap) (v : harp_variable) (D : List Cell)
    (dim_index : Int) (ids : List Int)
    (hdata : v.data = some D) (hsize : D.length = v.num_elements.toNat)
    (hne : v.num_elements ≠ 0)
    (hprod : v.num_elements = dimension_product v.dimension 0 v.num_dimensions.toNat)
    (h0 : 0 ≤ dim_index) (h1 : dim_index < v.num_dimensions) (hn : 1 ≤ ids.length)
    (hids : ∀ i, i < ids.length →
      0 ≤ ids.getD i 0 ∧ ids.getD i 0 < v.dimension.getD dim_index.toNat 0)
    (hfuel : (v.dimension.getD dim_index.toNat 0).toNat < fuel) :
    ∃ D' heap',
      harp_variable_rearrange_dimension fuel heap (some v) dim_index ids.length (some ids) =
        .ok (succeed
          { v with
            data := some D'
            num_elements := dimension_product v.dimension 0 dim_index.toNat * ids.length *
              dimension_product v.dimension (dim_index.toNat + 1) v.num_dimensions.toNat
            dimension := v.dimension.set dim_index.toNat ids.length }
          heap') ∧
      D'.length = (dimension_product v.dimension 0 dim_index.toNat * ids.length *
        dimension_product v.dimension (dim_index.toNat + 1) v.num_dimensions.toNat).toNat ∧
      ((read_block D' 0 ((dimension_product v.dimension 0 dim_index.toNat).toNat *
          (ids.length * (dimension_product v.dimension (dim_index.toNat + 1)
            v.num_dimensions.toNat).toNat)), heap') =
        sweep_fwd
          (rearrange_group_ref v.data_type (v.dimension.getD dim_index.toNat 0).toNat ids.length
            (dimension_product v.dimension (dim_index.toNat + 1) v.num_dimensions.toNat).toNat ids
            (build_move_to_id (v.dimension.getD dim_index.toNat 0).toNat ids.length ids))
          ((v.dimension.getD dim_index.toNat 0).toNat *
            (dimension_product v.dimension (dim_index.toNat + 1) v.num_dimensions.toNat).toNat)
          D (dimension_product v.dimension 0 dim_index.toNat).toNat heap ∨
       (read_block D' 0 ((dimension_product v.dimension 0 dim_index.toNat).toNat *
          (ids.length * (dimension_product v.dimension (dim_index.toNat + 1)
            v.num_dimensions.toNat).toNat)), heap') =
        sweep_bwd
          (rearrange_group_ref v.data_type (v.dimension.getD dim_index.toNat 0).toNat ids.length
            (dimension_product v.dimension (dim_index.toNat + 1) v.num_dimensions.toNat).toNat ids
            (build_move_to_id (v.dimension.getD dim_index.toNat 0).toNat ids.length ids))
          ((v.dimension.getD dim_index.toNat 0).toNat *
            (dimension_product v.dimension (dim_index.toNat + 1) v.num_dimensions.toNat).toNat)
          D (dimension_product v.dimension 0 dim_index.toNat).toNat heap) ∧
      (¬ 0 < dimension_product v.dimension 0 dim_index.toNat →
        heap' = heap ∧ ∀ j, peek D' j = if j < D'.length then peek D j else Cell.undef) := by
  have hdi : dim_index.toNat < v.num_dimensions.toNat := by omega
  obtain ⟨hsplit, hG, hd, hK, hdiv⟩ := shape_split hdi hprod hne
  have hdpos : 0 < v.dimension.getD dim_index.toNat 0 := by
    have := hids 0 (by omega)
    omega
  generalize hGZ : dimension_product v.dimension 0 dim_index.toNat = GZ at *
  generalize hKZ : dimension_product v.dimension (dim_index.toNat + 1) v.num_dimensions.toNat = K at *
  generalize hdZ : v.dimension.getD dim_index.toNat 0 = dZ at *
  have hids' : ∀ d, d < ids.length → id_at ids d < dZ.toNat := by
    intro d hd'
    have := hids d hd'
    unfold id_at
    omega
  have hnZ : ¬ ((ids.length : Int) ≤ 0) := by omega
  have hany : (List.range ids.length).any
      (fun i => decide (ids.getD i 0 < 0 ∨ ids.getD i 0 ≥ dZ)) = false := by
    apply any_range_false
    intro i hi
    have := hids i hi
    simp only [decide_eq_false_iff_not]
    omega
  unfold harp_variable_rearrange_dimension
  simp only [hnZ, if_false, hdata, Option.getD_some, Int.toNat_ofNat, hGZ, hdZ, hdiv, hany,
    hne, Bool.false_eq_true, not_lt.2 h0, not_le.2 h1, or_self, ge_iff_le, gt_iff_lt]
  -- the length of the buffer after the last `realloc`
  have hlen2 : ∀ r1 : List Cell,
      r1.length = (if dZ < (ids.length : Int) then realloc D (GZ * ids.length * K).toNat else D).length →
      (if (ids.length : Int) < dZ then realloc r1 (GZ * ids.length * K).toNat else r1).length =
        (GZ * ids.length * K).toNat := by
    intro r1 hr1
    by_cases hlt : (ids.length : Int) < dZ
    · rw [if_pos hlt, length_realloc]
    · rw [if_neg hlt, hr1]
      by_cases hgt : dZ < (ids.length : Int)
      · rw [if_pos hgt, length_realloc]
      · rw [if_neg hgt, hsize, hsplit]
        have : (ids.length : Int) = dZ := by omega
        rw [this]
  by_cases hGpos : 0 < GZ
  · -- the Nat level facts of the two remaining sign cases
    have hfacts : GZ.toNat * (dZ.toNat * K.toNat) ≤ D.length ∧
        GZ.toNat * (ids.length * K.toNat) ≤ (GZ * ids.length * K).toNat ∧
        (dZ < (ids.length : Int) → GZ.toNat * (dZ.toNat * K.toNat) ≤ (GZ * ids.length * K).toNat) ∧
        (v.num_elements < GZ * ids.length * K →
          dZ.toNat * K.toNat ≤ ids.length * K.toNat ∧
          (dZ < (ids.length : Int) ∨ K.toNat = 0)) ∧
        (¬ v.num_elements < GZ * ids.length * K →
          ids.length * K.toNat ≤ dZ.toNat * K.toNat ∧
          (¬ dZ < (ids.length : Int) ∨ K.toNat = 0)) := by
      by_cases hKpos : 0 < K
      · have e1 : v.num_elements.toNat = GZ.toNat * (dZ.toNat * K.toNat) := by
          rw [hsplit]
          exact toNat_mul3 (by omega) (by omega) (by omega)
        have e2 : (GZ * (ids.length : Int) * K).toNat = GZ.toNat * (ids.length * K.toNat) := by
          rw [toNat_mul3 (by omega) (by omega) (by omega), Int.toNat_ofNat]
        have hgk : 0 < GZ * K := Int.mul_pos hGpos hKpos
        have hcmp : v.num_elements < GZ * ids.length * K ↔ dZ < (ids.length : Int) := by
          rw [hsplit]
          have ea : GZ * dZ * K = GZ * K * dZ := by ring
          have eb : GZ * (ids.length : Int) * K = GZ * K * ids.length := by ring
          rw [ea, eb]
          exact mul_lt_mul_left hgk
        refine ⟨by omega, by omega, ?_, ?_, ?_⟩
        · intro hlt
          rw [e2]
          apply Nat.mul_le_mul_left
          apply Nat.mul_le_mul_right
          omega
        · intro hlt
          refine ⟨?_, Or.inl (hcmp.1 hlt)⟩
          apply Nat.mul_le_mul_right
          have := hcmp.1 hlt
          omega
        · intro hlt
          have hle : ¬ dZ < (ids.length : Int) := fun h => hlt (hcmp.2 h)
          refine ⟨?_, Or.inl hle⟩
          apply Nat.mul_le_mul_right
          omega
      · have hk0 : K.toNat = 0 := by omega
        rw [hk0]
        simp
    obtain ⟨hA, hB, hC, hgrowf, hshrinkf⟩ := hfacts
    have hmem0 : ∀ j, j < GZ.toNat * (dZ.toNat * K.toNat) →
        peek (if dZ < (ids.length : Int) then realloc D (GZ * ids.length * K).toNat else D) j =
          peek D j := by
      intro j hj
      by_cases hgt : dZ < (ids.length : Int)
      · rw [if_pos hgt, peek_realloc, if_pos (by have := hC hgt; omega)]
      · rw [if_neg hgt]
    obtain ⟨mem', heap', hrun, hlen, hread⟩ := rearrange_groups_spec v.data_type hids' hfuel
      (if dZ < (ids.length : Int) then realloc D (GZ * ids.length * K).toNat else D) heap GZ.toNat
      (decide (v.num_elements < GZ * ids.length * K))
      (by
        intro hg
        have hg' := of_decide_eq_true hg
        refine ⟨(hgrowf hg').1, ?_⟩
        rcases (hgrowf hg').2 with hlt | hk0
        · rw [if_pos hlt, length_realloc]
          exact hB
        · rw [hk0]
          simp)
      (by
        intro hg
        have hg' := of_decide_eq_false hg
        refine ⟨(hshrinkf hg').1, ?_⟩
        rcases (hshrinkf hg').2 with hlt | hk0
        · rw [if_neg hlt]
          exact hA
        · rw [hk0]
          simp)
    simp only [decide_eq_true_eq] at hrun hread
    rw [hrun]
    refine ⟨_, heap', rfl, hlen2 mem' hlen, ?_, fun h => absurd hGpos h⟩
    have hrd : read_block
        (if (ids.length : Int) < dZ then realloc mem' (GZ * ids.length * K).toNat else mem') 0
        (GZ.toNat * (ids.length * K.toNat)) = read_block mem' 0 (GZ.toNat * (ids.length * K.toNat)) := by
      by_cases hlt : (ids.length : Int) < dZ
      · rw [if_pos hlt]
        exact read_block_realloc hB
      · rw [if_neg hlt]
    rw [hrd, hread]
    by_cases hg : v.num_elements < GZ * ids.length * K
    · right
      rw [if_pos hg]
      exact sweep_bwd_congr _ _ _ _ _ _ hmem0
    · left
      rw [if_neg hg]
      exact sweep_fwd_congr _ _ _ _ _ _ hmem0
  · have hG0 : GZ.toNat = 0 := by omega
    rw [hG0]
    simp only [List.range_zero, List.reverse_nil, ite_self, List.foldlM_nil, pure, Except.pure]
    refine ⟨_, heap, rfl, hlen2 _ rfl, Or.inl ?_, fun _ => ⟨rfl, ?_⟩⟩
    · rw [Nat.zero_mul, read_block_zero_len]
      rfl
    · intro j
      by_cases hlt : (ids.length : Int) < dZ
      · rw [if_pos hlt, if_neg (by omega), peek_realloc, length_realloc]
      · rw [if_neg hlt]
        by_cases hgt : dZ < (ids.length : Int)
        · rw [if_pos hgt, peek_realloc, length_realloc]
        · rw [if_neg hgt]
          by_cases hj : j < D.length
          · rw [if_pos hj]
          · rw [if_neg hj]
            exact peek_of_le (by omega)

/-! ## Steps that leave the heap alone -/

theorem element_offset_eq (len nbe g j b : Nat) :
    element_offset len nbe g j b = g * (len * nbe) + (j * nbe + b) := by
  unfold element_offset
  rw [Nat.add_mul, Nat.mul_assoc, Nat.add_assoc]

theorem element_offset_lt {len nbe G g j b : Nat} (hg : g < G) (hj : j < len) (hb : b < nbe) :
    j * nbe + b < len * nbe ∧ element_offset len nbe g j b < G * (len * nbe) := by
  have h1 : (j + 1) * nbe ≤ len * nbe := Nat.mul_le_mul_right nbe hj
  rw [Nat.add_mul, Nat.one_mul] at h1
  have h2 : (g + 1) * (len * nbe) ≤ G * (len * nbe) := Nat.mul_le_mul_right _ hg
  rw [Nat.add_mul, Nat.one_mul] at h2
  rw [element_offset_eq]
  constructor <;> omega

theorem owns_of_check {h : Heap} {cells : List Cell} (hc : owns_check h cells = true) :
    Owns h cells := by
  intro j p hj
  have hjl : j < cells.length := peek_not_ptr_of_le hj
  unfold owns_check at hc
  rw [List.all_eq_true] at hc
  have := hc j (List.mem_range.2 hjl)
  rw [hj] at this
  simp only [Bool.and_eq_true, List.all_eq_true, List.mem_range, Bool.or_eq_true, bne_iff_ne,
    ne_eq, beq_iff_eq] at this
  refine ⟨this.1, ?_⟩
  intro k hk
  rcases this.2 k (peek_not_ptr_of_le hk) with h1 | h1
  · exact absurd hk h1
  · exact h1

theorem getD_reshaped_dimension (v : harp_variable) (dim_index : Int) (n : Int) (data : List Cell)
    (i : Nat) :
    (reshaped v dim_index n data).dimension.getD i 0 =
      if dim_index.toNat = i ∧ dim_index.toNat < v.dimension.length then n
      else v.dimension.getD i 0 := by
  unfold reshaped
  exact getD_set_int _ _ _ _

theorem sample_consistent : Consistent sample_heap sample_variable sample_data :=
  { wf := by
      unfold Heap.WF
      decide
    owns := owns_of_check (by decide)
    data := rfl
    size := rfl
    product := by decide }

/-! ## Addressing elements -/

theorem element_offset_cover {len nbe G r : Nat} (hr : r < G * (len * nbe)) :
    ∃ g j b, g < G ∧ j < len ∧ b < nbe ∧ r = element_offset len nbe g j b := by
  obtain ⟨h1, h2, h3⟩ := block_of_lt hr
  obtain ⟨h4, h5, h6⟩ := block_of_lt h2
  refine ⟨r / (len * nbe), r % (len * nbe) / nbe, r % (len * nbe) % nbe, h1, h4, h5, ?_⟩
  rw [element_offset_eq, ← h6]
  exact h3

theorem element_offset_inj {len nbe g j b g' j' b' : Nat} (hj : j < len) (hb : b < nbe)
    (hj' : j' < len) (hb' : b' < nbe)
    (h : element_offset len nbe g j b = element_offset len nbe g' j' b') :
    g = g' ∧ j = j' ∧ b = b' := by
  rw [element_offset_eq, element_offset_eq] at h
  have l1 := (element_offset_lt (Nat.lt_succ_self 0) hj hb).1
  have l2 := (element_offset_lt (Nat.lt_succ_self 0) hj' hb').1
  have e1 : g = g' := @block_unique (len * nbe) g g' (g * (len * nbe) + (j * nbe + b))
    ⟨by omega, by omega⟩ ⟨by omega, by omega⟩
  subst e1
  have e2 : j * nbe + b = j' * nbe + b' := by omega
  have e3 : j = j' := @block_unique nbe j j' (j * nbe + b)
    ⟨by omega, by omega⟩ ⟨by omega, by omega⟩
  subst e3
  exact ⟨rfl, rfl, by omega⟩

theorem getD_set_gen {α : Type} (l : List α) (i j : Nat) (x fb : α) :
    (l.set i x).getD j fb = if i = j ∧ i < l.length then x else l.getD j fb := by
  simp only [List.getD_eq_getElem?_getD, List.getElem?_set]
  by_cases hij : i = j
  · subst hij
    by_cases hl : i < l.length
    · simp [hl]
    · simp [hl]
      rw [List.getElem?_eq_none (by omega)]
      rfl
  · simp [hij]

theorem shift_down_steps {α : Type} (a : List α) (fb : α) (dim_index : Nat) :
    ∀ k, (((List.range k).map (fun i => dim_index + i)).foldl
          (fun a i => a.set i (a.getD (i + 1) fb)) a).length = a.length ∧
      ∀ i, (((List.range k).map (fun i => dim_index + i)).foldl
          (fun a i => a.set i (a.getD (i + 1) fb)) a).getD i fb =
        if dim_index ≤ i ∧ i < dim_index + k ∧ i < a.length then a.getD (i + 1) fb
        else a.getD i fb := by
  intro k
  induction k with
  | zero =>
    refine ⟨rfl, fun i => ?_⟩
    rw [if_neg (by omega)]
    rfl
  | succ k ih =>
    rw [List.range_succ, List.map_append, List.foldl_append]
    simp only [List.map_cons, List.map_nil, List.foldl_cons, List.foldl_nil]
    refine ⟨by rw [List.length_set]; exact ih.1, fun i => ?_⟩
    rw [getD_set_gen, ih.1, ih.2 (dim_index + k + 1), ih.2 i]
    split_ifs <;> first | rfl | (exfalso; omega) | (congr 1; omega)

/-- The entries of an array after the loop of `harp_variable_remove_dimension`:
the entries from `dim_index` up to `num_dimensions - 2` hold what their right
neighbour held, the others are as before. -/
theorem getD_shift_down {α : Type} (a : List α) (fb : α) (dim_index num_dimensions i : Nat) :
    (shift_down a fb dim_index num_dimensions).getD i fb =
      if dim_index ≤ i ∧ i + 1 < num_dimensions ∧ i < a.length then a.getD (i + 1) fb
      else a.getD i fb := by
  unfold shift_down
  rw [(shift_down_steps a fb dim_index (num_dimensions - 1 - dim_index)).2 i]
  by_cases hc : dim_index ≤ i ∧ i + 1 < num_dimensions ∧ i < a.length
  · rw [if_pos hc, if_pos ⟨hc.1, by omega, hc.2.2⟩]
  · rw [if_neg hc, if_neg (fun h => hc ⟨h.1, by omega, h.2.2⟩)]

theorem dimension_product_shift {d1 d2 : List Int} {a : Nat} :
    ∀ b, (∀ i, a ≤ i → i < b → d2.getD i 0 = d1.getD (i + 1) 0) →
      dimension_product d2 a b = dimension_product d1 (a + 1) (b + 1) := by
  intro b
  induction b with
  | zero =>
    intro _
    unfold dimension_product
    have e : 0 + 1 - (a + 1) = 0 := by omega
    rw [e]
    simp
  | succ b ih =>
    intro h
    by_cases hab : a ≤ b
    · rw [dimension_product_succ d2 hab, dimension_product_succ d1 (by omega : a + 1 ≤ b + 1),
        ih (fun i h1 h2 => h i h1 (by omega)), h b hab (by omega)]
    · unfold dimension_product
      have e : b + 1 - a = 0 := by omega
      have e2 : b + 1 + 1 - (a + 1) = 0 := by omega
      rw [e, e2]
      rfl

theorem length_kept_positions (mask : List Nat) (dim : Nat) :
    (kept_positions mask dim).length = mask_count mask dim := rfl

theorem kept_positions_succ (mask : List Nat) (dim : Nat) :
    kept_positions mask (dim + 1) =
      kept_positions mask dim ++ (if mask.getD dim 0 ≠ 0 then [dim] else []) := by
  unfold kept_positions
  rw [List.range_succ, List.filter_append]
  congr 1
  by_cases h : mask.getD dim 0 ≠ 0
  · rw [if_pos h, List.filter_cons_of_pos (by simpa using h)]
    rfl
  · rw [if_neg h, List.filter_cons_of_neg (by simpa using h)]
    rfl

theorem mask_count_lt {mask : List Nat} {j dim : Nat} (hj : j < dim) (hm : mask.getD j 0 ≠ 0) :
    mask_count mask j < mask_count mask dim := by
  have h1 := mask_count_succ mask j
  rw [if_pos hm] at h1
  have h2 : mask_count mask (j + 1) ≤ mask_count mask dim :=
    mask_count_mono mask (Nat.succ_le_of_lt hj)
  omega

/-- The kept position number `mask_count mask j` is `j`, when the mask entry of
`j` is non-zero. -/
theorem kept_positions_at (mask : List Nat) {j : Nat} (hm : mask.getD j 0 ≠ 0) :
    ∀ dim, j < dim → (kept_positions mask dim).getD (mask_count mask j) 0 = j := by
  intro dim
  induction dim with
  | zero => intro h; omega
  | succ d ih =>
    intro hj
    rw [kept_positions_succ]
    by_cases hjd : j < d
    · have hlt : mask_count mask j < (kept_positions mask d).length := mask_count_lt hjd hm
      rw [List.getD_eq_getElem?_getD, List.getElem?_append_left hlt, ← List.getD_eq_getElem?_getD]
      exact ih hjd
    · have e : j = d := by omega
      subst e
      rw [if_pos hm, List.getD_eq_getElem?_getD,
        List.getElem?_append_right (Nat.le_of_eq (length_kept_positions mask j))]
      rw [length_kept_positions, Nat.sub_self]
      rfl

theorem kept_positions_mem {mask : List Nat} {dim t : Nat} (ht : t < mask_count mask dim) :
    (kept_positions mask dim).getD t 0 < dim ∧
      mask.getD ((kept_positions mask dim).getD t 0) 0 ≠ 0 := by
  have hl : t < (kept_positions mask dim).length := ht
  have hm : (kept_positions mask dim).getD t 0 ∈ kept_positions mask dim := by
    rw [List.getD_eq_getElem?_getD, List.getElem?_eq_getElem hl]
    exact List.getElem_mem hl
  generalize (kept_positions mask dim).getD t 0 = k at hm
  unfold kept_positions at hm
  rw [List.mem_filter, List.mem_range] at hm
  exact ⟨hm.1, of_decide_eq_true hm.2⟩

theorem filter_group_produces (data_type : harp_data_type) (dim nbe : Nat) (mask : List Nat)
    (grp : List Cell) (h : Heap) (hp : OldPtrs grp h)
    (hlive : ∀ j p, peek grp j = Cell.string_data (some p) → (h.lookup p).isSome = true) :
    Produces grp (filter_origin mask dim nbe) (filter_dropped data_type mask dim nbe)
      (mask_count mask dim * nbe) h (filter_group_ref data_type dim nbe mask grp h) := by
  have hfold : filter_group_ref data_type dim nbe mask grp h =
      fwd_run (fun j h' =>
        if mask.getD j 0 ≠ 0 then (read_block grp (j * nbe) nbe, h')
        else ([], if data_type = harp_data_type.harp_type_string then
          free_cells (read_block grp (j * nbe) nbe) h' else h')) dim h := by
    unfold filter_group_ref fwd_run
    apply List.foldl_ext
    intro acc j _
    by_cases hm : mask.getD j 0 ≠ 0
    · simp only [if_pos hm]
    · simp only [if_neg hm, List.append_nil]
  rw [hfold]
  have := fwd_run_produces grp
    (fun j h' =>
      if mask.getD j 0 ≠ 0 then (read_block grp (j * nbe) nbe, h')
      else ([], if data_type = harp_data_type.harp_type_string then
        free_cells (read_block grp (j * nbe) nbe) h' else h'))
    (fun j => if mask.getD j 0 ≠ 0 then nbe else 0) (fun j => mask_count mask j * nbe)
    (fun j r => Origin.copy (j * nbe + r))
    (fun j x => data_type = harp_data_type.harp_type_string ∧ mask.getD j 0 = 0 ∧
      j * nbe ≤ x ∧ x < j * nbe + nbe)
    (fun j x => j * nbe ≤ x ∧ x < j * nbe + nbe)
    (filter_origin mask dim nbe) dim (Nat.zero_mul _)
    (by
      intro j _
      simp only [mask_count_succ, Nat.add_mul]
      by_cases hm : mask.getD j 0 ≠ 0
      · simp only [if_pos hm, Nat.one_mul]
      · simp only [if_neg hm, Nat.zero_mul])
    (by
      intro j _ h' hp' hl'
      by_cases hm : mask.getD j 0 ≠ 0
      · simp only [if_pos hm]
        apply (produces_copy grp h' (j * nbe) nbe hp').congr (fun _ _ => rfl)
        intro x
        have : ¬ mask.getD j 0 = 0 := hm
        simp only [this, false_and, and_false]
      · simp only [if_neg hm]
        have hm0 : mask.getD j 0 = 0 := by
          by_contra hx
          exact hm hx
        by_cases hstr : data_type = harp_data_type.harp_type_string
        · simp only [if_pos hstr]
          apply (produces_free grp h' (j * nbe) nbe _ hp' _).congr (fun _ _ => rfl)
          · intro x
            simp only [hstr, hm0, true_and]
          · intro r p hr hq
            exact hl' (j * nbe + r) p ⟨by omega, by omega⟩ hq
        · simp only [if_neg hstr]
          apply (produces_nil grp h' _).congr (fun _ _ => rfl)
          intro x
          simp only [hstr, false_and])
    (fun i r j _ _ hor => Origin.noConfusion hor)
    (by
      rintro i i' x hlt _ ⟨h1, h2⟩ ⟨_, _, h3, h4⟩
      have := block_unique ⟨h1, h2⟩ ⟨h3, h4⟩
      omega)
    (by
      intro j r hj hr
      simp only at hr
      by_cases hm : mask.getD j 0 ≠ 0
      · rw [if_pos hm] at hr
        simp only [filter_origin, (div_mod_block hr).1, (div_mod_block hr).2,
          kept_positions_at mask hm dim hj]
      · rw [if_neg hm] at hr
        omega)
    h hp (fun i j p _ _ hj => hlive j p hj) dim (Nat.le_refl dim)
  apply this.congr (fun _ _ => rfl)
  intro x
  simp only [filter_dropped]
  constructor
  · rintro ⟨hs, j, h1, h2, h3, h4⟩
    exact ⟨j, h1, hs, h2, h3, h4⟩
  · rintro ⟨j, h1, hs, h2, h3, h4⟩
    exact ⟨hs, j, h1, h2, h3, h4⟩

theorem filter_origin_source (mask : List Nat) (dim nbe : Nat) :
    ∀ r j, r < mask_count mask dim * nbe →
      (filter_origin mask dim nbe r = Origin.copy j ∨ filter_origin mask dim nbe r = Origin.dup j) →
      j < dim * nbe := by
  intro r j hr ho
  obtain ⟨h1, h2, _⟩ := block_of_lt hr
  have hk := (kept_positions_mem h1).1
  have hlt := (@element_offset_lt dim _ _ _ _ _ (Nat.lt_succ_self 0) hk h2).1
  unfold filter_origin at ho
  rcases ho with ho | ho
  · have := Origin.copy.inj ho
    omega
  · exact Origin.noConfusion ho

/-! ## harp_variable_filter_dimension: the call -/

theorem toNat_shape {g m k : Int} (hg : 0 < g) (hm : 0 ≤ m) :
    (g * m * k).toNat = g.toNat * (m.toNat * k.toNat) := by
  by_cases hk : 0 ≤ k
  · exact toNat_mul3 (by omega) hm hk
  · have hk0 : k.toNat = 0 := by omega
    rw [hk0, Nat.mul_zero, Nat.mul_zero]
    have : g * m * k ≤ 0 := by
      apply Int.mul_nonpos_of_nonneg_of_nonpos
      · exact Int.mul_nonneg (by omega) hm
      · omega
    omega

theorem filter_count_eq (mask : List Nat) (dim : Nat) :
    (List.range dim).foldl (fun (acc : Int) i => acc + (if mask.getD i 0 ≠ 0 then 1 else 0)) 0 =
      (mask_count mask dim : Int) := by
  induction dim with
  | zero => rfl
  | succ d ih =>
    rw [List.range_succ, List.foldl_append, ih, mask_count_succ]
    simp only [List.foldl_cons, List.foldl_nil]
    by_cases hm : mask.getD d 0 ≠ 0
    · rw [if_pos hm, if_pos hm]
      rfl
    · rw [if_neg hm, if_neg hm]
      simp

/-- The call of `harp_variable_filter_dimension` with a mask that keeps some
but not all positions returns with success, and its buffer holds what the sweep
of the out of place counterpart over the groups yields. -/
theorem filter_run (heap : Heap) (v : harp_variable) (D : List Cell) (dim_index : Int)
    (mask : List Nat) (hdata : v.data = some D) (hsize : D.length = v.num_elements.toNat)
    (hne : v.num_elements ≠ 0)
    (hprod : v.num_elements = dimension_product v.dimension 0 v.num_dimensions.toNat)
    (h0 : 0 ≤ dim_index) (h1 : dim_index < v.num_dimensions)
    (hsome : mask_count mask (axis_length v dim_index) ≠ 0)
    (hnotall : (mask_count mask (axis_length v dim_index) : Int) ≠
      v.dimension.getD dim_index.toNat 0) :
    ∃ D' heap',
      harp_variable_filter_dimension heap (some v) dim_index (some mask) =
        succeed (reshaped v dim_index (mask_count mask (axis_length v dim_index)) D') heap' ∧
      D'.length =
        (reshaped v dim_index (mask_count mask (axis_length v dim_index)) D').num_elements.toNat ∧
      (read_block D' 0 (group_count v dim_index *
          (mask_count mask (axis_length v dim_index) * block_length v dim_index)), heap') =
        sweep_fwd
          (filter_group_ref v.data_type (axis_length v dim_index) (block_length v dim_index) mask)
          (axis_length v dim_index * block_length v dim_index) D (group_count v dim_index) heap ∧
      (0 < dimension_product v.dimension 0 dim_index.toNat →
        D'.length = group_count v dim_index *
          (mask_count mask (axis_length v dim_index) * block_length v dim_index)) ∧
      (¬ 0 < dimension_product v.dimension 0 dim_index.toNat →
        heap' = heap ∧ ∀ j, peek D' j = if j < D'.length then peek D j else Cell.undef) := by
  have hdi : dim_index.toNat < v.num_dimensions.toNat := by omega
  obtain ⟨hsplit, hG, hd, hK, hdiv⟩ := shape_split hdi hprod hne
  unfold axis_length group_count block_length reshaped at *
  simp only at *
  generalize hGZ : dimension_product v.dimension 0 dim_index.toNat = GZ at *
  generalize hKZ : dimension_product v.dimension (dim_index.toNat + 1) v.num_dimensions.toNat = K at *
  generalize hdZ : v.dimension.getD dim_index.toNat 0 = dZ at *
  generalize hcnt : mask_count mask dZ.toNat = cnt at *
  have hcle : cnt ≤ dZ.toNat := by
    rw [← hcnt]
    exact mask_count_le mask _
  have hdpos : 0 < dZ := by omega
  have hcZ : ¬ ((cnt : Int) = 0) := by omega
  unfold harp_variable_filter_dimension
  simp only [not_lt.2 h0, not_le.2 h1, or_self, if_false, hne, hdZ, filter_count_eq, hcnt, hcZ,
    hnotall, hdata, Option.getD_some, hGZ, hdiv, Int.toNat_ofNat, ge_iff_le]
  have hroom : GZ.toNat * (dZ.toNat * K.toNat) ≤ D.length := by
    by_cases hGpos : 0 < GZ
    · rw [hsize, hsplit, toNat_shape hGpos (by omega)]
    · have : GZ.toNat = 0 := by omega
      rw [this, Nat.zero_mul]
      exact Nat.zero_le _
  have hnew : GZ.toNat * (cnt * K.toNat) ≤ (GZ * (cnt : Int) * K).toNat := by
    by_cases hGpos : 0 < GZ
    · rw [toNat_shape hGpos (by omega), Int.toNat_ofNat]
    · have : GZ.toNat = 0 := by omega
      rw [this, Nat.zero_mul]
      exact Nat.zero_le _
  have hloc := filter_group_local v.data_type dZ.toNat K.toNat mask
  rw [hcnt] at hloc
  obtain ⟨mem', heap', hrun, hlen, hread, hrest⟩ := sweep_fwd_spec hloc
    (Nat.mul_le_mul_right _ hcle) D heap GZ.toNat hroom
  rw [foldlM_ok_eq_foldl] at hrun
  have hfold := Except.ok.inj hrun
  rw [hfold]
  refine ⟨realloc mem' (GZ * (cnt : Int) * K).toNat, heap', rfl, length_realloc _ _, ?_, ?_, ?_⟩
  · rw [read_block_realloc hnew, hread]
  · intro hGpos
    rw [length_realloc, toNat_shape hGpos (by omega), Int.toNat_ofNat]
  · intro hGpos
    have hG0 : GZ.toNat = 0 := by omega
    rw [hG0] at hread hrest
    refine ⟨?_, ?_⟩
    · have := congrArg Prod.snd hread
      exact this
    · intro j
      rw [peek_realloc, length_realloc, hrest j (by omega)]

theorem mask_count_all {mask : List Nat} :
    ∀ k, (∀ i, i < k → mask.getD i 0 ≠ 0) → mask_count mask k = k := by
  intro k
  induction k with
  | zero => intro _; rfl
  | succ k ih =>
    intro h
    rw [mask_count_succ, if_pos (h k (Nat.lt_succ_self k)), ih (fun i hi => h i (by omega))]

theorem mask_count_eq_all {mask : List Nat} :
    ∀ k, mask_count mask k = k → ∀ i, i < k → mask.getD i 0 ≠ 0 := by
  intro k
  induction k with
  | zero => intro _ i hi; omega
  | succ k ih =>
    intro h i hi
    rw [mask_count_succ] at h
    have hle := mask_count_le mask k
    by_cases hm : mask.getD k 0 ≠ 0
    · rw [if_pos hm] at h
      by_cases hik : i = k
      · rw [hik]; exact hm
      · exact ih (by omega) i (by omega)
    · rw [if_neg hm] at h
      omega

theorem mask_count_pos {mask : List Nat} {k i : Nat} (hi : i < k) (hm : mask.getD i 0 ≠ 0) :
    mask_count mask k ≠ 0 := by
  have := mask_count_lt hi hm
  omega

theorem mask_count_zero {mask : List Nat} :
    ∀ k, (∀ i, i < k → mask.getD i 0 = 0) → mask_count mask k = 0 := by
  intro k
  induction k with
  | zero => intro _; rfl
  | succ k ih =>
    intro h
    rw [mask_count_succ, if_neg (by rw [h k (Nat.lt_succ_self k)]; exact fun h => h rfl),
      ih (fun i hi => h i (by omega))]

/-- With a mask that keeps every position `harp_variable_filter_dimension`
returns at once and leaves the variable as it is. -/
theorem filter_all (heap : Heap) (v : harp_variable) (dim_index : Int) (mask : List Nat)
    (hne : v.num_elements ≠ 0) (h0 : 0 ≤ dim_index) (h1 : dim_index < v.num_dimensions)
    (hsome : mask_count mask (axis_length v dim_index) ≠ 0)
    (hall : (mask_count mask (axis_length v dim_index) : Int) = v.dimension.getD dim_index.toNat 0) :
    harp_variable_filter_dimension heap (some v) dim_index (some mask) = succeed v heap := by
  unfold axis_length at *
  have hcZ : ¬ ((mask_count mask (v.dimension.getD dim_index.toNat 0).toNat : Int) = 0) := by omega
  unfold harp_variable_filter_dimension
  simp only [not_lt.2 h0, not_le.2 h1, or_self, if_false, hne, filter_count_eq, hcZ, hall,
    if_true, ge_iff_le]
  rw [if_neg (by omega)]

/-- With a mask that keeps no position `harp_variable_filter_dimension` fails
with an invalid argument error and leaves the variable and the heap as they
are. -/
theorem filter_none (heap : Heap) (v : harp_variable) (dim_index : Int) (mask : List Nat)
    (hzero : mask_count mask (axis_length v dim_index) = 0) :
    harp_variable_filter_dimension heap (some v) dim_index (some mask) =
      fail_with harp_error.HARP_ERROR_INVALID_ARGUMENT (some v) heap := by
  unfold axis_length at hzero
  unfold harp_variable_filter_dimension
  simp only [filter_count_eq, hzero]
  split
  · rfl
  · split
    · rfl
    · rfl

/-- The call of `harp_variable_filter_dimension` with a mask that keeps some
but not all positions: its buffer and heap are produced from the old buffer by
the rule of the out of place counterpart. -/
theorem filter_produces (heap : Heap) (v : harp_variable) (D : List Cell) (dim_index : Int)
    (mask : List Nat) (hv : Consistent heap v D) (hne : v.num_elements ≠ 0)
    (h0 : 0 ≤ dim_index) (h1 : dim_index < v.num_dimensions)
    (hsome : mask_count mask (axis_length v dim_index) ≠ 0)
    (hnotall : (mask_count mask (axis_length v dim_index) : Int) ≠
      v.dimension.getD dim_index.toNat 0) :
    ∃ D' heap',
      harp_variable_filter_dimension heap (some v) dim_index (some mask) =
        succeed (reshaped v dim_index (mask_count mask (axis_length v dim_index)) D') heap' ∧
      D'.length =
        (reshaped v dim_index (mask_count mask (axis_length v dim_index)) D').num_elements.toNat ∧
      Produces D
        (sweep_origin (filter_origin mask (axis_length v dim_index) (block_length v dim_index))
          (axis_length v dim_index * block_length v dim_index)
          (mask_count mask (axis_length v dim_index) * block_length v dim_index))
        (sweep_dropped
          (filter_dropped v.data_type mask (axis_length v dim_index) (block_length v dim_index))
          (axis_length v dim_index * block_length v dim_index) (group_count v dim_index))
        (group_count v dim_index *
          (mask_count mask (axis_length v dim_index) * block_length v dim_index)) heap
        (read_block D' 0 (group_count v dim_index *
          (mask_count mask (axis_length v dim_index) * block_length v dim_index)), heap') ∧
      (0 < dimension_product v.dimension 0 dim_index.toNat →
        D'.length = group_count v dim_index *
          (mask_count mask (axis_length v dim_index) * block_length v dim_index)) ∧
      (¬ 0 < dimension_product v.dimension 0 dim_index.toNat →
        heap' = heap ∧ ∀ j, peek D' j = if j < D'.length then peek D j else Cell.undef) := by
  obtain ⟨D', heap', hcall, hlen, hsweep, hpos, hdeg⟩ :=
    filter_run heap v D dim_index mask hv.data hv.size hne hv.product h0 h1 hsome hnotall
  have hboth := sweep_produces
    (filter_group_ref v.data_type (axis_length v dim_index) (block_length v dim_index) mask)
    (axis_length v dim_index * block_length v dim_index)
    (mask_count mask (axis_length v dim_index) * block_length v dim_index)
    (filter_origin mask (axis_length v dim_index) (block_length v dim_index))
    (filter_dropped v.data_type mask (axis_length v dim_index) (block_length v dim_index))
    (fun grp h _ hp' hl' => filter_group_produces v.data_type _ _ mask grp h hp' hl')
    (filter_origin_source mask _ _) D heap (OldPtrs.of_owns hv.wf hv.owns)
    (fun j p hj => (hv.owns j p hj).1) (group_count v dim_index)
  exact ⟨D', heap', hcall, hlen, hsweep ▸ hboth.1, hpos, hdeg⟩

theorem sweep_filter_origin (mask : List Nat) (dim nbe : Nat) {g t b : Nat}
    (ht : t < mask_count mask dim) (hb : b < nbe) :
    sweep_origin (filter_origin mask dim nbe) (dim * nbe) (mask_count mask dim * nbe)
        (element_offset (mask_count mask dim) nbe g t b) =
      Origin.copy (element_offset dim nbe g ((kept_positions mask dim).getD t 0) b) := by
  have hlt := (element_offset_lt (Nat.lt_succ_self g) ht hb).1
  rw [element_offset_eq, element_offset_eq]
  simp only [sweep_origin, (div_mod_block hlt).1, (div_mod_block hlt).2, filter_origin,
    (div_mod_block hb).1, (div_mod_block hb).2]
  rfl

theorem filter_not_dropped {data_type : harp_data_type} {mask : List Nat} {dim nbe G g s b : Nat}
    (hs : s < dim) (hm : mask.getD s 0 ≠ 0) (hb : b < nbe) :
    ¬ sweep_dropped (filter_dropped data_type mask dim nbe) (dim * nbe) G
      (element_offset dim nbe g s b) := by
  rintro ⟨g', _, h1, h2, _, s', hs', hzero, h3, h4⟩
  have hlt := (element_offset_lt (Nat.lt_succ_self g) hs hb).1
  rw [element_offset_eq] at h1 h2 h3 h4
  have e := block_unique (a := g') (b := g) ⟨h1, h2⟩ ⟨by omega, by omega⟩
  subst e
  have e2 : g' * (dim * nbe) + (s * nbe + b) - g' * (dim * nbe) = s * nbe + b := by omega
  rw [e2] at h3 h4
  have e3 := block_unique (a := s') (b := s) ⟨h3, h4⟩ ⟨by omega, by omega⟩
  subst e3
  exact hm hzero

/-! ## harp_variable_resize_dimension: what the out of place counterparts produce -/

theorem fill_value_not_ptr (data_type : harp_data_type) (p : Nat) :
    fill_value data_type ≠ Cell.string_data (some p) := by
  cases data_type <;> simp [fill_value]

theorem resize_shrink_produces (data_type : harp_data_type) (dim length nbe : Nat)
    (hle : length ≤ dim) (grp : List Cell) (h : Heap) (hp : OldPtrs grp h)
    (hlive : ∀ j p, peek grp j = Cell.string_data (some p) → (h.lookup p).isSome = true) :
    Produces grp (resize_origin data_type dim nbe) (resize_dropped data_type dim length nbe)
      (length * nbe) h (resize_shrink_ref data_type dim length nbe grp h) := by
  have hmul : length * nbe ≤ dim * nbe := Nat.mul_le_mul_right nbe hle
  have P1 := produces_copy grp h 0 (length * nbe) hp
  have P2 : Produces grp (resize_origin data_type dim nbe)
      (resize_dropped data_type dim length nbe) 0 h
      ([], if data_type = harp_data_type.harp_type_string then
        free_cells (read_block grp (length * nbe) (dim * nbe - length * nbe)) h else h) := by
    by_cases hstr : data_type = harp_data_type.harp_type_string
    · rw [if_pos hstr]
      apply (produces_free grp h (length * nbe) (dim * nbe - length * nbe) _ hp
        (fun r p _ hq => hlive _ p hq)).congr (fun _ _ => rfl)
      intro x
      simp only [resize_dropped, hstr, true_and]
      omega
    · rw [if_neg hstr]
      apply (produces_nil grp h _).congr (fun _ _ => rfl)
      intro x
      simp only [resize_dropped, hstr, false_and]
  have := Produces.append hp P1 P2 (o := resize_origin data_type dim nbe)
    (d := resize_dropped data_type dim length nbe)
    (by
      intro r hr
      simp only [resize_origin, if_pos (show r < dim * nbe by omega), Nat.zero_add])
    (fun r hr => absurd hr (Nat.not_lt_zero r)) (fun j => by simp)
    (fun r j hr => absurd hr (Nat.not_lt_zero r))
  rw [Nat.add_zero, List.append_nil] at this
  exact this

theorem resize_expand_produces (data_type : harp_data_type) (dim length nbe : Nat)
    (hle : dim ≤ length) (grp : List Cell) (h : Heap) (hlen : grp.length = dim * nbe)
    (hp : OldPtrs grp h) :
    Produces grp (resize_origin data_type dim nbe) (resize_dropped data_type dim length nbe)
      (length * nbe) h (resize_expand_ref data_type dim length nbe grp h) := by
  have hmul : dim * nbe ≤ length * nbe := Nat.mul_le_mul_right nbe hle
  have P1 := produces_copy grp h 0 (dim * nbe) hp
  rw [read_block_of_length hlen] at P1
  have P2 := produces_fill grp h (length * nbe - dim * nbe) (fill_value data_type)
    (fill_value_not_ptr data_type)
  have := Produces.append hp P1 P2 (o := resize_origin data_type dim nbe)
    (d := resize_dropped data_type dim length nbe)
    (by
      intro r hr
      simp only [resize_origin, if_pos hr, Nat.zero_add])
    (by
      intro r hr
      simp only [resize_origin, if_neg (show ¬ dim * nbe + r < dim * nbe by omega)])
    (by
      intro j
      simp only [resize_dropped, or_self, iff_false]
      omega)
    (fun r j _ hor => Origin.noConfusion hor)
  have e : dim * nbe + (length * nbe - dim * nbe) = length * nbe := by omega
  rw [e] at this
  exact this

theorem resize_origin_source (data_type : harp_data_type) (dim length nbe : Nat) :
    ∀ r j, r < length * nbe →
      (resize_origin data_type dim nbe r = Origin.copy j ∨
        resize_origin data_type dim nbe r = Origin.dup j) → j < dim * nbe := by
  intro r j _ ho
  unfold resize_origin at ho
  split at ho
  · rcases ho with ho | ho
    · have := Origin.copy.inj ho
      omega
    · exact Origin.noConfusion ho
  · rcases ho with ho | ho <;> exact Origin.noConfusion ho

/-! ## harp_variable_resize_dimension: the call -/

theorem foldl_pair_fst {α β : Type} (f : α → Nat → α) (l : List Nat) (m : α) (h : β) :
    l.foldl (fun (st : α × β) i => (f st.1 i, st.2)) (m, h) = (l.foldl f m, h) := by
  induction l generalizing m with
  | nil => rfl
  | cons x xs ih => simp only [List.foldl_cons, ih]

/-- The call of `harp_variable_resize_dimension` with a new length that differs
from the old one returns with success, and its buffer holds what the sweep of
the out of place counterpart over the groups yields. -/
theorem resize_run (reallocates : Int → Bool) (heap : Heap) (v : harp_variable)
    (D : List Cell) (dim_index : Int)
    (length : Int) (hdata : v.data = some D) (hsize : D.length = v.num_elements.toNat)
    (hprod : v.num_elements = dimension_product v.dimension 0 v.num_dimensions.toNat)
    (h0 : 0 ≤ dim_index) (h1 : dim_index < v.num_dimensions) (hL : 0 < length)
    (hneq : length ≠ v.dimension.getD dim_index.toNat 0)
    (hre : reallocates (resized_num_elements v dim_index length) = true) :
    ∃ D' heap',
      harp_variable_resize_dimension reallocates heap (some v) dim_index length =
        succeed (reshaped v dim_index length D') heap' ∧
      D'.length = (reshaped v dim_index length D').num_elements.toNat ∧
      (((read_block D' 0 (group_count v dim_index * (length.toNat * block_length v dim_index)),
            heap') =
          sweep_fwd
            (resize_shrink_ref v.data_type (axis_length v dim_index) length.toNat
              (block_length v dim_index))
            (axis_length v dim_index * block_length v dim_index) D (group_count v dim_index) heap ∧
          length.toNat ≤ axis_length v dim_index) ∨
        ((read_block D' 0 (group_count v dim_index * (length.toNat * block_length v dim_index)),
            heap') =
          sweep_bwd
            (resize_expand_ref v.data_type (axis_length v dim_index) length.toNat
              (block_length v dim_index))
            (axis_length v dim_index * block_length v dim_index) D (group_count v dim_index) heap ∧
          axis_length v dim_index ≤ length.toNat)) := by
  have hdi : dim_index.toNat < v.num_dimensions.toNat := by omega
  have hsplit := dimension_product_at v.dimension hdi
  rw [← hprod] at hsplit
  unfold axis_length group_count block_length reshaped resized_num_elements at *
  simp only at *
  generalize hGZ : dimension_product v.dimension 0 dim_index.toNat = GZ at *
  generalize hKZ : dimension_product v.dimension (dim_index.toNat + 1) v.num_dimensions.toNat = K at *
  generalize hdZ : v.dimension.getD dim_index.toNat 0 = dZ at *
  have hLZ : ¬ (length ≤ 0) := by omega
  unfold harp_variable_resize_dimension
  simp only [not_lt.2 h0, not_le.2 h1, or_self, if_false, hLZ, hneq, hdata, Option.getD_some,
    hGZ, hdZ, hKZ, ge_iff_le, gt_iff_lt, hre, Bool.true_eq_false]
  have hnew : GZ.toNat * (length.toNat * K.toNat) ≤ (GZ * length * K).toNat := by
    by_cases hGpos : 0 < GZ
    · rw [toNat_shape hGpos (by omega)]
    · have : GZ.toNat = 0 := by omega
      rw [this, Nat.zero_mul]
      exact Nat.zero_le _
  by_cases hlt : length < dZ
  · -- the dimension shrinks
    have hle : length.toNat ≤ dZ.toNat := by omega
    have hroom : GZ.toNat * (dZ.toNat * K.toNat) ≤ D.length := by
      by_cases hGpos : 0 < GZ
      · rw [hsize, hsplit, toNat_shape hGpos (by omega)]
      · have : GZ.toNat = 0 := by omega
        rw [this, Nat.zero_mul]
        exact Nat.zero_le _
    obtain ⟨mem', heap', hrun, hlen, hread, _⟩ := sweep_fwd_spec
      (resize_shrink_local v.data_type dZ.toNat length.toNat K.toNat hle)
      (Nat.mul_le_mul_right _ hle) D heap GZ.toNat hroom
    rw [foldlM_ok_eq_foldl] at hrun
    have hfold := Except.ok.inj hrun
    rw [if_pos hlt, if_neg (by omega), hfold]
    refine ⟨realloc mem' (GZ * length * K).toNat, heap', rfl, length_realloc _ _, Or.inl ⟨?_, hle⟩⟩
    rw [read_block_realloc hnew, hread]
  · -- the dimension grows
    have hgt : dZ < length := by omega
    have hle : dZ.toNat ≤ length.toNat := by omega
    have hmul : dZ.toNat * K.toNat ≤ length.toNat * K.toNat := Nat.mul_le_mul_right _ hle
    obtain ⟨mem', heap', hrun, hlen, hread, _⟩ := sweep_bwd_spec
      (resize_expand_local v.data_type dZ.toNat length.toNat K.toNat hle) hmul GZ.toNat
      (realloc D (GZ * length * K).toNat) heap (by rw [length_realloc]; exact hnew)
    rw [foldlM_ok_eq_foldl, foldl_pair_fst] at hrun
    have hfold := Except.ok.inj hrun
    have hm : mem' = _ := (congrArg Prod.fst hfold).symm
    have hh : heap' = heap := (congrArg Prod.snd hfold).symm
    subst hh
    rw [if_neg hlt, if_pos hgt]
    refine ⟨mem', heap', ?_, ?_, Or.inr ⟨?_, hle⟩⟩
    · rw [hm]
    · rw [hlen, length_realloc]
    · rw [hread]
      apply sweep_bwd_congr
      intro j hj
      rw [peek_realloc, if_pos]
      have : GZ.toNat * (dZ.toNat * K.toNat) ≤ GZ.toNat * (length.toNat * K.toNat) :=
        Nat.mul_le_mul_left _ hmul
      omega

/-- With the old length as new length `harp_variable_resize_dimension` returns
at once and leaves the variable as it is. -/
theorem resize_same (reallocates : Int → Bool) (heap : Heap) (v : harp_variable)
    (dim_index : Int) (length : Int)
    (h0 : 0 ≤ dim_index) (h1 : dim_index < v.num_dimensions) (hL : 0 < length)
    (heq : length = v.dimension.getD dim_index.toNat 0) :
    harp_variable_resize_dimension reallocates heap (some v) dim_index length =
      succeed v heap := by
  have hLZ : ¬ (length ≤ 0) := by omega
  unfold harp_variable_resize_dimension
  simp only [not_lt.2 h0, not_le.2 h1, or_self, if_false, hLZ, ← heq, if_true, ge_iff_le]

theorem sweep_resize_origin (data_type : harp_data_type) (dim len nbe : Nat) {g j b : Nat}
    (hj : j < len) (hb : b < nbe) :
    sweep_origin (resize_origin data_type dim nbe) (dim * nbe) (len * nbe)
        (element_offset len nbe g j b) =
      if j < dim then Origin.copy (element_offset dim nbe g j b)
      else Origin.fill (fill_value data_type) := by
  have hlt := (element_offset_lt (Nat.lt_succ_self g) hj hb).1
  rw [element_offset_eq, element_offset_eq]
  simp only [sweep_origin, (div_mod_block hlt).1, (div_mod_block hlt).2, resize_origin]
  by_cases hjd : j < dim
  · rw [if_pos (element_offset_lt (Nat.lt_succ_self 0) hjd hb).1, if_pos hjd]
    rfl
  · have : dim * nbe ≤ j * nbe := Nat.mul_le_mul_right nbe (by omega)
    rw [if_neg (by omega), if_neg hjd]
    rfl

theorem resize_not_dropped {data_type : harp_data_type} {dim len nbe G g j b : Nat}
    (hj : j < len) (hjd : j < dim) (hb : b < nbe) :
    ¬ sweep_dropped (resize_dropped data_type dim len nbe) (dim * nbe) G
      (element_offset dim nbe g j b) := by
  rintro ⟨g', _, h1, h2, _, h3, _⟩
  have hlt := (element_offset_lt (Nat.lt_succ_self g) hjd hb).1
  rw [element_offset_eq] at h1 h2 h3
  have e := block_unique (a := g') (b := g) ⟨h1, h2⟩ ⟨by omega, by omega⟩
  subst e
  have : (j + 1) * nbe ≤ len * nbe := Nat.mul_le_mul_right nbe hj
  rw [Nat.add_mul, Nat.one_mul] at this
  omega

/-- The call of `harp_variable_resize_dimension` with a new length that differs
from the old one: its buffer and heap are produced from the old buffer by the
rule of the out of place counterparts. -/
theorem resize_produces (reallocates : Int → Bool) (heap : Heap) (v : harp_variable)
    (D : List Cell) (dim_index : Int)
    (length : Int) (hv : Consistent heap v D) (h0 : 0 ≤ dim_index)
    (h1 : dim_index < v.num_dimensions) (hL : 0 < length)
    (hneq : length ≠ v.dimension.getD dim_index.toNat 0)
    (hre : reallocates (resized_num_elements v dim_index length) = true) :
    ∃ D' heap',
      harp_variable_resize_dimension reallocates heap (some v) dim_index length =
        succeed (reshaped v dim_index length D') heap' ∧
      D'.length = (reshaped v dim_index length D').num_elements.toNat ∧
      Produces D
        (sweep_origin
          (resize_origin v.data_type (axis_length v dim_index) (block_length v dim_index))
          (axis_length v dim_index * block_length v dim_index)
          (length.toNat * block_length v dim_index))
        (sweep_dropped
          (resize_dropped v.data_type (axis_length v dim_index) length.toNat
            (block_length v dim_index))
          (axis_length v dim_index * block_length v dim_index) (group_count v dim_index))
        (group_count v dim_index * (length.toNat * block_length v dim_index)) heap
        (read_block D' 0 (group_count v dim_index * (length.toNat * block_length v dim_index)),
          heap') := by
  obtain ⟨D', heap', hcall, hlen, hsweep⟩ :=
    resize_run reallocates heap v D dim_index length hv.data hv.size hv.product h0 h1 hL hneq
      hre
  refine ⟨D', heap', hcall, hlen, ?_⟩
  rcases hsweep with ⟨hs, hle⟩ | ⟨hs, hle⟩
  · rw [hs]
    exact (sweep_produces _ _ _ _ _
      (fun grp h _ hp' hl' => resize_shrink_produces v.data_type _ _ _ hle grp h hp' hl')
      (resize_origin_source v.data_type _ _ _) D heap (OldPtrs.of_owns hv.wf hv.owns)
      (fun j p hj => (hv.owns j p hj).1) (group_count v dim_index)).1
  · rw [hs]
    exact (sweep_produces _ _ _ _ _
      (fun grp h hl hp' _ => resize_expand_produces v.data_type _ _ _ hle grp h hl hp')
      (resize_origin_source v.data_type _ _ _) D heap (OldPtrs.of_owns hv.wf hv.owns)
      (fun j p hj => (hv.owns j p hj).1) (group_count v dim_index)).2

/-! ## harp_variable_add_dimension: what the out of place counterpart produces -/

theorem foldl_reverse_eq_bwd_run (f : Nat → Heap → List Cell × Heap) :
    ∀ (N : Nat) (acc : List Cell) (h : Heap),
      (List.range N).reverse.foldl
          (fun (st : List Cell × Heap) j => ((f j st.2).1 ++ st.1, (f j st.2).2)) (acc, h) =
        ((bwd_run f N h).1 ++ acc, (bwd_run f N h).2) := by
  intro N
  induction N with
  | zero => intro acc h; rfl
  | succ N ih =>
    intro acc h
    rw [List.range_succ, List.reverse_append, List.reverse_singleton, List.singleton_append,
      List.foldl_cons, ih]
    simp only [bwd_run, List.append_assoc]

theorem add_dimension_produces (data_type : harp_data_type) (L nbe : Nat) (grp : List Cell)
    (h : Heap) (hlen : grp.length = nbe) (hp : OldPtrs grp h)
    (hlive : ∀ j p, peek grp j = Cell.string_data (some p) → (h.lookup p).isSome = true) :
    Produces grp (add_origin data_type nbe) (fun _ => False) (L * nbe) h
      (add_dimension_ref data_type L grp h) := by
  have hfold : add_dimension_ref data_type L grp h =
      bwd_run (fun j h' =>
        if data_type = harp_data_type.harp_type_string ∧ j ≠ 0 then
          dup_cells (read_block grp 0 nbe) h'
        else (read_block grp 0 nbe, h')) L h := by
    have := foldl_reverse_eq_bwd_run (fun j h' =>
        if data_type = harp_data_type.harp_type_string ∧ j ≠ 0 then
          dup_cells (read_block grp 0 nbe) h'
        else (read_block grp 0 nbe, h')) L [] h
    rw [List.append_nil] at this
    refine Eq.trans ?_ this
    unfold add_dimension_ref
    apply List.foldl_ext
    intro acc j _
    rw [read_block_of_length hlen]
    by_cases hc : data_type = harp_data_type.harp_type_string ∧ j ≠ 0
    · simp only [if_pos hc]
    · simp only [if_neg hc]
  rw [hfold]
  have := bwd_run_produces grp
    (fun j h' =>
      if data_type = harp_data_type.harp_type_string ∧ j ≠ 0 then
        dup_cells (read_block grp 0 nbe) h'
      else (read_block grp 0 nbe, h'))
    (fun _ => nbe) (fun j => j * nbe)
    (fun j r =>
      if data_type = harp_data_type.harp_type_string ∧ j ≠ 0 then Origin.dup r
      else Origin.copy r)
    (fun _ _ => False) (fun _ _ => True) (add_origin data_type nbe) L (Nat.zero_mul _)
    (fun i _ => by simp only [Nat.add_mul, Nat.one_mul])
    (by
      intro j _ h' hp' hl'
      by_cases hc : data_type = harp_data_type.harp_type_string ∧ j ≠ 0
      · simp only [if_pos hc]
        exact (produces_dup grp h' 0 nbe hp' (fun r p _ hq => hl' _ p trivial hq)).congr
          (fun r _ => by rw [Nat.zero_add]) (fun _ => Iff.rfl)
      · simp only [if_neg hc]
        exact (produces_copy grp h' 0 nbe hp').congr
          (fun r _ => by rw [Nat.zero_add]) (fun _ => Iff.rfl))
    (fun _ _ _ _ _ _ => trivial)
    (fun _ _ _ _ _ _ hf => hf)
    (by
      intro j r _ hr
      simp only [add_origin, (div_mod_block hr).1, (div_mod_block hr).2])
    L (Nat.le_refl L) h hp (fun i j p _ _ hj => hlive j p hj)
  apply this.congr (fun _ _ => rfl)
  intro x
  simp

theorem add_origin_source (data_type : harp_data_type) (L nbe : Nat) :
    ∀ r j, r < L * nbe →
      (add_origin data_type nbe r = Origin.copy j ∨ add_origin data_type nbe r = Origin.dup j) →
      j < nbe := by
  intro r j hr ho
  obtain ⟨_, h2, _⟩ := block_of_lt hr
  unfold add_origin at ho
  split at ho
  · rcases ho with ho | ho
    · exact Origin.noConfusion ho
    · rw [← Origin.dup.inj ho]
      exact h2
  · rcases ho with ho | ho
    · rw [← Origin.copy.inj ho]
      exact h2
    · exact Origin.noConfusion ho

theorem sweep_add_origin (data_type : harp_data_type) (L nbe : Nat) {o j e : Nat}
    (hj : j < L) (he : e < nbe) :
    sweep_origin (add_origin data_type nbe) nbe (L * nbe) (element_offset L nbe o j e) =
      if data_type = harp_data_type.harp_type_string ∧ j ≠ 0 then Origin.dup (o * nbe + e)
      else Origin.copy (o * nbe + e) := by
  have hlt := (element_offset_lt (Nat.lt_succ_self o) hj he).1
  rw [element_offset_eq]
  simp only [sweep_origin, (div_mod_block hlt).1, (div_mod_block hlt).2, add_origin,
    (div_mod_block he).1, (div_mod_block he).2]
  split <;> rfl

theorem sweep_dropped_false (a G x : Nat) : ¬ sweep_dropped (fun _ => False) a G x := by
  rintro ⟨_, _, _, _, hf⟩
  exact hf

/-! ## harp_variable_add_dimension: the call -/

theorem shift_up_steps {α : Type} (fb : α) (dim_index : Nat) :
    ∀ (m : Nat) (a : List α),
      (((List.range m).reverse.map (fun i => dim_index + 1 + i)).foldl
          (fun a i => a.set i (a.getD (i - 1) fb)) a).length = a.length ∧
      ∀ i, (((List.range m).reverse.map (fun i => dim_index + 1 + i)).foldl
          (fun a i => a.set i (a.getD (i - 1) fb)) a).getD i fb =
        if dim_index < i ∧ i < dim_index + 1 + m ∧ i < a.length then a.getD (i - 1) fb
        else a.getD i fb := by
  intro m
  induction m with
  | zero =>
    intro a
    refine ⟨rfl, fun i => ?_⟩
    rw [if_neg (by omega)]
    rfl
  | succ m ih =>
    intro a
    rw [List.range_succ, List.reverse_append, List.reverse_singleton, List.singleton_append,
      List.map_cons, List.foldl_cons]
    have hl : (a.set (dim_index + 1 + m) (a.getD (dim_index + 1 + m - 1) fb)).length = a.length :=
      List.length_set _ _ _
    refine ⟨by rw [(ih _).1, hl], fun i => ?_⟩
    rw [(ih _).2 i, hl, getD_set_gen, getD_set_gen]
    split_ifs <;> first | rfl | (exfalso; omega) | (congr 1; omega)

/-- The entries of an array after the loop of `harp_variable_add_dimension`:
the entries after `dim_index` and below `num_dimensions` hold what their left
neighbour held, the others are as before. -/
theorem getD_shift_up {α : Type} (a : List α) (fb : α) (dim_index num_dimensions i : Nat) :
    (shift_up a fb dim_index num_dimensions).getD i fb =
      if dim_index < i ∧ i < num_dimensions ∧ i < a.length then a.getD (i - 1) fb
      else a.getD i fb := by
  unfold shift_up
  rw [(shift_up_steps fb dim_index (num_dimensions - 1 - dim_index) a).2 i]
  by_cases hc : dim_index < i ∧ i < num_dimensions ∧ i < a.length
  · rw [if_pos hc, if_pos ⟨hc.1, by omega, hc.2.2⟩]
  · rw [if_neg hc, if_neg (fun h => hc ⟨h.1, by omega, h.2.2⟩)]

theorem length_shift_up {α : Type} (a : List α) (fb : α) (dim_index num_dimensions : Nat) :
    (shift_up a fb dim_index num_dimensions).length = a.length := by
  unfold shift_up
  exact (shift_up_steps fb dim_index (num_dimensions - 1 - dim_index) a).1

/-- The call of `harp_variable_add_dimension` with arguments that pass its
checks returns with success, and its buffer holds what the sweep of the out of
place counterpart over the blocks yields. -/
theorem add_dimension_run (HARP_MAX_NUM_DIMS : Nat) (heap : Heap) (v : harp_variable)
    (D : List Cell) (dim_index : Int) (dimension_type : harp_dimension_type) (length : Int)
    (hdata : v.data = some D) (hne : v.num_elements ≠ 0)
    (hprod : v.num_elements = dimension_product v.dimension 0 v.num_dimensions.toNat)
    (h0 : 0 ≤ dim_index) (h1 : dim_index ≤ v.num_dimensions) (hL : 0 < length)
    (hmax : v.num_dimensions < HARP_MAX_NUM_DIMS)
    (hacc : add_accepts v dim_index dimension_type length) :
    ∃ D' heap',
      harp_variable_add_dimension HARP_MAX_NUM_DIMS heap (some v) dim_index dimension_type length =
        succeed (extended v dim_index dimension_type length D') heap' ∧
      D'.length = (extended v dim_index dimension_type length D').num_elements.toNat ∧
      (read_block D' 0 (group_count v dim_index * (length.toNat * inner_length v dim_index)),
          heap') =
        sweep_bwd (add_dimension_ref v.data_type length.toNat) (inner_length v dim_index) D
          (group_count v dim_index) heap := by
  have hdi : dim_index.toNat ≤ v.num_dimensions.toNat := by omega
  have hsplit := dimension_product_split v.dimension (Nat.zero_le dim_index.toNat) _ hdi
  rw [← hprod] at hsplit
  unfold group_count inner_length extended at *
  simp only at *
  generalize hGZ : dimension_product v.dimension 0 dim_index.toNat = GZ at *
  generalize hKZ : dimension_product v.dimension dim_index.toNat v.num_dimensions.toNat = K at *
  have hK : K ≠ 0 := by
    intro hk
    rw [hk, Int.mul_zero] at hsplit
    exact hne hsplit
  have hdiv : Int.tdiv v.num_elements K = GZ := by
    rw [hsplit]
    exact Int.mul_tdiv_cancel _ hK
  have hLZ : ¬ (length ≤ 0) := by omega
  have hc1 : ¬ (dimension_type = harp_dimension_type.harp_dimension_time ∧ dim_index ≠ 0) :=
    fun h => h.2 (hacc.1 h.1).1
  have hc2 : ¬ (dimension_type = harp_dimension_type.harp_dimension_time ∧
      v.num_dimensions ≥ 1 ∧
      v.dimension_type.getD 0 harp_dimension_type.harp_dimension_independent =
        harp_dimension_type.harp_dimension_time) := fun h => (hacc.1 h.1).2 h.2
  have hc3 : ¬ (dimension_type ≠ harp_dimension_type.harp_dimension_independent ∧
      (List.range v.num_dimensions.toNat).any
        (fun i => decide (v.dimension_type.getD i harp_dimension_type.harp_dimension_independent =
            dimension_type ∧ v.dimension.getD i 0 ≠ length)) = true) := by
    rintro ⟨hni, hany⟩
    rw [List.any_eq_true] at hany
    obtain ⟨i, hi, hp⟩ := hany
    have hp' := of_decide_eq_true hp
    exact hp'.2 (hacc.2 hni i (List.mem_range.1 hi) hp'.1)
  unfold harp_variable_add_dimension
  simp only [not_lt.2 h0, not_lt.2 h1, or_self, if_false, hLZ, Int.ne_of_lt hmax, hne, hc1, hc2,
    hc3, hdata, Option.getD_some, hKZ, hdiv, hGZ, gt_iff_lt]
  have hLpos : 1 ≤ length.toNat := by omega
  have hnew : GZ.toNat * (length.toNat * K.toNat) ≤ (GZ * length * K).toNat := by
    by_cases hGpos : 0 < GZ
    · rw [toNat_shape hGpos (by omega)]
    · have : GZ.toNat = 0 := by omega
      rw [this, Nat.zero_mul]
      exact Nat.zero_le _
  have hac : K.toNat ≤ length.toNat * K.toNat := by
    have := Nat.mul_le_mul_right K.toNat hLpos
    rw [Nat.one_mul] at this
    exact this
  obtain ⟨mem', heap', hrun, hlen, hread, _⟩ := sweep_bwd_spec
    (add_dimension_local v.data_type length.toNat K.toNat hLpos) hac GZ.toNat
    (realloc D (GZ * length * K).toNat) heap (by rw [length_realloc]; exact hnew)
  rw [foldlM_ok_eq_foldl] at hrun
  have hfold := Except.ok.inj hrun
  rw [hfold]
  refine ⟨mem', heap', rfl, by rw [hlen, length_realloc], ?_⟩
  rw [hread]
  apply sweep_bwd_congr
  intro j hj
  rw [peek_realloc, if_pos]
  have : GZ.toNat * K.toNat ≤ GZ.toNat * (length.toNat * K.toNat) := Nat.mul_le_mul_left _ hac
  omega

/-! ## What a successful call leaves behind -/

theorem fail_with_ret_ne (e : harp_error) (var : Option harp_variable) (heap : Heap) :
    (fail_with e var heap).ret ≠ 0 := by
  show (-1 : Int) ≠ 0
  decide

theorem any_range_false_iff {n : Nat} {p : Nat → Bool} (h : (List.range n).any p = false) :
    ∀ i, i < n → p i = false := by
  intro i hi
  rw [List.any_eq_false] at h
  have := h i (List.mem_range.2 hi)
  cases hp : p i with
  | false => rfl
  | true => exact absurd hp this

/-- A call of `harp_variable_rearrange_dimension` that returns 0 has passed the
checks and leaves the variable with the new length of the dimension. -/
theorem rearrange_success {fuel : Nat} {heap : Heap} {v : harp_variable} {dim_index n : Int}
    {ids : Option (List Int)} {r : Outcome}
    (hprod : v.num_elements = dimension_product v.dimension 0 v.num_dimensions.toNat)
    (hcall : harp_variable_rearrange_dimension fuel heap (some v) dim_index n ids = .ok r)
    (hret : r.ret = 0) :
    0 < n ∧ 0 ≤ dim_index ∧ dim_index < v.num_dimensions ∧ v.num_elements ≠ 0 ∧
      0 < v.dimension.getD dim_index.toNat 0 ∧
      ∃ D', r.var = some (reshaped v dim_index n D') := by
  unfold harp_variable_rearrange_dimension at hcall
  simp only at hcall
  split at hcall
  · rw [← Except.ok.inj hcall] at hret
    exact absurd hret (fail_with_ret_ne _ _ _)
  · rename_i hn
    split at hcall
    · rw [← Except.ok.inj hcall] at hret
      exact absurd hret (fail_with_ret_ne _ _ _)
    · rename_i ids'
      split at hcall
      · rw [← Except.ok.inj hcall] at hret
        exact absurd hret (fail_with_ret_ne _ _ _)
      · rename_i hidx
        split at hcall
        · rw [← Except.ok.inj hcall] at hret
          exact absurd hret (fail_with_ret_ne _ _ _)
        · rename_i hne
          split at hcall
          · rw [← Except.ok.inj hcall] at hret
            exact absurd hret (fail_with_ret_ne _ _ _)
          · rename_i hany
            have hany' := any_range_false_iff (Bool.eq_false_iff.2 hany) 0 (by omega)
            have hid := of_decide_eq_false hany'
            have hdi : dim_index.toNat < v.num_dimensions.toNat := by omega
            obtain ⟨_, _, _, _, hdiv⟩ := shape_split hdi hprod hne
            rw [hdiv] at hcall
            split at hcall
            · exact Except.noConfusion hcall
            · rw [← Except.ok.inj hcall]
              exact ⟨by omega, by omega, by omega, hne, by omega, _, rfl⟩

/-- A call of `harp_variable_filter_dimension` that returns 0 has passed the
checks and leaves the variable as it was, or with the number of kept positions
as new length of the dimension. -/
theorem filter_success {heap : Heap} {v : harp_variable} {dim_index : Int}
    {mask : Option (List Nat)} {r : Outcome}
    (hprod : v.num_elements = dimension_product v.dimension 0 v.num_dimensions.toNat)
    (hcall : harp_variable_filter_dimension heap (some v) dim_index mask = r)
    (hret : r.ret = 0) :
    0 ≤ dim_index ∧ dim_index < v.num_dimensions ∧ v.num_elements ≠ 0 ∧
      (r.var = some v ∨
        ∃ m D', mask = some m ∧ mask_count m (axis_length v dim_index) ≠ 0 ∧
          r.var = some (reshaped v dim_index (mask_count m (axis_length v dim_index)) D')) := by
  unfold harp_variable_filter_dimension at hcall
  simp only at hcall
  split at hcall
  · rw [← hcall] at hret
    exact absurd hret (fail_with_ret_ne _ _ _)
  · rename_i m
    split at hcall
    · rw [← hcall] at hret
      exact absurd hret (fail_with_ret_ne _ _ _)
    · rename_i hidx
      split at hcall
      · rw [← hcall] at hret
        exact absurd hret (fail_with_ret_ne _ _ _)
      · rename_i hne
        rw [filter_count_eq] at hcall
        split at hcall
        · rw [← hcall] at hret
          exact absurd hret (fail_with_ret_ne _ _ _)
        · rename_i hcnt
          refine ⟨by omega, by omega, hne, ?_⟩
          split at hcall
          · left
            rw [← hcall]
            rfl
          · right
            have hdi : dim_index.toNat < v.num_dimensions.toNat := by omega
            obtain ⟨_, _, _, _, hdiv⟩ := shape_split hdi hprod hne
            rw [hdiv] at hcall
            rw [← hcall]
            refine ⟨m, _, rfl, ?_, rfl⟩
            unfold axis_length
            omega

/-- A call of `harp_variable_resize_dimension` that returns 0 has passed the
checks and leaves the variable as it was, or with the new length of the
dimension. -/
theorem resize_success {reallocates : Int → Bool} {heap : Heap} {v : harp_variable}
    {dim_index length : Int} {r : Outcome}
    (hcall : harp_variable_resize_dimension reallocates heap (some v) dim_index length = r)
    (hret : r.ret = 0) :
    0 ≤ dim_index ∧ dim_index < v.num_dimensions ∧ 0 < length ∧
      (r.var = some v ∨ ∃ D', r.var = some (reshaped v dim_index length D')) := by
  unfold harp_variable_resize_dimension at hcall
  simp only at hcall
  split at hcall
  · rw [← hcall] at hret
    exact absurd hret (fail_with_ret_ne _ _ _)
  · rename_i hidx
    split at hcall
    · rw [← hcall] at hret
      exact absurd hret (fail_with_ret_ne _ _ _)
    · rename_i hL
      refine ⟨by omega, by omega, by omega, ?_⟩
      split at hcall
      · left
        rw [← hcall]
        rfl
      · split at hcall
        · rw [← hcall] at hret
          exact absurd hret (fail_with_ret_ne _ _ _)
        · right
          rw [← hcall]
          exact ⟨_, rfl⟩

/-- A call of `harp_variable_add_dimension` that returns 0 has passed the checks
and leaves the variable with the new dimension. -/
theorem add_dimension_success {HARP_MAX_NUM_DIMS : Nat} {heap : Heap} {v : harp_variable}
    {dim_index : Int} {dimension_type : harp_dimension_type} {length : Int} {r : Outcome}
    (hprod : v.num_elements = dimension_product v.dimension 0 v.num_dimensions.toNat)
    (hcall : harp_variable_add_dimension HARP_MAX_NUM_DIMS heap (some v) dim_index dimension_type
      length = r)
    (hret : r.ret = 0) :
    0 ≤ dim_index ∧ dim_index ≤ v.num_dimensions ∧ 0 < length ∧
      v.num_dimensions ≠ HARP_MAX_NUM_DIMS ∧ v.num_elements ≠ 0 ∧
      add_accepts v dim_index dimension_type length ∧
      ∃ D', r.var = some (extended v dim_index dimension_type length D') := by
  unfold harp_variable_add_dimension at hcall
  simp only at hcall
  split at hcall
  · rw [← hcall] at hret
    exact absurd hret (fail_with_ret_ne _ _ _)
  · rename_i hidx
    split at hcall
    · rw [← hcall] at hret
      exact absurd hret (fail_with_ret_ne _ _ _)
    · rename_i hL
      split at hcall
      · rw [← hcall] at hret
        exact absurd hret (fail_with_ret_ne _ _ _)
      · rename_i hmax
        split at hcall
        · rw [← hcall] at hret
          exact absurd hret (fail_with_ret_ne _ _ _)
        · rename_i hne
          split at hcall
          · rw [← hcall] at hret
            exact absurd hret (fail_with_ret_ne _ _ _)
          · rename_i hc1
            split at hcall
            · rw [← hcall] at hret
              exact absurd hret (fail_with_ret_ne _ _ _)
            · rename_i hc2
              split at hcall
              · rw [← hcall] at hret
                exact absurd hret (fail_with_ret_ne _ _ _)
              · rename_i hc3
                have hdi : dim_index.toNat ≤ v.num_dimensions.toNat := by omega
                have hsplit := dimension_product_split v.dimension (Nat.zero_le dim_index.toNat)
                  _ hdi
                rw [← hprod] at hsplit
                have hK : dimension_product v.dimension dim_index.toNat v.num_dimensions.toNat ≠
                    0 := by
                  intro hk
                  rw [hk, Int.mul_zero] at hsplit
                  exact hne hsplit
                have hdiv : Int.tdiv v.num_elements
                    (dimension_product v.dimension dim_index.toNat v.num_dimensions.toNat) =
                    dimension_product v.dimension 0 dim_index.toNat := by
                  rw [hsplit]
                  exact Int.mul_tdiv_cancel _ hK
                rw [hdiv] at hcall
                rw [← hcall]
                refine ⟨by omega, by omega, by omega, hmax, hne, ⟨?_, ?_⟩, _, rfl⟩
                · intro ht
                  refine ⟨?_, fun h => hc2 ⟨ht, h⟩⟩
                  by_contra hd
                  exact hc1 ⟨ht, hd⟩
                · intro hni i hi hty
                  by_contra hlen
                  apply hc3
                  refine ⟨hni, ?_⟩
                  rw [List.any_eq_true]
                  exact ⟨i, List.mem_range.2 hi, decide_eq_true ⟨hty, hlen⟩⟩

/-- A call of `harp_variable_remove_dimension` that returns 0 has passed the
checks of `harp_variable_rearrange_dimension` and leaves the variable without
the dimension. -/
theorem remove_dimension_success {fuel : Nat} {heap : Heap} {v : harp_variable}
    {dim_index index : Int} {r : Outcome}
    (hprod : v.num_elements = dimension_product v.dimension 0 v.num_dimensions.toNat)
    (hcall : harp_variable_remove_dimension fuel heap (some v) dim_index index = .ok r)
    (hret : r.ret = 0) :
    0 ≤ dim_index ∧ dim_index < v.num_dimensions ∧ v.num_elements ≠ 0 ∧
      0 < v.dimension.getD dim_index.toNat 0 ∧
      ∃ D', r.var = some (collapsed v dim_index D') := by
  unfold harp_variable_remove_dimension at hcall
  cases hr : harp_variable_rearrange_dimension fuel heap (some v) dim_index 1 (some [index]) with
  | error e =>
    rw [hr] at hcall
    exact Except.noConfusion hcall
  | ok r0 =>
    rw [hr] at hcall
    simp only at hcall
    split at hcall
    · rw [← Except.ok.inj hcall] at hret
      exact absurd hret (by show (-1 : Int) ≠ 0; decide)
    · rename_i h0
      have hret0 : r0.ret = 0 := by
        by_contra hx
        exact h0 hx
      obtain ⟨_, h1, h2, h3, h4, D', hvar⟩ := rearrange_success hprod hr hret0
      rw [hvar] at hcall
      simp only at hcall
      rw [← Except.ok.inj hcall]
      exact ⟨h1, h2, h3, h4, D', rfl⟩

/-! ## The element count after a reshape -/

theorem reshaped_product (v : harp_variable) (dim_index n : Int) (data : List Cell)
    (hdi : dim_index.toNat < v.num_dimensions.toNat) (hdl : dim_index.toNat < v.dimension.length) :
    (reshaped v dim_index n data).num_elements =
      dimension_product (reshaped v dim_index n data).dimension 0
        (reshaped v dim_index n data).num_dimensions.toNat := by
  unfold reshaped
  simp only
  rw [dimension_product_set v.dimension hdi hdl]

theorem collapsed_dimension (v : harp_variable) (dim_index : Int) (data : List Cell)
    (hdi : dim_index.toNat < v.num_dimensions.toNat)
    (hcap : v.num_dimensions.toNat ≤ v.dimension.length) (i : Nat) :
    (collapsed v dim_index data).dimension.getD i 0 =
      if dim_index.toNat ≤ i ∧ i + 1 < v.num_dimensions.toNat then v.dimension.getD (i + 1) 0
      else if i = dim_index.toNat then 1 else v.dimension.getD i 0 := by
  unfold collapsed
  simp only
  rw [getD_shift_down, getD_reshaped_dimension, getD_reshaped_dimension]
  have hl : (reshaped v dim_index 1 data).dimension.length = v.dimension.length := by
    unfold reshaped
    exact List.length_set _ _ _
  rw [hl]
  split_ifs <;> first | rfl | (exfalso; omega)

theorem collapsed_product (v : harp_variable) (dim_index : Int) (data : List Cell)
    (hdi : dim_index.toNat < v.num_dimensions.toNat) (h0 : 0 ≤ v.num_dimensions)
    (hcap : v.num_dimensions.toNat ≤ v.dimension.length) :
    (collapsed v dim_index data).num_elements =
      dimension_product (collapsed v dim_index data).dimension 0
        (collapsed v dim_index data).num_dimensions.toNat := by
  have hone : (reshaped v dim_index 1 data).dimension.getD dim_index.toNat 0 = 1 := by
    rw [getD_reshaped_dimension, if_pos ⟨rfl, by omega⟩]
  have hnum : (collapsed v dim_index data).num_elements =
      dimension_product v.dimension 0 dim_index.toNat *
        dimension_product v.dimension (dim_index.toNat + 1) v.num_dimensions.toNat := by
    show Int.tdiv _ _ = _
    rw [hone, Int.tdiv_one]
    show _ * 1 * _ = _
    rw [Int.mul_one]
  have hnd : (collapsed v dim_index data).num_dimensions.toNat = v.num_dimensions.toNat - 1 := by
    show (v.num_dimensions - 1).toNat = _
    omega
  rw [hnum, hnd, dimension_product_split (collapsed v dim_index data).dimension
    (Nat.zero_le dim_index.toNat) (v.num_dimensions.toNat - 1) (by omega)]
  congr 1
  · apply dimension_product_congr
    intro i _ hi
    rw [collapsed_dimension v dim_index data hdi hcap, if_neg (by omega), if_neg (by omega)]
  · have e3 : v.num_dimensions.toNat = v.num_dimensions.toNat - 1 + 1 := by omega
    rw [e3]
    symm
    have := @dimension_product_shift v.dimension (collapsed v dim_index data).dimension
      dim_index.toNat (v.num_dimensions.toNat - 1)
      (by
        intro i hi hi'
        rw [collapsed_dimension v dim_index data hdi hcap, if_pos ⟨hi, by omega⟩])
    simpa using this

theorem extended_dimension (v : harp_variable) (dim_index : Int)
    (dimension_type : harp_dimension_type) (length : Int) (data : List Cell)
    (hcap : dim_index.toNat < v.dimension.length) (i : Nat) :
    (extended v dim_index dimension_type length data).dimension.getD i 0 =
      if i = dim_index.toNat then length
      else if dim_index.toNat < i ∧ i < (v.num_dimensions + 1).toNat ∧ i < v.dimension.length then
        v.dimension.getD (i - 1) 0
      else v.dimension.getD i 0 := by
  unfold extended
  simp only
  rw [getD_set_int, length_shift_up, getD_shift_up]
  split_ifs <;> first | rfl | (exfalso; omega)

theorem extended_product (v : harp_variable) (dim_index : Int)
    (dimension_type : harp_dimension_type) (length : Int) (data : List Cell)
    (h0 : 0 ≤ dim_index) (hdi : dim_index ≤ v.num_dimensions)
    (hcap : v.num_dimensions.toNat < v.dimension.length) :
    (extended v dim_index dimension_type length data).num_elements =
      dimension_product (extended v dim_index dimension_type length data).dimension 0
        (extended v dim_index dimension_type length data).num_dimensions.toNat := by
  have hnd : (extended v dim_index dimension_type length data).num_dimensions.toNat =
      v.num_dimensions.toNat + 1 := by
    show (v.num_dimensions + 1).toNat = _
    omega
  have hD := extended_dimension v dim_index dimension_type length data (by omega)
  rw [hnd, dimension_product_at _ (show dim_index.toNat < v.num_dimensions.toNat + 1 by omega),
    hD, if_pos rfl]
  show _ * length * _ = _
  congr 1
  · congr 1
    apply dimension_product_congr
    intro i _ hi
    rw [hD, if_neg (by omega), if_neg (by omega)]
  · apply dimension_product_shift
    intro i hi hi'
    rw [hD, if_neg (by omega), if_pos ⟨by omega, by omega, by omega⟩]
    rfl

/-! ## harp_variable_verify -/

theorem foldlM_range_succ_gen {ε β : Type} (f : β → Nat → Except ε β) (a : β) (t : Nat) :
    (List.range (t + 1)).foldlM f a =
      (match (List.range t).foldlM f a with
        | .ok b => f b t
        | .error e => .error e) := by
  rw [List.range_succ, List.foldlM_append]
  cases h : (List.range t).foldlM f a with
  | ok b =>
    simp only [bind, Except.bind, pure, Except.pure, List.foldlM_cons, List.foldlM_nil]
    cases f b t <;> rfl
  | error e => simp [bind, Except.bind]

/-- One round of the loop of `harp_variable_verify` that passes: the conditions
hold for one more dimension. -/
theorem verify_dimension_ok {v : harp_variable} {k : Nat} {seen seen' : harp_dimension_type → Int}
    (hd : DimsOK v k) (hs : SeenInv v k seen) (hstep : verify_dimension v seen k = .ok seen') :
    DimsOK v (k + 1) ∧ SeenInv v (k + 1) seen' := by
  unfold verify_dimension at hstep
  simp only at hstep
  split at hstep
  · exact Except.noConfusion hstep
  · rename_i htime
    split at hstep
    · exact Except.noConfusion hstep
    · rename_i hpos
      have htime' : v.dimension_type.getD k harp_dimension_type.harp_dimension_independent =
          harp_dimension_type.harp_dimension_time →
          v.dimension_type.getD 0 harp_dimension_type.harp_dimension_independent =
          harp_dimension_type.harp_dimension_time := by
        intro h
        by_contra hx
        exact htime ⟨h, hx⟩
      have hbase : ∀ i, i < k + 1 → i < k ∨ i = k := fun i hi => by omega
      split at hstep
      · rename_i hni
        split at hstep
        · rename_i hzero
          -- the first dimension of its type
          have hnone : ∀ i, i < k →
              v.dimension_type.getD i harp_dimension_type.harp_dimension_independent ≠
                v.dimension_type.getD k harp_dimension_type.harp_dimension_independent := by
            intro i hi he
            have h1 := hs.seen i hi (by rw [he]; exact hni)
            rw [he, hzero] at h1
            have := hd.pos i hi
            omega
          have hseen' := Except.ok.inj hstep
          constructor
          · refine ⟨?_, ?_, ?_⟩
            · intro i hi
              rcases hbase i hi with h | h
              · exact hd.time i h
              · rw [h]; exact htime'
            · intro i hi
              rcases hbase i hi with h | h
              · exact hd.pos i h
              · rw [h]; omega
            · intro i j hi hj he hn
              rcases hbase i hi with h | h <;> rcases hbase j hj with h' | h'
              · exact hd.shared i j h h' he hn
              · rw [h'] at he
                exact absurd he (hnone i h)
              · rw [h] at he
                exact absurd he.symm (hnone j h')
              · rw [h, h']
          · rw [← hseen']
            refine ⟨?_, ?_⟩
            · intro t ht
              have hk := ht k (Nat.lt_succ_self k)
              rw [if_neg (fun e => hk e.symm)]
              exact hs.unseen t (fun i hi => ht i (by omega))
            · intro i hi hn
              rcases hbase i hi with h | h
              · rw [if_neg (hnone i h)]
                exact hs.seen i h hn
              · rw [h, if_pos rfl]
        · rename_i hnz
          split at hstep
          · exact Except.noConfusion hstep
          · rename_i heq
            have hlen : v.dimension.getD k 0 =
                seen (v.dimension_type.getD k harp_dimension_type.harp_dimension_independent) := by
              by_contra hx
              exact heq hx
            have hseen' := Except.ok.inj hstep
            have hsame : ∀ i, i < k →
                v.dimension_type.getD i harp_dimension_type.harp_dimension_independent =
                  v.dimension_type.getD k harp_dimension_type.harp_dimension_independent →
                v.dimension.getD i 0 = v.dimension.getD k 0 := by
              intro i hi he
              rw [hlen, ← he]
              exact (hs.seen i hi (by rw [he]; exact hni)).symm
            constructor
            · refine ⟨?_, ?_, ?_⟩
              · intro i hi
                rcases hbase i hi with h | h
                · exact hd.time i h
                · rw [h]; exact htime'
              · intro i hi
                rcases hbase i hi with h | h
                · exact hd.pos i h
                · rw [h]; omega
              · intro i j hi hj he hn
                rcases hbase i hi with h | h <;> rcases hbase j hj with h' | h'
                · exact hd.shared i j h h' he hn
                · rw [h'] at he ⊢
                  exact hsame i h he
                · rw [h] at he ⊢
                  exact (hsame j h' he.symm).symm
                · rw [h, h']
            · rw [← hseen']
              refine ⟨?_, ?_⟩
              · intro t ht
                exact hs.unseen t (fun i hi => ht i (by omega))
              · intro i hi hn
                rcases hbase i hi with h | h
                · exact hs.seen i h hn
                · rw [h]
                  exact hlen.symm
      · rename_i hind
        have hind' : v.dimension_type.getD k harp_dimension_type.harp_dimension_independent =
            harp_dimension_type.harp_dimension_independent := by
          by_contra hx
          exact hind hx
        have hseen' := Except.ok.inj hstep
        constructor
        · refine ⟨?_, ?_, ?_⟩
          · intro i hi
            rcases hbase i hi with h | h
            · exact hd.time i h
            · rw [h]; exact htime'
          · intro i hi
            rcases hbase i hi with h | h
            · exact hd.pos i h
            · rw [h]; omega
          · intro i j hi hj he hn
            rcases hbase i hi with h | h <;> rcases hbase j hj with h' | h'
            · exact hd.shared i j h h' he hn
            · rw [h', hind'] at he
              exact absurd he hn
            · rw [h] at hn
              exact absurd hind' hn
            · rw [h, h']
        · rw [← hseen']
          refine ⟨?_, ?_⟩
          · intro t ht
            exact hs.unseen t (fun i hi => ht i (by omega))
          · intro i hi hn
            rcases hbase i hi with h | h
            · exact hs.seen i h hn
            · rw [h] at hn
              exact absurd hind' hn

/-- One round of the loop of `harp_variable_verify` passes when the conditions
hold for one more dimension. -/
theorem verify_dimension_of_ok {v : harp_variable} {k : Nat} {seen : harp_dimension_type → Int}
    (hd : DimsOK v (k + 1)) (hs : SeenInv v k seen) :
    ∃ seen', verify_dimension v seen k = .ok seen' := by
  unfold verify_dimension
  simp only
  rw [if_neg (fun h => h.2 (hd.time k (Nat.lt_succ_self k) h.1)),
    if_neg (by have := hd.pos k (Nat.lt_succ_self k); omega)]
  split
  · rename_i hni
    split
    · exact ⟨_, rfl⟩
    · rename_i hnz
      have hex : ∃ i, i < k ∧
          v.dimension_type.getD i harp_dimension_type.harp_dimension_independent =
            v.dimension_type.getD k harp_dimension_type.harp_dimension_independent := by
        by_contra hx
        apply hnz
        apply hs.unseen
        intro i hi he
        exact hx ⟨i, hi, he⟩
      obtain ⟨i, hi, he⟩ := hex
      have h1 := hs.seen i hi (by rw [he]; exact hni)
      rw [he] at h1
      have h2 := hd.shared i k (by omega) (Nat.lt_succ_self k) he (by rw [he]; exact hni)
      rw [if_neg (by rw [h1, h2]; exact fun h => h rfl)]
      exact ⟨_, rfl⟩
  · exact ⟨_, rfl⟩

/-- The loop of `harp_variable_verify` over the first `k` dimensions passes
exactly when the conditions hold for them. -/
theorem verify_dimensions_iff (v : harp_variable) :
    ∀ k, ((∃ seen, (List.range k).foldlM (verify_dimension v) (fun _ => 0) = .ok seen) ↔
        DimsOK v k) ∧
      ∀ seen, (List.range k).foldlM (verify_dimension v) (fun _ => 0) = .ok seen →
        SeenInv v k seen := by
  intro k
  induction k with
  | zero =>
    refine ⟨⟨fun _ => ⟨fun i hi => by omega, fun i hi => by omega, fun i j hi => by omega⟩,
      fun _ => ⟨_, rfl⟩⟩, ?_⟩
    intro seen hs
    have e : seen = fun _ => 0 := (Except.ok.inj hs).symm
    rw [e]
    exact ⟨fun _ _ => rfl, fun i hi => by omega⟩
  | succ k ih =>
    have hstepok : ∀ seen', (List.range (k + 1)).foldlM (verify_dimension v) (fun _ => 0) =
        .ok seen' → DimsOK v (k + 1) ∧ SeenInv v (k + 1) seen' := by
      intro seen' hrun
      rw [foldlM_range_succ_gen] at hrun
      cases hprev : (List.range k).foldlM (verify_dimension v) (fun _ => 0) with
      | error e =>
        rw [hprev] at hrun
        exact Except.noConfusion hrun
      | ok seen =>
        rw [hprev] at hrun
        exact verify_dimension_ok (ih.1.1 ⟨seen, hprev⟩) (ih.2 seen hprev) hrun
    refine ⟨⟨fun ⟨seen', h⟩ => (hstepok seen' h).1, ?_⟩, fun seen' h => (hstepok seen' h).2⟩
    intro hd
    have hdk : DimsOK v k :=
      ⟨fun i hi => hd.time i (by omega), fun i hi => hd.pos i (by omega),
        fun i j hi hj => hd.shared i j (by omega) (by omega)⟩
    obtain ⟨seen, hprev⟩ := ih.1.2 hdk
    obtain ⟨seen', hstep⟩ := verify_dimension_of_ok hd (ih.2 seen hprev)
    refine ⟨seen', ?_⟩
    rw [foldlM_range_succ_gen, hprev]
    exact hstep

theorem unit_check_false {harp_unit_is_valid : String → Bool} {unit : Option String} :
    ¬ ((match unit with
        | some u => !harp_unit_is_valid u
        | none => false) = true) ↔
      ∀ u, unit = some u → harp_unit_is_valid u = true := by
  cases unit with
  | none => simp
  | some u => simp

/-- The call of `harp_variable_verify` returns without an error exactly when
the variable satisfies every condition it checks. -/
theorem verify_iff (HARP_MAX_NUM_DIMS : Nat) (harp_unit_is_valid : String → Bool)
    (v : harp_variable) :
    harp_variable_verify HARP_MAX_NUM_DIMS harp_unit_is_valid (some v) = .ok () ↔
      Verified HARP_MAX_NUM_DIMS harp_unit_is_valid v := by
  constructor
  · intro h
    unfold harp_variable_verify at h
    simp only at h
    split at h
    · exact Except.noConfusion h
    · rename_i hname
      split at h
      · exact Except.noConfusion h
      · rename_i hnd
        split at h
        · exact Except.noConfusion h
        · rename_i seen hloop
          split at h
          · exact Except.noConfusion h
          · rename_i hneg
            split at h
            · exact Except.noConfusion h
            · rename_i hcount
              split at h
              · exact Except.noConfusion h
              · rename_i hdata
                split at h
                · exact Except.noConfusion h
                · rename_i hunit
                  split at h
                  · exact Except.noConfusion h
                  · rename_i hmin
                    split at h
                    · exact Except.noConfusion h
                    · rename_i hmax
                      exact
                        { name := hname
                          dims_lo := by omega
                          dims_hi := by omega
                          dims := ((verify_dimensions_iff v _).1).1 ⟨seen, hloop⟩
                          count_nonneg := by omega
                          count := by
                            by_contra hx
                            exact hcount hx
                          data := fun hp hd => hdata ⟨hp, hd⟩
                          unit := unit_check_false.1 hunit
                          valid_min := hmin
                          valid_max := hmax }
  · intro h
    obtain ⟨seen, hloop⟩ := ((verify_dimensions_iff v _).1).2 h.dims
    unfold harp_variable_verify
    simp only
    rw [if_neg h.name, if_neg (by have := h.dims_lo; have := h.dims_hi; omega), hloop]
    simp only
    rw [if_neg (by have := h.count_nonneg; omega), if_neg (fun hx => hx h.count),
      if_neg (fun hx => h.data hx.1 hx.2)]
    split
    · rename_i hx
      exact absurd hx (unit_check_false.2 h.unit)
    · rw [if_neg h.valid_min, if_neg h.valid_max]

/-! ## Reshapes that keep a variable valid -/

theorem dimension_product_pos {d : List Int} {a : Nat} :
    ∀ b, (∀ i, a ≤ i → i < b → 0 < d.getD i 0) → 0 < dimension_product d a b := by
  intro b
  induction b with
  | zero =>
    intro _
    unfold dimension_product
    simp
  | succ b ih =>
    intro h
    by_cases hab : a ≤ b
    · rw [dimension_product_succ d hab]
      exact Int.mul_pos (ih (fun i h1 h2 => h i h1 (by omega))) (h b hab (by omega))
    · unfold dimension_product
      have e : b + 1 - a = 0 := by omega
      rw [e]
      simp

/-- A variable that satisfies the conditions of `harp_variable_verify` still
does after the length of a dimension whose type is not shared has been replaced
by a positive length. -/
theorem Verified.reshaped {HARP_MAX_NUM_DIMS : Nat} {harp_unit_is_valid : String → Bool}
    {v : harp_variable} (h : Verified HARP_MAX_NUM_DIMS harp_unit_is_valid v) {dim_index n : Int}
    (h0 : 0 ≤ dim_index) (h1 : dim_index < v.num_dimensions) (hn : 0 < n)
    (hu : unshared v dim_index) (data : List Cell) :
    Verified HARP_MAX_NUM_DIMS harp_unit_is_valid (Harp.reshaped v dim_index n data) := by
  have hdi : dim_index.toNat < v.num_dimensions.toNat := by omega
  have hdl : dim_index.toNat < v.dimension.length :=
    lt_length_of_getD_ne (by have := h.dims.pos _ hdi; omega)
  have hD := getD_reshaped_dimension v dim_index n data
  refine
    { name := h.name
      dims_lo := h.dims_lo
      dims_hi := h.dims_hi
      dims := ⟨h.dims.time, ?_, ?_⟩
      count_nonneg := ?_
      count := reshaped_product v dim_index n data hdi hdl
      data := fun _ hd => Option.noConfusion hd
      unit := h.unit
      valid_min := h.valid_min
      valid_max := h.valid_max }
  · intro i hi
    rw [hD]
    split
    · exact hn
    · exact h.dims.pos i hi
  · intro i j hi hj he hni
    rw [hD, hD]
    by_cases hij : i = j
    · rw [hij]
    · have hi' : ¬ (dim_index.toNat = i ∧ dim_index.toNat < v.dimension.length) := by
        rintro ⟨e, _⟩
        rcases hu with hu | hu
        · exact hni (by rw [← e]; exact hu)
        · exact hu j hj (by omega) (by rw [e]; exact he.symm)
      have hj' : ¬ (dim_index.toNat = j ∧ dim_index.toNat < v.dimension.length) := by
        rintro ⟨e, _⟩
        rcases hu with hu | hu
        · exact hni (by rw [he, ← e]; exact hu)
        · exact hu i hi (by omega) (by rw [e]; exact he)
      rw [if_neg hi', if_neg hj']
      exact h.dims.shared i j hi hj he hni
  · show 0 ≤ _ * n * _
    apply Int.mul_nonneg
    · apply Int.mul_nonneg
      · exact Int.le_of_lt (dimension_product_pos _ (fun i _ hi => h.dims.pos i (by omega)))
      · omega
    · exact Int.le_of_lt (dimension_product_pos _ (fun i _ hi => h.dims.pos i hi))

theorem collapsed_dimension_type (v : harp_variable) (dim_index : Int) (data : List Cell)
    (hcap : v.num_dimensions.toNat ≤ v.dimension_type.length) (i : Nat) :
    (collapsed v dim_index data).dimension_type.getD i
        harp_dimension_type.harp_dimension_independent =
      if dim_index.toNat ≤ i ∧ i + 1 < v.num_dimensions.toNat then
        v.dimension_type.getD (i + 1) harp_dimension_type.harp_dimension_independent
      else v.dimension_type.getD i harp_dimension_type.harp_dimension_independent := by
  unfold collapsed
  simp only
  rw [getD_shift_down]
  split_ifs <;> first | rfl | (exfalso; omega)

theorem extended_dimension_type (v : harp_variable) (dim_index : Int)
    (dimension_type : harp_dimension_type) (length : Int) (data : List Cell)
    (hcap : dim_index.toNat < v.dimension_type.length) (i : Nat) :
    (extended v dim_index dimension_type length data).dimension_type.getD i
        harp_dimension_type.harp_dimension_independent =
      if i = dim_index.toNat then dimension_type
      else if dim_index.toNat < i ∧ i < (v.num_dimensions + 1).toNat ∧
          i < v.dimension_type.length then
        v.dimension_type.getD (i - 1) harp_dimension_type.harp_dimension_independent
      else v.dimension_type.getD i harp_dimension_type.harp_dimension_independent := by
  unfold extended
  simp only
  rw [getD_set_gen, length_shift_up, getD_shift_up]
  split_ifs <;> first | rfl | (exfalso; omega)

/-- A variable that satisfies the conditions of `harp_variable_verify` still
does after `harp_variable_remove_dimension`, when the removed dimension is not
dimension 0 or no later dimension is a time dimension. -/
theorem Verified.collapsed {HARP_MAX_NUM_DIMS : Nat} {harp_unit_is_valid : String → Bool}
    {v : harp_variable} (h : Verified HARP_MAX_NUM_DIMS harp_unit_is_valid v) {dim_index : Int}
    (h0 : 0 ≤ dim_index) (h1 : dim_index < v.num_dimensions)
    (hcapt : v.num_dimensions.toNat ≤ v.dimension_type.length)
    (htime : dim_index = 0 → ∀ i, 1 ≤ i → i < v.num_dimensions.toNat →
      v.dimension_type.getD i harp_dimension_type.harp_dimension_independent ≠
        harp_dimension_type.harp_dimension_time)
    (data : List Cell) :
    Verified HARP_MAX_NUM_DIMS harp_unit_is_valid (Harp.collapsed v dim_index data) := by
  have hdi : dim_index.toNat < v.num_dimensions.toNat := by omega
  have hcap : v.num_dimensions.toNat ≤ v.dimension.length := by
    by_contra hx
    have := h.dims.pos (v.num_dimensions.toNat - 1) (by omega)
    have hz : v.dimension.getD (v.num_dimensions.toNat - 1) 0 = 0 := by
      rw [List.getD_eq_getElem?_getD, List.getElem?_eq_none (by omega)]
      rfl
    omega
  have hD := collapsed_dimension v dim_index data hdi hcap
  have hT := collapsed_dimension_type v dim_index data hcapt
  have hnd : (Harp.collapsed v dim_index data).num_dimensions.toNat =
      v.num_dimensions.toNat - 1 := by
    show (v.num_dimensions - 1).toNat = _
    omega
  -- the old index of a dimension of the result
  have hsrc : ∀ i, i < v.num_dimensions.toNat - 1 →
      ∃ s, s < v.num_dimensions.toNat ∧ (dim_index = 0 → 1 ≤ s) ∧ (i = 0 → dim_index ≠ 0 → s = 0) ∧
        (Harp.collapsed v dim_index data).dimension.getD i 0 = v.dimension.getD s 0 ∧
        (Harp.collapsed v dim_index data).dimension_type.getD i
            harp_dimension_type.harp_dimension_independent =
          v.dimension_type.getD s harp_dimension_type.harp_dimension_independent ∧
        (s = i ∨ s = i + 1) ∧ (s = i ↔ i < dim_index.toNat) := by
    intro i hi
    by_cases hc : dim_index.toNat ≤ i
    · refine ⟨i + 1, by omega, fun _ => by omega, fun e hd => by omega, ?_, ?_, Or.inr rfl,
        by omega⟩
      · rw [hD, if_pos ⟨hc, by omega⟩]
      · rw [hT, if_pos ⟨hc, by omega⟩]
    · refine ⟨i, by omega, fun e => by omega, fun e _ => e, ?_, ?_, Or.inl rfl, by omega⟩
      · rw [hD, if_neg (fun h => hc h.1), if_neg (by omega)]
      · rw [hT, if_neg (fun h => hc h.1)]
  refine
    { name := h.name
      dims_lo := by show 0 ≤ v.num_dimensions - 1; omega
      dims_hi := by show v.num_dimensions - 1 ≤ _; have := h.dims_hi; omega
      dims := ?_
      count_nonneg := ?_
      count := collapsed_product v dim_index data hdi (by omega) hcap
      data := fun _ hd => Option.noConfusion hd
      unit := h.unit
      valid_min := h.valid_min
      valid_max := h.valid_max }
  · rw [hnd]
    refine ⟨?_, ?_, ?_⟩
    · intro i hi ht
      obtain ⟨s, hs, hs1, _, _, hty, _, _⟩ := hsrc i hi
      rw [hty] at ht
      by_cases hd0 : dim_index = 0
      · exact absurd ht (htime hd0 s (hs1 hd0) hs)
      · obtain ⟨s0, _, _, hs0, _, hty0, _, _⟩ := hsrc 0 (by omega)
        rw [hty0, hs0 rfl hd0]
        exact h.dims.time s hs ht
    · intro i hi
      obtain ⟨s, hs, _, _, hdm, _, _, _⟩ := hsrc i hi
      rw [hdm]
      exact h.dims.pos s hs
    · intro i j hi hj he hni
      obtain ⟨s, hs, _, _, hdm, hty, _, _⟩ := hsrc i hi
      obtain ⟨s', hs', _, _, hdm', hty', _, _⟩ := hsrc j hj
      rw [hdm, hdm']
      rw [hty, hty'] at he
      rw [hty] at hni
      exact h.dims.shared s s' hs hs' he hni
  · rw [collapsed_product v dim_index data hdi (by omega) hcap]
    apply Int.le_of_lt
    apply dimension_product_pos
    intro i _ hi
    rw [hnd] at hi
    obtain ⟨s, hs, _, _, hdm, _, _, _⟩ := hsrc i hi
    rw [hdm]
    exact h.dims.pos s hs

/-- A variable that satisfies the conditions of `harp_variable_verify` still
does after `harp_variable_add_dimension` has added a dimension that its checks
accept, unless the new dimension is put at index 0 of a variable whose
dimension 0 is a time dimension. -/
theorem Verified.extended {HARP_MAX_NUM_DIMS : Nat} {harp_unit_is_valid : String → Bool}
    {v : harp_variable} (h : Verified HARP_MAX_NUM_DIMS harp_unit_is_valid v) {dim_index : Int}
    {dimension_type : harp_dimension_type} {length : Int}
    (h0 : 0 ≤ dim_index) (h1 : dim_index ≤ v.num_dimensions) (hL : 0 < length)
    (hmax : v.num_dimensions < HARP_MAX_NUM_DIMS)
    (hcap : v.dimension.length = HARP_MAX_NUM_DIMS)
    (hcapt : v.dimension_type.length = HARP_MAX_NUM_DIMS)
    (hacc : add_accepts v dim_index dimension_type length)
    (hfront : ¬ (dim_index = 0 ∧ 1 ≤ v.num_dimensions ∧
      v.dimension_type.getD 0 harp_dimension_type.harp_dimension_independent =
        harp_dimension_type.harp_dimension_time))
    (data : List Cell) :
    Verified HARP_MAX_NUM_DIMS harp_unit_is_valid
      (Harp.extended v dim_index dimension_type length data) := by
  have hlo := h.dims_lo
  have hD := extended_dimension v dim_index dimension_type length data (by omega)
  have hT := extended_dimension_type v dim_index dimension_type length data (by omega)
  have hnd : (Harp.extended v dim_index dimension_type length data).num_dimensions.toNat =
      v.num_dimensions.toNat + 1 := by
    show (v.num_dimensions + 1).toNat = _
    omega
  -- the old index of a dimension of the result other than the new one
  have hsrc : ∀ i, i < v.num_dimensions.toNat + 1 → i ≠ dim_index.toNat →
      ∃ s, s < v.num_dimensions.toNat ∧ (i = 0 → s = 0) ∧
        (Harp.extended v dim_index dimension_type length data).dimension.getD i 0 =
          v.dimension.getD s 0 ∧
        (Harp.extended v dim_index dimension_type length data).dimension_type.getD i
            harp_dimension_type.harp_dimension_independent =
          v.dimension_type.getD s harp_dimension_type.harp_dimension_independent := by
    intro i hi hne
    by_cases hc : dim_index.toNat < i
    · refine ⟨i - 1, by omega, fun e => by omega, ?_, ?_⟩
      · rw [hD, if_neg hne, if_pos ⟨hc, by omega, by omega⟩]
      · rw [hT, if_neg hne, if_pos ⟨hc, by omega, by omega⟩]
    · refine ⟨i, by omega, fun e => e, ?_, ?_⟩
      · rw [hD, if_neg hne, if_neg (fun h => hc h.1)]
      · rw [hT, if_neg hne, if_neg (fun h => hc h.1)]
  have hnew : (Harp.extended v dim_index dimension_type length data).dimension.getD
        dim_index.toNat 0 = length ∧
      (Harp.extended v dim_index dimension_type length data).dimension_type.getD dim_index.toNat
        harp_dimension_type.harp_dimension_independent = dimension_type := by
    rw [hD, hT, if_pos rfl, if_pos rfl]
    exact ⟨rfl, rfl⟩
  refine
    { name := h.name
      dims_lo := by show 0 ≤ v.num_dimensions + 1; omega
      dims_hi := by show v.num_dimensions + 1 ≤ _; omega
      dims := ?_
      count_nonneg := ?_
      count := extended_product v dim_index dimension_type length data h0 h1 (by omega)
      data := fun _ hd => Option.noConfusion hd
      unit := h.unit
      valid_min := h.valid_min
      valid_max := h.valid_max }
  · rw [hnd]
    refine ⟨?_, ?_, ?_⟩
    · intro i hi ht
      by_cases hd0 : dim_index.toNat = 0
      · by_cases hi0 : i = 0
        · rw [hi0] at ht
          exact ht
        · exfalso
          obtain ⟨s, hs, _, _, hty⟩ := hsrc i hi (by omega)
          rw [hty] at ht
          exact hfront ⟨by omega, by omega, h.dims.time s hs ht⟩
      · obtain ⟨s0, _, hs0, _, hty0⟩ := hsrc 0 (by omega) (by omega)
        rw [hty0, hs0 rfl]
        by_cases hid : i = dim_index.toNat
        · exfalso
          rw [hid, hnew.2] at ht
          have := (hacc.1 ht).1
          omega
        · obtain ⟨s, hs, _, _, hty⟩ := hsrc i hi hid
          rw [hty] at ht
          exact h.dims.time s hs ht
    · intro i hi
      by_cases hid : i = dim_index.toNat
      · rw [hid, hnew.1]
        exact hL
      · obtain ⟨s, hs, _, hdm, _⟩ := hsrc i hi hid
        rw [hdm]
        exact h.dims.pos s hs
    · intro i j hi hj he hni
      by_cases hid : i = dim_index.toNat
      · by_cases hjd : j = dim_index.toNat
        · rw [hid, hjd]
        · obtain ⟨s, hs, _, hdm, hty⟩ := hsrc j hj hjd
          rw [hid, hnew.2, hty] at he
          rw [hid, hnew.2] at hni
          rw [hid, hnew.1, hdm]
          exact (hacc.2 hni s hs he.symm).symm
      · obtain ⟨s, hs, _, hdm, hty⟩ := hsrc i hi hid
        by_cases hjd : j = dim_index.toNat
        · rw [hty, hjd, hnew.2] at he
          rw [hty] at hni
          rw [hdm, hjd, hnew.1]
          exact hacc.2 (by rw [← he]; exact hni) s hs he
        · obtain ⟨s', hs', _, hdm', hty'⟩ := hsrc j hj hjd
          rw [hdm, hdm']
          rw [hty, hty'] at he
          rw [hty] at hni
          exact h.dims.shared s s' hs hs' he hni
  · show 0 ≤ _ * length * _
    apply Int.mul_nonneg
    · apply Int.mul_nonneg
      · exact Int.le_of_lt (dimension_product_pos _ (fun i _ hi => h.dims.pos i (by omega)))
      · omega
    · exact Int.le_of_lt (dimension_product_pos _ (fun i _ hi => h.dims.pos i hi))


/-! ### `harp_variable_verify`: the error that is reported -/

/-- A loop over `0 .. n-1` that reaches round `i` in state `s` and fails there
fails with the error of that round. -/
theorem foldlM_range_error {ε β : Type} (f : β → Nat → Except ε β) (a : β) (i : Nat) (s : β)
    (e : ε) (hs : (List.range i).foldlM f a = .ok s) (he : f s i = .error e) :
    ∀ n, i < n → (List.range n).foldlM f a = .error e := by
  intro n
  induction n with
  | zero => intro h; omega
  | succ m ih =>
    intro h
    rw [foldlM_range_succ_gen]
    by_cases him : i = m
    · subst him
      rw [hs]
      exact he
    · rw [ih (by omega)]

/-- Every error of a round of the loop of `harp_variable_verify` is reported as
an invalid variable. -/
theorem verify_dimension_errno {v : harp_variable} {seen : harp_dimension_type → Int} {i : Nat}
    {e : verify_error} (h : verify_dimension v seen i = .error e) :
    e.errno = harp_error.HARP_ERROR_INVALID_VARIABLE := by
  unfold verify_dimension at h
  simp only at h
  split_ifs at h <;> (cases h; rfl)

/-- Every error of the loop of `harp_variable_verify` is reported as an invalid
variable. -/
theorem verify_dimensions_errno (v : harp_variable) (e : verify_error) :
    ∀ n, (List.range n).foldlM (verify_dimension v) (fun _ => 0) = .error e →
      e.errno = harp_error.HARP_ERROR_INVALID_VARIABLE := by
  intro n
  induction n with
  | zero => intro h; exact Except.noConfusion h
  | succ m ih =>
    intro h
    rw [foldlM_range_succ_gen] at h
    cases hm : (List.range m).foldlM (verify_dimension v) (fun _ => 0) with
    | ok s =>
      rw [hm] at h
      exact verify_dimension_errno h
    | error e' =>
      rw [hm] at h
      cases h
      exact ih hm

/-- Every error that `harp_variable_verify` reports on a variable that is not
null is an invalid variable error. -/
theorem verify_errno {HARP_MAX_NUM_DIMS : Nat} {harp_unit_is_valid : String → Bool}
    {v : harp_variable} {e : verify_error}
    (h : harp_variable_verify HARP_MAX_NUM_DIMS harp_unit_is_valid (some v) = .error e) :
    e.errno = harp_error.HARP_ERROR_INVALID_VARIABLE := by
  unfold harp_variable_verify at h
  simp only at h
  split at h
  · cases h; rfl
  · split at h
    · cases h; rfl
    · split at h
      · rename_i e' he'
        cases h
        exact verify_dimensions_errno v _ _ he'
      · split_ifs at h <;> (cases h; rfl)

/-- A call of `harp_variable_verify` on a variable that is not null and does not
satisfy every condition fails with an invalid variable error. -/
theorem verify_fails {HARP_MAX_NUM_DIMS : Nat} {harp_unit_is_valid : String → Bool}
    {v : harp_variable} (h : ¬ Verified HARP_MAX_NUM_DIMS harp_unit_is_valid v) :
    ∃ e, harp_variable_verify HARP_MAX_NUM_DIMS harp_unit_is_valid (some v) = .error e ∧
      e.errno = harp_error.HARP_ERROR_INVALID_VARIABLE := by
  cases hr : harp_variable_verify HARP_MAX_NUM_DIMS harp_unit_is_valid (some v) with
  | ok u => exact absurd ((verify_iff _ _ _).1 hr) h
  | error e => exact ⟨e, rfl, verify_errno hr⟩

/-- The state of the loop of `harp_variable_verify` before round `i`, when the
first `i` dimensions pass. -/
theorem verify_dimensions_reach {v : harp_variable} {i : Nat} (h : DimsOK v i) :
    ∃ seen, (List.range i).foldlM (verify_dimension v) (fun _ => 0) = .ok seen ∧
      SeenInv v i seen := by
  obtain ⟨seen, hs⟩ := ((verify_dimensions_iff v i).1).2 h
  exact ⟨seen, hs, (verify_dimensions_iff v i).2 seen hs⟩

/-- The call of `harp_variable_verify` on a named variable with a dimension
count in range whose loop fails reports the error of the loop. -/
theorem verify_loop_error {HARP_MAX_NUM_DIMS : Nat} {harp_unit_is_valid : String → Bool}
    {v : harp_variable} {e : verify_error} (hname : v.name ≠ none)
    (hlo : 0 ≤ v.num_dimensions) (hhi : v.num_dimensions ≤ HARP_MAX_NUM_DIMS)
    (h : (List.range v.num_dimensions.toNat).foldlM (verify_dimension v) (fun _ => 0) =
      .error e) :
    harp_variable_verify HARP_MAX_NUM_DIMS harp_unit_is_valid (some v) = .error e := by
  unfold harp_variable_verify
  simp only
  rw [if_neg hname, if_neg (by omega), h]

/-- The call of `harp_variable_verify` on a named variable with a dimension
count in range whose dimensions pass is decided by the checks after the loop. -/
theorem verify_after_loop {HARP_MAX_NUM_DIMS : Nat} {harp_unit_is_valid : String → Bool}
    {v : harp_variable} (hname : v.name ≠ none)
    (hlo : 0 ≤ v.num_dimensions) (hhi : v.num_dimensions ≤ HARP_MAX_NUM_DIMS)
    (hd : DimsOK v v.num_dimensions.toNat) :
    harp_variable_verify HARP_MAX_NUM_DIMS harp_unit_is_valid (some v) =
      if v.num_elements < 0 then .error verify_error.invalid_number_of_elements
      else if v.num_elements ≠ harp_get_num_elements v.num_dimensions v.dimension then
        .error verify_error.number_of_elements_mismatch
      else if v.num_elements > 0 ∧ v.data = none then .error verify_error.no_data
      else if (match v.unit with
          | some u => !harp_unit_is_valid u
          | none => false) = true then .error verify_error.invalid_unit
      else if (v.data_type = harp_data_type.harp_type_float ∧
            v.valid_min = Cell.float_data harp_float.nan) ∨
          (v.data_type = harp_data_type.harp_type_double ∧
            v.valid_min = Cell.double_data harp_float.nan) then
        .error verify_error.valid_min_is_nan
      else if (v.data_type = harp_data_type.harp_type_float ∧
            v.valid_max = Cell.float_data harp_float.nan) ∨
          (v.data_type = harp_data_type.harp_type_double ∧
            v.valid_max = Cell.double_data harp_float.nan) then
        .error verify_error.valid_max_is_nan
      else .ok () := by
  obtain ⟨seen, hs, _⟩ := verify_dimensions_reach hd
  have hnd : ¬ (v.num_dimensions < 0 ∨ v.num_dimensions > HARP_MAX_NUM_DIMS) := by omega
  unfold harp_variable_verify
  simp only [if_neg hname, if_neg hnd, hs]

/-! ### `harp_variable_convert_data_type` -/

/-- The call of `harp_variable_convert_data_type` that converts: the variable
has a buffer and between 1 and `INT_MAX` elements (or a negative number of
elements), and the two types are different numeric types. -/
theorem convert_run (INT_MAX : Int) (round_to_float : Rat → harp_float)
    (undefined_cast : Nat → harp_float → Int) (heap : Heap) (v : harp_variable)
    (target : harp_data_type) (D : List Cell) (cast : Cell → Cell)
    (hs : v.data_type ≠ harp_data_type.harp_type_string)
    (ht : target ≠ harp_data_type.harp_type_string) (hne : v.data_type ≠ target)
    (hn : v.num_elements ≠ 0) (hmax : v.num_elements ≤ INT_MAX) (hD : v.data = some D)
    (hc : cast_cell round_to_float undefined_cast target v.data_type = some cast) :
    harp_variable_convert_data_type INT_MAX round_to_float undefined_cast heap (some v) target =
      .ok (succeed
        { v with
          data := some ((List.range v.num_elements.toNat).map (fun i => cast (peek D i)))
          data_type := target
          valid_min := cast v.valid_min
          valid_max := cast v.valid_max } heap) := by
  have h4 : ¬ (v.num_elements = 0 ∨ v.data = none) := by
    rw [hD]
    rintro (h | h)
    · exact hn h
    · exact Option.noConfusion h
  have h5 : ¬ v.num_elements > INT_MAX := by omega
  unfold harp_variable_convert_data_type
  simp only [if_neg hne, if_neg hs, if_neg ht, if_neg h4, hc, if_neg h5]
  rw [hD]
  rfl

/-- The call of `harp_variable_convert_data_type` on a variable without
elements or without a buffer only sets the data type. -/
theorem convert_nothing (INT_MAX : Int) (round_to_float : Rat → harp_float)
    (undefined_cast : Nat → harp_float → Int) (heap : Heap) (v : harp_variable)
    (target : harp_data_type)
    (hs : v.data_type ≠ harp_data_type.harp_type_string)
    (ht : target ≠ harp_data_type.harp_type_string) (hne : v.data_type ≠ target)
    (h : v.num_elements = 0 ∨ v.data = none) :
    harp_variable_convert_data_type INT_MAX round_to_float undefined_cast heap (some v) target =
      .ok (succeed { v with data_type := target } heap) := by
  unfold harp_variable_convert_data_type
  simp only [if_neg hne, if_neg hs, if_neg ht, if_pos h]

/-- The cast of an int32 element to double and back gives the element. -/
theorem int32_double_int32 (undefined_cast : Nat → harp_float → Int) (c : Cell)
    (h : is_int32 c) :
    cast_member read_double (float_to_int undefined_cast 32) Cell.int32_data
      (cast_member read_int32 int_to_double Cell.double_data c) = c := by
  obtain ⟨x, rfl, hx⟩ := h
  unfold in_range at hx
  simp only [cast_member, read_int32, read_double, int_to_double, float_to_int,
    Rat.intCast_num, Rat.intCast_den, Nat.cast_one, Int.tdiv_one]
  rw [if_pos hx]

/-- A buffer read back element by element is the buffer. -/
theorem map_peek_range (D : List Cell) : (List.range D.length).map (fun i => peek D i) = D := by
  apply List.ext_getElem
  · simp
  · intro i h1 h2
    simp [peek, List.getD, List.getElem?_eq_getElem h2]

/-- The conversion of an int32 variable with at most `INT_MAX` elements to
double and back: both calls succeed, the second one returns the variable with
every element, valid_min and valid_max as they were. -/
theorem convert_round_trip (INT_MAX : Int) (round_to_float : Rat → harp_float)
    (undefined_cast : Nat → harp_float → Int) (heap : Heap) (v : harp_variable)
    (hty : v.data_type = harp_data_type.harp_type_int32) (hmax : v.num_elements ≤ INT_MAX)
    (hvmin : is_int32 v.valid_min) (hvmax : is_int32 v.valid_max)
    (hcells : ∀ D, v.data = some D → ∀ i, i < v.num_elements.toNat → is_int32 (peek D i)) :
    ∃ v1 v2,
      harp_variable_convert_data_type INT_MAX round_to_float undefined_cast heap (some v)
          harp_data_type.harp_type_double = .ok (succeed v1 heap) ∧
      harp_variable_convert_data_type INT_MAX round_to_float undefined_cast heap (some v1)
          harp_data_type.harp_type_int32 = .ok (succeed v2 heap) ∧
      { v2 with data := v.data } = v ∧
      (v.data = none → v2.data = none) ∧
      (∀ D, v.data = some D → ∃ D2, v2.data = some D2 ∧
        ∀ i, i < v.num_elements.toNat → peek D2 i = peek D i) ∧
      (∀ D, v.data = some D → D.length = v.num_elements.toNat → v2 = v) := by
  have hs : v.data_type ≠ harp_data_type.harp_type_string := by rw [hty]; decide
  have hne : v.data_type ≠ harp_data_type.harp_type_double := by rw [hty]; decide
  have hds : harp_data_type.harp_type_double ≠ harp_data_type.harp_type_string := by decide
  have hdi : harp_data_type.harp_type_double ≠ harp_data_type.harp_type_int32 := by decide
  by_cases h : v.num_elements = 0 ∨ v.data = none
  · have h1 := convert_nothing INT_MAX round_to_float undefined_cast heap v
      harp_data_type.harp_type_double hs (by decide) hne h
    have h2 := convert_nothing INT_MAX round_to_float undefined_cast heap
      { v with data_type := harp_data_type.harp_type_double } harp_data_type.harp_type_int32
      hds (by decide) hdi h
    have hv : ({ ({ v with data_type := harp_data_type.harp_type_double } : harp_variable) with
        data_type := harp_data_type.harp_type_int32 } : harp_variable) = v := by
      cases v
      simp only at hty
      subst hty
      rfl
    rw [hv] at h2
    refine ⟨_, v, h1, h2, rfl, fun hd => hd, fun D hD => ⟨D, hD, fun i _ => rfl⟩,
      fun _ _ _ => rfl⟩
  · have hn : v.num_elements ≠ 0 := fun hz => h (Or.inl hz)
    cases hD : v.data with
    | none => exact absurd (Or.inr hD) h
    | some D =>
      have hc1 : cast_cell round_to_float undefined_cast harp_data_type.harp_type_double
          v.data_type = some (cast_member read_int32 int_to_double Cell.double_data) := by
        rw [hty]
        rfl
      have h1 := convert_run INT_MAX round_to_float undefined_cast heap v
        harp_data_type.harp_type_double D _ hs (by decide) hne hn hmax hD hc1
      have h2 := convert_run INT_MAX round_to_float undefined_cast heap
        { v with
          data := some ((List.range v.num_elements.toNat).map
            (fun i => cast_member read_int32 int_to_double Cell.double_data (peek D i)))
          data_type := harp_data_type.harp_type_double
          valid_min := cast_member read_int32 int_to_double Cell.double_data v.valid_min
          valid_max := cast_member read_int32 int_to_double Cell.double_data v.valid_max }
        harp_data_type.harp_type_int32 _
        (cast_member read_double (float_to_int undefined_cast 32) Cell.int32_data)
        hds (by decide) hdi hn hmax rfl rfl
      have hpeek : ∀ i, i < v.num_elements.toNat →
          cast_member read_double (float_to_int undefined_cast 32) Cell.int32_data
            (peek ((List.range v.num_elements.toNat).map
              (fun i => cast_member read_int32 int_to_double Cell.double_data (peek D i))) i) =
          peek D i := by
        intro i hi
        have : peek ((List.range v.num_elements.toNat).map
            (fun i => cast_member read_int32 int_to_double Cell.double_data (peek D i))) i =
            cast_member read_int32 int_to_double Cell.double_data (peek D i) := by
          unfold peek
          rw [List.getD_eq_getElem _ _ (by simpa using hi)]
          simp [peek]
        rw [this]
        exact int32_double_int32 undefined_cast _ (hcells D hD i hi)
      have hlist : (List.range v.num_elements.toNat).map
          (fun i => cast_member read_double (float_to_int undefined_cast 32) Cell.int32_data
            (peek ((List.range v.num_elements.toNat).map
              (fun i => cast_member read_int32 int_to_double Cell.double_data (peek D i))) i)) =
          (List.range v.num_elements.toNat).map (fun i => peek D i) :=
        List.map_congr_left (fun i hi => hpeek i (List.mem_range.1 hi))
      simp only at h2
      rw [hlist, int32_double_int32 undefined_cast _ hvmin,
        int32_double_int32 undefined_cast _ hvmax] at h2
      refine ⟨_, _, h1, h2, ?_, fun hd => Option.noConfusion hd, ?_, ?_⟩
      · cases v
        simp only at hty hD
        subst hty
        subst hD
        rfl
      · intro D' hD'
        cases hD'
        refine ⟨_, rfl, fun i hi => ?_⟩
        unfold peek
        rw [List.getD_eq_getElem _ _ (by simpa using hi)]
        simp [peek]
      · intro D' hD' hlen
        cases hD'
        rw [← hlen, map_peek_range]
        cases v
        simp only at hty hD
        subst hty
        subst hD
        rfl

/-! ### The translation of function calls -/

/-- The child `i` of a node whose child nodes are all present. -/
theorem child_of_present (type : ast_node_type) (position : Nat) (payload : ast_payload)
    (args : List ast_node) (i : Nat) :
    child (ast_node.mk type position payload (args.map some)) i =
      match args[i]? with
      | some a => .ok a
      | none => .error Stuck.invalid_read := by
  unfold child
  simp only [ast_node.child_node, List.getElem?_map]
  cases args[i]? <;> rfl

/-- The loop of `operation_from_function_call` over two runs of indices. -/
theorem check_argument_types_append (argument_type : List ast_node_type)
    (argument_list : ast_node) (l1 l2 : List Nat) :
    check_argument_types argument_type argument_list (l1 ++ l2) =
      match check_argument_types argument_type argument_list l1 with
      | .ok none => check_argument_types argument_type argument_list l2
      | r => r := by
  induction l1 with
  | nil => rfl
  | cons i rest ih =>
    simp only [List.cons_append, check_argument_types]
    cases child argument_list i with
    | error s => rfl
    | ok argument =>
      simp only
      split
      · rfl
      · exact ih

/-- The loop of `operation_from_function_call` passes when every argument is of
the kind of the prototype. -/
theorem check_argument_types_pass (argument_type : List ast_node_type)
    (type : ast_node_type) (position : Nat) (payload : ast_payload) (args : List ast_node)
    (l : List Nat) (hl : ∀ i, i ∈ l → i < args.length)
    (h : ∀ i a, i ∈ l → args[i]? = some a → some a.type = argument_type[i]?) :
    check_argument_types argument_type (ast_node.mk type position payload (args.map some)) l =
      .ok none := by
  induction l with
  | nil => rfl
  | cons i rest ih =>
    have hi := hl i (List.mem_cons_self _ _)
    have ha : args[i]? = some args[i] := List.getElem?_eq_getElem hi
    simp only [check_argument_types, child_of_present, ha]
    rw [if_neg (not_not.2 (h i _ (List.mem_cons_self _ _) ha))]
    exact ih (fun j hj => hl j (List.mem_cons_of_mem _ hj))
      (fun j a hj => h j a (List.mem_cons_of_mem _ hj))

/-- The loop of `operation_from_function_call` reports the first argument that
is not of the kind of the prototype. -/
theorem check_argument_types_first (argument_type : List ast_node_type)
    (type : ast_node_type) (position : Nat) (payload : ast_payload) (args : List ast_node)
    (n i : Nat) (a : ast_node) (hn : n ≤ args.length) (hi : i < n) (ha : args[i]? = some a)
    (hbefore : ∀ j b, j < i → args[j]? = some b → some b.type = argument_type[j]?)
    (hbad : some a.type ≠ argument_type[i]?) :
    check_argument_types argument_type (ast_node.mk type position payload (args.map some))
        (List.range n) =
      .ok (some (analyze_error.invalid_argument_type a.position)) := by
  have hsplit : List.range n = List.range i ++ i :: (List.range (n - i - 1)).map (i + 1 + ·) := by
    have h1 : n = i + ((n - i - 1) + 1) := by omega
    conv_lhs => rw [h1, List.range_add, List.range_succ_eq_map]
    simp only [List.map_cons, List.map_map, Nat.add_zero]
    congr 2
    apply List.map_congr_left
    intro k _
    simp only [Function.comp]
    omega
  rw [hsplit, check_argument_types_append,
    check_argument_types_pass argument_type type position payload args (List.range i)
      (fun j hj => by have := List.mem_range.1 hj; omega)
      (fun j b hj => hbefore j b (List.mem_range.1 hj))]
  simp only [check_argument_types, child_of_present, ha]
  rw [if_pos hbad]

/-- The lookup in the table and the lookup in the catalog of the spec agree. -/
theorem prototype_signature {Op : Type} (K : Constructors Op) (HARP_MAX_NUM_DIMS : Nat)
    (name : String) :
    (get_function_prototype_by_name K HARP_MAX_NUM_DIMS name).map function_prototype.signature =
      spec_catalog.find? (fun e => decide (e.1 = name)) := by
  have h : spec_catalog =
      (builtin_function K HARP_MAX_NUM_DIMS).map function_prototype.signature := rfl
  rw [h, List.find?_map]
  rfl

/-! ### Qualified names in the constructors of the catalog -/

/-- A call of `keep` is translated by `create_variable_inclusion`. -/
theorem function_call_keep {Op : Type} (K : Constructors Op) (HARP_MAX_NUM_DIMS : Nat)
    (position name_position : Nat) (payload : ast_payload) (name_type : ast_node_type)
    (name_children : List (Option ast_node)) (argument_list : ast_node) :
    operation_from_function_call K HARP_MAX_NUM_DIMS
        (ast_node.mk ast_node_type.ast_function_call position payload
          [some (ast_node.mk name_type name_position (ast_payload.string "keep") name_children),
            some argument_list]) =
      create_variable_inclusion K argument_list := rfl

/-- A call of `exclude` is translated by `create_variable_exclusion`. -/
theorem function_call_exclude {Op : Type} (K : Constructors Op) (HARP_MAX_NUM_DIMS : Nat)
    (position name_position : Nat) (payload : ast_payload) (name_type : ast_node_type)
    (name_children : List (Option ast_node)) (argument_list : ast_node) :
    operation_from_function_call K HARP_MAX_NUM_DIMS
        (ast_node.mk ast_node_type.ast_function_call position payload
          [some (ast_node.mk name_type name_position (ast_payload.string "exclude")
              name_children),
            some argument_list]) =
      create_variable_exclusion K argument_list := rfl

/-- The check of a qualified name node: a dimension list is reported, a unit is
reported when there is no dimension list, and a name without qualifiers
passes. -/
theorem verify_qualified_name {a : ast_node} {name : String}
    {dimension_list unit : Option ast_node} (h : is_qualified_name a name dimension_list unit) :
    verify_qualified_name_has_no_qualifiers a =
      .ok (match qualifier_error dimension_list unit with
        | some e => .error e
        | none => .ok ()) := by
  obtain ⟨position, payload, name_node, rfl, _, _⟩ := h
  cases dimension_list <;> cases unit <;> rfl

/-- The kind of a qualified name node. -/
theorem is_qualified_name.type {a : ast_node} {name : String}
    {dimension_list unit : Option ast_node} (h : is_qualified_name a name dimension_list unit) :
    a.type = ast_node_type.ast_qualified_name := by
  obtain ⟨position, payload, name_node, rfl, _, _⟩ := h
  rfl

/-- The first loop of `create_variable_inclusion` passes an argument without
qualifiers. -/
theorem check_variable_names_plain {a : ast_node} {name : String}
    (h : is_qualified_name a name none none) (rest : List (Option ast_node)) :
    check_variable_names (some a :: rest) = check_variable_names rest := by
  rw [check_variable_names, if_neg (not_not.2 h.type), verify_qualified_name h]
  rfl

/-- The first loop of `create_variable_inclusion` stops at an argument with a
dimension list or a unit. -/
theorem check_variable_names_qualified {a : ast_node} {name : String}
    {dimension_list unit : Option ast_node} {e : analyze_error}
    (h : is_qualified_name a name dimension_list unit)
    (hq : qualifier_error dimension_list unit = some e) (rest : List (Option ast_node)) :
    check_variable_names (some a :: rest) = .ok (.error e) := by
  rw [check_variable_names, if_neg (not_not.2 h.type), verify_qualified_name h, hq]

/-- The first loop of `create_variable_inclusion` over arguments without
qualifiers followed by further arguments. -/
theorem check_variable_names_append {pre : List ast_node} {names : List String}
    (h : List.Forall₂ (fun a n => is_qualified_name a n none none) pre names)
    (rest : List (Option ast_node)) :
    check_variable_names (pre.map some ++ rest) = check_variable_names rest := by
  induction h with
  | nil => rfl
  | cons ha _ ih =>
    rw [List.map_cons, List.cons_append, check_variable_names_plain ha, ih]

/-- The second loop of `create_variable_inclusion` over arguments without
qualifiers collects their names in order. -/
theorem collect_variable_names_plain {args : List ast_node} {names : List String}
    (h : List.Forall₂ (fun a n => is_qualified_name a n none none) args names) :
    collect_variable_names (args.map some) = .ok names := by
  induction h with
  | nil => rfl
  | @cons a n args names ha _ ih =>
    obtain ⟨position, payload, name_node, rfl, hty, hpl⟩ := ha
    rw [List.map_cons, collect_variable_names]
    have hc : child (ast_node.mk ast_node_type.ast_qualified_name position payload
        [some name_node, none, none]) 0 = .ok name_node := rfl
    have hp : payload_string name_node = .ok n := by
      unfold payload_string
      rw [hpl]
    simp only [hc, if_neg (not_not.2 hty), hp, ih]

/-- The constructor of `keep` on arguments without qualifiers followed by an
argument with a dimension list or a unit. -/
theorem create_variable_inclusion_qualified {Op : Type} (K : Constructors Op)
    (type : ast_node_type) (position : Nat) (payload : ast_payload)
    {pre : List ast_node} {names : List String} {a : ast_node} {name : String}
    {dimension_list unit : Option ast_node} {e : analyze_error} (rest : List ast_node)
    (hpre : List.Forall₂ (fun a n => is_qualified_name a n none none) pre names)
    (h : is_qualified_name a name dimension_list unit)
    (hq : qualifier_error dimension_list unit = some e) :
    create_variable_inclusion K (ast_node.mk type position payload ((pre ++ a :: rest).map some)) =
      .ok (.error e) := by
  have hne : ¬ (ast_node.mk type position payload ((pre ++ a :: rest).map some)).num_child_nodes =
      0 := by
    simp [ast_node.num_child_nodes, ast_node.child_node]
    omega
  unfold create_variable_inclusion
  rw [if_neg hne]
  simp only [ast_node.child_node, List.map_append, List.map_cons,
    check_variable_names_append hpre, check_variable_names_qualified h hq]

/-- The constructor of `exclude` on arguments without qualifiers followed by an
argument with a dimension list or a unit. -/
theorem create_variable_exclusion_qualified {Op : Type} (K : Constructors Op)
    (type : ast_node_type) (position : Nat) (payload : ast_payload)
    {pre : List ast_node} {names : List String} {a : ast_node} {name : String}
    {dimension_list unit : Option ast_node} {e : analyze_error} (rest : List ast_node)
    (hpre : List.Forall₂ (fun a n => is_qualified_name a n none none) pre names)
    (h : is_qualified_name a name dimension_list unit)
    (hq : qualifier_error dimension_list unit = some e) :
    create_variable_exclusion K (ast_node.mk type position payload ((pre ++ a :: rest).map some)) =
      .ok (.error e) := by
  have hne : ¬ (ast_node.mk type position payload ((pre ++ a :: rest).map some)).num_child_nodes =
      0 := by
    simp [ast_node.num_child_nodes, ast_node.child_node]
    omega
  unfold create_variable_exclusion
  rw [if_neg hne]
  simp only [ast_node.child_node, List.map_append, List.map_cons,
    check_variable_names_append hpre, check_variable_names_qualified h hq]

/-- The constructor of `keep` on one or more arguments without qualifiers passes
their names to `harp_variable_inclusion_new` in argument order. -/
theorem create_variable_inclusion_plain {Op : Type} (K : Constructors Op)
    (type : ast_node_type) (position : Nat) (payload : ast_payload)
    {args : List ast_node} {names : List String}
    (h : List.Forall₂ (fun a n => is_qualified_name a n none none) args names)
    (hne : args ≠ []) :
    create_variable_inclusion K (ast_node.mk type position payload (args.map some)) =
      .ok (constructed (K.harp_variable_inclusion_new names)) := by
  have hn : ¬ (ast_node.mk type position payload (args.map some)).num_child_nodes = 0 := by
    cases args with
    | nil => exact absurd rfl hne
    | cons a t =>
      simp [ast_node.num_child_nodes, ast_node.child_node]
      omega
  have hcheck : check_variable_names (args.map some) = .ok (.ok ()) := by
    have := check_variable_names_append h []
    rw [List.append_nil] at this
    rw [this]
    rfl
  unfold create_variable_inclusion
  rw [if_neg hn]
  simp only [ast_node.child_node, hcheck, collect_variable_names_plain h]

/-- The constructor of `exclude` on one or more arguments without qualifiers
passes their names to `harp_variable_exclusion_new` in argument order. -/
theorem create_variable_exclusion_plain {Op : Type} (K : Constructors Op)
    (type : ast_node_type) (position : Nat) (payload : ast_payload)
    {args : List ast_node} {names : List String}
    (h : List.Forall₂ (fun a n => is_qualified_name a n none none) args names)
    (hne : args ≠ []) :
    create_variable_exclusion K (ast_node.mk type position payload (args.map some)) =
      .ok (constructed (K.harp_variable_exclusion_new names)) := by
  have hn : ¬ (ast_node.mk type position payload (args.map some)).num_child_nodes = 0 := by
    cases args with
    | nil => exact absurd rfl hne
    | cons a t =>
      simp [ast_node.num_child_nodes, ast_node.child_node]
      omega
  have hcheck : check_variable_names (args.map some) = .ok (.ok ()) := by
    have := check_variable_names_append h []
    rw [List.append_nil] at this
    rw [this]
    rfl
  unfold create_variable_exclusion
  rw [if_neg hn]
  simp only [ast_node.child_node, hcheck, collect_variable_names_plain h]

/-- The constructors of `flatten` and of `valid` on a first argument with a
dimension list or a unit. -/
theorem create_flatten_valid_qualified {Op : Type} (K : Constructors Op)
    (type : ast_node_type) (position : Nat) (payload : ast_payload)
    {a : ast_node} {name : String} {dimension_list unit : Option ast_node}
    {e : analyze_error} (rest : List (Option ast_node))
    (h : is_qualified_name a name dimension_list unit)
    (hq : qualifier_error dimension_list unit = some e) :
    create_flatten K (ast_node.mk type position payload (some a :: rest)) =
      .ok (.error e) ∧
    create_valid_range_filter K (ast_node.mk type position payload (some a :: rest)) =
      .ok (.error e) := by
  have hc : child (ast_node.mk type position payload (some a :: rest)) 0 = .ok a := by
    simp [child, ast_node.child_node]
  have hv := verify_qualified_name h
  rw [hq] at hv
  constructor
  · unfold create_flatten
    simp only [bind, Except.bind, hc, if_neg (not_not.2 h.type), hv, pure, Except.pure]
  · unfold create_valid_range_filter
    simp only [bind, Except.bind, hc, hv, pure, Except.pure]

/-- The first loop of `create_variable_inclusion` fails when one of the
arguments is a qualified name with a dimension list or a unit, the arguments
of kind qualified name being qualified name nodes. -/
theorem check_variable_names_fails (args : List ast_node)
    (hwf : ∀ a, a ∈ args → a.type = ast_node_type.ast_qualified_name →
      ∃ n dl u, is_qualified_name a n dl u)
    (hbad : ∃ a, a ∈ args ∧ ∃ n dl u, is_qualified_name a n dl u ∧ qualifier_error dl u ≠ none) :
    ∃ e, check_variable_names (args.map some) = .ok (.error e) := by
  induction args with
  | nil =>
    obtain ⟨a, ha, _⟩ := hbad
    exact absurd ha (List.not_mem_nil a)
  | cons a rest ih =>
    by_cases hty : a.type = ast_node_type.ast_qualified_name
    · obtain ⟨n, dl, u, hq⟩ := hwf a (List.mem_cons_self _ _) hty
      cases he : qualifier_error dl u with
      | some e => exact ⟨e, check_variable_names_qualified hq he _⟩
      | none =>
        have hplain : is_qualified_name a n none none := by
          cases dl with
          | some d => exact Option.noConfusion he
          | none =>
            cases u with
            | some x => exact Option.noConfusion he
            | none => exact hq
        rw [List.map_cons, check_variable_names_plain hplain]
        refine ih (fun b hb => hwf b (List.mem_cons_of_mem _ hb)) ?_
        obtain ⟨b, hb, n', dl', u', hq', hne'⟩ := hbad
        rcases List.mem_cons.1 hb with rfl | hb'
        · obtain ⟨p1, l1, m1, e1, _, _⟩ := hq
          obtain ⟨p2, l2, m2, e2, _, _⟩ := hq'
          rw [e1] at e2
          injection e2 with _ _ _ hch
          injection hch with _ hch2
          injection hch2 with hdl hch3
          injection hch3 with hu _
          subst hdl
          subst hu
          exact absurd he hne'
        · exact ⟨b, hb', n', dl', u', hq', hne'⟩
    · exact ⟨_, by rw [List.map_cons, check_variable_names, if_pos hty]⟩

/-- The constructors of `keep` and `exclude` fail when one of the arguments is
a qualified name with a dimension list or a unit. -/
theorem create_variable_inclusion_fails {Op : Type} (K : Constructors Op)
    (type : ast_node_type) (position : Nat) (payload : ast_payload) (args : List ast_node)
    (hwf : ∀ a, a ∈ args → a.type = ast_node_type.ast_qualified_name →
      ∃ n dl u, is_qualified_name a n dl u)
    (hbad : ∃ a, a ∈ args ∧ ∃ n dl u, is_qualified_name a n dl u ∧ qualifier_error dl u ≠ none) :
    ∃ e, create_variable_inclusion K (ast_node.mk type position payload (args.map some)) =
        .ok (.error e) ∧
      create_variable_exclusion K (ast_node.mk type position payload (args.map some)) =
        .ok (.error e) := by
  obtain ⟨e, he⟩ := check_variable_names_fails args hwf hbad
  have hn : ¬ (ast_node.mk type position payload (args.map some)).num_child_nodes = 0 := by
    obtain ⟨a, ha, _⟩ := hbad
    cases args with
    | nil => exact absurd ha (List.not_mem_nil a)
    | cons b t =>
      simp [ast_node.num_child_nodes, ast_node.child_node]
      omega
  refine ⟨e, ?_, ?_⟩
  · unfold create_variable_inclusion
    rw [if_neg hn]
    simp only [ast_node.child_node, he]
  · unfold create_variable_exclusion
    rw [if_neg hn]
    simp only [ast_node.child_node, he]

/-! ### `create_variable_derivation` -/

/-- The loop of `get_dimension_list` over names that all are dimension types
gives their types in list order. -/
theorem parse_dimension_types_all {Op : Type} (K : Constructors Op)
    {entries : List ast_node} {types : List harp_dimension_type}
    (h : List.Forall₂
      (fun c t => ∃ n, c.payload = ast_payload.string n ∧ K.harp_parse_dimension_type n = some t)
      entries types) :
    parse_dimension_types K (entries.map some) = .ok (.ok types) := by
  induction h with
  | nil => rfl
  | @cons c t entries types hc _ ih =>
    obtain ⟨n, hn, hp⟩ := hc
    have hps : payload_string c = .ok n := by
      unfold payload_string
      rw [hn]
    rw [List.map_cons, parse_dimension_types]
    simp only [hps, hp, ih]

/-- The loop of `get_dimension_list` reports the first name that is not a
dimension type. -/
theorem parse_dimension_types_unknown {Op : Type} (K : Constructors Op)
    {pre : List ast_node} {types : List harp_dimension_type} (c : ast_node) (n : String)
    (rest : List ast_node)
    (h : List.Forall₂
      (fun c t => ∃ n, c.payload = ast_payload.string n ∧ K.harp_parse_dimension_type n = some t)
      pre types)
    (hn : c.payload = ast_payload.string n) (hp : K.harp_parse_dimension_type n = none) :
    parse_dimension_types K ((pre ++ c :: rest).map some) =
      .ok (.error (analyze_error.unknown_dimension_type c.position n)) := by
  induction h with
  | nil =>
    have hps : payload_string c = .ok n := by
      unfold payload_string
      rw [hn]
    rw [List.nil_append, List.map_cons, parse_dimension_types]
    simp only [hps, hp]
  | @cons c' t pre types hc _ ih =>
    obtain ⟨n', hn', hp'⟩ := hc
    have hps : payload_string c' = .ok n' := by
      unfold payload_string
      rw [hn']
    rw [List.cons_append, List.map_cons, parse_dimension_types]
    simp only [hps, hp', ih]

/-- The call of `create_variable_derivation` on a qualified name without a
dimension list. -/
theorem create_variable_derivation_none {Op : Type} (K : Constructors Op)
    (HARP_MAX_NUM_DIMS : Nat) (type : ast_node_type) (position : Nat) (payload : ast_payload)
    (rest : List (Option ast_node)) {a : ast_node} {name : String}
    {unit : Option ast_node} (h : is_qualified_name a name none unit) :
    create_variable_derivation K HARP_MAX_NUM_DIMS
        (ast_node.mk type position payload (some a :: rest)) =
      .ok (.error (analyze_error.expected_dimension_list a.position)) := by
  obtain ⟨qposition, qpayload, name_node, rfl, hty, hpl⟩ := h
  have hc : child (ast_node.mk type position payload
      (some (ast_node.mk ast_node_type.ast_qualified_name qposition qpayload
        [some name_node, none, unit]) :: rest)) 0 =
      .ok (ast_node.mk ast_node_type.ast_qualified_name qposition qpayload
        [some name_node, none, unit]) := by
    simp [child, ast_node.child_node]
  have hps : payload_string name_node = .ok name := by
    unfold payload_string
    rw [hpl]
  have h0 : child (ast_node.mk ast_node_type.ast_qualified_name qposition qpayload
      [some name_node, none, unit]) 0 = .ok name_node := rfl
  have h1 : child_pointer (ast_node.mk ast_node_type.ast_qualified_name qposition qpayload
      [some name_node, none, unit]) 1 = .ok none := rfl
  have hnum : ¬ (ast_node.mk ast_node_type.ast_qualified_name qposition qpayload
      [some name_node, none, unit]).num_child_nodes ≠ 3 := not_not.2 rfl
  unfold create_variable_derivation
  simp only [bind, Except.bind, hc, if_neg hnum, pure, Except.pure, h0, hps, h1]

/-- The call of `create_variable_derivation` on a qualified name with a
dimension list. -/
theorem create_variable_derivation_some {Op : Type} (K : Constructors Op)
    (HARP_MAX_NUM_DIMS : Nat) (type : ast_node_type) (position : Nat) (payload : ast_payload)
    (rest : List (Option ast_node)) {a d : ast_node} {name : String}
    {unit : Option ast_node} (h : is_qualified_name a name (some d) unit) :
    create_variable_derivation K HARP_MAX_NUM_DIMS
        (ast_node.mk type position payload (some a :: rest)) =
      match get_dimension_list K HARP_MAX_NUM_DIMS d with
      | .error s => .error s
      | .ok (.error e) => .ok (.error e)
      | .ok (.ok dimension_type) =>
        match get_unit unit with
        | .error s => .error s
        | .ok u =>
          .ok (constructed (K.harp_variable_derivation_new name dimension_type u)) := by
  obtain ⟨qposition, qpayload, name_node, rfl, hty, hpl⟩ := h
  have hc : child (ast_node.mk type position payload
      (some (ast_node.mk ast_node_type.ast_qualified_name qposition qpayload
        [some name_node, some d, unit]) :: rest)) 0 =
      .ok (ast_node.mk ast_node_type.ast_qualified_name qposition qpayload
        [some name_node, some d, unit]) := by
    simp [child, ast_node.child_node]
  have hps : payload_string name_node = .ok name := by
    unfold payload_string
    rw [hpl]
  have h0 : child (ast_node.mk ast_node_type.ast_qualified_name qposition qpayload
      [some name_node, some d, unit]) 0 = .ok name_node := rfl
  have h1 : child_pointer (ast_node.mk ast_node_type.ast_qualified_name qposition qpayload
      [some name_node, some d, unit]) 1 = .ok (some d) := rfl
  have h2 : child_pointer (ast_node.mk ast_node_type.ast_qualified_name qposition qpayload
      [some name_node, some d, unit]) 2 = .ok unit := rfl
  have hnum : ¬ (ast_node.mk ast_node_type.ast_qualified_name qposition qpayload
      [some name_node, some d, unit]).num_child_nodes ≠ 3 := not_not.2 rfl
  unfold create_variable_derivation
  simp only [bind, Except.bind, hc, if_neg hnum, pure, Except.pure, h0, hps, h1, h2]
  cases get_dimension_list K HARP_MAX_NUM_DIMS d with
  | error s => rfl
  | ok r =>
    cases r with
    | error e => rfl
    | ok dimension_type =>
      simp only
      cases get_unit unit <;> rfl

/-! ### `create_comparison` -/

/-- The call of `create_comparison` on a node whose right operand is a string
literal. -/
theorem create_comparison_string {Op : Type} (K : Constructors Op) (type : ast_node_type)
    (position : Nat) (payload : ast_payload) (left right : ast_node) (name value : String)
    (hl : left.payload = ast_payload.string name)
    (hr : right.type = ast_node_type.ast_string)
    (hv : right.payload = ast_payload.string value) :
    create_comparison K (ast_node.mk type position payload [some left, some right]) =
      if type ≠ ast_node_type.ast_eq ∧ type ≠ ast_node_type.ast_ne then
        .ok (.error (analyze_error.operator_not_supported_for_strings position))
      else
        match get_operator_type type with
        | .error s => .error s
        | .ok operator_type =>
          .ok (constructed (K.harp_string_comparison_filter_new name operator_type value)) := by
  have hnum : ¬ (ast_node.mk type position payload [some left, some right]).num_child_nodes ≠
      2 := not_not.2 rfl
  have h0 : child (ast_node.mk type position payload [some left, some right]) 0 = .ok left := rfl
  have h1 : child (ast_node.mk type position payload [some left, some right]) 1 = .ok right := rfl
  have hpl : payload_string left = .ok name := by
    unfold payload_string
    rw [hl]
  have hpr : payload_string right = .ok value := by
    unfold payload_string
    rw [hv]
  have hty : (ast_node.mk type position payload [some left, some right]).type = type := rfl
  have hpos : (ast_node.mk type position payload [some left, some right]).position =
      position := rfl
  unfold create_comparison
  simp only [bind, Except.bind, if_neg hnum, pure, Except.pure, h0, h1, if_pos hr, hpl, hpr,
    hty, hpos]
  split
  · rfl
  · cases get_operator_type type <;> rfl

/-- The call of `create_comparison` on a node whose right operand is a number
literal. -/
theorem create_comparison_number {Op : Type} (K : Constructors Op) (type : ast_node_type)
    (position : Nat) (payload : ast_payload) (left right : ast_node) (name : String)
    (value : harp_float) (hl : left.payload = ast_payload.string name)
    (hr : right.type = ast_node_type.ast_number)
    (hv : right.payload = ast_payload.number value) :
    create_comparison K (ast_node.mk type position payload [some left, some right]) =
      match get_operator_type type with
      | .error s => .error s
      | .ok operator_type =>
        .ok (constructed (K.harp_comparison_filter_new name operator_type value none)) := by
  have hnum : ¬ (ast_node.mk type position payload [some left, some right]).num_child_nodes ≠
      2 := not_not.2 rfl
  have h0 : child (ast_node.mk type position payload [some left, some right]) 0 = .ok left := rfl
  have h1 : child (ast_node.mk type position payload [some left, some right]) 1 = .ok right := rfl
  have hpl : payload_string left = .ok name := by
    unfold payload_string
    rw [hl]
  have hpr : payload_number right = .ok value := by
    unfold payload_number
    rw [hv]
  have hns : ¬ right.type = ast_node_type.ast_string := by rw [hr]; decide
  have hty : (ast_node.mk type position payload [some left, some right]).type = type := rfl
  unfold create_comparison
  simp only [bind, Except.bind, if_neg hnum, pure, Except.pure, h0, h1, if_neg hns, if_pos hr,
    hpl, hpr, hty]
  cases get_operator_type type <;> rfl

/-- The call of `create_comparison` on a node whose right operand is a quantity:
a number literal with an optional unit. -/
theorem create_comparison_quantity {Op : Type} (K : Constructors Op) (type : ast_node_type)
    (position : Nat) (payload : ast_payload) (left number : ast_node) (name : String)
    (value : harp_float) (right_position : Nat) (right_payload : ast_payload)
    (unit : Option ast_node) (unit_string : Option String)
    (hl : left.payload = ast_payload.string name)
    (hv : number.payload = ast_payload.number value)
    (hu : match unit with
      | none => unit_string = none
      | some u => ∃ s, u.payload = ast_payload.string s ∧ unit_string = some s) :
    create_comparison K (ast_node.mk type position payload
        [some left, some (ast_node.mk ast_node_type.ast_quantity right_position right_payload
          [some number, unit])]) =
      match get_operator_type type with
      | .error s => .error s
      | .ok operator_type =>
        .ok (constructed (K.harp_comparison_filter_new name operator_type value unit_string)) := by
  have hpl : payload_string left = .ok name := by
    unfold payload_string
    rw [hl]
  have hpr : payload_number number = .ok value := by
    unfold payload_number
    rw [hv]
  have hnum : ¬ (ast_node.mk type position payload
      [some left, some (ast_node.mk ast_node_type.ast_quantity right_position right_payload
        [some number, unit])]).num_child_nodes ≠ 2 := not_not.2 rfl
  have h0 : child (ast_node.mk type position payload
      [some left, some (ast_node.mk ast_node_type.ast_quantity right_position right_payload
        [some number, unit])]) 0 = .ok left := rfl
  have h1 : child (ast_node.mk type position payload
      [some left, some (ast_node.mk ast_node_type.ast_quantity right_position right_payload
        [some number, unit])]) 1 =
      .ok (ast_node.mk ast_node_type.ast_quantity right_position right_payload
        [some number, unit]) := rfl
  have hty : (ast_node.mk type position payload
      [some left, some (ast_node.mk ast_node_type.ast_quantity right_position right_payload
        [some number, unit])]).type = type := rfl
  have hrt : (ast_node.mk ast_node_type.ast_quantity right_position right_payload
      [some number, unit]).type = ast_node_type.ast_quantity := rfl
  have hq0 : child (ast_node.mk ast_node_type.ast_quantity right_position right_payload
      [some number, unit]) 0 = .ok number := rfl
  have hq1 : child_pointer (ast_node.mk ast_node_type.ast_quantity right_position right_payload
      [some number, unit]) 1 = .ok unit := rfl
  have hns : ¬ ast_node_type.ast_quantity = ast_node_type.ast_string := by decide
  have hnn : ¬ ast_node_type.ast_quantity = ast_node_type.ast_number := by decide
  unfold create_comparison
  simp only [bind, Except.bind, if_neg hnum, pure, Except.pure, h0, h1, hrt, if_neg hns,
    if_neg hnn, hq0, hq1, hpl, hpr, hty]
  cases unit with
  | none =>
    simp only at hu
    subst hu
    simp only
    cases get_operator_type type <;> rfl
  | some u =>
    obtain ⟨s, hs, rfl⟩ := hu
    have hpu : payload_string u = .ok s := by
      unfold payload_string
      rw [hs]
    simp only [hpu]
    cases get_operator_type type <;> rfl

/-! ### `create_membership_test` -/

/-- The loop of `is_homogeneous_list` over the child nodes from index `start`
on. -/
theorem homogeneous_loop (type : ast_node_type) (position : Nat) (payload : ast_payload)
    (first_type : ast_node_type) :
    ∀ (more pre : List ast_node) (so_far : Bool),
      (List.range' pre.length more.length).foldlM
          (fun (so_far : Bool) i =>
            if so_far = false then (.ok false : Except Stuck Bool)
            else
              match child (ast_node.mk type position payload ((pre ++ more).map some)) i with
              | .error s => .error s
              | .ok c => .ok (decide (c.type = first_type)))
          so_far =
        .ok (so_far && more.all (fun v => decide (v.type = first_type))) := by
  intro more
  induction more with
  | nil =>
    intro pre so_far
    simp [List.range', pure, Except.pure]
  | cons v rest ih =>
    intro pre so_far
    have hchild : child (ast_node.mk type position payload ((pre ++ v :: rest).map some))
        pre.length = .ok v := by
      rw [child_of_present, List.getElem?_append_right (Nat.le_refl _), Nat.sub_self,
        List.getElem?_cons_zero]
    have hrest := ih (pre ++ [v])
    simp only [List.length_append, List.length_singleton, List.append_assoc,
      List.singleton_append] at hrest
    rw [List.length_cons, List.range'_succ, List.foldlM_cons]
    cases so_far with
    | false =>
      simp only [if_true, bind, Except.bind]
      rw [hrest false]
      rfl
    | true =>
      simp only [Bool.true_eq_false, if_false, hchild, bind, Except.bind]
      rw [hrest]
      simp [List.all_cons]

/-- The function `is_homogeneous_list` on a list node with at least one value:
the values after the first are of the kind of the first. -/
theorem is_homogeneous_list_eq (position : Nat) (payload : ast_payload) (first : ast_node)
    (more : List ast_node) :
    is_homogeneous_list (ast_node.mk ast_node_type.ast_list position payload
        ((first :: more).map some)) =
      .ok (more.all (fun v => decide (v.type = first.type))) := by
  have hty : ¬ (ast_node.mk ast_node_type.ast_list position payload
      ((first :: more).map some)).type ≠ ast_node_type.ast_list := not_not.2 rfl
  have hnum : ¬ (ast_node.mk ast_node_type.ast_list position payload
      ((first :: more).map some)).num_child_nodes = 0 := by
    simp [ast_node.num_child_nodes, ast_node.child_node]
    omega
  have hc : child (ast_node.mk ast_node_type.ast_list position payload
      ((first :: more).map some)) 0 = .ok first := by
    rw [child_of_present, List.getElem?_cons_zero]
  have hloop := homogeneous_loop ast_node_type.ast_list position payload first.type more [first]
    true
  simp only [List.length_singleton, List.singleton_append, Bool.true_and] at hloop
  unfold is_homogeneous_list
  rw [if_neg hty, if_neg hnum]
  simp only [hc, ast_node.child_node, List.length_map, List.length_cons, Nat.add_sub_cancel]
  exact hloop

/-- The loop that fills `string_list`, on string literals. -/
theorem collect_strings_all {values : List ast_node} {strings : List String}
    (h : List.Forall₂
      (fun v s => v.type = ast_node_type.ast_string ∧ v.payload = ast_payload.string s)
      values strings) :
    collect_strings (values.map some) = .ok strings := by
  induction h with
  | nil => rfl
  | @cons v s values strings hv _ ih =>
    have hp : payload_string v = .ok s := by
      unfold payload_string
      rw [hv.2]
    rw [List.map_cons, collect_strings]
    simp only [if_neg (not_not.2 hv.1), hp, ih]

/-- The loop that fills `double_list`, on number literals. -/
theorem collect_numbers_all {values : List ast_node} {numbers : List harp_float}
    (h : List.Forall₂
      (fun v x => v.type = ast_node_type.ast_number ∧ v.payload = ast_payload.number x)
      values numbers) :
    collect_numbers (values.map some) = .ok numbers := by
  induction h with
  | nil => rfl
  | @cons v x values numbers hv _ ih =>
    have hp : payload_number v = .ok x := by
      unfold payload_number
      rw [hv.2]
    rw [List.map_cons, collect_numbers]
    simp only [if_neg (not_not.2 hv.1), hp, ih]

/-- The call of `create_membership_test` on a membership node with a value list
of at least one value. -/
theorem create_membership_test_eq {Op : Type} (K : Constructors Op) (type : ast_node_type)
    (position list_position : Nat) (payload list_payload : ast_payload)
    (name_node first : ast_node) (more : List ast_node) (unit : Option ast_node)
    (name : String)
    (ht : type = ast_node_type.ast_in ∨ type = ast_node_type.ast_not_in)
    (hname : name_node.payload = ast_payload.string name) :
    create_membership_test K (ast_node.mk type position payload
        [some name_node,
          some (ast_node.mk ast_node_type.ast_list list_position list_payload
            ((first :: more).map some)),
          unit]) =
      match (if first.type = ast_node_type.ast_string then unit else none) with
      | some u => .ok (.error (analyze_error.unexpected_unit u.position))
      | none =>
        if more.all (fun v => decide (v.type = first.type)) = false then
          .ok (.error (analyze_error.values_in_list_should_be_of_the_same_type list_position))
        else if first.type = ast_node_type.ast_string then
          match collect_strings ((first :: more).map some) with
          | .error s => .error s
          | .ok string_list =>
            .ok (constructed (K.harp_string_membership_filter_new name
              (if type = ast_node_type.ast_in then harp_membership_operator_type.harp_operator_in
                else harp_membership_operator_type.harp_operator_not_in) string_list))
        else if first.type ≠ ast_node_type.ast_number then .error Stuck.assertion_failed
        else
          match collect_numbers ((first :: more).map some) with
          | .error s => .error s
          | .ok double_list =>
            match get_unit unit with
            | .error s => .error s
            | .ok unit_string =>
              .ok (constructed (K.harp_membership_filter_new name
                (if type = ast_node_type.ast_in then
                  harp_membership_operator_type.harp_operator_in
                else harp_membership_operator_type.harp_operator_not_in) double_list
                unit_string)) := by
  have hnum : ¬ (ast_node.mk type position payload
      [some name_node,
        some (ast_node.mk ast_node_type.ast_list list_position list_payload
          ((first :: more).map some)),
        unit]).num_child_nodes ≠ 3 := not_not.2 rfl
  have hty : (ast_node.mk type position payload
      [some name_node,
        some (ast_node.mk ast_node_type.ast_list list_position list_payload
          ((first :: more).map some)),
        unit]).type = type := rfl
  have h0 : child (ast_node.mk type position payload
      [some name_node,
        some (ast_node.mk ast_node_type.ast_list list_position list_payload
          ((first :: more).map some)),
        unit]) 0 = .ok name_node := rfl
  have h1 : child (ast_node.mk type position payload
      [some name_node,
        some (ast_node.mk ast_node_type.ast_list list_position list_payload
          ((first :: more).map some)),
        unit]) 1 =
      .ok (ast_node.mk ast_node_type.ast_list list_position list_payload
        ((first :: more).map some)) := rfl
  have h2 : child_pointer (ast_node.mk type position payload
      [some name_node,
        some (ast_node.mk ast_node_type.ast_list list_position list_payload
          ((first :: more).map some)),
        unit]) 2 = .ok unit := rfl
  have hlt : (ast_node.mk ast_node_type.ast_list list_position list_payload
      ((first :: more).map some)).type = ast_node_type.ast_list := rfl
  have hlp : (ast_node.mk ast_node_type.ast_list list_position list_payload
      ((first :: more).map some)).position = list_position := rfl
  have hlc : (ast_node.mk ast_node_type.ast_list list_position list_payload
      ((first :: more).map some)).child_node = (first :: more).map some := rfl
  have hln : ¬ ¬ (ast_node.mk ast_node_type.ast_list list_position list_payload
      ((first :: more).map some)).num_child_nodes > 0 := by
    simp [ast_node.num_child_nodes, ast_node.child_node]
  have hfirst : child (ast_node.mk ast_node_type.ast_list list_position list_payload
      ((first :: more).map some)) 0 = .ok first := by
    rw [child_of_present, List.getElem?_cons_zero]
  have hps : payload_string name_node = .ok name := by
    unfold payload_string
    rw [hname]
  have hne : ¬ ast_node_type.ast_list ≠ ast_node_type.ast_list := not_not.2 rfl
  have htt : ¬ ¬ (type = ast_node_type.ast_in ∨ type = ast_node_type.ast_not_in) := not_not.2 ht
  unfold create_membership_test
  simp only [bind, Except.bind, pure, Except.pure, if_neg hnum, hty, if_neg htt, h0, h1, h2,
    hlt, if_neg hne, if_neg hln, hfirst, is_homogeneous_list_eq, hlp, hlc, hps]
  all_goals (cases (if first.type = ast_node_type.ast_string then unit else none))
  all_goals (try rfl)
  all_goals (try simp only)
  all_goals (try split_ifs)
  all_goals (try rfl)
  all_goals (try (cases collect_strings (List.map some (first :: more)) <;> rfl))
  all_goals (cases collect_numbers (List.map some (first :: more)))
  all_goals (try rfl)
  all_goals (try simp only)
  all_goals (cases get_unit unit <;> rfl)

/-- Every element of the left list of related lists is related to some element
of the right list. -/
theorem forall2_left {α β : Type} {R : α → β → Prop} {l : List α} {m : List β}
    (h : List.Forall₂ R l m) : ∀ a, a ∈ l → ∃ b, R a b := by
  induction h with
  | nil => intro a ha; exact absurd ha (List.not_mem_nil a)
  | cons hab _ ih =>
    intro c hc
    rcases List.mem_cons.1 hc with rfl | hc'
    · exact ⟨_, hab⟩
    · exact ih c hc'

/-! ### `create_program` -/

/-- The dispatch of `create_program` is the translation of the expression. -/
theorem dispatch_eq_translation {Op : Type} (K : Constructors Op) (HARP_MAX_NUM_DIMS : Nat)
    (undefined_mask : harp_float → Nat) (expression : ast_node) :
    (if expression.type = ast_node_type.ast_function_call then
        operation_from_function_call K HARP_MAX_NUM_DIMS expression
      else if expression.type = ast_node_type.ast_in ∨
          expression.type = ast_node_type.ast_not_in then
        create_membership_test K expression
      else if expression.type = ast_node_type.ast_bit_mask_any ∨
          expression.type = ast_node_type.ast_bit_mask_none then
        create_bit_mask_test K undefined_mask expression
      else create_comparison K expression) =
      translation K HARP_MAX_NUM_DIMS undefined_mask expression := by
  unfold translation
  cases h : expression.type <;> simp

/-- One round of the loop of `create_program`. -/
theorem create_program_loop_cons {Op : Type} (K : Constructors Op) (HARP_MAX_NUM_DIMS : Nat)
    (undefined_mask : harp_float → Nat) (allocates : Nat → Bool) (expression : ast_node)
    (rest : List (Option ast_node)) (program : harp_program Op) :
    create_program_loop K HARP_MAX_NUM_DIMS undefined_mask allocates (some expression :: rest)
        program =
      match translation K HARP_MAX_NUM_DIMS undefined_mask expression with
      | .error s => .error s
      | .ok (.error e) => .ok (.error e)
      | .ok (.ok operation) =>
        if allocates program.operation.length = true then
          create_program_loop K HARP_MAX_NUM_DIMS undefined_mask allocates rest
            { operation := program.operation ++ [operation] }
        else .ok (.error analyze_error.add_operation_failed) := by
  rw [create_program_loop, dispatch_eq_translation]
  cases translation K HARP_MAX_NUM_DIMS undefined_mask expression with
  | error s => rfl
  | ok r =>
    cases r with
    | error e => rfl
    | ok operation =>
      simp only [harp_program_add_operation]
      by_cases ha : allocates program.operation.length = true
      · simp only [if_pos ha]
      · simp only [if_neg ha]

/-- The loop of `create_program` succeeds exactly when every expression that is
left translates to an operation and every append succeeds; the program is
then the one built so far followed by the translations, in order. -/
theorem create_program_loop_ok {Op : Type} (K : Constructors Op) (HARP_MAX_NUM_DIMS : Nat)
    (undefined_mask : harp_float → Nat) (allocates : Nat → Bool) :
    ∀ (expressions : List ast_node) (program result : harp_program Op),
      create_program_loop K HARP_MAX_NUM_DIMS undefined_mask allocates (expressions.map some)
          program = .ok (.ok result) ↔
        ∃ operations,
          List.Forall₂
            (fun e op => translation K HARP_MAX_NUM_DIMS undefined_mask e = .ok (.ok op))
            expressions operations ∧
          (∀ i, i < expressions.length → allocates (program.operation.length + i) = true) ∧
          result.operation = program.operation ++ operations := by
  intro expressions
  induction expressions with
  | nil =>
    intro program result
    rw [List.map_nil, create_program_loop]
    constructor
    · intro h
      have e : program = result := Except.ok.inj (Except.ok.inj h)
      subst e
      exact ⟨[], List.Forall₂.nil, fun i hi => absurd hi (Nat.not_lt_zero i), by simp⟩
    · rintro ⟨operations, hall, _, hres⟩
      cases hall
      rw [List.append_nil] at hres
      cases program
      cases result
      simp only at hres
      subst hres
      rfl
  | cons e rest ih =>
    intro program result
    rw [List.map_cons, create_program_loop_cons]
    cases ht : translation K HARP_MAX_NUM_DIMS undefined_mask e with
    | error s =>
      simp only
      constructor
      · intro h
        exact Except.noConfusion h
      · rintro ⟨operations, hall, _, _⟩
        cases hall with
        | cons h1 _ => rw [ht] at h1; exact Except.noConfusion h1
    | ok r =>
      cases r with
      | error err =>
        simp only
        constructor
        · intro h
          exact Except.noConfusion (Except.ok.inj h)
        · rintro ⟨operations, hall, _, _⟩
          cases hall with
          | cons h1 _ => rw [ht] at h1; exact Except.noConfusion (Except.ok.inj h1)
      | ok operation =>
        simp only
        by_cases ha : allocates program.operation.length = true
        · rw [if_pos ha, ih]
          constructor
          · rintro ⟨operations, hall, halloc, hres⟩
            refine ⟨operation :: operations, List.Forall₂.cons ht hall, ?_, ?_⟩
            · intro i hi
              cases i with
              | zero => exact ha
              | succ j =>
                have := halloc j (by simpa using hi)
                simp only [List.length_append, List.length_singleton] at this
                rw [← this]
                congr 1
                omega
            · rw [hres]
              simp
          · rintro ⟨operations, hall, halloc, hres⟩
            cases hall with
            | @cons _ op _ ops h1 hrest =>
              have hop : operation = op := Except.ok.inj (Except.ok.inj (ht.symm.trans h1))
              subst hop
              refine ⟨ops, hrest, ?_, ?_⟩
              · intro i hi
                have := halloc (i + 1) (by simpa using hi)
                simp only [List.length_append, List.length_singleton]
                rw [← this]
                congr 1
                omega
              · rw [hres]
                simp
        · rw [if_neg ha]
          constructor
          · intro h
            exact Except.noConfusion (Except.ok.inj h)
          · rintro ⟨operations, _, halloc, _⟩
            exact absurd (by have := halloc 0 (by simp); simpa using this) ha

/-- The loop of `create_program` returns the error of the first expression that
does not translate, when the expressions before it translate and their
appends succeed. -/
theorem create_program_loop_error {Op : Type} (K : Constructors Op) (HARP_MAX_NUM_DIMS : Nat)
    (undefined_mask : harp_float → Nat) (allocates : Nat → Bool) :
    ∀ (pre : List ast_node) (operations : List Op) (e : ast_node) (rest : List ast_node)
      (err : analyze_error) (program : harp_program Op),
      List.Forall₂
        (fun e op => translation K HARP_MAX_NUM_DIMS undefined_mask e = .ok (.ok op))
        pre operations →
      (∀ i, i < pre.length → allocates (program.operation.length + i) = true) →
      translation K HARP_MAX_NUM_DIMS undefined_mask e = .ok (.error err) →
      create_program_loop K HARP_MAX_NUM_DIMS undefined_mask allocates
          ((pre ++ e :: rest).map some) program = .ok (.error err) := by
  intro pre
  induction pre with
  | nil =>
    intro operations e rest err program _ _ he
    rw [List.nil_append, List.map_cons, create_program_loop_cons, he]
  | cons p pre ih =>
    intro operations e rest err program hall halloc he
    cases hall with
    | @cons _ op _ ops h1 hrest =>
      rw [List.cons_append, List.map_cons, create_program_loop_cons, h1]
      simp only
      rw [if_pos (by have := halloc 0 (by simp); simpa using this)]
      refine ih ops e rest err _ hrest ?_ he
      intro i hi
      have := halloc (i + 1) (by simpa using hi)
      simp only [List.length_append, List.length_singleton]
      rw [← this]
      congr 1
      omega

/-- The loop of `create_program` fails when an append fails, the expressions up
to there being translated and appended. -/
theorem create_program_loop_append {Op : Type} (K : Constructors Op) (HARP_MAX_NUM_DIMS : Nat)
    (undefined_mask : harp_float → Nat) (allocates : Nat → Bool) :
    ∀ (pre : List ast_node) (operations : List Op) (e : ast_node) (rest : List ast_node)
      (op : Op) (program : harp_program Op),
      List.Forall₂
        (fun e op => translation K HARP_MAX_NUM_DIMS undefined_mask e = .ok (.ok op))
        pre operations →
      (∀ i, i < pre.length → allocates (program.operation.length + i) = true) →
      translation K HARP_MAX_NUM_DIMS undefined_mask e = .ok (.ok op) →
      allocates (program.operation.length + pre.length) = false →
      create_program_loop K HARP_MAX_NUM_DIMS undefined_mask allocates
          ((pre ++ e :: rest).map some) program =
        .ok (.error analyze_error.add_operation_failed) := by
  intro pre
  induction pre with
  | nil =>
    intro operations e rest op program _ _ he hf
    rw [List.nil_append, List.map_cons, create_program_loop_cons, he]
    simp only
    rw [if_neg (by simpa using hf)]
  | cons p pre ih =>
    intro operations e rest op program hall halloc he hf
    cases hall with
    | @cons _ op' _ ops h1 hrest =>
      rw [List.cons_append, List.map_cons, create_program_loop_cons, h1]
      simp only
      rw [if_pos (by have := halloc 0 (by simp); simpa using this)]
      refine ih ops e rest op _ hrest ?_ he ?_
      · intro i hi
        have := halloc (i + 1) (by simpa using hi)
        simp only [List.length_append, List.length_singleton]
        rw [← this]
        congr 1
        omega
      · simp only [List.length_append, List.length_singleton]
        rw [← hf]
        congr 1
        simp only [List.length_cons]
        omega

/-! ### Identities of the reshape primitives -/

/-- A list with an entry set to the value it has is the list. -/
theorem set_getD_self (l : List Int) (i : Nat) (x : Int) (h : l.getD i 0 = x) : l.set i x = l := by
  apply List.ext_getElem
  · simp
  · intro j h1 h2
    rw [List.getElem_set]
    split
    · rename_i hij
      subst hij
      rw [← h, List.getD_eq_getElem _ _ h2]
    · rfl

/-- The variable that a reshape to the length the dimension has, with the
buffer the variable has, leaves behind is the variable. -/
theorem reshaped_self {v : harp_variable} {D : List Cell} {dim_index : Int}
    (hdata : v.data = some D)
    (hprod : v.num_elements = dimension_product v.dimension 0 v.num_dimensions.toNat)
    (h0 : 0 ≤ dim_index) (h1 : dim_index < v.num_dimensions) :
    reshaped v dim_index (v.dimension.getD dim_index.toNat 0) D = v := by
  have hdi : dim_index.toNat < v.num_dimensions.toNat := by omega
  have hp := dimension_product_at v.dimension hdi
  unfold reshaped
  rw [set_getD_self _ _ _ rfl, ← hp, ← hprod, ← hdata]

/-- With no group to sweep over, `harp_variable_resize_dimension` only
reallocates the buffer. -/
theorem resize_no_groups (reallocates : Int → Bool) (heap : Heap) (v : harp_variable)
    (dim_index : Int) (length : Int)
    (h0 : 0 ≤ dim_index) (h1 : dim_index < v.num_dimensions) (hL : 0 < length)
    (hneq : length ≠ v.dimension.getD dim_index.toNat 0)
    (hG : (dimension_product v.dimension 0 dim_index.toNat).toNat = 0)
    (hre : reallocates (resized_num_elements v dim_index length) = true) :
    harp_variable_resize_dimension reallocates heap (some v) dim_index length =
      succeed (reshaped v dim_index length
        (realloc (v.data.getD [])
          (dimension_product v.dimension 0 dim_index.toNat * length *
            dimension_product v.dimension (dim_index.toNat + 1) v.num_dimensions.toNat).toNat))
        heap := by
  have hLZ : ¬ (length ≤ 0) := by omega
  unfold resized_num_elements at hre
  unfold harp_variable_resize_dimension reshaped
  simp only [not_lt.2 h0, not_le.2 h1, or_self, if_false, hLZ, hneq, hG, List.range_zero,
    List.foldl_nil, List.reverse_nil, ite_self, ge_iff_le, gt_iff_lt, hre, Bool.true_eq_false]

/-- Reallocating a buffer to a larger size and then to its own size gives the
buffer back. -/
theorem realloc_realloc (D : List Cell) {n : Nat} (h : D.length ≤ n) :
    realloc (realloc D n) D.length = D := by
  apply ext_peek
  · rw [length_realloc]
  · intro i hi
    rw [length_realloc] at hi
    rw [peek_realloc, if_pos hi, peek_realloc, if_pos (by omega)]

/-- A second reshape of the same dimension overrides the first. -/
theorem reshaped_reshaped (v : harp_variable) (dim_index : Int) (n m : Int) (D1 D2 : List Cell) :
    reshaped (reshaped v dim_index n D1) dim_index m D2 = reshaped v dim_index m D2 := by
  have e1 : dimension_product (v.dimension.set dim_index.toNat n) 0 dim_index.toNat =
      dimension_product v.dimension 0 dim_index.toNat := by
    apply dimension_product_congr
    intro j _ hj
    rw [getD_set_int, if_neg (by omega)]
  have e2 : dimension_product (v.dimension.set dim_index.toNat n) (dim_index.toNat + 1)
      v.num_dimensions.toNat =
      dimension_product v.dimension (dim_index.toNat + 1) v.num_dimensions.toNat := by
    apply dimension_product_congr
    intro j hj _
    rw [getD_set_int, if_neg (by omega)]
  unfold reshaped
  simp only [e1, e2, List.set_set]

theorem group_count_reshaped (v : harp_variable) (dim_index : Int) (n : Int) (D1 : List Cell) :
    group_count (reshaped v dim_index n D1) dim_index = group_count v dim_index := by
  unfold group_count reshaped
  simp only
  congr 1
  apply dimension_product_congr
  intro j _ hj
  rw [getD_set_int, if_neg (by omega)]

theorem block_length_reshaped (v : harp_variable) (dim_index : Int) (n : Int) (D1 : List Cell) :
    block_length (reshaped v dim_index n D1) dim_index = block_length v dim_index := by
  unfold block_length reshaped
  simp only
  congr 1
  apply dimension_product_congr
  intro j hj _
  rw [getD_set_int, if_neg (by omega)]

theorem axis_length_reshaped (v : harp_variable) (dim_index : Int) (n : Int) (D1 : List Cell)
    (hdl : dim_index.toNat < v.dimension.length) :
    axis_length (reshaped v dim_index n D1) dim_index = n.toNat := by
  unfold axis_length
  rw [getD_reshaped_dimension, if_pos ⟨rfl, hdl⟩]

/-- The call of `harp_variable_resize_dimension` with a new length that differs
from the old one, for a variable whose group count and block length are not
negative: the variable it leaves behind is consistent again, and its whole
buffer is produced from the old one. -/
theorem resize_produces_consistent (reallocates : Int → Bool) (heap : Heap)
    (v : harp_variable) (D : List Cell)
    (dim_index : Int) (length : Int) (hv : Consistent heap v D) (h0 : 0 ≤ dim_index)
    (h1 : dim_index < v.num_dimensions) (hL : 0 < length)
    (hneq : length ≠ v.dimension.getD dim_index.toNat 0)
    (hdl : dim_index.toNat < v.dimension.length)
    (hG : 0 ≤ dimension_product v.dimension 0 dim_index.toNat)
    (hK : 0 ≤ dimension_product v.dimension (dim_index.toNat + 1) v.num_dimensions.toNat)
    (hre : reallocates (resized_num_elements v dim_index length) = true) :
    ∃ D' heap',
      harp_variable_resize_dimension reallocates heap (some v) dim_index length =
        succeed (reshaped v dim_index length D') heap' ∧
      Consistent heap' (reshaped v dim_index length D') D' ∧
      D'.length = group_count v dim_index * (length.toNat * block_length v dim_index) ∧
      Produces D
        (sweep_origin
          (resize_origin v.data_type (axis_length v dim_index) (block_length v dim_index))
          (axis_length v dim_index * block_length v dim_index)
          (length.toNat * block_length v dim_index))
        (sweep_dropped
          (resize_dropped v.data_type (axis_length v dim_index) length.toNat
            (block_length v dim_index))
          (axis_length v dim_index * block_length v dim_index) (group_count v dim_index))
        (group_count v dim_index * (length.toNat * block_length v dim_index)) heap
        (D', heap') := by
  obtain ⟨D', heap', hcall, hlen, P⟩ :=
    resize_produces reallocates heap v D dim_index length hv h0 h1 hL hneq hre
  have hdi : dim_index.toNat < v.num_dimensions.toNat := by omega
  have hsize : D'.length =
      group_count v dim_index * (length.toNat * block_length v dim_index) := by
    rw [hlen]
    unfold reshaped group_count block_length
    simp only
    exact toNat_mul3 hG (by omega) hK
  rw [read_block_of_length hsize] at P
  refine ⟨D', heap', hcall, ?_, hsize, P⟩
  refine
    { wf := P.wf hv.wf
      owns := ?_
      data := rfl
      size := hlen
      product := reshaped_product v dim_index length D' hdi hdl }
  refine P.owns hv.wf hv.owns ?_ ?_
  · intro r r' j hr hr' ho ho'
    obtain ⟨g, a, b, _, ha, hb, rfl⟩ := element_offset_cover hr
    obtain ⟨g', a', b', _, ha', hb', rfl⟩ := element_offset_cover hr'
    rw [sweep_resize_origin v.data_type _ _ _ ha hb] at ho
    rw [sweep_resize_origin v.data_type _ _ _ ha' hb'] at ho'
    by_cases hd : a < axis_length v dim_index
    · by_cases hd' : a' < axis_length v dim_index
      · rw [if_pos hd] at ho
        rw [if_pos hd'] at ho'
        have e1 := Origin.copy.inj ho
        have e2 := Origin.copy.inj ho'
        obtain ⟨rfl, rfl, rfl⟩ := element_offset_inj hd hb hd' hb' (e1.trans e2.symm)
        rfl
      · rw [if_neg hd'] at ho'
        exact Origin.noConfusion ho'
    · rw [if_neg hd] at ho
      exact Origin.noConfusion ho
  · intro r j hr ho
    obtain ⟨g, a, b, _, ha, hb, rfl⟩ := element_offset_cover hr
    rw [sweep_resize_origin v.data_type _ _ _ ha hb] at ho
    by_cases hd : a < axis_length v dim_index
    · rw [if_pos hd] at ho
      rw [← Origin.copy.inj ho]
      exact resize_not_dropped ha hd hb
    · rw [if_neg hd] at ho
      exact Origin.noConfusion ho

theorem dimension_product_reshaped_before (v : harp_variable) (dim_index : Int) (n : Int)
    (D1 : List Cell) :
    dimension_product (reshaped v dim_index n D1).dimension 0 dim_index.toNat =
      dimension_product v.dimension 0 dim_index.toNat := by
  unfold reshaped
  simp only
  apply dimension_product_congr
  intro j _ hj
  rw [getD_set_int, if_neg (by omega)]

theorem dimension_product_reshaped_after (v : harp_variable) (dim_index : Int) (n : Int)
    (D1 : List Cell) :
    dimension_product (reshaped v dim_index n D1).dimension (dim_index.toNat + 1)
        (reshaped v dim_index n D1).num_dimensions.toNat =
      dimension_product v.dimension (dim_index.toNat + 1) v.num_dimensions.toNat := by
  unfold reshaped
  simp only
  apply dimension_product_congr
  intro j hj _
  rw [getD_set_int, if_neg (by omega)]

/-- Growing a dimension of positive length with
`harp_variable_resize_dimension` and resizing it back to the length it had:
both calls succeed, the second one returns the variable as it was, and every
element has the value it had. -/
theorem resize_round_trip (reallocates : Int → Bool) (heap : Heap) (v : harp_variable)
    (D : List Cell) (dim_index : Int)
    (length : Int) (hv : Consistent heap v D) (h0 : 0 ≤ dim_index)
    (h1 : dim_index < v.num_dimensions)
    (hpos : 0 < v.dimension.getD dim_index.toNat 0)
    (hgrow : v.dimension.getD dim_index.toNat 0 < length)
    (hre1 : reallocates (resized_num_elements v dim_index length) = true)
    (hre2 : reallocates v.num_elements = true) :
    ∃ D1 heap1 heap2,
      harp_variable_resize_dimension reallocates heap (some v) dim_index length =
        succeed (reshaped v dim_index length D1) heap1 ∧
      harp_variable_resize_dimension reallocates heap1 (some (reshaped v dim_index length D1))
          dim_index (v.dimension.getD dim_index.toNat 0) = succeed v heap2 ∧
      ∀ r, r < v.num_elements.toNat → element heap2 (peek D r) = element heap (peek D r) := by
  have hdi : dim_index.toNat < v.num_dimensions.toNat := by omega
  have hdl : dim_index.toNat < v.dimension.length := lt_length_of_getD_ne (by omega)
  have hL : 0 < length := by omega
  have hneq : length ≠ v.dimension.getD dim_index.toNat 0 := by omega
  have hnum := hv.product
  rw [dimension_product_at v.dimension hdi] at hnum
  have hback : ∀ D1, v.dimension.getD dim_index.toNat 0 ≠
      (reshaped v dim_index length D1).dimension.getD dim_index.toNat 0 := by
    intro D1
    rw [getD_reshaped_dimension, if_pos ⟨rfl, hdl⟩]
    omega
  have hnum2 : ∀ D1 D2, (reshaped (reshaped v dim_index length D1) dim_index
      (v.dimension.getD dim_index.toNat 0) D2).num_elements = v.num_elements := by
    intro D1 D2
    rw [reshaped_reshaped, hnum]
    rfl
  have hback2 : ∀ D1, reallocates (resized_num_elements (reshaped v dim_index length D1)
      dim_index (v.dimension.getD dim_index.toNat 0)) = true := by
    intro D1
    have e : resized_num_elements (reshaped v dim_index length D1) dim_index
        (v.dimension.getD dim_index.toNat 0) = v.num_elements := hnum2 D1 []
    rw [e]
    exact hre2
  by_cases hG : 0 < dimension_product v.dimension 0 dim_index.toNat
  · by_cases hK : 0 < dimension_product v.dimension (dim_index.toNat + 1) v.num_dimensions.toNat
    · -- both sweeps run over the whole buffer
      obtain ⟨D1, heap1, hcall1, hv1, hsize1, P1⟩ :=
        resize_produces_consistent reallocates heap v D dim_index length hv h0 h1 hL hneq hdl
          (Int.le_of_lt hG) (Int.le_of_lt hK) hre1
      obtain ⟨D2, heap2, hcall2, hv2, hsize2, P2⟩ :=
        resize_produces_consistent reallocates heap1 (reshaped v dim_index length D1) D1
          dim_index
          (v.dimension.getD dim_index.toNat 0) hv1 h0 h1 hpos (hback D1)
          (by unfold reshaped; simp only [List.length_set]; exact hdl)
          (by rw [dimension_product_reshaped_before]; exact Int.le_of_lt hG)
          (by rw [dimension_product_reshaped_after]; exact Int.le_of_lt hK) (hback2 D1)
      rw [axis_length_reshaped _ _ _ _ hdl, block_length_reshaped, group_count_reshaped] at P2
      rw [block_length_reshaped, group_count_reshaped] at hsize2
      have P2' : Produces D1
          (sweep_origin
            (resize_origin v.data_type length.toNat (block_length v dim_index))
            (length.toNat * block_length v dim_index)
            (axis_length v dim_index * block_length v dim_index))
          (sweep_dropped
            (resize_dropped v.data_type length.toNat (axis_length v dim_index)
              (block_length v dim_index))
            (length.toNat * block_length v dim_index) (group_count v dim_index))
          (group_count v dim_index * (axis_length v dim_index * block_length v dim_index)) heap1
          (D2, heap2) := P2
      have hAL : axis_length v dim_index < length.toNat := by
        unfold axis_length
        omega
      have hDlen : D.length =
          group_count v dim_index * (axis_length v dim_index * block_length v dim_index) := by
        rw [hv.size, hnum]
        unfold group_count axis_length block_length
        exact toNat_mul3 (Int.le_of_lt hG) (Int.le_of_lt hpos) (Int.le_of_lt hK)
      have hcells : ∀ r, r < D.length →
          peek D2 r = peek D r ∧ element heap2 (peek D2 r) = element heap (peek D r) := by
        intro r hr
        rw [hDlen] at hr
        obtain ⟨g, j, b, hg, hj, hb, rfl⟩ := element_offset_cover hr
        have hjL : j < length.toNat := by omega
        have hr1 := (element_offset_lt hg hjL hb).2
        have ho2 := sweep_resize_origin v.data_type length.toNat (axis_length v dim_index)
          (block_length v dim_index) (g := g) hj hb
        rw [if_pos hjL] at ho2
        have ho1 := sweep_resize_origin v.data_type (axis_length v dim_index) length.toNat
          (block_length v dim_index) (g := g) hjL hb
        rw [if_pos hj] at ho1
        have hc2 := P2'.cell _ hr
        rw [ho2] at hc2
        have hc1 := P1.cell _ hr1
        rw [ho1] at hc1
        have hc2' : peek D2 (element_offset (axis_length v dim_index) (block_length v dim_index)
            g j b) = peek D1 (element_offset length.toNat (block_length v dim_index) g j b) := hc2
        have hc1' : peek D1 (element_offset length.toNat (block_length v dim_index) g j b) =
            peek D (element_offset (axis_length v dim_index) (block_length v dim_index) g j b) :=
          hc1
        refine ⟨hc2'.trans hc1', ?_⟩
        have he2 := P2'.element_eq (OldPtrs.of_owns hv1.wf hv1.owns) hr (Or.inl ho2)
          (fun _ => resize_not_dropped hj hjL hb)
        have he1 := P1.element_eq (OldPtrs.of_owns hv.wf hv.owns) hr1 (Or.inl ho1)
          (fun _ => resize_not_dropped hjL hj hb)
        exact he2.trans he1
      have hD : D2 = D := by
        apply ext_peek
        · rw [hsize2, hDlen]
          rfl
        · intro i hi
          rw [hsize2] at hi
          exact (hcells i (by rw [hDlen]; exact hi)).1
      rw [hD] at hcall2 hcells
      rw [reshaped_reshaped, reshaped_self hv.data hv.product h0 h1] at hcall2
      refine ⟨D1, heap1, heap2, hcall1, hcall2, ?_⟩
      intro r hr
      rw [← hv.size] at hr
      exact (hcells r hr).2
    · -- the variable has no element
      have hzero : v.num_elements.toNat = 0 := by
        have : v.num_elements ≤ 0 := by
          rw [hnum]
          have hle : dimension_product v.dimension (dim_index.toNat + 1) v.num_dimensions.toNat ≤ 0 :=
            by omega
          exact Int.mul_nonpos_of_nonneg_of_nonpos
            (Int.mul_nonneg (Int.le_of_lt hG) (Int.le_of_lt hpos)) hle
        omega
      obtain ⟨D1, heap1, hcall1, hlen1, _⟩ :=
        resize_run reallocates heap v D dim_index length hv.data hv.size hv.product h0 h1 hL
          hneq hre1
      obtain ⟨D2, heap2, hcall2, hlen2, _⟩ :=
        resize_run reallocates heap1 (reshaped v dim_index length D1) D1 dim_index
          (v.dimension.getD dim_index.toNat 0) rfl hlen1
          (reshaped_product v dim_index length D1 hdi hdl) h0 h1 hpos (hback D1) (hback2 D1)
      rw [hnum2, hzero] at hlen2
      have hD : D2 = D := by
        have e1 : D2 = [] := List.eq_nil_of_length_eq_zero hlen2
        have e2 : D = [] := List.eq_nil_of_length_eq_zero (by rw [hv.size, hzero])
        rw [e1, e2]
      rw [hD, reshaped_reshaped, reshaped_self hv.data hv.product h0 h1] at hcall2
      refine ⟨D1, heap1, heap2, hcall1, hcall2, ?_⟩
      intro r hr
      omega
  · -- no group: both calls only reallocate
    have hG0 : (dimension_product v.dimension 0 dim_index.toNat).toNat = 0 := by omega
    have hcall1 := resize_no_groups reallocates heap v dim_index length h0 h1 hL hneq hG0 hre1
    rw [hv.data, Option.getD_some] at hcall1
    have hcall2 := resize_no_groups reallocates heap
      (reshaped v dim_index length
        (realloc D
          (dimension_product v.dimension 0 dim_index.toNat * length *
            dimension_product v.dimension (dim_index.toNat + 1) v.num_dimensions.toNat).toNat))
      dim_index (v.dimension.getD dim_index.toNat 0) h0 h1 hpos (hback _)
      (by rw [dimension_product_reshaped_before]; exact hG0) (hback2 _)
    rw [dimension_product_reshaped_before, dimension_product_reshaped_after, ← hnum,
      ← hv.size] at hcall2
    have hdata : (reshaped v dim_index length
        (realloc D
          (dimension_product v.dimension 0 dim_index.toNat * length *
            dimension_product v.dimension (dim_index.toNat + 1) v.num_dimensions.toNat).toNat)).data.getD
        [] = realloc D
          (dimension_product v.dimension 0 dim_index.toNat * length *
            dimension_product v.dimension (dim_index.toNat + 1) v.num_dimensions.toNat).toNat :=
      rfl
    have hle : D.length ≤
        (dimension_product v.dimension 0 dim_index.toNat * length *
          dimension_product v.dimension (dim_index.toNat + 1) v.num_dimensions.toNat).toNat := by
      rw [hv.size, hnum]
      have hle0 : dimension_product v.dimension 0 dim_index.toNat ≤ 0 := by omega
      by_cases hK : 0 ≤ dimension_product v.dimension (dim_index.toNat + 1) v.num_dimensions.toNat
      · have : dimension_product v.dimension 0 dim_index.toNat *
            v.dimension.getD dim_index.toNat 0 *
            dimension_product v.dimension (dim_index.toNat + 1) v.num_dimensions.toNat ≤ 0 :=
          Int.mul_nonpos_of_nonpos_of_nonneg
            (Int.mul_nonpos_of_nonpos_of_nonneg hle0 (Int.le_of_lt hpos)) hK
        omega
      · apply Int.toNat_le_toNat
        have hK' : dimension_product v.dimension (dim_index.toNat + 1) v.num_dimensions.toNat ≤ 0 :=
          by omega
        have hd : 0 ≤ length - v.dimension.getD dim_index.toNat 0 := by omega
        nlinarith [Int.mul_nonneg hd
          (Int.mul_nonneg (Int.neg_nonneg_of_nonpos hle0) (Int.neg_nonneg_of_nonpos hK'))]
    rw [hdata, realloc_realloc D hle, reshaped_reshaped,
      reshaped_self hv.data hv.product h0 h1] at hcall2
    exact ⟨_, heap, heap, hcall1, hcall2, fun _ _ => rfl⟩

/-! ### Verification after a reshape of an unshared dimension -/

/-- A variable that passes `harp_variable_verify` still passes it after a
successful rearrangement, filtering or resizing of a dimension whose type is
independent or is the type of no other dimension. -/
theorem verify_after_unshared_reshape (HARP_MAX_NUM_DIMS : Nat)
    (harp_unit_is_valid : String → Bool) (fuel : Nat) (heap : Heap) (v : harp_variable)
    (dim_index : Int)
    (hver : harp_variable_verify HARP_MAX_NUM_DIMS harp_unit_is_valid (some v) = .ok ())
    (hu : unshared v dim_index) :
    (∀ n ids r,
      harp_variable_rearrange_dimension fuel heap (some v) dim_index n ids = .ok r → r.ret = 0 →
      harp_variable_verify HARP_MAX_NUM_DIMS harp_unit_is_valid r.var = .ok ()) ∧
    (∀ mask r,
      harp_variable_filter_dimension heap (some v) dim_index mask = r → r.ret = 0 →
      harp_variable_verify HARP_MAX_NUM_DIMS harp_unit_is_valid r.var = .ok ()) ∧
    (∀ reallocates length r,
      harp_variable_resize_dimension reallocates heap (some v) dim_index length = r →
      r.ret = 0 →
      harp_variable_verify HARP_MAX_NUM_DIMS harp_unit_is_valid r.var = .ok ()) := by
  have hV := (verify_iff HARP_MAX_NUM_DIMS harp_unit_is_valid v).1 hver
  refine ⟨?_, ?_, ?_⟩
  · intro n ids r hcall hret
    obtain ⟨hn, h0, h1, _, _, D', hvar⟩ := rearrange_success hV.count hcall hret
    rw [hvar]
    exact (verify_iff _ _ _).2 (hV.reshaped h0 h1 hn hu D')
  · intro mask r hcall hret
    obtain ⟨h0, h1, _, hvar | ⟨m, D', _, hcnt, hvar⟩⟩ := filter_success hV.count hcall hret
    · rw [hvar]
      exact hver
    · rw [hvar]
      exact (verify_iff _ _ _).2 (hV.reshaped h0 h1 (by omega) hu D')
  · intro reallocates length r hcall hret
    obtain ⟨h0, h1, hL, hvar | ⟨D', hvar⟩⟩ := resize_success hcall hret
    · rw [hvar]
      exact hver
    · rw [hvar]
      exact (verify_iff _ _ _).2 (hV.reshaped h0 h1 hL hu D')

/-! ### The assertion of the cycle branch -/

/-- A loop whose rounds never end in the failure `e` does not end in it. -/
theorem foldlM_ne_error {σ ι : Type} (step : σ → ι → Except Stuck σ) (e : Stuck)
    (h : ∀ st i, step st i ≠ .error e) :
    ∀ (l : List ι) (init : σ), l.foldlM step init ≠ .error e := by
  intro l
  induction l with
  | nil =>
    intro init hc
    exact Except.noConfusion hc
  | cons i rest ih =>
    intro init
    rw [List.foldlM_cons]
    cases hs : step init i with
    | error s =>
      intro hc
      have : s = e := Except.error.inj hc
      exact h init i (by rw [hs, this])
    | ok st => exact ih st

/-- A position whose entry of `move_to_id` is `to_id` is the position
`dim_element_ids[to_id]`. -/
theorem move_to_id_source {dim n : Nat} {ids : List Int} {mt : List (Option Nat)}
    (hmt : MoveTable dim n ids mt) {k to_id : Nat} (h : mt.getD k none = some to_id) :
    k = id_at ids to_id :=
  ((hmt.first k to_id h).2.1).symm

/-- The move-away step never fails its assertion. -/
theorem move_away_assertion {dim n : Nat} {ids : List Int} {mt : List (Option Nat)}
    (hmt : MoveTable dim n ids mt) (fuel nbe base : Nat) (mem : List Cell) (moved : List Bool)
    (to_id : Nat) :
    move_away fuel dim nbe base ids mt mem moved to_id ≠ .error Stuck.assertion_failed := by
  unfold move_away
  split
  · split
    · split
      · exact fun h => Stuck.noConfusion (Except.error.inj h)
      · rename_i k _
        split
        · rename_i hc
          rw [if_neg (not_not.2 (move_to_id_source hmt hc.2))]
          split
          · exact fun h => Stuck.noConfusion (Except.error.inj h)
          · exact fun h => Except.noConfusion h
        · split
          · exact fun h => Stuck.noConfusion (Except.error.inj h)
          · exact fun h => Except.noConfusion h
    · exact fun h => Except.noConfusion h
  · exact fun h => Except.noConfusion h

theorem reorder_step_assertion {dim n : Nat} {ids : List Int} {mt : List (Option Nat)}
    (hmt : MoveTable dim n ids mt) (fuel : Nat) (data_type : harp_data_type) (nbe base : Nat)
    (st : Reorder) (to_id : Nat) :
    reorder_step fuel data_type dim nbe base ids mt st to_id ≠ .error Stuck.assertion_failed := by
  unfold reorder_step
  split
  · exact fun h => Except.noConfusion h
  · have := move_away_assertion hmt fuel nbe base st.mem st.moved to_id
    cases hm : move_away fuel dim nbe base ids mt st.mem st.moved to_id with
    | error s =>
      intro hc
      apply this
      rw [hm]
      simpa using hc
    | ok a => exact fun h => Except.noConfusion h

theorem rearrange_group_assertion {dim n : Nat} {ids : List Int} {mt : List (Option Nat)}
    (hmt : MoveTable dim n ids mt) (fuel : Nat) (data_type : harp_data_type) (m nbe : Nat)
    (st : List Cell × Heap) (i : Nat) :
    rearrange_group fuel data_type dim m nbe ids mt st i ≠ .error Stuck.assertion_failed := by
  unfold rearrange_group
  simp only
  split
  · rename_i e he
    intro hc
    exact foldlM_ne_error _ _ (reorder_step_assertion hmt fuel data_type nbe _) _ _
      (he.trans (congrArg Except.error (Except.error.inj hc)))
  · exact fun h => Except.noConfusion h

/-- No call of `harp_variable_rearrange_dimension` fails the assertion of the
cycle branch. -/
theorem rearrange_assertion (fuel : Nat) (heap : Heap) (var : Option harp_variable)
    (dim_index num_dim_elements : Int) (dim_element_ids : Option (List Int)) :
    harp_variable_rearrange_dimension fuel heap var dim_index num_dim_elements dim_element_ids ≠
      .error Stuck.assertion_failed := by
  unfold harp_variable_rearrange_dimension
  split
  · exact fun h => Except.noConfusion h
  · split
    · exact fun h => Except.noConfusion h
    · split
      · exact fun h => Except.noConfusion h
      · split
        · exact fun h => Except.noConfusion h
        · split
          · exact fun h => Except.noConfusion h
          · split
            · exact fun h => Except.noConfusion h
            · simp only
              split
              · rename_i e he
                intro hc
                exact foldlM_ne_error _ _
                  (rearrange_group_assertion (build_move_to_id_table _ _ _) fuel _ _ _) _ _
                  (he.trans (congrArg Except.error (Except.error.inj hc)))
              · exact fun h => Except.noConfusion h

/-! ### The course of the two walks of the move-away step -/

/-- The forward walk stops at the last position of its course. -/
theorem walk_forward_eq_last (dim : Nat) (mt : List (Option Nat)) (moved : List Bool)
    (to_id : Nat) :
    ∀ fuel k, walk_forward dim mt moved to_id fuel k =
      (forward_positions dim mt moved to_id fuel k).bind (fun P => P.getLast?) := by
  intro fuel
  induction fuel with
  | zero =>
    intro k
    rfl
  | succ fuel ih =>
    intro k
    rw [walk_forward, forward_positions]
    cases hm : mt.getD k none with
    | none => rfl
    | some next =>
      simp only
      by_cases hc : k < dim ∧ moved.getD k false = false ∧ next ≠ to_id
      · rw [if_pos hc, if_pos hc, ih next]
        cases hP : forward_positions dim mt moved to_id fuel next with
        | none => rfl
        | some P =>
          simp only [Option.map_some', Option.some_bind]
          cases P with
          | nil =>
            exfalso
            cases fuel with
            | zero => exact Option.noConfusion hP
            | succ f =>
              rw [forward_positions] at hP
              split at hP
              · split at hP
                · cases hQ : forward_positions dim mt moved to_id f _ with
                  | none =>
                    rw [hQ] at hP
                    exact Option.noConfusion hP
                  | some Q =>
                    rw [hQ] at hP
                    exact List.noConfusion (Option.some.inj hP)
                · exact List.noConfusion (Option.some.inj hP)
              · exact List.noConfusion (Option.some.inj hP)
          | cons a t => rw [List.getLast?_cons_cons]
      · rw [if_neg hc, if_neg hc]
        rfl

/-- The backward walk returns exactly when its course is finite. -/
theorem walk_backward_isSome (nbe base : Nat) (ids : List Int) (to_id : Nat) :
    ∀ fuel k (st : List Cell × List Bool),
      (walk_backward nbe base ids to_id fuel k st).isSome =
        (backward_positions ids to_id fuel k).isSome := by
  intro fuel
  induction fuel with
  | zero =>
    intro k st
    rfl
  | succ fuel ih =>
    intro k st
    rw [walk_backward, backward_positions]
    by_cases hk : k ≠ to_id
    · rw [if_pos hk, if_pos hk, ih, Option.isSome_map']
    · rw [if_neg hk, if_neg hk]
      rfl

/-- The course of the forward walk from a position that continues a back path:
it ends within the fuel, and read backwards it extends the back path. -/
theorem forward_positions_spec {dim n : Nat} {ids : List Int} {mt : List (Option Nat)}
    (hmt : MoveTable dim n ids mt) (moved : List Bool) (to_id : Nat) :
    ∀ (fuel k : Nat) (acc : List Nat), BackPath dim ids mt moved to_id (k :: acc) →
      (acc ≠ [] → k ≠ to_id) → dim ≤ fuel + acc.length →
      ∃ P last, forward_positions dim mt moved to_id fuel k = some P ∧
        P.head? = some k ∧ P.getLast? = some last ∧
        BackPath dim ids mt moved to_id (P.reverse ++ acc) ∧
        ¬ walk_continues dim mt moved to_id last ∧
        (last = to_id → P = [to_id] ∧ acc = []) := by
  intro fuel
  induction fuel with
  | zero =>
    intro k acc hp _ hf
    have := hp.length_le (by simp)
    simp at this hf
    omega
  | succ fuel ih =>
    intro k acc hp hk hf
    by_cases hc : walk_continues dim mt moved to_id k
    · obtain ⟨next, h1, h2, h3, h4⟩ := hc
      have hfirst := hmt.first k next h1
      have hkne : k ≠ to_id := by
        intro hkt
        cases acc with
        | nil =>
          have hl := hp.link
          simp only [List.map_cons, List.map_nil, List.tail_cons, List.nil_append,
            List.cons.injEq, and_true] at hl
          have he := (hp.entry k (by simp)).1
          rw [hl, ← hkt, h1] at he
          simp only [Option.some.injEq] at he
          exact h4 (he.trans hkt)
        | cons a t => exact hk (by simp) hkt
      have hknotin : k ∉ acc := by
        intro hmem
        have hl := hp.link
        simp only [List.map_cons, List.tail_cons] at hl
        have hnd := hp.nodup
        simp only [List.tail_cons] at hnd
        rw [← hl] at hnd
        exact (List.nodup_cons.1 hnd).1 (List.mem_map.2 ⟨k, hmem, rfl⟩)
      have hp' : BackPath dim ids mt moved to_id (next :: k :: acc) := by
        refine ⟨?_, ?_, ?_⟩
        · have hl := hp.link
          simp only [List.map_cons, List.tail_cons] at hl ⊢
          rw [hfirst.2.1]
          simp only [List.cons_append, List.cons.injEq, true_and]
          simpa using hl
        · intro x hx
          rcases List.mem_cons.1 hx with rfl | hx
          · rw [hfirst.2.1]; exact ⟨h1, h2, h3⟩
          · exact hp.entry x hx
        · simp only [List.tail_cons, List.cons_append, List.nodup_cons]
          refine ⟨?_, hp.nodup⟩
          simp only [List.mem_append, List.mem_singleton, not_or]
          exact ⟨hknotin, hkne⟩
      obtain ⟨P, last, hP1, hP2, hP3, hP4, hP5, hP6⟩ := ih next (k :: acc) hp' (fun _ => h4)
        (by simp only [List.length_cons]; omega)
      have hPne : P ≠ [] := by
        intro e
        rw [e] at hP2
        exact Option.noConfusion hP2
      refine ⟨k :: P, last, ?_, rfl, ?_, ?_, hP5, ?_⟩
      · rw [forward_positions, h1]
        simp only [h2, h3, h4, ne_eq, not_false_eq_true, and_self, if_true]
        rw [hP1]
        rfl
      · cases P with
        | nil => exact absurd rfl hPne
        | cons a t =>
          rw [List.getLast?_cons_cons]
          exact hP3
      · rw [List.reverse_cons, List.append_assoc]
        exact hP4
      · intro hl
        exact absurd (hP6 hl).2 (by simp)
    · refine ⟨[k], k, ?_, rfl, rfl, ?_, hc, ?_⟩
      · rw [forward_positions]
        cases hm : mt.getD k none with
        | none => rfl
        | some next =>
          have : ¬ (k < dim ∧ moved.getD k false = false ∧ next ≠ to_id) := by
            intro ⟨a, b, c⟩
            exact hc ⟨next, hm, a, b, c⟩
          simp only [if_neg this]
      · exact hp
      · intro hkt
        cases acc with
        | nil => exact ⟨by rw [hkt], rfl⟩
        | cons a t => exact absurd hkt (hk (by simp))

/-- The course of the backward walk from the head of a path whose positions
are linked by the ids and end before `to_id`: the path itself. -/
theorem backward_positions_spec (ids : List Int) (to_id : Nat) :
    ∀ (rest : List Nat) (x fuel : Nat),
      (x :: rest).map (id_at ids) = rest ++ [to_id] → (x :: rest ++ [to_id]).Nodup →
      rest.length + 1 < fuel →
      backward_positions ids to_id fuel x = some (x :: rest) := by
  intro rest
  induction rest with
  | nil =>
    intro x fuel hl hnd hf
    have hx : x ≠ to_id := by
      intro e
      rw [e] at hnd
      simp at hnd
    have hid : id_at ids x = to_id := by simpa using hl
    obtain ⟨f, rfl⟩ : ∃ f, fuel = f + 2 := ⟨fuel - 2, by simp at hf; omega⟩
    rw [backward_positions, if_pos hx, hid, backward_positions, if_neg (by simp)]
    rfl
  | cons y rest ih =>
    intro x fuel hl hnd hf
    have hx : x ≠ to_id := by
      intro e
      rw [e] at hnd
      simp at hnd
    simp only [List.map_cons, List.cons_append, List.cons.injEq] at hl
    obtain ⟨f, rfl⟩ : ∃ f, fuel = f + 1 := ⟨fuel - 1, by simp at hf; omega⟩
    rw [backward_positions, if_pos hx, hl.1,
      ih y f (by simpa using hl.2) (List.nodup_cons.1 hnd).2 (by simp at hf ⊢; omega)]
    rfl

/-- The two walks of the move-away step, started as the step starts them: the
forward walk ends within the fuel after visiting at most `dim` positions, and
the backward walk copies to exactly these positions, last visited first (to
none when the forward walk stays at `to_id`). -/
theorem move_away_walks {dim n : Nat} {ids : List Int} {mt : List (Option Nat)}
    (hmt : MoveTable dim n ids mt) (moved : List Bool) {to_id first fuel : Nat}
    (h1 : to_id < dim) (h2 : mt.getD to_id none = some first)
    (h3 : moved.getD to_id false = false) (hfuel : dim < fuel) :
    ∃ P last, forward_positions dim mt moved to_id fuel first = some P ∧
      P.head? = some first ∧ P.getLast? = some last ∧ P.length ≤ dim ∧
      walk_forward dim mt moved to_id fuel first = some last ∧
      ¬ walk_continues dim mt moved to_id last ∧
      backward_positions ids to_id fuel last = some (if last = to_id then [] else P.reverse) := by
  have hf := hmt.first to_id first h2
  have hp : BackPath dim ids mt moved to_id [first] := by
    refine ⟨?_, ?_, ?_⟩
    · simp [hf.2.1]
    · intro x hx
      have : x = first := by simpa using hx
      subst this
      rw [hf.2.1]
      exact ⟨h2, h1, h3⟩
    · simp
  obtain ⟨P, last, hP1, hP2, hP3, hP4, hP5, hP6⟩ :=
    forward_positions_spec hmt moved to_id fuel first [] hp (fun h => absurd rfl h) (by simp; omega)
  rw [List.append_nil] at hP4
  have hPne : P ≠ [] := by
    intro e
    rw [e] at hP2
    exact Option.noConfusion hP2
  have hlen : P.length ≤ dim := by
    have := hP4.length_le (by simpa using hPne)
    simpa using this
  refine ⟨P, last, hP1, hP2, hP3, hlen, ?_, hP5, ?_⟩
  · rw [walk_forward_eq_last, hP1]
    exact hP3
  · by_cases hl : last = to_id
    · rw [if_pos hl, hl]
      obtain ⟨f, rfl⟩ : ∃ f, fuel = f + 1 := ⟨fuel - 1, by omega⟩
      rw [backward_positions, if_neg (by simp)]
    · rw [if_neg hl]
      cases hrev : P.reverse with
      | nil =>
        exfalso
        apply hPne
        simpa using hrev
      | cons x rest =>
        have hx : x = last := by
          have := List.head?_reverse P
          rw [hrev, hP3] at this
          simpa using this
        subst hx
        rw [hrev] at hP4
        have hlr : rest.length + 1 ≤ dim := by
          have := congrArg List.length hrev
          simp at this
          omega
        exact backward_positions_spec ids to_id rest x fuel hP4.link (hP4.head_not_mem hl)
          (by omega)

/-- With fuel above the length of the dimension the move-away step returns,
whatever the state of the reordering. -/
theorem move_away_returns {dim n : Nat} {ids : List Int} {mt : List (Option Nat)}
    (hmt : MoveTable dim n ids mt) {fuel : Nat} (hfuel : dim < fuel) (nbe base : Nat)
    (mem : List Cell) (moved : List Bool) (to_id : Nat) :
    ∃ a, move_away fuel dim nbe base ids mt mem moved to_id = .ok a := by
  unfold move_away
  cases h2 : mt.getD to_id none with
  | none => exact ⟨_, rfl⟩
  | some first =>
    simp only
    by_cases hg : to_id < dim ∧ moved.getD to_id false = false
    · rw [if_pos hg]
      obtain ⟨P, last, _, _, _, _, hw, _, hb⟩ := move_away_walks hmt moved hg.1 h2 hg.2 hfuel
      rw [hw]
      simp only
      have hsome : (walk_backward nbe base ids to_id fuel last (mem, moved)).isSome = true := by
        rw [walk_backward_isSome, hb]
        rfl
      obtain ⟨r, hr⟩ := Option.isSome_iff_exists.1 hsome
      rw [hr]
      by_cases hc : last < dim ∧ mt.getD last none = some to_id
      · rw [if_pos hc, if_neg (not_not.2 (move_to_id_source hmt hc.2))]
        exact ⟨_, rfl⟩
      · rw [if_neg hc]
        exact ⟨_, rfl⟩
    · rw [if_neg hg]
      exact ⟨_, rfl⟩

/-! ### harp_variable_new -/

theorem assign_entries_spec {α : Type} (source : Nat → α) (fb : α) :
    ∀ (n : Nat) (array : List α),
      (assign_entries array source n).length = array.length ∧
      ∀ i, (assign_entries array source n).getD i fb =
        if i < n ∧ i < array.length then source i else array.getD i fb := by
  intro n
  induction n with
  | zero =>
    intro array
    refine ⟨rfl, fun i => ?_⟩
    rw [if_neg (by omega)]
    rfl
  | succ n ih =>
    intro array
    have hs : assign_entries array source (n + 1) =
        (assign_entries array source n).set n (source n) := by
      unfold assign_entries
      rw [List.range_succ, List.foldl_append]
      rfl
    rw [hs]
    obtain ⟨h1, h2⟩ := ih array
    refine ⟨by rw [List.length_set, h1], fun i => ?_⟩
    rw [getD_set_gen, h1, h2]
    by_cases hi : n = i
    · subst hi
      by_cases hl : n < array.length
      · rw [if_pos ⟨rfl, hl⟩, if_pos ⟨by omega, hl⟩]
      · rw [if_neg (fun h => hl h.2), if_neg (fun h => hl h.2), if_neg (fun h => hl h.2)]
    · rw [if_neg (fun h => hi h.1)]
      by_cases hc : i < n ∧ i < array.length
      · rw [if_pos hc, if_pos ⟨by omega, hc.2⟩]
      · rw [if_neg hc, if_neg (fun h => hc ⟨by omega, h.2⟩)]

/-- One round of the loop of `harp_variable_new`, on dimensions whose lengths
are not -1: it passes exactly when the conditions hold for one more dimension,
and its only failure is the invalid argument. -/
theorem new_check_step {types : List harp_dimension_type} {dimension : List Int} {k : Nat}
    {seen : harp_dimension_type → Int} (hd : NewDimsOK types dimension k)
    (hs : NewSeenInv types dimension k seen) (hlen : ∀ i, i < k → dimension.getD i 0 ≠ -1) :
    (∃ seen', new_check_dimension types dimension seen k = .ok seen' ∧
      NewDimsOK types dimension (k + 1) ∧ NewSeenInv types dimension (k + 1) seen') ∨
    (new_check_dimension types dimension seen k =
        .error harp_error.HARP_ERROR_INVALID_ARGUMENT ∧
      ¬ NewDimsOK types dimension (k + 1)) := by
  unfold new_check_dimension
  simp only
  by_cases hind : types.getD k harp_dimension_type.harp_dimension_independent =
      harp_dimension_type.harp_dimension_independent
  · -- an independent dimension
    left
    rw [if_pos hind]
    refine ⟨seen, rfl, ⟨?_, ?_⟩, ⟨?_, ?_⟩⟩
    · intro i hi ht
      by_cases hik : i = k
      · subst hik
        rw [hind] at ht
        exact harp_dimension_type.noConfusion ht
      · exact hd.time i (by omega) ht
    · intro i j hi hj he hn
      by_cases hik : i = k
      · subst hik
        exact absurd hind hn
      · by_cases hjk : j = k
        · subst hjk
          rw [he] at hn
          exact absurd hind hn
        · exact hd.shared i j (by omega) (by omega) he hn
    · intro t ht
      exact hs.unseen t (fun i hi => ht i (by omega))
    · intro i hi hn
      by_cases hik : i = k
      · subst hik
        exact absurd hind hn
      · exact hs.seen i (by omega) hn
  · rw [if_neg hind]
    by_cases htime : types.getD k harp_dimension_type.harp_dimension_independent =
        harp_dimension_type.harp_dimension_time ∧ k ≠ 0
    · right
      rw [if_pos htime]
      exact ⟨rfl, fun hok => htime.2 (hok.time k (by omega) htime.1)⟩
    · rw [if_neg htime]
      have htime' : types.getD k harp_dimension_type.harp_dimension_independent =
          harp_dimension_type.harp_dimension_time → k = 0 := by
        intro ht
        by_contra h0
        exact htime ⟨ht, h0⟩
      by_cases hfirst : seen (types.getD k harp_dimension_type.harp_dimension_independent) = -1
      · -- the first dimension of its type
        left
        rw [if_pos hfirst]
        have hnone : ∀ i, i < k →
            types.getD i harp_dimension_type.harp_dimension_independent ≠
              types.getD k harp_dimension_type.harp_dimension_independent := by
          intro i hi he
          have := hs.seen i hi (by rw [he]; exact hind)
          rw [he, hfirst] at this
          exact hlen i hi this.symm
        refine ⟨_, rfl, ⟨?_, ?_⟩, ⟨?_, ?_⟩⟩
        · intro i hi ht
          by_cases hik : i = k
          · subst hik
            exact htime' ht
          · exact hd.time i (by omega) ht
        · intro i j hi hj he hn
          by_cases hik : i = k
          · subst hik
            by_cases hjk : j = i
            · rw [hjk]
            · exact absurd he.symm (hnone j (by omega))
          · by_cases hjk : j = k
            · subst hjk
              exact absurd he (hnone i (by omega))
            · exact hd.shared i j (by omega) (by omega) he hn
        · intro t ht
          have hk := ht k (by omega)
          simp only [if_neg (Ne.symm hk)]
          exact hs.unseen t (fun i hi => ht i (by omega))
        · intro i hi hn
          by_cases hik : i = k
          · subst hik
            simp only [if_true]
          · simp only [if_neg (hnone i (by omega))]
            exact hs.seen i (by omega) hn
      · rw [if_neg hfirst]
        have hsome : ∃ i, i < k ∧
            types.getD i harp_dimension_type.harp_dimension_independent =
              types.getD k harp_dimension_type.harp_dimension_independent := by
          by_contra hno
          apply hfirst
          apply hs.unseen
          intro i hi he
          exact hno ⟨i, hi, he⟩
        obtain ⟨i0, hi0, he0⟩ := hsome
        have hseen0 := hs.seen i0 hi0 (by rw [he0]; exact hind)
        rw [he0] at hseen0
        by_cases hdiff : seen (types.getD k harp_dimension_type.harp_dimension_independent) ≠
            dimension.getD k 0
        · right
          rw [if_pos hdiff]
          refine ⟨rfl, fun hok => hdiff ?_⟩
          rw [hseen0]
          exact hok.shared i0 k (by omega) (by omega) he0 (by rw [he0]; exact hind)
        · left
          rw [if_neg hdiff]
          have hsame : seen (types.getD k harp_dimension_type.harp_dimension_independent) =
              dimension.getD k 0 := not_not.1 hdiff
          refine ⟨seen, rfl, ⟨?_, ?_⟩, ⟨?_, ?_⟩⟩
          · intro i hi ht
            by_cases hik : i = k
            · subst hik
              exact htime' ht
            · exact hd.time i (by omega) ht
          · intro i j hi hj he hn
            by_cases hik : i = k
            · subst hik
              by_cases hjk : j = i
              · rw [hjk]
              · have := hs.seen j (by omega) (by rw [← he]; exact hn)
                rw [← he, hsame] at this
                exact this
            · by_cases hjk : j = k
              · subst hjk
                have := hs.seen i (by omega) hn
                rw [he, hsame] at this
                exact this.symm
              · exact hd.shared i j (by omega) (by omega) he hn
          · intro t ht
            exact hs.unseen t (fun i hi => ht i (by omega))
          · intro i hi hn
            by_cases hik : i = k
            · subst hik
              exact hsame
            · exact hs.seen i (by omega) hn

/-- The loop of `harp_variable_new` over the first `k` dimensions, on
dimensions whose lengths are not -1: it passes when the conditions hold and
fails with invalid argument when they do not. -/
theorem new_check_loop (types : List harp_dimension_type) (dimension : List Int) :
    ∀ k, (∀ i, i < k → dimension.getD i 0 ≠ -1) →
      (NewDimsOK types dimension k ∧
        ∃ seen, (List.range k).foldlM (new_check_dimension types dimension) (fun _ => -1) =
            .ok seen ∧ NewSeenInv types dimension k seen) ∨
      (¬ NewDimsOK types dimension k ∧
        (List.range k).foldlM (new_check_dimension types dimension) (fun _ => -1) =
          .error harp_error.HARP_ERROR_INVALID_ARGUMENT) := by
  intro k
  induction k with
  | zero =>
    intro _
    left
    exact ⟨⟨fun i hi => by omega, fun i j hi => by omega⟩, _, rfl,
      ⟨fun _ _ => rfl, fun i hi => by omega⟩⟩
  | succ k ih =>
    intro hlen
    rw [foldlM_range_succ_gen]
    rcases ih (fun i hi => hlen i (by omega)) with ⟨hok, seen, hrun, hinv⟩ | ⟨hnot, hrun⟩
    · rw [hrun]
      rcases new_check_step hok hinv (fun i hi => hlen i (by omega)) with
        ⟨seen', hstep, hok', hinv'⟩ | ⟨hstep, hnot'⟩
      · left
        exact ⟨hok', seen', hstep, hinv'⟩
      · right
        exact ⟨hnot', hstep⟩
    · right
      rw [hrun]
      refine ⟨fun hok => hnot ⟨fun i hi => hok.time i (by omega),
        fun i j hi hj => hok.shared i j (by omega) (by omega)⟩, rfl⟩

/-- The call of `harp_variable_new` on dimensions whose lengths are not -1:
invalid argument when the checks do not accept the dimensions; otherwise stuck
on more than HARP_MAX_NUM_DIMS dimensions or a `NULL` name, out of memory when
the data buffer is not allocated, and the created variable in every other
case. -/
theorem new_run (HARP_MAX_NUM_DIMS : Nat) (allocates : Int → Bool)
    (vmin vmax : harp_data_type → Cell) (fresh : harp_variable) (heap : Heap)
    (name : Option String) (data_type : harp_data_type) (num_dimensions : Int)
    (dimension_type : Option (List harp_dimension_type)) (dimension : List Int)
    (hlen : ∀ i, i < num_dimensions.toNat → dimension.getD i 0 ≠ -1) :
    (¬ new_accepts num_dimensions dimension_type dimension →
      harp_variable_new HARP_MAX_NUM_DIMS allocates vmin vmax fresh heap name data_type
          num_dimensions dimension_type dimension =
        .ok (fail_with harp_error.HARP_ERROR_INVALID_ARGUMENT none heap)) ∧
    (new_accepts num_dimensions dimension_type dimension →
      harp_variable_new HARP_MAX_NUM_DIMS allocates vmin vmax fresh heap name data_type
          num_dimensions dimension_type dimension =
        if num_dimensions > HARP_MAX_NUM_DIMS then .error Stuck.invalid_write
        else
          match name with
          | none => .error Stuck.invalid_read
          | some s =>
            if allocates (dimension_product dimension 0 num_dimensions.toNat) = false then
              .ok (fail_with harp_error.HARP_ERROR_OUT_OF_MEMORY none heap)
            else
              .ok (succeed (created vmin vmax fresh s data_type num_dimensions dimension_type
                dimension) heap)) := by
  cases dimension_type with
  | none =>
    refine ⟨fun h => absurd trivial h, fun _ => ?_⟩
    unfold harp_variable_new
    simp only
    cases name <;> rfl
  | some types =>
    rcases new_check_loop types dimension num_dimensions.toNat hlen with
      ⟨hok, seen, hrun, _⟩ | ⟨hnot, hrun⟩
    · refine ⟨fun h => absurd hok h, fun _ => ?_⟩
      unfold harp_variable_new
      simp only [hrun]
      cases name <;> rfl
    · refine ⟨fun _ => ?_, fun h => absurd h hnot⟩
      unfold harp_variable_new
      simp only [hrun]

/-- The lengths and types of the created variable. -/
theorem created_dimension (vmin vmax : harp_data_type → Cell) (fresh : harp_variable)
    (name : String) (data_type : harp_data_type) (num_dimensions : Int)
    (dimension_type : Option (List harp_dimension_type)) (dimension : List Int) (i : Nat)
    (hi : i < num_dimensions.toNat) (hcap : num_dimensions.toNat ≤ fresh.dimension.length)
    (hcapt : num_dimensions.toNat ≤ fresh.dimension_type.length) :
    (created vmin vmax fresh name data_type num_dimensions dimension_type dimension).dimension.getD
        i 0 = dimension.getD i 0 ∧
    (created vmin vmax fresh name data_type num_dimensions dimension_type
        dimension).dimension_type.getD i harp_dimension_type.harp_dimension_independent =
      given_type dimension_type i := by
  unfold created
  simp only
  rw [(assign_entries_spec _ 0 _ _).2 i, (assign_entries_spec _ _ _ _).2 i,
    if_pos ⟨hi, by omega⟩, if_pos ⟨hi, by omega⟩]
  exact ⟨rfl, rfl⟩

/-- The element count of the created variable is the product of its lengths. -/
theorem created_product (vmin vmax : harp_data_type → Cell) (fresh : harp_variable)
    (name : String) (data_type : harp_data_type) (num_dimensions : Int)
    (dimension_type : Option (List harp_dimension_type)) (dimension : List Int)
    (hcap : num_dimensions.toNat ≤ fresh.dimension.length)
    (hcapt : num_dimensions.toNat ≤ fresh.dimension_type.length) :
    (created vmin vmax fresh name data_type num_dimensions dimension_type dimension).num_elements =
      dimension_product
        (created vmin vmax fresh name data_type num_dimensions dimension_type dimension).dimension
        0 num_dimensions.toNat := by
  show dimension_product dimension 0 num_dimensions.toNat = _
  apply dimension_product_congr
  intro i _ hi
  exact ((created_dimension vmin vmax fresh name data_type num_dimensions dimension_type
    dimension i hi hcap hcapt).1).symm

/-- A variable created by `harp_variable_new` from positive lengths, with at
most HARP_MAX_NUM_DIMS dimensions that its checks accept, satisfies the
conditions of `harp_variable_verify`, when the default bounds of the floating
point types are not NaN. -/
theorem created_verified (HARP_MAX_NUM_DIMS : Nat) (harp_unit_is_valid : String → Bool)
    (vmin vmax : harp_data_type → Cell) (fresh : harp_variable) (name : String)
    (data_type : harp_data_type) (num_dimensions : Int)
    (dimension_type : Option (List harp_dimension_type)) (dimension : List Int)
    (hcap : fresh.dimension.length = HARP_MAX_NUM_DIMS)
    (hcapt : fresh.dimension_type.length = HARP_MAX_NUM_DIMS)
    (hnd : 0 ≤ num_dimensions) (hmax : num_dimensions ≤ HARP_MAX_NUM_DIMS)
    (hpos : ∀ i, i < num_dimensions.toNat → 0 < dimension.getD i 0)
    (hok : new_accepts num_dimensions dimension_type dimension)
    (hminf : vmin harp_data_type.harp_type_float ≠ Cell.float_data harp_float.nan)
    (hmind : vmin harp_data_type.harp_type_double ≠ Cell.double_data harp_float.nan)
    (hmaxf : vmax harp_data_type.harp_type_float ≠ Cell.float_data harp_float.nan)
    (hmaxd : vmax harp_data_type.harp_type_double ≠ Cell.double_data harp_float.nan) :
    Verified HARP_MAX_NUM_DIMS harp_unit_is_valid
      (created vmin vmax fresh name data_type num_dimensions dimension_type dimension) := by
  have hc1 : num_dimensions.toNat ≤ fresh.dimension.length := by omega
  have hc2 : num_dimensions.toNat ≤ fresh.dimension_type.length := by omega
  have hD := fun i hi => created_dimension vmin vmax fresh name data_type num_dimensions
    dimension_type dimension i hi hc1 hc2
  have hprod := created_product vmin vmax fresh name data_type num_dimensions dimension_type
    dimension hc1 hc2
  have hgiven : ∀ i, given_type dimension_type i ≠
      harp_dimension_type.harp_dimension_independent →
      ∃ types, dimension_type = some types ∧
        given_type dimension_type i =
          types.getD i harp_dimension_type.harp_dimension_independent := by
    intro i hi
    cases dimension_type with
    | none => exact absurd rfl hi
    | some types => exact ⟨types, rfl, rfl⟩
  refine
    { name := fun h => Option.noConfusion h
      dims_lo := hnd
      dims_hi := hmax
      dims := ⟨?_, ?_, ?_⟩
      count_nonneg := ?_
      count := hprod
      data := fun _ h => Option.noConfusion h
      unit := fun u h => Option.noConfusion h
      valid_min := ?_
      valid_max := ?_ }
  · intro i hi ht
    have ht' : (created vmin vmax fresh name data_type num_dimensions dimension_type
        dimension).dimension_type.getD i harp_dimension_type.harp_dimension_independent =
        harp_dimension_type.harp_dimension_time := ht
    rw [(hD i hi).2] at ht'
    obtain ⟨types, rfl, hg⟩ :=
      hgiven i (by rw [ht']; exact fun h => harp_dimension_type.noConfusion h)
    have h0 : i = 0 := hok.time i hi (by rw [← hg]; exact ht')
    subst h0
    show (created vmin vmax fresh name data_type num_dimensions _
        dimension).dimension_type.getD 0 harp_dimension_type.harp_dimension_independent =
        harp_dimension_type.harp_dimension_time
    rw [(hD 0 hi).2]
    exact ht'
  · intro i hi
    show 0 < (created vmin vmax fresh name data_type num_dimensions dimension_type
      dimension).dimension.getD i 0
    rw [(hD i hi).1]
    exact hpos i hi
  · intro i j hi hj he hn
    show (created vmin vmax fresh name data_type num_dimensions dimension_type
      dimension).dimension.getD i 0 = (created vmin vmax fresh name data_type num_dimensions
      dimension_type dimension).dimension.getD j 0
    have he' : (created vmin vmax fresh name data_type num_dimensions dimension_type
      dimension).dimension_type.getD i harp_dimension_type.harp_dimension_independent =
      (created vmin vmax fresh name data_type num_dimensions dimension_type
      dimension).dimension_type.getD j harp_dimension_type.harp_dimension_independent := he
    have hn' : (created vmin vmax fresh name data_type num_dimensions dimension_type
      dimension).dimension_type.getD i harp_dimension_type.harp_dimension_independent ≠
      harp_dimension_type.harp_dimension_independent := hn
    rw [(hD i hi).2, (hD j hj).2] at he'
    rw [(hD i hi).2] at hn'
    obtain ⟨types, rfl, _⟩ := hgiven i hn'
    rw [(hD i hi).1, (hD j hj).1]
    exact hok.shared i j hi hj he' hn'
  · show 0 ≤ dimension_product dimension 0 num_dimensions.toNat
    exact Int.le_of_lt (dimension_product_pos _ (fun i _ hi => hpos i hi))
  · show ¬ ((data_type = harp_data_type.harp_type_float ∧
        (if data_type ≠ harp_data_type.harp_type_string then vmin data_type
          else fresh.valid_min) = Cell.float_data harp_float.nan) ∨
      (data_type = harp_data_type.harp_type_double ∧
        (if data_type ≠ harp_data_type.harp_type_string then vmin data_type
          else fresh.valid_min) = Cell.double_data harp_float.nan))
    rintro (⟨rfl, h⟩ | ⟨rfl, h⟩)
    · exact hminf h
    · exact hmind h
  · show ¬ ((data_type = harp_data_type.harp_type_float ∧
        (if data_type ≠ harp_data_type.harp_type_string then vmax data_type
          else fresh.valid_max) = Cell.float_data harp_float.nan) ∨
      (data_type = harp_data_type.harp_type_double ∧
        (if data_type ≠ harp_data_type.harp_type_string then vmax data_type
          else fresh.valid_max) = Cell.double_data harp_float.nan))
    rintro (⟨rfl, h⟩ | ⟨rfl, h⟩)
    · exact hmaxf h
    · exact hmaxd h

/-! ### harp_variable_copy -/

theorem peek_mem {cells : List Cell} {r : Nat} (hr : r < cells.length) : peek cells r ∈ cells := by
  rw [peek_eq_getElem?, List.getElem?_eq_getElem hr]
  exact List.getElem_mem hr

/-- On elements that all hold a string the loop of `harp_variable_copy`
duplicates every string. -/
theorem copy_strings_eq_dup :
    ∀ (cells : List Cell) (h : Heap),
      (∀ c, c ∈ cells → ∃ p, c = Cell.string_data (some p)) →
      copy_strings cells h = .ok (dup_cells cells h) := by
  intro cells
  induction cells with
  | nil =>
    intro h _
    rfl
  | cons c cs ih =>
    intro h hall
    obtain ⟨p, rfl⟩ := hall c (List.mem_cons_self _ _)
    rw [copy_strings, ih _ (fun c hc => hall c (List.mem_cons_of_mem _ hc))]
    rfl

/-- On elements one of which holds no string (a null element, for one) the
loop of `harp_variable_copy` is stuck in `strdup`. -/
theorem copy_strings_stuck :
    ∀ (cells : List Cell) (h : Heap),
      (∃ c, c ∈ cells ∧ ∀ p, c ≠ Cell.string_data (some p)) →
      copy_strings cells h = .error Stuck.invalid_read := by
  intro cells
  induction cells with
  | nil =>
    rintro h ⟨c, hc, _⟩
    exact absurd hc (List.not_mem_nil c)
  | cons c cs ih =>
    rintro h ⟨c', hc', hn⟩
    rcases ptr_or_not c with ⟨p, rfl⟩ | hnot
    · have hcs : c' ∈ cs := by
        rcases List.mem_cons.1 hc' with rfl | hm
        · exact absurd rfl (hn p)
        · exact hm
      rw [copy_strings, ih _ ⟨c', hcs, hn⟩]
    · cases c with
      | string_data q =>
        cases q with
        | none => rfl
        | some q => exact absurd rfl (hnot q)
      | _ => rfl

/-- The call of `harp_variable_copy` on a variable with a name, a buffer of
num_elements cells and at most HARP_MAX_NUM_DIMS dimensions, whose elements
all hold a string if it is a string variable: the copy, with every string
duplicated. -/
theorem copy_run (HARP_MAX_NUM_DIMS : Nat) (allocates : Int → Bool) (fresh : harp_variable)
    (heap : Heap) (v : harp_variable) (D : List Cell) (s : String)
    (hdata : v.data = some D) (hsize : D.length = v.num_elements.toNat)
    (hname : v.name = some s) (hmax : v.num_dimensions ≤ HARP_MAX_NUM_DIMS)
    (halloc : allocates v.num_elements = true)
    (hstr : v.data_type = harp_data_type.harp_type_string →
      ∀ c, c ∈ D → ∃ p, c = Cell.string_data (some p)) :
    harp_variable_copy HARP_MAX_NUM_DIMS allocates fresh heap (some v) =
      .ok (if v.data_type = harp_data_type.harp_type_string then
        succeed (copied fresh v (dup_cells D heap).1) (dup_cells D heap).2
      else succeed (copied fresh v D) heap) := by
  unfold harp_variable_copy
  simp only [if_neg (not_lt.2 hmax), hname, halloc, hdata, Bool.true_eq_false, if_false,
    gt_iff_lt]
  rw [← hsize, read_block_of_length rfl]
  by_cases ht : v.data_type = harp_data_type.harp_type_string
  · rw [if_pos ht, if_pos ht, copy_strings_eq_dup D heap (hstr ht)]
    simp only [copied, hname]
  · rw [if_neg ht, if_neg ht]
    simp only [copied, hname]

/-! ### Filtering as a rearrangement -/

/-- The call of `harp_variable_resize_dimension` whose `realloc` returns
`NULL`: it fails with out of memory; the variable keeps its lengths, its types
and its element count, and a call that was to grow the dimension leaves the
variable and the heap as they were. -/
theorem resize_out_of_memory (reallocates : Int → Bool) (heap : Heap) (v : harp_variable)
    (dim_index : Int) (length : Int) (h0 : 0 ≤ dim_index) (h1 : dim_index < v.num_dimensions)
    (hL : 0 < length) (hneq : length ≠ v.dimension.getD dim_index.toNat 0)
    (hre : reallocates (resized_num_elements v dim_index length) = false) :
    ∃ w heap',
      harp_variable_resize_dimension reallocates heap (some v) dim_index length =
        fail_with harp_error.HARP_ERROR_OUT_OF_MEMORY (some w) heap' ∧
      w.dimension = v.dimension ∧ w.dimension_type = v.dimension_type ∧
      w.num_dimensions = v.num_dimensions ∧ w.num_elements = v.num_elements ∧
      (v.dimension.getD dim_index.toNat 0 < length → w = v ∧ heap' = heap) := by
  have hLZ : ¬ (length ≤ 0) := by omega
  unfold resized_num_elements at hre
  unfold harp_variable_resize_dimension
  simp only [not_lt.2 h0, not_le.2 h1, or_self, if_false, hLZ, hneq, ge_iff_le, gt_iff_lt, hre,
    if_true]
  refine ⟨_, _, rfl, rfl, rfl, rfl, rfl, ?_⟩
  intro hgrow
  rw [if_neg (by omega)]
  refine ⟨?_, rfl⟩
  cases v with
  | mk name data_type num_dimensions dimension_type dimension num_elements data description
      unit valid_min valid_max =>
    cases data <;> rfl
/-! ## The claims -/

/-- C2: for every consistent variable with non-zero num_elements, every valid
dim_index and every mask with at least one non-zero entry for that dimension,
`harp_variable_filter_dimension` succeeds and performs a stable compaction:
the new dimension[dim_index] is the number of non-zero mask entries, and in
every group the blocks of the result are the blocks at the positions where the
mask is non-zero, in their original order (block t of the result is the block
at the t-th such position), with all other dimensions unchanged; with an
all-true mask the variable and the heap are left unchanged. -/
theorem C2_filter_dimension_compaction (heap : Heap) (v : harp_variable) (D : List Cell)
    (dim_index : Int) (mask : List Nat) (hv : Consistent heap v D) (hne : v.num_elements ≠ 0)
    (h0 : 0 ≤ dim_index) (h1 : dim_index < v.num_dimensions)
    (hsome : ∃ i, i < axis_length v dim_index ∧ mask.getD i 0 ≠ 0) :
    ∃ w D' heap',
      harp_variable_filter_dimension heap (some v) dim_index (some mask) = succeed w heap' ∧
      w.data = some D' ∧ D'.length = w.num_elements.toNat ∧
      w.dimension.getD dim_index.toNat 0 = (kept_positions mask (axis_length v dim_index)).length ∧
      (∀ i, i ≠ dim_index.toNat → w.dimension.getD i 0 = v.dimension.getD i 0) ∧
      w.dimension_type = v.dimension_type ∧ w.num_dimensions = v.num_dimensions ∧
      w.data_type = v.data_type ∧
      (∀ g t b, g < group_count v dim_index →
        t < (kept_positions mask (axis_length v dim_index)).length →
        b < block_length v dim_index →
        element heap'
            (peek D' (element_offset (kept_positions mask (axis_length v dim_index)).length
              (block_length v dim_index) g t b)) =
          element heap
            (peek D (element_offset (axis_length v dim_index) (block_length v dim_index) g
              ((kept_positions mask (axis_length v dim_index)).getD t 0) b))) ∧
      ((∀ i, i < axis_length v dim_index → mask.getD i 0 ≠ 0) → w = v ∧ heap' = heap) := by
  obtain ⟨i0, hi0, hm0⟩ := hsome
  have hcount : mask_count mask (axis_length v dim_index) ≠ 0 := mask_count_pos hi0 hm0
  have hdi : dim_index.toNat < v.num_dimensions.toNat := by omega
  have hdl : dim_index.toNat < v.dimension.length :=
    lt_length_of_getD_ne (shape_split hdi hv.product hne).2.2.1
  rw [length_kept_positions]
  by_cases hall : (mask_count mask (axis_length v dim_index) : Int) =
      v.dimension.getD dim_index.toNat 0
  · -- every position is kept
    have hdim : mask_count mask (axis_length v dim_index) = axis_length v dim_index := by
      unfold axis_length at *
      omega
    refine ⟨v, D, heap, filter_all heap v dim_index mask hne h0 h1 hcount hall, hv.data,
      hv.size, hall.symm, fun _ _ => rfl, rfl, rfl, rfl, ?_, fun _ => ⟨rfl, rfl⟩⟩
    intro g t b _ ht _
    have hnz := mask_count_eq_all _ hdim
    rw [hdim] at ht
    have := kept_positions_at mask (hnz t ht) _ ht
    rw [mask_count_all t (fun i hi => hnz i (by omega))] at this
    rw [this, hdim]
  · obtain ⟨D', heap', hcall, hlen, P, _, _⟩ :=
      filter_produces heap v D dim_index mask hv hne h0 h1 hcount hall
    refine ⟨_, D', heap', hcall, rfl, hlen, ?_, ?_, rfl, rfl, rfl, ?_, ?_⟩
    · rw [getD_reshaped_dimension, if_pos ⟨rfl, hdl⟩]
    · intro i hi
      rw [getD_reshaped_dimension, if_neg (fun h => hi h.1.symm)]
    · intro g t b hg ht hb
      have hlt := (element_offset_lt hg ht hb).2
      have hk := kept_positions_mem ht
      have := P.element_eq (OldPtrs.of_owns hv.wf hv.owns) hlt
        (Or.inl (sweep_filter_origin mask _ _ ht hb))
        (fun _ => filter_not_dropped hk.1 hk.2 hb)
      simp only [peek_read_block, if_pos hlt, Nat.zero_add] at this
      exact this
    · intro hevery
      exfalso
      apply hall
      rw [mask_count_all _ hevery]
      unfold axis_length at *
      omega

/-- The hypotheses of C2 hold for `sample_variable` and the mask `[1, 0, 1]`. -/
theorem C2_filter_dimension_compaction_witness :
    (Consistent sample_heap sample_variable sample_data ∧ sample_variable.num_elements ≠ 0 ∧
      (0 : Int) ≤ 0 ∧ (0 : Int) < sample_variable.num_dimensions ∧
      ∃ i, i < axis_length sample_variable 0 ∧ ([1, 0, 1] : List Nat).getD i 0 ≠ 0) ∧
    ∃ w D' heap',
      harp_variable_filter_dimension sample_heap (some sample_variable) 0 (some [1, 0, 1]) =
        succeed w heap' ∧
      w.data = some D' ∧ D'.length = w.num_elements.toNat ∧
      w.dimension.getD (0 : Int).toNat 0 =
        (kept_positions [1, 0, 1] (axis_length sample_variable 0)).length ∧
      (∀ i, i ≠ (0 : Int).toNat → w.dimension.getD i 0 = sample_variable.dimension.getD i 0) ∧
      w.dimension_type = sample_variable.dimension_type ∧
      w.num_dimensions = sample_variable.num_dimensions ∧
      w.data_type = sample_variable.data_type ∧
      (∀ g t b, g < group_count sample_variable 0 →
        t < (kept_positions [1, 0, 1] (axis_length sample_variable 0)).length →
        b < block_length sample_variable 0 →
        element heap'
            (peek D' (element_offset (kept_positions [1, 0, 1]
              (axis_length sample_variable 0)).length (block_length sample_variable 0) g t b)) =
          element sample_heap
            (peek sample_data (element_offset (axis_length sample_variable 0)
              (block_length sample_variable 0) g
              ((kept_positions [1, 0, 1] (axis_length sample_variable 0)).getD t 0) b))) ∧
      ((∀ i, i < axis_length sample_variable 0 → ([1, 0, 1] : List Nat).getD i 0 ≠ 0) →
        w = sample_variable ∧ heap' = sample_heap) :=
  ⟨⟨sample_consistent, by decide, by decide, by decide, ⟨0, by decide, by decide⟩⟩,
    C2_filter_dimension_compaction sample_heap sample_variable sample_data 0 [1, 0, 1]
      sample_consistent (by decide) (by decide) (by decide) ⟨0, by decide, by decide⟩⟩

/-- C10: for every variable and every dim_index, a call of
`harp_variable_filter_dimension` with a mask whose entries for that dimension
are all zero fails with an invalid argument error (return value -1) and leaves
the variable (shape, num_elements and every element) and the heap unchanged. -/
theorem C10_filter_dimension_all_false (heap : Heap) (v : harp_variable) (dim_index : Int)
    (mask : List Nat) (hzero : ∀ i, i < axis_length v dim_index → mask.getD i 0 = 0) :
    harp_variable_filter_dimension heap (some v) dim_index (some mask) =
      { ret := -1
        harp_errno := some harp_error.HARP_ERROR_INVALID_ARGUMENT
        var := some v
        heap := heap } :=
  filter_none heap v dim_index mask (mask_count_zero _ hzero)

/-- The hypothesis of C10 holds for `sample_variable` and the mask `[0, 0, 0]`. -/
theorem C10_filter_dimension_all_false_witness :
    (∀ i, i < axis_length sample_variable 0 → ([0, 0, 0] : List Nat).getD i 0 = 0) ∧
    harp_variable_filter_dimension sample_heap (some sample_variable) 0 (some [0, 0, 0]) =
      { ret := -1
        harp_errno := some harp_error.HARP_ERROR_INVALID_ARGUMENT
        var := some sample_variable
        heap := sample_heap } :=
  ⟨by decide,
    C10_filter_dimension_all_false sample_heap sample_variable 0 [0, 0, 0] (by decide)⟩

/-- C3 as stated fails for a variable without elements when `realloc` returns
`NULL` for a buffer of 0 elements: `empty_grid_variable` has the lengths 3 and
0 and the consistent num_elements 0; resizing its dimension 0 to 5 asks
`realloc` for 0 elements, and the call fails with out of memory and leaves the
variable with the length 3. -/
theorem C3_resize_dimension_elements_counterexample :
    Consistent sample_heap empty_grid_variable [] ∧
    empty_grid_variable.num_elements =
      dimension_product empty_grid_variable.dimension 0
        empty_grid_variable.num_dimensions.toNat ∧
    (0 : Int) ≤ 0 ∧ (0 : Int) < empty_grid_variable.num_dimensions ∧ (0 : Int) < 5 ∧
    resized_num_elements empty_grid_variable 0 5 = 0 ∧
    realloc_frees_empty 0 = false ∧
    harp_variable_resize_dimension realloc_frees_empty sample_heap (some empty_grid_variable)
        0 5 =
      fail_with harp_error.HARP_ERROR_OUT_OF_MEMORY (some empty_grid_variable) sample_heap ∧
    (fail_with harp_error.HARP_ERROR_OUT_OF_MEMORY (some empty_grid_variable) sample_heap).ret =
      -1 ∧
    empty_grid_variable.dimension.getD (0 : Int).toNat 0 = 3 :=
  ⟨{ wf := sample_consistent.wf
     owns := fun j p h => by
       rw [peek_of_le (Nat.zero_le j)] at h
       exact Cell.noConfusion h
     data := rfl
     size := rfl
     product := rfl },
    rfl, by decide, by decide, by decide, rfl, rfl, rfl, rfl, rfl⟩

/-- C3 (amended): for every consistent variable, every valid dim_index and every
new length L > 0, `harp_variable_resize_dimension` succeeds when L is the old
length or `realloc` returns a buffer for the new number of elements; it then
sets dimension[dim_index] to L and leaves the other lengths, the types, the
number of dimensions and the data type as they are; the result element at
(group g, position j, block offset b) has the value of the original element at
(g, j, b) for every j below the old length and L, and for every j from the old
length up to L it is 0 for int8, int16 and int32, NaN for float and double and
null for string; no element is reordered.  When L differs from the old length
and `realloc` returns `NULL`, the call fails with out of memory and the
variable keeps its lengths, types and num_elements. -/
theorem C3_resize_dimension_elements (reallocates : Int → Bool) (heap : Heap)
    (v : harp_variable) (D : List Cell)
    (dim_index : Int) (length : Int) (hv : Consistent heap v D)
    (hdims : v.num_dimensions.toNat ≤ v.dimension.length)
    (h0 : 0 ≤ dim_index) (h1 : dim_index < v.num_dimensions) (hL : 0 < length) :
    ((length = v.dimension.getD dim_index.toNat 0 ∨
        reallocates (resized_num_elements v dim_index length) = true) →
      ∃ w D' heap',
        harp_variable_resize_dimension reallocates heap (some v) dim_index length =
          succeed w heap' ∧
        w.data = some D' ∧ D'.length = w.num_elements.toNat ∧
        w.dimension.getD dim_index.toNat 0 = length ∧
        (∀ i, i ≠ dim_index.toNat → w.dimension.getD i 0 = v.dimension.getD i 0) ∧
        w.dimension_type = v.dimension_type ∧ w.num_dimensions = v.num_dimensions ∧
        w.data_type = v.data_type ∧
        w.num_elements = resized_num_elements v dim_index length ∧
        ∀ g j b, g < group_count v dim_index → j < length.toNat →
          b < block_length v dim_index →
          (j < axis_length v dim_index →
            element heap'
                (peek D' (element_offset length.toNat (block_length v dim_index) g j b)) =
              element heap
                (peek D (element_offset (axis_length v dim_index) (block_length v dim_index)
                  g j b))) ∧
          (axis_length v dim_index ≤ j →
            (v.data_type = harp_data_type.harp_type_int8 →
              peek D' (element_offset length.toNat (block_length v dim_index) g j b) =
                Cell.int8_data 0) ∧
            (v.data_type = harp_data_type.harp_type_int16 →
              peek D' (element_offset length.toNat (block_length v dim_index) g j b) =
                Cell.int16_data 0) ∧
            (v.data_type = harp_data_type.harp_type_int32 →
              peek D' (element_offset length.toNat (block_length v dim_index) g j b) =
                Cell.int32_data 0) ∧
            (v.data_type = harp_data_type.harp_type_float →
              peek D' (element_offset length.toNat (block_length v dim_index) g j b) =
                Cell.float_data harp_float.nan) ∧
            (v.data_type = harp_data_type.harp_type_double →
              peek D' (element_offset length.toNat (block_length v dim_index) g j b) =
                Cell.double_data harp_float.nan) ∧
            (v.data_type = harp_data_type.harp_type_string →
              peek D' (element_offset length.toNat (block_length v dim_index) g j b) =
                Cell.string_data none))) ∧
    (length ≠ v.dimension.getD dim_index.toNat 0 →
      reallocates (resized_num_elements v dim_index length) = false →
      ∃ w heap',
        harp_variable_resize_dimension reallocates heap (some v) dim_index length =
          fail_with harp_error.HARP_ERROR_OUT_OF_MEMORY (some w) heap' ∧
        w.dimension = v.dimension ∧ w.dimension_type = v.dimension_type ∧
        w.num_dimensions = v.num_dimensions ∧ w.num_elements = v.num_elements) := by
  constructor
  · intro hok
    by_cases heq : length = v.dimension.getD dim_index.toNat 0
    · refine ⟨v, D, heap, resize_same reallocates heap v dim_index length h0 h1 hL heq,
        hv.data, hv.size, heq.symm, fun _ _ => rfl, rfl, rfl, rfl, ?_, ?_⟩
      · rw [hv.product, dimension_product_at v.dimension (show dim_index.toNat <
          v.num_dimensions.toNat by omega), heq]
        rfl
      · intro g j b _ hj _
        have e : length.toNat = axis_length v dim_index := by
          unfold axis_length
          rw [heq]
        rw [e]
        exact ⟨fun _ => rfl, fun h => by omega⟩
    · have hre : reallocates (resized_num_elements v dim_index length) = true := by
        rcases hok with h | h
        · exact absurd h heq
        · exact h
      obtain ⟨D', heap', hcall, hlen, P⟩ :=
        resize_produces reallocates heap v D dim_index length hv h0 h1 hL heq hre
      refine ⟨_, D', heap', hcall, rfl, hlen, ?_, ?_, rfl, rfl, rfl, rfl, ?_⟩
      · rw [getD_reshaped_dimension, if_pos ⟨rfl, by omega⟩]
      · intro i hi
        rw [getD_reshaped_dimension, if_neg (fun h => hi h.1.symm)]
      · intro g j b hg hj hb
        have hlt := (element_offset_lt hg hj hb).2
        have ho := sweep_resize_origin v.data_type (axis_length v dim_index) length.toNat
          (block_length v dim_index) (g := g) hj hb
        constructor
        · intro hjd
          rw [if_pos hjd] at ho
          have := P.element_eq (OldPtrs.of_owns hv.wf hv.owns) hlt (Or.inl ho)
            (fun _ => resize_not_dropped hj hjd hb)
          simp only [peek_read_block, if_pos hlt, Nat.zero_add] at this
          exact this
        · intro hjd
          rw [if_neg (by omega)] at ho
          have := P.fill_eq hlt ho
          simp only [peek_read_block, if_pos hlt, Nat.zero_add] at this
          rw [this]
          refine ⟨fun h => ?_, fun h => ?_, fun h => ?_, fun h => ?_, fun h => ?_, fun h => ?_⟩ <;>
            rw [h] <;> rfl
  · intro hneq hre
    obtain ⟨w, heap', hcall, hd, ht, hn, he, _⟩ :=
      resize_out_of_memory reallocates heap v dim_index length h0 h1 hL hneq hre
    exact ⟨w, heap', hcall, hd, ht, hn, he⟩

/-- The hypotheses of the amended C3 hold for `sample_variable` and the new
length 5 of its dimension 0, with a `realloc` that returns a buffer. -/
theorem C3_resize_dimension_elements_witness :
    (Consistent sample_heap sample_variable sample_data ∧
      sample_variable.num_dimensions.toNat ≤ sample_variable.dimension.length ∧
      (0 : Int) ≤ 0 ∧ (0 : Int) < sample_variable.num_dimensions ∧ (0 : Int) < 5 ∧
      ((5 : Int) = sample_variable.dimension.getD (0 : Int).toNat 0 ∨
        (fun _ => true) (resized_num_elements sample_variable 0 5) = true)) ∧
    ∃ w D' heap',
      harp_variable_resize_dimension (fun _ => true) sample_heap (some sample_variable) 0 5 =
        succeed w heap' ∧
      w.data = some D' ∧ D'.length = w.num_elements.toNat ∧
      w.dimension.getD (0 : Int).toNat 0 = 5 ∧
      (∀ i, i ≠ (0 : Int).toNat → w.dimension.getD i 0 = sample_variable.dimension.getD i 0) ∧
      w.dimension_type = sample_variable.dimension_type ∧
      w.num_dimensions = sample_variable.num_dimensions ∧
      w.data_type = sample_variable.data_type ∧
      w.num_elements = resized_num_elements sample_variable 0 5 ∧
      ∀ g j b, g < group_count sample_variable 0 → j < (5 : Int).toNat →
        b < block_length sample_variable 0 →
        (j < axis_length sample_variable 0 →
          element heap'
              (peek D' (element_offset (5 : Int).toNat (block_length sample_variable 0) g j b)) =
            element sample_heap
              (peek sample_data (element_offset (axis_length sample_variable 0)
                (block_length sample_variable 0) g j b))) ∧
        (axis_length sample_variable 0 ≤ j →
          (sample_variable.data_type = harp_data_type.harp_type_int8 →
            peek D' (element_offset (5 : Int).toNat (block_length sample_variable 0) g j b) =
              Cell.int8_data 0) ∧
          (sample_variable.data_type = harp_data_type.harp_type_int16 →
            peek D' (element_offset (5 : Int).toNat (block_length sample_variable 0) g j b) =
              Cell.int16_data 0) ∧
          (sample_variable.data_type = harp_data_type.harp_type_int32 →
            peek D' (element_offset (5 : Int).toNat (block_length sample_variable 0) g j b) =
              Cell.int32_data 0) ∧
          (sample_variable.data_type = harp_data_type.harp_type_float →
            peek D' (element_offset (5 : Int).toNat (block_length sample_variable 0) g j b) =
              Cell.float_data harp_float.nan) ∧
          (sample_variable.data_type = harp_data_type.harp_type_double →
            peek D' (element_offset (5 : Int).toNat (block_length sample_variable 0) g j b) =
              Cell.double_data harp_float.nan) ∧
          (sample_variable.data_type = harp_data_type.harp_type_string →
            peek D' (element_offset (5 : Int).toNat (block_length sample_variable 0) g j b) =
              Cell.string_data none)) :=
  ⟨⟨sample_consistent, by decide, by decide, by decide, by decide, Or.inr rfl⟩,
    (C3_resize_dimension_elements (fun _ => true) sample_heap sample_variable sample_data 0 5
      sample_consistent (by decide) (by decide) (by decide) (by decide)).1 (Or.inr rfl)⟩

/-- C4: for every consistent variable with non-zero num_elements and fewer than
HARP_MAX_NUM_DIMS dimensions, every dim_index in [0, num_dimensions], every
length L > 0 and every dimension type accepted by the checks,
`harp_variable_add_dimension` succeeds and yields a variable with one more
dimension, where the new dimension of the given type and length L sits at index
dim_index, the dimensions formerly at indices >= dim_index are shifted up by
one with their types and lengths (those before dim_index stay), and the result
element at (outer index o, new-axis index j, inner offset e) has the value of
the original element at (o, e) for every j < L: all existing data is replicated
L times along the new axis. -/
theorem C4_add_dimension_elements (HARP_MAX_NUM_DIMS : Nat) (heap : Heap) (v : harp_variable)
    (D : List Cell) (dim_index : Int) (dimension_type : harp_dimension_type) (length : Int)
    (hv : Consistent heap v D) (hcap : v.dimension.length = HARP_MAX_NUM_DIMS)
    (hcapt : v.dimension_type.length = HARP_MAX_NUM_DIMS) (hne : v.num_elements ≠ 0)
    (h0 : 0 ≤ dim_index) (h1 : dim_index ≤ v.num_dimensions) (hL : 0 < length)
    (hmax : v.num_dimensions < HARP_MAX_NUM_DIMS)
    (hacc : add_accepts v dim_index dimension_type length) :
    ∃ w D' heap',
      harp_variable_add_dimension HARP_MAX_NUM_DIMS heap (some v) dim_index dimension_type length =
        succeed w heap' ∧
      w.data = some D' ∧ D'.length = w.num_elements.toNat ∧
      w.num_dimensions = v.num_dimensions + 1 ∧
      w.dimension.getD dim_index.toNat 0 = length ∧
      w.dimension_type.getD dim_index.toNat harp_dimension_type.harp_dimension_independent =
        dimension_type ∧
      (∀ i, i < dim_index.toNat →
        w.dimension.getD i 0 = v.dimension.getD i 0 ∧
        w.dimension_type.getD i harp_dimension_type.harp_dimension_independent =
          v.dimension_type.getD i harp_dimension_type.harp_dimension_independent) ∧
      (∀ i, dim_index.toNat ≤ i → i < v.num_dimensions.toNat →
        w.dimension.getD (i + 1) 0 = v.dimension.getD i 0 ∧
        w.dimension_type.getD (i + 1) harp_dimension_type.harp_dimension_independent =
          v.dimension_type.getD i harp_dimension_type.harp_dimension_independent) ∧
      w.data_type = v.data_type ∧
      ∀ o j e, o < group_count v dim_index → j < length.toNat → e < inner_length v dim_index →
        element heap' (peek D' (element_offset length.toNat (inner_length v dim_index) o j e)) =
          element heap (peek D (o * inner_length v dim_index + e)) := by
  obtain ⟨D', heap', hcall, hlen, hsweep⟩ := add_dimension_run HARP_MAX_NUM_DIMS heap v D
    dim_index dimension_type length hv.data hne hv.product h0 h1 hL hmax hacc
  have P := (sweep_produces (add_dimension_ref v.data_type length.toNat)
    (inner_length v dim_index) (length.toNat * inner_length v dim_index)
    (add_origin v.data_type (inner_length v dim_index)) (fun _ => False)
    (fun grp h hl hp' hl' => add_dimension_produces v.data_type _ _ grp h hl hp' hl')
    (add_origin_source v.data_type _ _) D heap (OldPtrs.of_owns hv.wf hv.owns)
    (fun j p hj => (hv.owns j p hj).1) (group_count v dim_index)).2
  rw [← hsweep] at P
  have hdim : ∀ i, (extended v dim_index dimension_type length D').dimension.getD i 0 =
      if i = dim_index.toNat then length
      else if dim_index.toNat < i ∧ i < (v.num_dimensions + 1).toNat then v.dimension.getD (i - 1) 0
      else v.dimension.getD i 0 := by
    intro i
    unfold extended
    simp only
    rw [getD_set_int, length_shift_up, getD_shift_up]
    split_ifs <;> first | rfl | (exfalso; omega)
  have htyp : ∀ i, (extended v dim_index dimension_type length D').dimension_type.getD i
        harp_dimension_type.harp_dimension_independent =
      if i = dim_index.toNat then dimension_type
      else if dim_index.toNat < i ∧ i < (v.num_dimensions + 1).toNat then
        v.dimension_type.getD (i - 1) harp_dimension_type.harp_dimension_independent
      else v.dimension_type.getD i harp_dimension_type.harp_dimension_independent := by
    intro i
    unfold extended
    simp only
    rw [getD_set_gen, length_shift_up, getD_shift_up]
    split_ifs <;> first | rfl | (exfalso; omega)
  refine ⟨_, D', heap', hcall, rfl, hlen, rfl, ?_, ?_, ?_, ?_, rfl, ?_⟩
  · rw [hdim, if_pos rfl]
  · rw [htyp, if_pos rfl]
  · intro i hi
    rw [hdim, htyp, if_neg (by omega), if_neg (by omega), if_neg (by omega), if_neg (by omega)]
    exact ⟨rfl, rfl⟩
  · intro i hi hi'
    rw [hdim, htyp, if_neg (by omega), if_pos ⟨by omega, by omega⟩, if_neg (by omega),
      if_pos ⟨by omega, by omega⟩]
    exact ⟨rfl, rfl⟩
  · intro o j e ho hj he
    have hlt := (element_offset_lt ho hj he).2
    have hor := sweep_add_origin v.data_type length.toNat (inner_length v dim_index) (o := o) hj he
    have := P.element_eq (OldPtrs.of_owns hv.wf hv.owns) hlt
      (j := o * inner_length v dim_index + e)
      (by
        rw [hor]
        split
        · exact Or.inr rfl
        · exact Or.inl rfl)
      (fun _ => sweep_dropped_false _ _ _)
    simp only [peek_read_block, if_pos hlt, Nat.zero_add] at this
    exact this

/-- The hypotheses of C4 hold for `sample_variable` and a new latitude dimension of
length 2 at index 1, with room for 8 dimensions. -/
theorem C4_add_dimension_elements_witness :
    (Consistent sample_heap sample_variable sample_data ∧
      sample_variable.dimension.length = 8 ∧ sample_variable.dimension_type.length = 8 ∧
      sample_variable.num_elements ≠ 0 ∧ (0 : Int) ≤ 1 ∧
      (1 : Int) ≤ sample_variable.num_dimensions ∧ (0 : Int) < 2 ∧
      sample_variable.num_dimensions < ((8 : Nat) : Int) ∧
      add_accepts sample_variable 1 harp_dimension_type.harp_dimension_latitude 2) ∧
    ∃ w D' heap',
      harp_variable_add_dimension 8 sample_heap (some sample_variable) 1
          harp_dimension_type.harp_dimension_latitude 2 = succeed w heap' ∧
      w.data = some D' ∧ D'.length = w.num_elements.toNat ∧
      w.num_dimensions = sample_variable.num_dimensions + 1 ∧
      w.dimension.getD (1 : Int).toNat 0 = 2 ∧
      w.dimension_type.getD (1 : Int).toNat harp_dimension_type.harp_dimension_independent =
        harp_dimension_type.harp_dimension_latitude ∧
      (∀ i, i < (1 : Int).toNat →
        w.dimension.getD i 0 = sample_variable.dimension.getD i 0 ∧
        w.dimension_type.getD i harp_dimension_type.harp_dimension_independent =
          sample_variable.dimension_type.getD i harp_dimension_type.harp_dimension_independent) ∧
      (∀ i, (1 : Int).toNat ≤ i → i < sample_variable.num_dimensions.toNat →
        w.dimension.getD (i + 1) 0 = sample_variable.dimension.getD i 0 ∧
        w.dimension_type.getD (i + 1) harp_dimension_type.harp_dimension_independent =
          sample_variable.dimension_type.getD i harp_dimension_type.harp_dimension_independent) ∧
      w.data_type = sample_variable.data_type ∧
      ∀ o j e, o < group_count sample_variable 1 → j < (2 : Int).toNat →
        e < inner_length sample_variable 1 →
        element heap'
            (peek D' (element_offset (2 : Int).toNat (inner_length sample_variable 1) o j e)) =
          element sample_heap (peek sample_data (o * inner_length sample_variable 1 + e)) :=
  ⟨⟨sample_consistent, by decide, by decide, by decide, by decide, by decide, by decide,
      by decide, by unfold add_accepts; decide⟩,
    C4_add_dimension_elements 8 sample_heap sample_variable sample_data 1
      harp_dimension_type.harp_dimension_latitude 2 sample_consistent (by decide) (by decide)
      (by decide) (by decide) (by decide) (by decide) (by decide)
      (by unfold add_accepts; decide)⟩

/-- C6: for every variable whose num_elements equals the product of its
dimension lengths (its dimension array having HARP_MAX_NUM_DIMS entries, at
least num_dimensions of them in use), after any successful call of
`harp_variable_rearrange_dimension`, `harp_variable_filter_dimension`,
`harp_variable_resize_dimension`, `harp_variable_add_dimension` or
`harp_variable_remove_dimension`, num_elements again equals the product of the
new dimension lengths. -/
theorem C6_num_elements_is_product (HARP_MAX_NUM_DIMS : Nat) (fuel : Nat) (heap : Heap)
    (v : harp_variable)
    (hprod : v.num_elements = dimension_product v.dimension 0 v.num_dimensions.toNat)
    (hcap : v.dimension.length = HARP_MAX_NUM_DIMS)
    (hnd : v.num_dimensions ≤ HARP_MAX_NUM_DIMS) :
    (∀ dim_index n ids r,
      harp_variable_rearrange_dimension fuel heap (some v) dim_index n ids = .ok r → r.ret = 0 →
      ∃ w, r.var = some w ∧
        w.num_elements = dimension_product w.dimension 0 w.num_dimensions.toNat) ∧
    (∀ dim_index mask r,
      harp_variable_filter_dimension heap (some v) dim_index mask = r → r.ret = 0 →
      ∃ w, r.var = some w ∧
        w.num_elements = dimension_product w.dimension 0 w.num_dimensions.toNat) ∧
    (∀ reallocates dim_index length r,
      harp_variable_resize_dimension reallocates heap (some v) dim_index length = r →
      r.ret = 0 →
      ∃ w, r.var = some w ∧
        w.num_elements = dimension_product w.dimension 0 w.num_dimensions.toNat) ∧
    (∀ dim_index dimension_type length r,
      harp_variable_add_dimension HARP_MAX_NUM_DIMS heap (some v) dim_index dimension_type
        length = r → r.ret = 0 →
      ∃ w, r.var = some w ∧
        w.num_elements = dimension_product w.dimension 0 w.num_dimensions.toNat) ∧
    (∀ dim_index index r,
      harp_variable_remove_dimension fuel heap (some v) dim_index index = .ok r → r.ret = 0 →
      ∃ w, r.var = some w ∧
        w.num_elements = dimension_product w.dimension 0 w.num_dimensions.toNat) := by
  refine ⟨?_, ?_, ?_, ?_, ?_⟩
  · intro dim_index n ids r hcall hret
    obtain ⟨_, h0, h1, _, _, D', hvar⟩ := rearrange_success hprod hcall hret
    exact ⟨_, hvar, reshaped_product v dim_index n D' (by omega) (by omega)⟩
  · intro dim_index mask r hcall hret
    obtain ⟨h0, h1, _, hvar | ⟨m, D', _, _, hvar⟩⟩ := filter_success hprod hcall hret
    · exact ⟨v, hvar, hprod⟩
    · exact ⟨_, hvar, reshaped_product v dim_index _ D' (by omega) (by omega)⟩
  · intro reallocates dim_index length r hcall hret
    obtain ⟨h0, h1, _, hvar | ⟨D', hvar⟩⟩ := resize_success hcall hret
    · exact ⟨v, hvar, hprod⟩
    · exact ⟨_, hvar, reshaped_product v dim_index length D' (by omega) (by omega)⟩
  · intro dim_index dimension_type length r hcall hret
    obtain ⟨h0, h1, _, hmax, _, _, D', hvar⟩ := add_dimension_success hprod hcall hret
    have hlt : v.num_dimensions < HARP_MAX_NUM_DIMS := lt_of_le_of_ne hnd hmax
    exact ⟨_, hvar, extended_product v dim_index dimension_type length D' h0 h1 (by omega)⟩
  · intro dim_index index r hcall hret
    obtain ⟨h0, h1, _, _, D', hvar⟩ := remove_dimension_success hprod hcall hret
    exact ⟨_, hvar, collapsed_product v dim_index D' (by omega) (by omega) (by omega)⟩

/-- The hypotheses of C6 hold for `sample_variable`, with room for 8 dimensions. -/
theorem C6_num_elements_is_product_witness :
    (sample_variable.num_elements =
        dimension_product sample_variable.dimension 0 sample_variable.num_dimensions.toNat ∧
      sample_variable.dimension.length = 8 ∧ sample_variable.num_dimensions ≤ ((8 : Nat) : Int)) ∧
    ((∀ dim_index n ids r,
      harp_variable_rearrange_dimension 4 sample_heap (some sample_variable) dim_index n ids =
        .ok r → r.ret = 0 →
      ∃ w, r.var = some w ∧
        w.num_elements = dimension_product w.dimension 0 w.num_dimensions.toNat) ∧
    (∀ dim_index mask r,
      harp_variable_filter_dimension sample_heap (some sample_variable) dim_index mask = r →
      r.ret = 0 →
      ∃ w, r.var = some w ∧
        w.num_elements = dimension_product w.dimension 0 w.num_dimensions.toNat) ∧
    (∀ reallocates dim_index length r,
      harp_variable_resize_dimension reallocates sample_heap (some sample_variable) dim_index
        length = r →
      r.ret = 0 →
      ∃ w, r.var = some w ∧
        w.num_elements = dimension_product w.dimension 0 w.num_dimensions.toNat) ∧
    (∀ dim_index dimension_type length r,
      harp_variable_add_dimension 8 sample_heap (some sample_variable) dim_index dimension_type
        length = r → r.ret = 0 →
      ∃ w, r.var = some w ∧
        w.num_elements = dimension_product w.dimension 0 w.num_dimensions.toNat) ∧
    (∀ dim_index index r,
      harp_variable_remove_dimension 4 sample_heap (some sample_variable) dim_index index =
        .ok r → r.ret = 0 →
      ∃ w, r.var = some w ∧
        w.num_elements = dimension_product w.dimension 0 w.num_dimensions.toNat)) :=
  ⟨⟨by decide, by decide, by decide⟩,
    C6_num_elements_is_product 8 4 sample_heap sample_variable (by decide) (by decide)
      (by decide)⟩

/-- C7 as stated fails: `grid_variable`, with two latitude dimensions of length 3, passes
`harp_variable_verify`; resizing, filtering or rearranging its dimension 0 to length 2
succeeds, and `harp_variable_verify` then reports the length mismatch at dimension 1. -/
theorem C7_verify_after_reshape_counterexample :
    harp_variable_verify 8 (fun _ => true) (some grid_variable) = .ok () ∧
    (harp_variable_resize_dimension (fun _ => true) empty_heap (some grid_variable) 0 2).ret =
      0 ∧
    harp_variable_verify 8 (fun _ => true)
        (harp_variable_resize_dimension (fun _ => true) empty_heap (some grid_variable) 0
          2).var =
      .error (verify_error.dimension_length_mismatch 1) ∧
    (harp_variable_filter_dimension empty_heap (some grid_variable) 0 (some [1, 0, 1])).ret = 0 ∧
    harp_variable_verify 8 (fun _ => true)
        (harp_variable_filter_dimension empty_heap (some grid_variable) 0 (some [1, 0, 1])).var =
      .error (verify_error.dimension_length_mismatch 1) ∧
    ∃ r, harp_variable_rearrange_dimension 4 empty_heap (some grid_variable) 0 2 (some [2, 0]) =
        .ok r ∧ r.ret = 0 ∧
      harp_variable_verify 8 (fun _ => true) r.var =
        .error (verify_error.dimension_length_mismatch 1) :=
  ⟨rfl, rfl, rfl, rfl, rfl, _, rfl, rfl, rfl⟩

/-- C7 (amended): for every variable that passes `harp_variable_verify` and all
arguments accepted by the primitive, after a successful
`harp_variable_rearrange_dimension`, `harp_variable_filter_dimension` or
`harp_variable_resize_dimension` on a dimension whose type is independent or is
not the type of any other dimension of the variable, the variable still passes
`harp_variable_verify`. -/
theorem C7_verify_after_reshape (HARP_MAX_NUM_DIMS : Nat) (harp_unit_is_valid : String → Bool)
    (fuel : Nat) (heap : Heap) (v : harp_variable) (dim_index : Int)
    (hver : harp_variable_verify HARP_MAX_NUM_DIMS harp_unit_is_valid (some v) = .ok ())
    (hu : unshared v dim_index) :
    (∀ n ids r,
      harp_variable_rearrange_dimension fuel heap (some v) dim_index n ids = .ok r → r.ret = 0 →
      harp_variable_verify HARP_MAX_NUM_DIMS harp_unit_is_valid r.var = .ok ()) ∧
    (∀ mask r,
      harp_variable_filter_dimension heap (some v) dim_index mask = r → r.ret = 0 →
      harp_variable_verify HARP_MAX_NUM_DIMS harp_unit_is_valid r.var = .ok ()) ∧
    (∀ reallocates length r,
      harp_variable_resize_dimension reallocates heap (some v) dim_index length = r →
      r.ret = 0 →
      harp_variable_verify HARP_MAX_NUM_DIMS harp_unit_is_valid r.var = .ok ()) := by
  have hV := (verify_iff HARP_MAX_NUM_DIMS harp_unit_is_valid v).1 hver
  refine ⟨?_, ?_, ?_⟩
  · intro n ids r hcall hret
    obtain ⟨hn, h0, h1, _, _, D', hvar⟩ := rearrange_success hV.count hcall hret
    rw [hvar]
    exact (verify_iff _ _ _).2 (hV.reshaped h0 h1 hn hu D')
  · intro mask r hcall hret
    obtain ⟨h0, h1, _, hvar | ⟨m, D', _, hcnt, hvar⟩⟩ := filter_success hV.count hcall hret
    · rw [hvar]
      exact hver
    · rw [hvar]
      exact (verify_iff _ _ _).2 (hV.reshaped h0 h1 (by omega) hu D')
  · intro reallocates length r hcall hret
    obtain ⟨h0, h1, hL, hvar | ⟨D', hvar⟩⟩ := resize_success hcall hret
    · rw [hvar]
      exact hver
    · rw [hvar]
      exact (verify_iff _ _ _).2 (hV.reshaped h0 h1 hL hu D')

/-- The hypotheses of the amended C7 hold for `sample_variable` and its one dimension. -/
theorem C7_verify_after_reshape_witness :
    (harp_variable_verify 8 (fun _ => true) (some sample_variable) = .ok () ∧
      unshared sample_variable 0) ∧
    ((∀ n ids r,
      harp_variable_rearrange_dimension 4 sample_heap (some sample_variable) 0 n ids = .ok r →
      r.ret = 0 → harp_variable_verify 8 (fun _ => true) r.var = .ok ()) ∧
    (∀ mask r,
      harp_variable_filter_dimension sample_heap (some sample_variable) 0 mask = r → r.ret = 0 →
      harp_variable_verify 8 (fun _ => true) r.var = .ok ()) ∧
    (∀ reallocates length r,
      harp_variable_resize_dimension reallocates sample_heap (some sample_variable) 0 length =
        r →
      r.ret = 0 → harp_variable_verify 8 (fun _ => true) r.var = .ok ())) :=
  ⟨⟨rfl, by unfold unshared; decide⟩,
    C7_verify_after_reshape 8 (fun _ => true) 4 sample_heap sample_variable 0 rfl
      (by unfold unshared; decide)⟩

/-- C8 as stated fails: `series_variable` passes `harp_variable_verify`, a latitude
dimension is added at index 0 with success, and `harp_variable_verify` then reports the
inner time dimension at index 1; `cube_variable` (time, latitude, time) passes
`harp_variable_verify`, its dimension 0 is removed with success, and the same error
results. -/
theorem C8_verify_after_add_remove_counterexample :
    harp_variable_verify 8 (fun _ => true) (some series_variable) = .ok () ∧
    (harp_variable_add_dimension 8 empty_heap (some series_variable) 0
      harp_dimension_type.harp_dimension_latitude 3).ret = 0 ∧
    harp_variable_verify 8 (fun _ => true)
        (harp_variable_add_dimension 8 empty_heap (some series_variable) 0
          harp_dimension_type.harp_dimension_latitude 3).var =
      .error (verify_error.inner_time_dimension 1) ∧
    harp_variable_verify 8 (fun _ => true) (some cube_variable) = .ok () ∧
    ∃ r, harp_variable_remove_dimension 4 empty_heap (some cube_variable) 0 0 = .ok r ∧
      r.ret = 0 ∧
      harp_variable_verify 8 (fun _ => true) r.var =
        .error (verify_error.inner_time_dimension 1) :=
  ⟨rfl, rfl, rfl, rfl, _, rfl, rfl, rfl⟩

/-- C8 (amended): for every variable that passes `harp_variable_verify` and all
arguments accepted by the primitive, after a successful
`harp_variable_add_dimension` that does not put the new dimension at index 0 of
a variable whose dimension 0 is a time dimension, and after a successful
`harp_variable_remove_dimension` that does not remove dimension 0 while a later
dimension is a time dimension, the variable still passes
`harp_variable_verify`; in particular, if a dimension of the result is a time
dimension then its dimension 0 is one. -/
theorem C8_verify_after_add_remove (HARP_MAX_NUM_DIMS : Nat)
    (harp_unit_is_valid : String → Bool) (fuel : Nat) (heap : Heap) (v : harp_variable)
    (hver : harp_variable_verify HARP_MAX_NUM_DIMS harp_unit_is_valid (some v) = .ok ())
    (hcap : v.dimension.length = HARP_MAX_NUM_DIMS)
    (hcapt : v.dimension_type.length = HARP_MAX_NUM_DIMS) :
    (∀ dim_index dimension_type length r,
      harp_variable_add_dimension HARP_MAX_NUM_DIMS heap (some v) dim_index dimension_type
        length = r → r.ret = 0 →
      ¬ (dim_index = 0 ∧ 1 ≤ v.num_dimensions ∧
        v.dimension_type.getD 0 harp_dimension_type.harp_dimension_independent =
          harp_dimension_type.harp_dimension_time) →
      harp_variable_verify HARP_MAX_NUM_DIMS harp_unit_is_valid r.var = .ok () ∧
      ∃ w, r.var = some w ∧ ∀ i, i < w.num_dimensions.toNat →
        w.dimension_type.getD i harp_dimension_type.harp_dimension_independent =
          harp_dimension_type.harp_dimension_time →
        w.dimension_type.getD 0 harp_dimension_type.harp_dimension_independent =
          harp_dimension_type.harp_dimension_time) ∧
    (∀ dim_index index r,
      harp_variable_remove_dimension fuel heap (some v) dim_index index = .ok r → r.ret = 0 →
      (dim_index = 0 → ∀ i, 1 ≤ i → i < v.num_dimensions.toNat →
        v.dimension_type.getD i harp_dimension_type.harp_dimension_independent ≠
          harp_dimension_type.harp_dimension_time) →
      harp_variable_verify HARP_MAX_NUM_DIMS harp_unit_is_valid r.var = .ok () ∧
      ∃ w, r.var = some w ∧ ∀ i, i < w.num_dimensions.toNat →
        w.dimension_type.getD i harp_dimension_type.harp_dimension_independent =
          harp_dimension_type.harp_dimension_time →
        w.dimension_type.getD 0 harp_dimension_type.harp_dimension_independent =
          harp_dimension_type.harp_dimension_time) := by
  have hV := (verify_iff HARP_MAX_NUM_DIMS harp_unit_is_valid v).1 hver
  have hhi := hV.dims_hi
  have hlo := hV.dims_lo
  refine ⟨?_, ?_⟩
  · intro dim_index dimension_type length r hcall hret hfront
    obtain ⟨h0, h1, hL, hmax, _, hacc, D', hvar⟩ := add_dimension_success hV.count hcall hret
    have hW := hV.extended h0 h1 hL (lt_of_le_of_ne hhi hmax) hcap hcapt hacc hfront D'
    rw [hvar]
    exact ⟨(verify_iff _ _ _).2 hW, _, rfl, hW.dims.time⟩
  · intro dim_index index r hcall hret htime
    obtain ⟨h0, h1, _, _, D', hvar⟩ := remove_dimension_success hV.count hcall hret
    have hW := hV.collapsed h0 h1 (by omega) htime D'
    rw [hvar]
    exact ⟨(verify_iff _ _ _).2 hW, _, rfl, hW.dims.time⟩

/-- The hypotheses of the amended C8 hold for `series_variable`, with room for 8
dimensions. -/
theorem C8_verify_after_add_remove_witness :
    (harp_variable_verify 8 (fun _ => true) (some series_variable) = .ok () ∧
      series_variable.dimension.length = 8 ∧ series_variable.dimension_type.length = 8) ∧
    ((∀ dim_index dimension_type length r,
      harp_variable_add_dimension 8 empty_heap (some series_variable) dim_index dimension_type
        length = r → r.ret = 0 →
      ¬ (dim_index = 0 ∧ 1 ≤ series_variable.num_dimensions ∧
        series_variable.dimension_type.getD 0 harp_dimension_type.harp_dimension_independent =
          harp_dimension_type.harp_dimension_time) →
      harp_variable_verify 8 (fun _ => true) r.var = .ok () ∧
      ∃ w, r.var = some w ∧ ∀ i, i < w.num_dimensions.toNat →
        w.dimension_type.getD i harp_dimension_type.harp_dimension_independent =
          harp_dimension_type.harp_dimension_time →
        w.dimension_type.getD 0 harp_dimension_type.harp_dimension_independent =
          harp_dimension_type.harp_dimension_time) ∧
    (∀ dim_index index r,
      harp_variable_remove_dimension 4 empty_heap (some series_variable) dim_index index =
        .ok r → r.ret = 0 →
      (dim_index = 0 → ∀ i, 1 ≤ i → i < series_variable.num_dimensions.toNat →
        series_variable.dimension_type.getD i harp_dimension_type.harp_dimension_independent ≠
          harp_dimension_type.harp_dimension_time) →
      harp_variable_verify 8 (fun _ => true) r.var = .ok () ∧
      ∃ w, r.var = some w ∧ ∀ i, i < w.num_dimensions.toNat →
        w.dimension_type.getD i harp_dimension_type.harp_dimension_independent =
          harp_dimension_type.harp_dimension_time →
        w.dimension_type.getD 0 harp_dimension_type.harp_dimension_independent =
          harp_dimension_type.harp_dimension_time)) :=
  ⟨⟨rfl, rfl, rfl⟩,
    C8_verify_after_add_remove 8 (fun _ => true) 4 empty_heap series_variable rfl rfl rfl⟩

/-- C11 as stated fails in its first case: `swath_variable` has a time dimension
(at index 1, of length 3), and adding a time dimension of length 3 at index 0
succeeds. -/
theorem C11_add_dimension_rejections_counterexample :
    (∃ i, i < swath_variable.num_dimensions.toNat ∧
      swath_variable.dimension_type.getD i harp_dimension_type.harp_dimension_independent =
        harp_dimension_type.harp_dimension_time) ∧
    (harp_variable_add_dimension 8 empty_heap (some swath_variable) 0
      harp_dimension_type.harp_dimension_time 3).ret = 0 :=
  ⟨⟨1, by decide, rfl⟩, rfl⟩

/-- C11 (amended): `harp_variable_add_dimension` fails with an invalid argument
error and leaves the variable (and the heap) unchanged in each of these cases:
the new dimension type is time and dimension 0 of the variable is a time
dimension; the new dimension type is time and dim_index is not 0; the new
dimension type is not independent and an existing dimension of the same type
has a length different from the requested length; the variable already has
HARP_MAX_NUM_DIMS dimensions.  The first case covers every variable that has a
time dimension and obeys the rule of `harp_variable_verify` for time
dimensions (no time dimension unless dimension 0 is one). -/
theorem C11_add_dimension_rejections (HARP_MAX_NUM_DIMS : Nat) (heap : Heap) (v : harp_variable)
    (dim_index : Int) (dimension_type : harp_dimension_type) (length : Int) :
    (dimension_type = harp_dimension_type.harp_dimension_time →
      1 ≤ v.num_dimensions →
      v.dimension_type.getD 0 harp_dimension_type.harp_dimension_independent =
        harp_dimension_type.harp_dimension_time →
      harp_variable_add_dimension HARP_MAX_NUM_DIMS heap (some v) dim_index dimension_type length =
        fail_with harp_error.HARP_ERROR_INVALID_ARGUMENT (some v) heap) ∧
    (dimension_type = harp_dimension_type.harp_dimension_time → dim_index ≠ 0 →
      harp_variable_add_dimension HARP_MAX_NUM_DIMS heap (some v) dim_index dimension_type length =
        fail_with harp_error.HARP_ERROR_INVALID_ARGUMENT (some v) heap) ∧
    (dimension_type ≠ harp_dimension_type.harp_dimension_independent →
      (∃ i, i < v.num_dimensions.toNat ∧
        v.dimension_type.getD i harp_dimension_type.harp_dimension_independent = dimension_type ∧
        v.dimension.getD i 0 ≠ length) →
      harp_variable_add_dimension HARP_MAX_NUM_DIMS heap (some v) dim_index dimension_type length =
        fail_with harp_error.HARP_ERROR_INVALID_ARGUMENT (some v) heap) ∧
    (v.num_dimensions = HARP_MAX_NUM_DIMS →
      harp_variable_add_dimension HARP_MAX_NUM_DIMS heap (some v) dim_index dimension_type length =
        fail_with harp_error.HARP_ERROR_INVALID_ARGUMENT (some v) heap) ∧
    (dimension_type = harp_dimension_type.harp_dimension_time →
      (∀ i, i < v.num_dimensions.toNat →
        v.dimension_type.getD i harp_dimension_type.harp_dimension_independent =
          harp_dimension_type.harp_dimension_time →
        v.dimension_type.getD 0 harp_dimension_type.harp_dimension_independent =
          harp_dimension_type.harp_dimension_time) →
      (∃ i, i < v.num_dimensions.toNat ∧
        v.dimension_type.getD i harp_dimension_type.harp_dimension_independent =
          harp_dimension_type.harp_dimension_time) →
      harp_variable_add_dimension HARP_MAX_NUM_DIMS heap (some v) dim_index dimension_type length =
        fail_with harp_error.HARP_ERROR_INVALID_ARGUMENT (some v) heap) := by
  have first : dimension_type = harp_dimension_type.harp_dimension_time →
      1 ≤ v.num_dimensions →
      v.dimension_type.getD 0 harp_dimension_type.harp_dimension_independent =
        harp_dimension_type.harp_dimension_time →
      harp_variable_add_dimension HARP_MAX_NUM_DIMS heap (some v) dim_index dimension_type length =
        fail_with harp_error.HARP_ERROR_INVALID_ARGUMENT (some v) heap := by
    intro ht hnd h0
    unfold harp_variable_add_dimension
    simp only
    split_ifs <;> first | rfl | (exfalso; simp_all)
  refine ⟨first, ?_, ?_, ?_, ?_⟩
  rotate_left 3
  · rintro ht hrule ⟨i, hi, hti⟩
    exact first ht (by omega) (hrule i hi hti)
  · intro ht hd
    unfold harp_variable_add_dimension
    simp only
    split_ifs <;> first | rfl | (exfalso; simp_all)
  · rintro hni ⟨i, hi, hty, hlen⟩
    have hany : (List.range v.num_dimensions.toNat).any
        (fun i => decide (v.dimension_type.getD i harp_dimension_type.harp_dimension_independent =
            dimension_type ∧ v.dimension.getD i 0 ≠ length)) = true := by
      rw [List.any_eq_true]
      exact ⟨i, List.mem_range.2 hi, decide_eq_true ⟨hty, hlen⟩⟩
    unfold harp_variable_add_dimension
    simp only
    split_ifs with h1 h2 h3 h4 h5 h6 h7 <;> first | rfl | exact absurd ⟨hni, hany⟩ h7
  · intro hmax
    unfold harp_variable_add_dimension
    simp only
    split_ifs <;> rfl

/-- C12: each of `harp_variable_rearrange_dimension`,
`harp_variable_filter_dimension`, `harp_variable_resize_dimension` and
`harp_variable_remove_dimension` fails with an invalid argument error when the
variable is null or dim_index is outside [0, num_dimensions), and
`harp_variable_add_dimension` does so when the variable is null or dim_index is
outside [0, num_dimensions]; in every such failure the variable (and the heap)
is left unchanged. -/
theorem C12_null_variable_or_bad_index (HARP_MAX_NUM_DIMS : Nat) (fuel : Nat) (heap : Heap)
    (v : harp_variable) (dim_index : Int) :
    (∀ n ids, harp_variable_rearrange_dimension fuel heap none dim_index n ids =
      .ok (fail_with harp_error.HARP_ERROR_INVALID_ARGUMENT none heap)) ∧
    (∀ mask, harp_variable_filter_dimension heap none dim_index mask =
      fail_with harp_error.HARP_ERROR_INVALID_ARGUMENT none heap) ∧
    (∀ reallocates length,
      harp_variable_resize_dimension reallocates heap none dim_index length =
        fail_with harp_error.HARP_ERROR_INVALID_ARGUMENT none heap) ∧
    (∀ index, harp_variable_remove_dimension fuel heap none dim_index index =
      .ok (fail_with harp_error.HARP_ERROR_INVALID_ARGUMENT none heap)) ∧
    (∀ dimension_type length,
      harp_variable_add_dimension HARP_MAX_NUM_DIMS heap none dim_index dimension_type length =
        fail_with harp_error.HARP_ERROR_INVALID_ARGUMENT none heap) ∧
    ((dim_index < 0 ∨ dim_index ≥ v.num_dimensions) →
      (∀ n ids, harp_variable_rearrange_dimension fuel heap (some v) dim_index n ids =
        .ok (fail_with harp_error.HARP_ERROR_INVALID_ARGUMENT (some v) heap)) ∧
      (∀ mask, harp_variable_filter_dimension heap (some v) dim_index mask =
        fail_with harp_error.HARP_ERROR_INVALID_ARGUMENT (some v) heap) ∧
      (∀ reallocates length,
        harp_variable_resize_dimension reallocates heap (some v) dim_index length =
          fail_with harp_error.HARP_ERROR_INVALID_ARGUMENT (some v) heap) ∧
      (∀ index, harp_variable_remove_dimension fuel heap (some v) dim_index index =
        .ok (fail_with harp_error.HARP_ERROR_INVALID_ARGUMENT (some v) heap))) ∧
    ((dim_index < 0 ∨ dim_index > v.num_dimensions) →
      ∀ dimension_type length,
        harp_variable_add_dimension HARP_MAX_NUM_DIMS heap (some v) dim_index dimension_type
          length = fail_with harp_error.HARP_ERROR_INVALID_ARGUMENT (some v) heap) := by
  have hre : ∀ n ids, (dim_index < 0 ∨ dim_index ≥ v.num_dimensions) →
      harp_variable_rearrange_dimension fuel heap (some v) dim_index n ids =
        .ok (fail_with harp_error.HARP_ERROR_INVALID_ARGUMENT (some v) heap) := by
    intro n ids hbad
    unfold harp_variable_rearrange_dimension
    simp only
    split
    · rfl
    · split
      · rfl
      · rfl
  refine ⟨fun _ _ => rfl, fun _ => rfl, fun _ _ => rfl, fun _ => rfl, fun _ _ => rfl, ?_, ?_⟩
  · intro hbad
    refine ⟨fun n ids => hre n ids hbad, ?_, ?_, ?_⟩
    · intro mask
      unfold harp_variable_filter_dimension
      simp only
      split
      · rfl
      · rw [if_pos hbad]
    · intro reallocates length
      unfold harp_variable_resize_dimension
      simp only
      rw [if_pos hbad]
    · intro index
      unfold harp_variable_remove_dimension
      rw [hre 1 (some [index]) hbad]
      rfl
  · intro hbad dimension_type length
    unfold harp_variable_add_dimension
    simp only
    rw [if_pos hbad]

/-- C16: whenever `harp_variable_verify` returns success for a variable, the
variable has a name, a dimension count in [0, HARP_MAX_NUM_DIMS], a length > 0
for every dimension, equal lengths for any two dimensions that share the same
non-independent dimension type, num_elements equal to the product of the
dimension lengths, and a data buffer whenever num_elements > 0
(`SpecInvariants`); and a variable violating any of these is rejected with an
invalid variable error. -/
theorem C16_verify_success_invariants (HARP_MAX_NUM_DIMS : Nat)
    (harp_unit_is_valid : String → Bool) (v : harp_variable) :
    (harp_variable_verify HARP_MAX_NUM_DIMS harp_unit_is_valid (some v) = .ok () →
      SpecInvariants HARP_MAX_NUM_DIMS v) ∧
    (¬ SpecInvariants HARP_MAX_NUM_DIMS v →
      ∃ e, harp_variable_verify HARP_MAX_NUM_DIMS harp_unit_is_valid (some v) = .error e ∧
        e.errno = harp_error.HARP_ERROR_INVALID_VARIABLE) := by
  have key : Verified HARP_MAX_NUM_DIMS harp_unit_is_valid v →
      SpecInvariants HARP_MAX_NUM_DIMS v := fun h =>
    { name := h.name
      dims_lo := h.dims_lo
      dims_hi := h.dims_hi
      pos := h.dims.pos
      shared := h.dims.shared
      count := h.count
      data := h.data }
  exact ⟨fun h => key ((verify_iff _ _ _).1 h), fun h => verify_fails (fun hv => h (key hv))⟩

/-- C16 at `sample_variable`, which passes the verification, and at
`sample_variable` without its name, which is rejected. -/
theorem C16_verify_success_invariants_witness :
    SpecInvariants 8 sample_variable ∧
    ∃ e, harp_variable_verify 8 (fun _ => true)
        (some { sample_variable with name := none }) = .error e ∧
      e.errno = harp_error.HARP_ERROR_INVALID_VARIABLE :=
  ⟨(C16_verify_success_invariants 8 (fun _ => true) sample_variable).1 rfl,
    (C16_verify_success_invariants 8 (fun _ => true)
      { sample_variable with name := none }).2 (fun h => h.name rfl)⟩

/-- C17 as stated fails: `double_time_variable` has two dimensions of type time,
one of them at index 1, and passes the verification. -/
theorem C17_verify_time_dimension_counterexample :
    double_time_variable.num_dimensions = 2 ∧
    double_time_variable.dimension_type.getD 0 harp_dimension_type.harp_dimension_independent =
      harp_dimension_type.harp_dimension_time ∧
    double_time_variable.dimension_type.getD 1 harp_dimension_type.harp_dimension_independent =
      harp_dimension_type.harp_dimension_time ∧
    harp_variable_verify 8 (fun _ => true) (some double_time_variable) = .ok () :=
  ⟨rfl, rfl, rfl, rfl⟩

/-- C17 (amended): `harp_variable_verify` fails, with an invalid variable error,
for every variable that has a dimension of type time while its dimension 0 is
not of type time, and for every variable that has two dimensions of type time
of different lengths. -/
theorem C17_verify_time_dimension (HARP_MAX_NUM_DIMS : Nat)
    (harp_unit_is_valid : String → Bool) (v : harp_variable) :
    ((∃ i, i < v.num_dimensions.toNat ∧
        v.dimension_type.getD i harp_dimension_type.harp_dimension_independent =
          harp_dimension_type.harp_dimension_time ∧
        v.dimension_type.getD 0 harp_dimension_type.harp_dimension_independent ≠
          harp_dimension_type.harp_dimension_time) →
      ∃ e, harp_variable_verify HARP_MAX_NUM_DIMS harp_unit_is_valid (some v) = .error e ∧
        e.errno = harp_error.HARP_ERROR_INVALID_VARIABLE) ∧
    ((∃ i j, i < v.num_dimensions.toNat ∧ j < v.num_dimensions.toNat ∧
        v.dimension_type.getD i harp_dimension_type.harp_dimension_independent =
          harp_dimension_type.harp_dimension_time ∧
        v.dimension_type.getD j harp_dimension_type.harp_dimension_independent =
          harp_dimension_type.harp_dimension_time ∧
        v.dimension.getD i 0 ≠ v.dimension.getD j 0) →
      ∃ e, harp_variable_verify HARP_MAX_NUM_DIMS harp_unit_is_valid (some v) = .error e ∧
        e.errno = harp_error.HARP_ERROR_INVALID_VARIABLE) := by
  constructor
  · rintro ⟨i, hi, hti, h0⟩
    exact verify_fails (fun hv => h0 (hv.dims.time i hi hti))
  · rintro ⟨i, j, hi, hj, hti, htj, hne⟩
    refine verify_fails (fun hv => hne (hv.dims.shared i j hi hj (hti.trans htj.symm) ?_))
    intro h
    rw [hti] at h
    exact absurd h (by decide)

/-- C17 (amended) at `swath_variable`, whose dimension 1 is of type time while
dimension 0 is of type latitude. -/
theorem C17_verify_time_dimension_witness :
    ∃ e, harp_variable_verify 8 (fun _ => true) (some swath_variable) = .error e ∧
      e.errno = harp_error.HARP_ERROR_INVALID_VARIABLE :=
  (C17_verify_time_dimension 8 (fun _ => true) swath_variable).1
    ⟨1, by decide, rfl, by decide⟩

/-- C18: `harp_variable_verify` reports the violation of the earliest stage of
the fixed order.  A missing name is reported whatever else is wrong; a
dimension count out of range is reported when the name is present; the loop
reports the first dimension `i` that fails, and for that dimension an inner
time dimension before an invalid length before a length mismatch, when name
and dimension count pass and the dimensions before `i` pass; and when name,
dimension count and all dimensions pass the remaining checks are reported in
the order: negative element count, element count different from the product of
the dimension lengths, missing data, invalid unit, valid_min NaN, valid_max
NaN, each one only when the ones before it pass. -/
theorem C18_verify_first_violation (HARP_MAX_NUM_DIMS : Nat)
    (harp_unit_is_valid : String → Bool) (v : harp_variable) :
    (v.name = none →
      harp_variable_verify HARP_MAX_NUM_DIMS harp_unit_is_valid (some v) =
        .error verify_error.name_undefined) ∧
    (v.name ≠ none → (v.num_dimensions < 0 ∨ v.num_dimensions > HARP_MAX_NUM_DIMS) →
      harp_variable_verify HARP_MAX_NUM_DIMS harp_unit_is_valid (some v) =
        .error verify_error.invalid_number_of_dimensions) ∧
    (v.name ≠ none → 0 ≤ v.num_dimensions → v.num_dimensions ≤ HARP_MAX_NUM_DIMS →
      ∀ i, i < v.num_dimensions.toNat → DimsOK v i →
        ((v.dimension_type.getD i harp_dimension_type.harp_dimension_independent =
              harp_dimension_type.harp_dimension_time ∧
            v.dimension_type.getD 0 harp_dimension_type.harp_dimension_independent ≠
              harp_dimension_type.harp_dimension_time) →
          harp_variable_verify HARP_MAX_NUM_DIMS harp_unit_is_valid (some v) =
            .error (verify_error.inner_time_dimension i)) ∧
        (¬ (v.dimension_type.getD i harp_dimension_type.harp_dimension_independent =
              harp_dimension_type.harp_dimension_time ∧
            v.dimension_type.getD 0 harp_dimension_type.harp_dimension_independent ≠
              harp_dimension_type.harp_dimension_time) →
          v.dimension.getD i 0 ≤ 0 →
          harp_variable_verify HARP_MAX_NUM_DIMS harp_unit_is_valid (some v) =
            .error (verify_error.dimension_invalid_length i)) ∧
        (¬ (v.dimension_type.getD i harp_dimension_type.harp_dimension_independent =
              harp_dimension_type.harp_dimension_time ∧
            v.dimension_type.getD 0 harp_dimension_type.harp_dimension_independent ≠
              harp_dimension_type.harp_dimension_time) →
          0 < v.dimension.getD i 0 →
          (∃ j, j < i ∧
            v.dimension_type.getD j harp_dimension_type.harp_dimension_independent =
              v.dimension_type.getD i harp_dimension_type.harp_dimension_independent ∧
            v.dimension_type.getD i harp_dimension_type.harp_dimension_independent ≠
              harp_dimension_type.harp_dimension_independent ∧
            v.dimension.getD j 0 ≠ v.dimension.getD i 0) →
          harp_variable_verify HARP_MAX_NUM_DIMS harp_unit_is_valid (some v) =
            .error (verify_error.dimension_length_mismatch i))) ∧
    (v.name ≠ none → 0 ≤ v.num_dimensions → v.num_dimensions ≤ HARP_MAX_NUM_DIMS →
      DimsOK v v.num_dimensions.toNat →
        (v.num_elements < 0 →
          harp_variable_verify HARP_MAX_NUM_DIMS harp_unit_is_valid (some v) =
            .error verify_error.invalid_number_of_elements) ∧
        (0 ≤ v.num_elements →
          v.num_elements ≠ dimension_product v.dimension 0 v.num_dimensions.toNat →
          harp_variable_verify HARP_MAX_NUM_DIMS harp_unit_is_valid (some v) =
            .error verify_error.number_of_elements_mismatch) ∧
        (0 ≤ v.num_elements →
          v.num_elements = dimension_product v.dimension 0 v.num_dimensions.toNat →
          (0 < v.num_elements ∧ v.data = none →
            harp_variable_verify HARP_MAX_NUM_DIMS harp_unit_is_valid (some v) =
              .error verify_error.no_data) ∧
          (¬ (0 < v.num_elements ∧ v.data = none) →
            ((∃ u, v.unit = some u ∧ harp_unit_is_valid u = false) →
              harp_variable_verify HARP_MAX_NUM_DIMS harp_unit_is_valid (some v) =
                .error verify_error.invalid_unit) ∧
            ((∀ u, v.unit = some u → harp_unit_is_valid u = true) →
              (((v.data_type = harp_data_type.harp_type_float ∧
                    v.valid_min = Cell.float_data harp_float.nan) ∨
                  (v.data_type = harp_data_type.harp_type_double ∧
                    v.valid_min = Cell.double_data harp_float.nan)) →
                harp_variable_verify HARP_MAX_NUM_DIMS harp_unit_is_valid (some v) =
                  .error verify_error.valid_min_is_nan) ∧
              (¬ ((v.data_type = harp_data_type.harp_type_float ∧
                    v.valid_min = Cell.float_data harp_float.nan) ∨
                  (v.data_type = harp_data_type.harp_type_double ∧
                    v.valid_min = Cell.double_data harp_float.nan)) →
                ((v.data_type = harp_data_type.harp_type_float ∧
                    v.valid_max = Cell.float_data harp_float.nan) ∨
                  (v.data_type = harp_data_type.harp_type_double ∧
                    v.valid_max = Cell.double_data harp_float.nan)) →
                harp_variable_verify HARP_MAX_NUM_DIMS harp_unit_is_valid (some v) =
                  .error verify_error.valid_max_is_nan))))) := by
  refine ⟨?_, ?_, ?_, ?_⟩
  · intro hname
    unfold harp_variable_verify
    simp only
    rw [if_pos hname]
  · intro hname hnd
    unfold harp_variable_verify
    simp only
    rw [if_neg hname, if_pos hnd]
  · intro hname hlo hhi i hi hd
    obtain ⟨seen, hs, hinv⟩ := verify_dimensions_reach hd
    refine ⟨?_, ?_, ?_⟩
    · intro ht
      refine verify_loop_error hname hlo hhi (foldlM_range_error _ _ i seen _ hs ?_ _ hi)
      unfold verify_dimension
      simp only
      rw [if_pos ht]
    · intro ht hlen
      refine verify_loop_error hname hlo hhi (foldlM_range_error _ _ i seen _ hs ?_ _ hi)
      unfold verify_dimension
      simp only
      rw [if_neg ht, if_pos hlen]
    · rintro ht hlen ⟨j, hj, hty, hni, hne⟩
      refine verify_loop_error hname hlo hhi (foldlM_range_error _ _ i seen _ hs ?_ _ hi)
      have hseen := hinv.seen j hj (by rw [hty]; exact hni)
      rw [hty] at hseen
      have hpos := hd.pos j hj
      unfold verify_dimension
      simp only
      rw [if_neg ht, if_neg (by omega), if_pos hni, if_neg (by omega), if_pos (by omega)]
  · intro hname hlo hhi hd
    rw [verify_after_loop hname hlo hhi hd]
    unfold harp_get_num_elements
    refine ⟨fun h => ?_, fun h0 h => ?_,
      fun h0 hc => ⟨fun hdata => ?_,
        fun hdata => ⟨?_, fun hu => ⟨fun hmin => ?_, fun hmin hmax => ?_⟩⟩⟩⟩
    · rw [if_pos h]
    · rw [if_neg (by omega), if_pos h]
    · rw [if_neg (by omega), if_neg (not_not.2 hc), if_pos hdata]
    · rintro ⟨u, hu, hbad⟩
      rw [if_neg (by omega), if_neg (not_not.2 hc), if_neg hdata]
      split
      · rfl
      · rename_i hx
        have := unit_check_false.1 hx u hu
        rw [hbad] at this
        exact Bool.noConfusion this
    · rw [if_neg (by omega), if_neg (not_not.2 hc), if_neg hdata]
      split
      · rename_i hx
        exact absurd hx (unit_check_false.2 hu)
      · rfl
    · rw [if_neg (by omega), if_neg (not_not.2 hc), if_neg hdata]
      split
      · rename_i hx
        exact absurd hx (unit_check_false.2 hu)
      · rfl

/-- C18 at `sample_variable` with its name removed and a negative element
count: the missing name, the earlier of the two violations, is reported. -/
theorem C18_verify_first_violation_witness :
    harp_variable_verify 8 (fun _ => true)
        (some { sample_variable with name := none, num_elements := -1 }) =
      .error verify_error.name_undefined :=
  (C18_verify_first_violation 8 (fun _ => true)
    { sample_variable with name := none, num_elements := -1 }).1 rfl

/-- C14: `harp_variable_convert_data_type` fails with an invalid argument error
and leaves the variable (and the heap) unchanged whenever exactly one of the
variable's data type and the target type is string, whereas a call with the
target type equal to the current type succeeds and leaves the variable
unchanged. -/
theorem C14_convert_string_or_same (INT_MAX : Int) (round_to_float : Rat → harp_float)
    (undefined_cast : Nat → harp_float → Int) (heap : Heap) (v : harp_variable)
    (target : harp_data_type) :
    (v.data_type = harp_data_type.harp_type_string →
      target ≠ harp_data_type.harp_type_string →
      harp_variable_convert_data_type INT_MAX round_to_float undefined_cast heap (some v)
          target =
        .ok (fail_with harp_error.HARP_ERROR_INVALID_ARGUMENT (some v) heap)) ∧
    (v.data_type ≠ harp_data_type.harp_type_string →
      target = harp_data_type.harp_type_string →
      harp_variable_convert_data_type INT_MAX round_to_float undefined_cast heap (some v)
          target =
        .ok (fail_with harp_error.HARP_ERROR_INVALID_ARGUMENT (some v) heap)) ∧
    (v.data_type = target →
      harp_variable_convert_data_type INT_MAX round_to_float undefined_cast heap (some v)
          target = .ok (succeed v heap)) := by
  refine ⟨?_, ?_, ?_⟩
  · intro hs ht
    have hne : v.data_type ≠ target := fun h => ht (h ▸ hs)
    unfold harp_variable_convert_data_type
    simp only [if_neg hne, if_pos hs]
  · intro hs ht
    have hne : v.data_type ≠ target := fun h => hs (h.trans ht)
    unfold harp_variable_convert_data_type
    simp only [if_neg hne, if_neg hs, if_pos ht]
  · intro h
    unfold harp_variable_convert_data_type
    simp only [if_pos h]

/-- C14 at `sample_variable`, a string variable, with target int32 and with
target string. -/
theorem C14_convert_string_or_same_witness :
    harp_variable_convert_data_type 2147483647 harp_float.finite (fun _ _ => 0) sample_heap
        (some sample_variable) harp_data_type.harp_type_int32 =
      .ok (fail_with harp_error.HARP_ERROR_INVALID_ARGUMENT (some sample_variable)
        sample_heap) ∧
    harp_variable_convert_data_type 2147483647 harp_float.finite (fun _ _ => 0) sample_heap
        (some sample_variable) harp_data_type.harp_type_string =
      .ok (succeed sample_variable sample_heap) :=
  ⟨(C14_convert_string_or_same 2147483647 harp_float.finite (fun _ _ => 0) sample_heap
      sample_variable harp_data_type.harp_type_int32).1 rfl (by decide),
    (C14_convert_string_or_same 2147483647 harp_float.finite (fun _ _ => 0) sample_heap
      sample_variable harp_data_type.harp_type_string).2.2 rfl⟩

/-- C15 fails on `huge_variable`, an int32 variable with a buffer of 2147483648
elements: with an `int` of 32 bits (`INT_MAX` = 2147483647) the loop counter
`int i` of the conversion to double overflows, and the call does not return. -/
theorem C15_int32_double_round_trip_counterexample :
    huge_variable.data_type = harp_data_type.harp_type_int32 ∧
    huge_variable.num_elements = 2147483647 + 1 ∧
    huge_variable.data = some (List.replicate 2147483648 (Cell.int32_data 0)) ∧
    harp_variable_convert_data_type 2147483647 harp_float.finite (fun _ _ => 0) empty_heap
        (some huge_variable) harp_data_type.harp_type_double =
      .error Stuck.counter_overflow :=
  ⟨rfl, rfl, rfl, rfl⟩

/-- C15, for variables of at most `INT_MAX` elements: for every int32 variable
with at most `INT_MAX` elements (whose elements, valid_min and valid_max hold
int32 values), converting it with `harp_variable_convert_data_type` to double
and then back to int32 succeeds both times and restores every element,
valid_min and valid_max exactly to their original int32 values; every other
field is as it was, and so is the buffer when it holds exactly num_elements
elements. -/
theorem C15_int32_double_round_trip (INT_MAX : Int) (round_to_float : Rat → harp_float)
    (undefined_cast : Nat → harp_float → Int) (heap : Heap) (v : harp_variable)
    (hty : v.data_type = harp_data_type.harp_type_int32) (hmax : v.num_elements ≤ INT_MAX)
    (hvmin : is_int32 v.valid_min) (hvmax : is_int32 v.valid_max)
    (hcells : ∀ D, v.data = some D → ∀ i, i < v.num_elements.toNat → is_int32 (peek D i)) :
    ∃ v1 v2,
      harp_variable_convert_data_type INT_MAX round_to_float undefined_cast heap (some v)
          harp_data_type.harp_type_double = .ok (succeed v1 heap) ∧
      harp_variable_convert_data_type INT_MAX round_to_float undefined_cast heap (some v1)
          harp_data_type.harp_type_int32 = .ok (succeed v2 heap) ∧
      v2.valid_min = v.valid_min ∧ v2.valid_max = v.valid_max ∧
      { v2 with data := v.data } = v ∧
      (v.data = none → v2.data = none) ∧
      (∀ D, v.data = some D → ∃ D2, v2.data = some D2 ∧
        ∀ i, i < v.num_elements.toNat → peek D2 i = peek D i) ∧
      (∀ D, v.data = some D → D.length = v.num_elements.toNat → v2 = v) := by
  obtain ⟨v1, v2, h1, h2, h3, h4, h5, h6⟩ :=
    convert_round_trip INT_MAX round_to_float undefined_cast heap v hty hmax hvmin hvmax hcells
  have hmin : v2.valid_min = v.valid_min := by
    have := congrArg harp_variable.valid_min h3
    exact this
  have hmax2 : v2.valid_max = v.valid_max := by
    have := congrArg harp_variable.valid_max h3
    exact this
  exact ⟨v1, v2, h1, h2, hmin, hmax2, h3, h4, h5, h6⟩

/-- C15 at `swath_variable`, an int32 variable of 6 elements. -/
theorem C15_int32_double_round_trip_witness :
    ∃ v1 v2,
      harp_variable_convert_data_type 2147483647 harp_float.finite (fun _ _ => 0) empty_heap
          (some swath_variable) harp_data_type.harp_type_double = .ok (succeed v1 empty_heap) ∧
      harp_variable_convert_data_type 2147483647 harp_float.finite (fun _ _ => 0) empty_heap
          (some v1) harp_data_type.harp_type_int32 = .ok (succeed v2 empty_heap) ∧
      v2.valid_min = swath_variable.valid_min ∧ v2.valid_max = swath_variable.valid_max ∧
      { v2 with data := swath_variable.data } = swath_variable ∧
      (swath_variable.data = none → v2.data = none) ∧
      (∀ D, swath_variable.data = some D → ∃ D2, v2.data = some D2 ∧
        ∀ i, i < swath_variable.num_elements.toNat → peek D2 i = peek D i) ∧
      (∀ D, swath_variable.data = some D → D.length = swath_variable.num_elements.toNat →
        v2 = swath_variable) :=
  C15_int32_double_round_trip 2147483647 harp_float.finite (fun _ _ => 0) empty_heap
    swath_variable rfl (by decide)
    ⟨0, rfl, by unfold in_range; decide⟩ ⟨100, rfl, by unfold in_range; decide⟩
    (by
      intro D hD i hi
      cases hD
      have hi6 : i < 6 := hi
      interval_cases i
      · exact ⟨0, rfl, by unfold in_range; decide⟩
      · exact ⟨1, rfl, by unfold in_range; decide⟩
      · exact ⟨2, rfl, by unfold in_range; decide⟩
      · exact ⟨3, rfl, by unfold in_range; decide⟩
      · exact ⟨4, rfl, by unfold in_range; decide⟩
      · exact ⟨5, rfl, by unfold in_range; decide⟩)

/-- C19: for every function call node (a node of kind function call whose two
child nodes are the function name, carrying the name as its payload, and the
argument list, whose child nodes are the arguments),
`operation_from_function_call` fails with "undefined function" at the position
of the function name if the name is not in the catalog; for a name that
resolves to a prototype of fixed arity it fails with "function expects N
argument(s)" at the position of the argument list if the number of arguments
differs from the arity N, and otherwise fails with "invalid argument type" at
the position of the first argument whose kind differs from the kind declared
for its position; in every other case the result is the result of the
constructor of the prototype on the argument list. -/
theorem C19_function_call_dispatch {Op : Type} (K : Constructors Op) (HARP_MAX_NUM_DIMS : Nat)
    (node function_name argument_list : ast_node) (name : String) (args : List ast_node)
    (position list_position : Nat) (payload list_payload : ast_payload)
    (list_type : ast_node_type)
    (hnode : node = ast_node.mk ast_node_type.ast_function_call position payload
      [some function_name, some argument_list])
    (hname : function_name.payload = ast_payload.string name)
    (hargs : argument_list = ast_node.mk list_type list_position list_payload (args.map some)) :
    (get_function_prototype_by_name K HARP_MAX_NUM_DIMS name = none →
      operation_from_function_call K HARP_MAX_NUM_DIMS node =
        .ok (.error (analyze_error.undefined_function function_name.position name))) ∧
    (∀ p, get_function_prototype_by_name K HARP_MAX_NUM_DIMS name = some p →
      (0 ≤ p.num_arguments → (args.length : Int) ≠ p.num_arguments →
        operation_from_function_call K HARP_MAX_NUM_DIMS node =
          .ok (.error (analyze_error.function_expects_arguments argument_list.position
            p.num_arguments))) ∧
      (0 ≤ p.num_arguments → (args.length : Int) = p.num_arguments →
        ∀ (i : Nat) (a : ast_node), args[i]? = some a →
          (∀ (j : Nat) (b : ast_node), j < i → args[j]? = some b → some b.type = p.argument_type[j]?) →
          some a.type ≠ p.argument_type[i]? →
          operation_from_function_call K HARP_MAX_NUM_DIMS node =
            .ok (.error (analyze_error.invalid_argument_type a.position))) ∧
      ((p.num_arguments < 0 ∨
          ((args.length : Int) = p.num_arguments ∧
            ∀ (i : Nat) (a : ast_node), args[i]? = some a → some a.type = p.argument_type[i]?)) →
        operation_from_function_call K HARP_MAX_NUM_DIMS node =
          p.create_func argument_list)) := by
  have hc0 : child node 0 = .ok function_name := by rw [hnode]; rfl
  have hc1 : child node 1 = .ok argument_list := by rw [hnode]; rfl
  have hty : ¬ node.type ≠ ast_node_type.ast_function_call := by rw [hnode]; exact not_not.2 rfl
  have hnum : ¬ node.num_child_nodes ≠ 2 := by rw [hnode]; exact not_not.2 rfl
  have hps : payload_string function_name = .ok name := by
    unfold payload_string
    rw [hname]
  have hlen : argument_list.num_child_nodes = (args.length : Int) := by
    rw [hargs]
    simp [ast_node.num_child_nodes, ast_node.child_node]
  have hpos : argument_list.position = list_position := by rw [hargs]; rfl
  constructor
  · intro hnone
    unfold operation_from_function_call
    simp only [if_neg hty, if_neg hnum, hc0, hps, hnone]
  · intro p hp
    refine ⟨?_, ?_, ?_⟩
    · intro h0 hne
      unfold operation_from_function_call
      simp only [if_neg hty, if_neg hnum, hc0, hps, hp, hc1]
      rw [if_pos (ge_iff_le.2 h0), if_pos (by rw [hlen]; exact hne)]
    · intro h0 heq i a ha hbefore hbad
      have hi : i < args.length := by
        rcases Nat.lt_or_ge i args.length with h | h
        · exact h
        · rw [List.getElem?_eq_none h] at ha
          exact Option.noConfusion ha
      have hn : p.num_arguments.toNat = args.length := by omega
      unfold operation_from_function_call
      simp only [if_neg hty, if_neg hnum, hc0, hps, hp, hc1]
      rw [if_pos (ge_iff_le.2 h0), if_neg (by rw [hlen]; exact not_not.2 heq), hargs, hn,
        check_argument_types_first p.argument_type list_type list_position list_payload args
          args.length i a (Nat.le_refl _) hi ha hbefore hbad]
    · rintro (hneg | ⟨heq, hall⟩)
      · unfold operation_from_function_call
        simp only [if_neg hty, if_neg hnum, hc0, hps, hp, hc1]
        rw [if_neg (by omega)]
      · have hn : p.num_arguments.toNat = args.length := by omega
        unfold operation_from_function_call
        simp only [if_neg hty, if_neg hnum, hc0, hps, hp, hc1]
        rw [if_pos (by omega), if_neg (by rw [hlen]; exact not_not.2 heq), hn]
        conv_lhs => rw [hargs]
        rw [check_argument_types_pass p.argument_type list_type list_position list_payload args
          (List.range args.length) (fun j hj => List.mem_range.1 hj)
          (fun j b _ hb => hall j b hb), hargs]

/-- C19 at the call `regrid(5)`: the function `regrid` expects a string, the
number at offset 7 is reported; and at the call `frobnicate(5)` of an undefined
function. -/
theorem C19_function_call_dispatch_witness :
    operation_from_function_call sample_constructors 8 (call_node "regrid" [five_number]) =
      .ok (.error (analyze_error.invalid_argument_type 7)) ∧
    operation_from_function_call sample_constructors 8 (call_node "frobnicate" [five_number]) =
      .ok (.error (analyze_error.undefined_function 0 "frobnicate")) :=
  ⟨((C19_function_call_dispatch sample_constructors 8 (call_node "regrid" [five_number])
      (ast_node.mk ast_node_type.ast_name 0 (ast_payload.string "regrid") [])
      (ast_node.mk ast_node_type.ast_list 6 ast_payload.empty ([five_number].map some))
      "regrid" [five_number] 0 6 ast_payload.empty ast_payload.empty ast_node_type.ast_list
      rfl rfl rfl).2
      { name := "regrid", num_arguments := 1, argument_type := [ast_node_type.ast_string],
        create_func := create_regrid sample_constructors } rfl).2.1
      (by decide) rfl 0 five_number rfl (fun j b hj => absurd hj (Nat.not_lt_zero j))
      (by decide),
    (C19_function_call_dispatch sample_constructors 8 (call_node "frobnicate" [five_number])
      (ast_node.mk ast_node_type.ast_name 0 (ast_payload.string "frobnicate") [])
      (ast_node.mk ast_node_type.ast_list 6 ast_payload.empty ([five_number].map some))
      "frobnicate" [five_number] 0 6 ast_payload.empty ast_payload.empty ast_node_type.ast_list
      rfl rfl rfl).1 rfl⟩

/-- C20: `get_function_prototype_by_name` returns a prototype exactly for the 14
names collocate-left, collocate-right, valid, longitude-range, point-distance,
area-mask-covers-point, area-mask-covers-area, area-mask-intersects-area,
derive, keep, exclude, regrid, regrid_collocated and flatten, and `NULL` for
every other name; the prototype it returns has the name asked for, and its
name, arity and argument kinds are the entry of that name in the catalog of
the spec (`spec_catalog`). -/
theorem C20_prototype_catalog {Op : Type} (K : Constructors Op) (HARP_MAX_NUM_DIMS : Nat)
    (name : String) :
    ((get_function_prototype_by_name K HARP_MAX_NUM_DIMS name).isSome ↔
      name ∈ ["collocate-left", "collocate-right", "valid", "longitude-range", "point-distance",
        "area-mask-covers-point", "area-mask-covers-area", "area-mask-intersects-area",
        "derive", "keep", "exclude", "regrid", "regrid_collocated", "flatten"]) ∧
    (get_function_prototype_by_name K HARP_MAX_NUM_DIMS name = none ↔
      name ∉ ["collocate-left", "collocate-right", "valid", "longitude-range", "point-distance",
        "area-mask-covers-point", "area-mask-covers-area", "area-mask-intersects-area",
        "derive", "keep", "exclude", "regrid", "regrid_collocated", "flatten"]) ∧
    (∀ p, get_function_prototype_by_name K HARP_MAX_NUM_DIMS name = some p → p.name = name) ∧
    (get_function_prototype_by_name K HARP_MAX_NUM_DIMS name).map
        (fun p => (p.name, p.num_arguments, p.argument_type)) =
      spec_catalog.find? (fun e => decide (e.1 = name)) := by
  have hsig := prototype_signature K HARP_MAX_NUM_DIMS name
  have hsome : (get_function_prototype_by_name K HARP_MAX_NUM_DIMS name).isSome ↔
      name ∈ ["collocate-left", "collocate-right", "valid", "longitude-range", "point-distance",
        "area-mask-covers-point", "area-mask-covers-area", "area-mask-intersects-area",
        "derive", "keep", "exclude", "regrid", "regrid_collocated", "flatten"] := by
    have h1 : (get_function_prototype_by_name K HARP_MAX_NUM_DIMS name).isSome =
        (spec_catalog.find? (fun e => decide (e.1 = name))).isSome := by
      rw [← hsig, Option.isSome_map']
    rw [h1, List.find?_isSome]
    simp only [spec_catalog, List.mem_cons, List.mem_singleton, decide_eq_true_eq]
    constructor
    · rintro ⟨e, he, rfl⟩
      simp only [List.not_mem_nil, or_false] at he ⊢
      rcases he with h | h | h | h | h | h | h | h | h | h | h | h | h | h <;> subst h <;> simp
    · intro hn
      simp only [List.not_mem_nil, or_false] at hn
      rcases hn with h | h | h | h | h | h | h | h | h | h | h | h | h | h <;> subst h <;> simp
  refine ⟨hsome, ?_, ?_, hsig⟩
  · rw [← hsome]
    cases get_function_prototype_by_name K HARP_MAX_NUM_DIMS name <;> simp
  · intro p hp
    unfold get_function_prototype_by_name at hp
    have := List.find?_some hp
    exact of_decide_eq_true this

/-- C23: translating a call of keep or of exclude with an empty argument list
fails with the error "function expects one or more arguments" reported at the
position of the argument list, and creates no operation; so do the
constructors `create_variable_inclusion` and `create_variable_exclusion` of
the two functions on an empty argument list. -/
theorem C23_keep_exclude_empty {Op : Type} (K : Constructors Op) (HARP_MAX_NUM_DIMS : Nat)
    (position name_position list_position : Nat) (payload list_payload : ast_payload)
    (name_type list_type : ast_node_type) (name_children : List (Option ast_node)) :
    operation_from_function_call K HARP_MAX_NUM_DIMS
        (ast_node.mk ast_node_type.ast_function_call position payload
          [some (ast_node.mk name_type name_position (ast_payload.string "keep") name_children),
            some (ast_node.mk list_type list_position list_payload [])]) =
      .ok (.error (analyze_error.function_expects_one_or_more_arguments list_position)) ∧
    operation_from_function_call K HARP_MAX_NUM_DIMS
        (ast_node.mk ast_node_type.ast_function_call position payload
          [some (ast_node.mk name_type name_position (ast_payload.string "exclude")
              name_children),
            some (ast_node.mk list_type list_position list_payload [])]) =
      .ok (.error (analyze_error.function_expects_one_or_more_arguments list_position)) ∧
    create_variable_inclusion K (ast_node.mk list_type list_position list_payload []) =
      .ok (.error (analyze_error.function_expects_one_or_more_arguments list_position)) ∧
    create_variable_exclusion K (ast_node.mk list_type list_position list_payload []) =
      .ok (.error (analyze_error.function_expects_one_or_more_arguments list_position)) :=
  ⟨rfl, rfl, rfl, rfl⟩

/-- C22 as stated fails: with constructors that always succeed, the translation
of the call `keep(latitude{time}, longitude{time})` returns an error, the
unexpected dimension list at offset 13, and no operation. -/
theorem C22_keep_with_dimension_lists_counterexample :
    operation_from_function_call sample_constructors 8 keep_qualified_call =
      .ok (.error (analyze_error.unexpected_dimension_list 13)) ∧
    ∀ op, operation_from_function_call sample_constructors 8 keep_qualified_call ≠
      .ok (.ok op) :=
  ⟨rfl, fun _ h => Except.noConfusion (Except.ok.inj h)⟩

/-- C22 (amended): translating a call of keep whose two arguments are the
qualified names latitude and longitude, each carrying the dimension list
{time}, fails with "unexpected dimension list" at the position of the
dimension list of the first argument and produces no operation; translating
the call with the two names without dimension lists returns what
`harp_variable_inclusion_new` builds for the two names latitude and longitude,
in this order. -/
theorem C22_keep_with_dimension_lists {Op : Type} (K : Constructors Op)
    (HARP_MAX_NUM_DIMS : Nat) (first second first_list second_list : Nat) :
    operation_from_function_call K HARP_MAX_NUM_DIMS
        (call_node "keep"
          [qualified_name_node first "latitude" (some (dimension_list_node first_list ["time"]))
              none,
            qualified_name_node second "longitude"
              (some (dimension_list_node second_list ["time"])) none]) =
      .ok (.error (analyze_error.unexpected_dimension_list first_list)) ∧
    operation_from_function_call K HARP_MAX_NUM_DIMS
        (call_node "keep"
          [qualified_name_node first "latitude" none none,
            qualified_name_node second "longitude" none none]) =
      .ok (constructed (K.harp_variable_inclusion_new ["latitude", "longitude"])) :=
  ⟨rfl, rfl⟩

/-- C24: for keep, exclude, flatten and valid the translation fails and creates
no operation whenever an argument is a qualified name that carries a
dimension list or a unit.  For keep and exclude the error is the one of the
first such argument when the arguments before it are names without
qualifiers, and some error in general (the arguments of kind qualified name
being qualified name nodes); for flatten and valid it is the one of the
argument.  The error of a qualified name is "unexpected dimension list" at the
position of the dimension list when it has one, and "unexpected unit" at the
position of the unit when it has a unit and no dimension list.  For keep and
exclude with one or more names without qualifiers the names are passed to the
constructor in argument order. -/
theorem C24_qualifiers_rejected {Op : Type} (K : Constructors Op)
    (type : ast_node_type) (position : Nat) (payload : ast_payload) :
    (∀ (pre rest : List ast_node) (names : List String) (a : ast_node) (name : String)
        (dimension_list unit : Option ast_node) (e : analyze_error),
      List.Forall₂ (fun a n => is_qualified_name a n none none) pre names →
      is_qualified_name a name dimension_list unit →
      qualifier_error dimension_list unit = some e →
      create_variable_inclusion K
          (ast_node.mk type position payload ((pre ++ a :: rest).map some)) = .ok (.error e) ∧
      create_variable_exclusion K
          (ast_node.mk type position payload ((pre ++ a :: rest).map some)) = .ok (.error e)) ∧
    (∀ args : List ast_node,
      (∀ a, a ∈ args → a.type = ast_node_type.ast_qualified_name →
        ∃ n dl u, is_qualified_name a n dl u) →
      (∃ a, a ∈ args ∧ ∃ n dl u, is_qualified_name a n dl u ∧ (dl ≠ none ∨ u ≠ none)) →
      ∃ e, create_variable_inclusion K (ast_node.mk type position payload (args.map some)) =
          .ok (.error e) ∧
        create_variable_exclusion K (ast_node.mk type position payload (args.map some)) =
          .ok (.error e)) ∧
    (∀ (rest : List (Option ast_node)) (a : ast_node) (name : String)
        (dimension_list unit : Option ast_node) (e : analyze_error),
      is_qualified_name a name dimension_list unit →
      qualifier_error dimension_list unit = some e →
      create_flatten K (ast_node.mk type position payload (some a :: rest)) = .ok (.error e) ∧
      create_valid_range_filter K (ast_node.mk type position payload (some a :: rest)) =
        .ok (.error e)) ∧
    (∀ (d : ast_node) (unit : Option ast_node),
      qualifier_error (some d) unit =
        some (analyze_error.unexpected_dimension_list d.position)) ∧
    (∀ u : ast_node,
      qualifier_error none (some u) = some (analyze_error.unexpected_unit u.position)) ∧
    (∀ (args : List ast_node) (names : List String),
      List.Forall₂ (fun a n => is_qualified_name a n none none) args names → args ≠ [] →
      create_variable_inclusion K (ast_node.mk type position payload (args.map some)) =
        .ok (constructed (K.harp_variable_inclusion_new names)) ∧
      create_variable_exclusion K (ast_node.mk type position payload (args.map some)) =
        .ok (constructed (K.harp_variable_exclusion_new names))) := by
  refine ⟨?_, ?_, ?_, fun _ _ => rfl, fun _ => rfl, ?_⟩
  · intro pre rest names a name dimension_list unit e hpre h hq
    exact ⟨create_variable_inclusion_qualified K type position payload rest hpre h hq,
      create_variable_exclusion_qualified K type position payload rest hpre h hq⟩
  · intro args hwf hbad
    refine create_variable_inclusion_fails K type position payload args hwf ?_
    obtain ⟨a, ha, n, dl, u, hq, hne⟩ := hbad
    refine ⟨a, ha, n, dl, u, hq, ?_⟩
    cases dl with
    | some d => exact fun h => Option.noConfusion h
    | none =>
      cases u with
      | some x => exact fun h => Option.noConfusion h
      | none => simp at hne
  · intro rest a name dimension_list unit e h hq
    exact create_flatten_valid_qualified K type position payload rest h hq
  · intro args names h hne
    exact ⟨create_variable_inclusion_plain K type position payload h hne,
      create_variable_exclusion_plain K type position payload h hne⟩

/-- C24 at the call `keep(latitude{time}, longitude{time})`: the constructor of
keep reports the dimension list of the first argument, at offset 13. -/
theorem C24_qualifiers_rejected_witness :
    create_variable_inclusion sample_constructors
        (ast_node.mk ast_node_type.ast_list 6 ast_payload.empty
          (([] ++ qualified_name_node 5 "latitude" (some (dimension_list_node 13 ["time"])) none ::
            [qualified_name_node 21 "longitude" (some (dimension_list_node 30 ["time"]))
              none]).map some)) =
      .ok (.error (analyze_error.unexpected_dimension_list 13)) :=
  ((C24_qualifiers_rejected sample_constructors ast_node_type.ast_list 6 ast_payload.empty).1
    [] [qualified_name_node 21 "longitude" (some (dimension_list_node 30 ["time"])) none] []
    (qualified_name_node 5 "latitude" (some (dimension_list_node 13 ["time"])) none) "latitude"
    (some (dimension_list_node 13 ["time"])) none
    (analyze_error.unexpected_dimension_list 13) List.Forall₂.nil
    ⟨5, ast_payload.empty, _, rfl, rfl, rfl⟩ rfl).1

/-- C25: on an argument list whose first argument is a qualified name node,
`create_variable_derivation` fails with "expected dimension list" at the
position of the qualified name when the name has no dimension list; fails
with "maximum number of dimensions exceeded" when the dimension list has more
than HARP_MAX_NUM_DIMS entries; fails with "unknown dimension type" at the
first entry whose name is not a dimension type when the list has at most
HARP_MAX_NUM_DIMS entries; and otherwise returns what
`harp_variable_derivation_new` builds from the variable name, the dimension
types in list order and the optional unit. -/
theorem C25_variable_derivation {Op : Type} (K : Constructors Op) (HARP_MAX_NUM_DIMS : Nat)
    (type : ast_node_type) (position : Nat) (payload : ast_payload)
    (rest : List (Option ast_node)) (a : ast_node) (name : String)
    (dimension_list unit : Option ast_node)
    (h : is_qualified_name a name dimension_list unit) :
    (dimension_list = none →
      create_variable_derivation K HARP_MAX_NUM_DIMS
          (ast_node.mk type position payload (some a :: rest)) =
        .ok (.error (analyze_error.expected_dimension_list a.position))) ∧
    (∀ (list_position : Nat) (list_payload : ast_payload) (entries : List ast_node),
      dimension_list = some (ast_node.mk ast_node_type.ast_dimension_list list_position
        list_payload (entries.map some)) →
      (∀ c, HARP_MAX_NUM_DIMS < entries.length → entries[HARP_MAX_NUM_DIMS]? = some c →
        create_variable_derivation K HARP_MAX_NUM_DIMS
            (ast_node.mk type position payload (some a :: rest)) =
          .ok (.error (analyze_error.maximum_number_of_dimensions_exceeded c.position))) ∧
      (∀ (pre after : List ast_node) (types : List harp_dimension_type) (c : ast_node)
          (n : String),
        entries.length ≤ HARP_MAX_NUM_DIMS → entries = pre ++ c :: after →
        List.Forall₂
          (fun c t => ∃ n, c.payload = ast_payload.string n ∧
            K.harp_parse_dimension_type n = some t) pre types →
        c.payload = ast_payload.string n → K.harp_parse_dimension_type n = none →
        create_variable_derivation K HARP_MAX_NUM_DIMS
            (ast_node.mk type position payload (some a :: rest)) =
          .ok (.error (analyze_error.unknown_dimension_type c.position n))) ∧
      (∀ types : List harp_dimension_type,
        entries.length ≤ HARP_MAX_NUM_DIMS →
        List.Forall₂
          (fun c t => ∃ n, c.payload = ast_payload.string n ∧
            K.harp_parse_dimension_type n = some t) entries types →
        (unit = none →
          create_variable_derivation K HARP_MAX_NUM_DIMS
              (ast_node.mk type position payload (some a :: rest)) =
            .ok (constructed (K.harp_variable_derivation_new name types none))) ∧
        (∀ u s, unit = some u → is_unit u s →
          create_variable_derivation K HARP_MAX_NUM_DIMS
              (ast_node.mk type position payload (some a :: rest)) =
            .ok (constructed (K.harp_variable_derivation_new name types (some s)))))) := by
  constructor
  · intro hd
    subst hd
    exact create_variable_derivation_none K HARP_MAX_NUM_DIMS type position payload rest h
  · intro list_position list_payload entries hd
    subst hd
    have key := create_variable_derivation_some K HARP_MAX_NUM_DIMS type position payload rest h
    have hlen : (ast_node.mk ast_node_type.ast_dimension_list list_position list_payload
        (entries.map some)).num_child_nodes = (entries.length : Int) := by
      simp [ast_node.num_child_nodes, ast_node.child_node]
    have hty : ¬ (ast_node.mk ast_node_type.ast_dimension_list list_position list_payload
        (entries.map some)).type ≠ ast_node_type.ast_dimension_list := not_not.2 rfl
    refine ⟨?_, ?_, ?_⟩
    · intro c hgt hc
      have hget : get_dimension_list K HARP_MAX_NUM_DIMS
          (ast_node.mk ast_node_type.ast_dimension_list list_position list_payload
            (entries.map some)) =
          .ok (.error (analyze_error.maximum_number_of_dimensions_exceeded c.position)) := by
        unfold get_dimension_list
        rw [if_neg hty, if_pos (by rw [hlen]; exact_mod_cast hgt), child_of_present, hc]
      rw [key, hget]
    · intro pre after types c n hle hsplit hpre hn hp
      have hget : get_dimension_list K HARP_MAX_NUM_DIMS
          (ast_node.mk ast_node_type.ast_dimension_list list_position list_payload
            (entries.map some)) =
          .ok (.error (analyze_error.unknown_dimension_type c.position n)) := by
        unfold get_dimension_list
        rw [if_neg hty, if_neg (by rw [hlen]; exact_mod_cast Nat.not_lt.2 hle)]
        simp only [ast_node.child_node]
        rw [hsplit]
        exact parse_dimension_types_unknown K c n after hpre hn hp
      rw [key, hget]
    · intro types hle hall
      have hget : get_dimension_list K HARP_MAX_NUM_DIMS
          (ast_node.mk ast_node_type.ast_dimension_list list_position list_payload
            (entries.map some)) = .ok (.ok types) := by
        unfold get_dimension_list
        rw [if_neg hty, if_neg (by rw [hlen]; exact_mod_cast Nat.not_lt.2 hle)]
        simp only [ast_node.child_node]
        exact parse_dimension_types_all K hall
      rw [hget] at key
      simp only at key
      constructor
      · intro hu
        rw [key, hu]
        rfl
      · intro u s hu hunit
        have hgu : get_unit (some u) = .ok (some s) := by
          unfold get_unit
          simp only [if_neg (not_not.2 hunit.1)]
          unfold payload_string
          rw [hunit.2]
        rw [key, hu, hgu]

/-- C25 at the argument list of `derive(temperature {time} [K])` and of
`derive(temperature)`. -/
theorem C25_variable_derivation_witness :
    create_variable_derivation sample_constructors 8
        (ast_node.mk ast_node_type.ast_list 6 ast_payload.empty
          [some (qualified_name_node 7 "temperature" (some (dimension_list_node 19 ["time"]))
            (some (unit_node 26 "K")))]) =
      .ok (constructed (sample_constructors.harp_variable_derivation_new "temperature"
        [harp_dimension_type.harp_dimension_time] (some "K"))) ∧
    create_variable_derivation sample_constructors 8
        (ast_node.mk ast_node_type.ast_list 6 ast_payload.empty
          [some (qualified_name_node 7 "temperature" none none)]) =
      .ok (.error (analyze_error.expected_dimension_list 7)) :=
  ⟨((((C25_variable_derivation sample_constructors 8 ast_node_type.ast_list 6 ast_payload.empty
      [] (qualified_name_node 7 "temperature" (some (dimension_list_node 19 ["time"]))
        (some (unit_node 26 "K"))) "temperature" (some (dimension_list_node 19 ["time"]))
      (some (unit_node 26 "K")) ⟨7, ast_payload.empty, _, rfl, rfl, rfl⟩).2 19 ast_payload.empty
      [ast_node.mk ast_node_type.ast_name 20 (ast_payload.string "time") []] rfl).2.2
      [harp_dimension_type.harp_dimension_time] (by decide)
      (List.Forall₂.cons ⟨"time", rfl, rfl⟩ List.Forall₂.nil)).2
      (unit_node 26 "K") "K" rfl ⟨rfl, rfl⟩),
    (C25_variable_derivation sample_constructors 8 ast_node_type.ast_list 6 ast_payload.empty
      [] (qualified_name_node 7 "temperature" none none) "temperature" none none
      ⟨7, ast_payload.empty, _, rfl, rfl, rfl⟩).1 rfl⟩

/-- C26: for every comparison node whose right operand is a string literal,
`create_comparison` fails with "operator not supported for strings" at the
position of the node when the operator is <, <=, > or >= (and for every kind
of node other than = and !=), and for = and != returns what
`harp_string_comparison_filter_new` builds from the variable name, the
operator and the string value. -/
theorem C26_string_comparison {Op : Type} (K : Constructors Op) (type : ast_node_type)
    (position : Nat) (payload : ast_payload) (left right : ast_node) (name value : String)
    (hl : left.payload = ast_payload.string name)
    (hr : right.type = ast_node_type.ast_string)
    (hv : right.payload = ast_payload.string value) :
    ((type = ast_node_type.ast_lt ∨ type = ast_node_type.ast_le ∨ type = ast_node_type.ast_gt ∨
        type = ast_node_type.ast_ge) →
      create_comparison K (ast_node.mk type position payload [some left, some right]) =
        .ok (.error (analyze_error.operator_not_supported_for_strings position))) ∧
    (type ≠ ast_node_type.ast_eq → type ≠ ast_node_type.ast_ne →
      create_comparison K (ast_node.mk type position payload [some left, some right]) =
        .ok (.error (analyze_error.operator_not_supported_for_strings position))) ∧
    (type = ast_node_type.ast_eq →
      create_comparison K (ast_node.mk type position payload [some left, some right]) =
        .ok (constructed (K.harp_string_comparison_filter_new name
          harp_comparison_operator_type.harp_operator_eq value))) ∧
    (type = ast_node_type.ast_ne →
      create_comparison K (ast_node.mk type position payload [some left, some right]) =
        .ok (constructed (K.harp_string_comparison_filter_new name
          harp_comparison_operator_type.harp_operator_ne value))) := by
  have key := create_comparison_string K type position payload left right name value hl hr hv
  refine ⟨?_, ?_, ?_, ?_⟩
  · intro h
    rw [key, if_pos]
    rcases h with h | h | h | h <;> subst h <;> decide
  · intro h1 h2
    rw [key, if_pos ⟨h1, h2⟩]
  · intro h
    subst h
    rw [key, if_neg (by decide)]
    rfl
  · intro h
    subst h
    rw [key, if_neg (by decide)]
    rfl

/-- C26 at the comparison `name < "abc"`. -/
theorem C26_string_comparison_witness :
    create_comparison sample_constructors
        (ast_node.mk ast_node_type.ast_lt 5 ast_payload.empty
          [some (ast_node.mk ast_node_type.ast_name 0 (ast_payload.string "name") []),
            some (ast_node.mk ast_node_type.ast_string 7 (ast_payload.string "abc") [])]) =
      .ok (.error (analyze_error.operator_not_supported_for_strings 5)) :=
  (C26_string_comparison sample_constructors ast_node_type.ast_lt 5 ast_payload.empty
    (ast_node.mk ast_node_type.ast_name 0 (ast_payload.string "name") [])
    (ast_node.mk ast_node_type.ast_string 7 (ast_payload.string "abc") []) "name" "abc"
    rfl rfl rfl).1 (Or.inl rfl)

/-- C27: for every comparison node whose right operand is numeric,
`create_comparison` returns what `harp_comparison_filter_new` builds from the
variable name, the operator of the node (eq, ne, lt, le, gt, ge for the node
kinds =, !=, <, <=, >, >=), the number, and a unit that is absent for a bare
number and for a quantity without unit and is the unit of the quantity
otherwise. -/
theorem C27_numeric_comparison {Op : Type} (K : Constructors Op) (type : ast_node_type)
    (position : Nat) (payload : ast_payload) (left : ast_node) (name : String)
    (operator_type : harp_comparison_operator_type)
    (hl : left.payload = ast_payload.string name)
    (hop : (type, operator_type) ∈
      [(ast_node_type.ast_eq, harp_comparison_operator_type.harp_operator_eq),
        (ast_node_type.ast_ne, harp_comparison_operator_type.harp_operator_ne),
        (ast_node_type.ast_lt, harp_comparison_operator_type.harp_operator_lt),
        (ast_node_type.ast_le, harp_comparison_operator_type.harp_operator_le),
        (ast_node_type.ast_gt, harp_comparison_operator_type.harp_operator_gt),
        (ast_node_type.ast_ge, harp_comparison_operator_type.harp_operator_ge)]) :
    (∀ (right : ast_node) (value : harp_float),
      right.type = ast_node_type.ast_number → right.payload = ast_payload.number value →
      create_comparison K (ast_node.mk type position payload [some left, some right]) =
        .ok (constructed (K.harp_comparison_filter_new name operator_type value none))) ∧
    (∀ (number : ast_node) (value : harp_float) (right_position : Nat)
        (right_payload : ast_payload),
      number.payload = ast_payload.number value →
      create_comparison K (ast_node.mk type position payload
          [some left, some (ast_node.mk ast_node_type.ast_quantity right_position right_payload
            [some number, none])]) =
        .ok (constructed (K.harp_comparison_filter_new name operator_type value none))) ∧
    (∀ (number unit : ast_node) (value : harp_float) (unit_string : String)
        (right_position : Nat) (right_payload : ast_payload),
      number.payload = ast_payload.number value →
      unit.payload = ast_payload.string unit_string →
      create_comparison K (ast_node.mk type position payload
          [some left, some (ast_node.mk ast_node_type.ast_quantity right_position right_payload
            [some number, some unit])]) =
        .ok (constructed (K.harp_comparison_filter_new name operator_type value
          (some unit_string)))) := by
  have hget : get_operator_type type = .ok operator_type := by
    simp only [List.mem_cons, Prod.mk.injEq, List.mem_singleton, List.not_mem_nil,
      or_false] at hop
    rcases hop with ⟨h1, h2⟩ | ⟨h1, h2⟩ | ⟨h1, h2⟩ | ⟨h1, h2⟩ | ⟨h1, h2⟩ | ⟨h1, h2⟩ <;>
      subst h1 <;> subst h2 <;> rfl
  refine ⟨?_, ?_, ?_⟩
  · intro right value hr hv
    rw [create_comparison_number K type position payload left right name value hl hr hv, hget]
  · intro number value right_position right_payload hv
    rw [create_comparison_quantity K type position payload left number name value right_position
      right_payload none none hl hv rfl, hget]
  · intro number unit value unit_string right_position right_payload hv hu
    rw [create_comparison_quantity K type position payload left number name value right_position
      right_payload (some unit) (some unit_string) hl hv ⟨unit_string, hu, rfl⟩, hget]

/-- C27 at the comparison `temperature_stddev_s3 > 1.0 [g/kg]`: operator >,
value 1.0, unit g/kg. -/
theorem C27_numeric_comparison_witness :
    create_comparison sample_constructors
        (ast_node.mk ast_node_type.ast_gt 22 ast_payload.empty
          [some (ast_node.mk ast_node_type.ast_name 0
              (ast_payload.string "temperature_stddev_s3") []),
            some (ast_node.mk ast_node_type.ast_quantity 24 ast_payload.empty
              [some (ast_node.mk ast_node_type.ast_number 24
                  (ast_payload.number (harp_float.finite 1)) []),
                some (unit_node 28 "g/kg")])]) =
      .ok (constructed (sample_constructors.harp_comparison_filter_new "temperature_stddev_s3"
        harp_comparison_operator_type.harp_operator_gt (harp_float.finite 1) (some "g/kg"))) :=
  (C27_numeric_comparison sample_constructors ast_node_type.ast_gt 22 ast_payload.empty
    (ast_node.mk ast_node_type.ast_name 0 (ast_payload.string "temperature_stddev_s3") [])
    "temperature_stddev_s3" harp_comparison_operator_type.harp_operator_gt rfl
    (by decide)).2.2
    (ast_node.mk ast_node_type.ast_number 24 (ast_payload.number (harp_float.finite 1)) [])
    (unit_node 28 "g/kg") (harp_float.finite 1) "g/kg" 24 ast_payload.empty rfl rfl

/-- C28 as stated fails in its second case: the value list of
`x in ("a", 1) [m]` mixes a string and a number, and `create_membership_test`
fails with "unexpected unit" at the position of the unit, not with "values in
list should be of the same type". -/
theorem C28_membership_test_counterexample :
    create_membership_test sample_constructors mixed_membership_node =
      .ok (.error (analyze_error.unexpected_unit 14)) ∧
    create_membership_test sample_constructors mixed_membership_node ≠
      .ok (.error (analyze_error.values_in_list_should_be_of_the_same_type 5)) :=
  ⟨rfl, fun h =>
    analyze_error.noConfusion (Except.error.inj (Except.ok.inj
      ((rfl : create_membership_test sample_constructors mixed_membership_node =
        .ok (.error (analyze_error.unexpected_unit 14))).symm.trans h)))⟩

/-- C28 (amended): for every membership node (in / not in) with a value list of
at least one value, `create_membership_test` fails with "unexpected unit" at
the position of the unit when the first value is a string and a unit is
present; otherwise it fails with "values in list should be of the same type"
at the position of the list when a value is not of the kind of the first one;
and otherwise it returns what `harp_string_membership_filter_new` builds (all
values strings, no unit) or what `harp_membership_filter_new` builds with the
optional unit (all values numbers), from the variable name, the in / not-in
operator of the node and the values in list order. -/
theorem C28_membership_test {Op : Type} (K : Constructors Op) (type : ast_node_type)
    (position list_position : Nat) (payload list_payload : ast_payload)
    (name_node first : ast_node) (more : List ast_node) (unit : Option ast_node)
    (name : String) (operator_type : harp_membership_operator_type)
    (hop : (type, operator_type) ∈
      [(ast_node_type.ast_in, harp_membership_operator_type.harp_operator_in),
        (ast_node_type.ast_not_in, harp_membership_operator_type.harp_operator_not_in)])
    (hname : name_node.payload = ast_payload.string name) :
    (∀ u, first.type = ast_node_type.ast_string → unit = some u →
      create_membership_test K (ast_node.mk type position payload
          [some name_node,
            some (ast_node.mk ast_node_type.ast_list list_position list_payload
              ((first :: more).map some)),
            unit]) =
        .ok (.error (analyze_error.unexpected_unit u.position))) ∧
    ((first.type ≠ ast_node_type.ast_string ∨ unit = none) →
      (∃ v, v ∈ more ∧ v.type ≠ first.type) →
      create_membership_test K (ast_node.mk type position payload
          [some name_node,
            some (ast_node.mk ast_node_type.ast_list list_position list_payload
              ((first :: more).map some)),
            unit]) =
        .ok (.error (analyze_error.values_in_list_should_be_of_the_same_type list_position))) ∧
    (∀ strings : List String,
      List.Forall₂
        (fun v s => v.type = ast_node_type.ast_string ∧ v.payload = ast_payload.string s)
        (first :: more) strings →
      unit = none →
      create_membership_test K (ast_node.mk type position payload
          [some name_node,
            some (ast_node.mk ast_node_type.ast_list list_position list_payload
              ((first :: more).map some)),
            unit]) =
        .ok (constructed (K.harp_string_membership_filter_new name operator_type strings))) ∧
    (∀ numbers : List harp_float,
      List.Forall₂
        (fun v x => v.type = ast_node_type.ast_number ∧ v.payload = ast_payload.number x)
        (first :: more) numbers →
      (unit = none →
        create_membership_test K (ast_node.mk type position payload
            [some name_node,
              some (ast_node.mk ast_node_type.ast_list list_position list_payload
                ((first :: more).map some)),
              unit]) =
          .ok (constructed (K.harp_membership_filter_new name operator_type numbers none))) ∧
      (∀ u s, unit = some u → is_unit u s →
        create_membership_test K (ast_node.mk type position payload
            [some name_node,
              some (ast_node.mk ast_node_type.ast_list list_position list_payload
                ((first :: more).map some)),
              unit]) =
          .ok (constructed (K.harp_membership_filter_new name operator_type numbers
            (some s))))) := by
  have ht : type = ast_node_type.ast_in ∨ type = ast_node_type.ast_not_in := by
    simp only [List.mem_cons, Prod.mk.injEq, List.mem_singleton, List.not_mem_nil,
      or_false] at hop
    rcases hop with ⟨h1, _⟩ | ⟨h1, _⟩
    · exact Or.inl h1
    · exact Or.inr h1
  have hoper : (if type = ast_node_type.ast_in then harp_membership_operator_type.harp_operator_in
      else harp_membership_operator_type.harp_operator_not_in) = operator_type := by
    simp only [List.mem_cons, Prod.mk.injEq, List.mem_singleton, List.not_mem_nil,
      or_false] at hop
    rcases hop with ⟨h1, h2⟩ | ⟨h1, h2⟩ <;> subst h1 <;> subst h2 <;> rfl
  have key := create_membership_test_eq K type position list_position payload list_payload
    name_node first more unit name ht hname
  rw [hoper] at key
  have hall_of : ∀ {t : ast_node_type} {α : Type} {P : ast_node → α → Prop} {l : List α},
      List.Forall₂ (fun v x => v.type = t ∧ P v x) (first :: more) l →
      first.type = t ∧ ¬ (more.all (fun v => decide (v.type = first.type)) = false) := by
    intro t α P l h
    have hf := forall2_left h first (List.mem_cons_self _ _)
    obtain ⟨_, hf1, _⟩ := hf
    refine ⟨hf1, ?_⟩
    rw [Bool.not_eq_false, List.all_eq_true]
    intro v hv
    obtain ⟨_, hv1, _⟩ := forall2_left h v (List.mem_cons_of_mem _ hv)
    exact decide_eq_true (hv1.trans hf1.symm)
  refine ⟨?_, ?_, ?_, ?_⟩
  · intro u hs hu
    rw [key, if_pos hs, hu]
  · intro hsel hmix
    have hnone : (if first.type = ast_node_type.ast_string then unit else none) = none := by
      rcases hsel with h | h
      · rw [if_neg h]
      · rw [h]
        split <;> rfl
    have hall : more.all (fun v => decide (v.type = first.type)) = false := by
      obtain ⟨v, hv, hne⟩ := hmix
      rw [List.all_eq_false]
      exact ⟨v, hv, by simpa using hne⟩
    rw [key, hnone]
    simp only [hall, if_true]
  · intro strings h hu
    obtain ⟨hf, hall⟩ := hall_of h
    rw [key, hu]
    simp only [ite_self, if_neg hall, if_pos hf, collect_strings_all h]
  · intro numbers h
    obtain ⟨hf, hall⟩ := hall_of h
    have hns : ¬ first.type = ast_node_type.ast_string := by rw [hf]; decide
    constructor
    · intro hu
      rw [key, hu]
      simp only [ite_self, if_neg hall, if_neg hns, if_neg (not_not.2 hf), collect_numbers_all h]
      rfl
    · intro u s hu hunit
      have hgu : get_unit (some u) = .ok (some s) := by
        unfold get_unit
        simp only [if_neg (not_not.2 hunit.1)]
        unfold payload_string
        rw [hunit.2]
      rw [key, hu]
      simp only [if_neg hns, if_neg hall, if_neg (not_not.2 hf), collect_numbers_all h, hgu]

/-- C28 (amended) at the membership test `x not in ("a", "b")`. -/
theorem C28_membership_test_witness :
    create_membership_test sample_constructors
        (ast_node.mk ast_node_type.ast_not_in 2 ast_payload.empty
          [some (ast_node.mk ast_node_type.ast_name 0 (ast_payload.string "x") []),
            some (ast_node.mk ast_node_type.ast_list 9 ast_payload.empty
              ((ast_node.mk ast_node_type.ast_string 10 (ast_payload.string "a") [] ::
                [ast_node.mk ast_node_type.ast_string 15 (ast_payload.string "b") []]).map
                  some)),
            none]) =
      .ok (constructed (sample_constructors.harp_string_membership_filter_new "x"
        harp_membership_operator_type.harp_operator_not_in ["a", "b"])) :=
  (C28_membership_test sample_constructors ast_node_type.ast_not_in 2 9 ast_payload.empty
    ast_payload.empty (ast_node.mk ast_node_type.ast_name 0 (ast_payload.string "x") [])
    (ast_node.mk ast_node_type.ast_string 10 (ast_payload.string "a") [])
    [ast_node.mk ast_node_type.ast_string 15 (ast_payload.string "b") []] none "x"
    harp_membership_operator_type.harp_operator_not_in (by decide) rfl).2.2.1 ["a", "b"]
    (List.Forall₂.cons ⟨rfl, rfl⟩ (List.Forall₂.cons ⟨rfl, rfl⟩ List.Forall₂.nil)) rfl

/-- C21: for every list of top-level expression nodes, `create_program` succeeds
exactly when every expression translates to an operation (`translation`:
function calls through the catalog, in / not-in nodes through the membership
test builder, bit mask any / none nodes through the bit mask builder, all
other nodes through the comparison builder) and every append succeeds; the
program then holds exactly one operation per expression, the i-th operation
being the translation of the i-th expression.  When an expression does not
translate no program is returned: the call returns the error of the first
such expression, or the failure of an earlier append. -/
theorem C21_create_program {Op : Type} (K : Constructors Op) (HARP_MAX_NUM_DIMS : Nat)
    (undefined_mask : harp_float → Nat) (allocates : Nat → Bool) (type : ast_node_type)
    (position : Nat) (payload : ast_payload) (expressions : List ast_node) :
    (∀ result : harp_program Op,
      create_program K HARP_MAX_NUM_DIMS undefined_mask allocates
          (ast_node.mk type position payload (expressions.map some)) = .ok (.ok result) ↔
        List.Forall₂
          (fun e op => translation K HARP_MAX_NUM_DIMS undefined_mask e = .ok (.ok op))
          expressions result.operation ∧
        ∀ i, i < expressions.length → allocates i = true) ∧
    (∀ (pre rest : List ast_node) (operations : List Op) (e : ast_node) (err : analyze_error),
      expressions = pre ++ e :: rest →
      List.Forall₂
        (fun e op => translation K HARP_MAX_NUM_DIMS undefined_mask e = .ok (.ok op))
        pre operations →
      (∀ i, i < pre.length → allocates i = true) →
      translation K HARP_MAX_NUM_DIMS undefined_mask e = .ok (.error err) →
      create_program K HARP_MAX_NUM_DIMS undefined_mask allocates
          (ast_node.mk type position payload (expressions.map some)) = .ok (.error err)) ∧
    (∀ (pre rest : List ast_node) (operations : List Op) (e : ast_node) (op : Op),
      expressions = pre ++ e :: rest →
      List.Forall₂
        (fun e op => translation K HARP_MAX_NUM_DIMS undefined_mask e = .ok (.ok op))
        pre operations →
      (∀ i, i < pre.length → allocates i = true) →
      translation K HARP_MAX_NUM_DIMS undefined_mask e = .ok (.ok op) →
      allocates pre.length = false →
      create_program K HARP_MAX_NUM_DIMS undefined_mask allocates
          (ast_node.mk type position payload (expressions.map some)) =
        .ok (.error analyze_error.add_operation_failed)) ∧
    ((∃ e, e ∈ expressions ∧
        ∀ op, translation K HARP_MAX_NUM_DIMS undefined_mask e ≠ .ok (.ok op)) →
      ∀ result : harp_program Op,
        create_program K HARP_MAX_NUM_DIMS undefined_mask allocates
          (ast_node.mk type position payload (expressions.map some)) ≠ .ok (.ok result)) := by
  have hiff : ∀ result : harp_program Op,
      create_program K HARP_MAX_NUM_DIMS undefined_mask allocates
          (ast_node.mk type position payload (expressions.map some)) = .ok (.ok result) ↔
        List.Forall₂
          (fun e op => translation K HARP_MAX_NUM_DIMS undefined_mask e = .ok (.ok op))
          expressions result.operation ∧
        ∀ i, i < expressions.length → allocates i = true := by
    intro result
    unfold create_program
    simp only [ast_node.child_node]
    rw [create_program_loop_ok]
    constructor
    · rintro ⟨operations, hall, halloc, hres⟩
      have hres' : result.operation = operations := by
        rw [hres]
        rfl
      rw [hres']
      refine ⟨hall, fun i hi => ?_⟩
      have := halloc i hi
      simpa [harp_program_new] using this
    · rintro ⟨hall, halloc⟩
      refine ⟨result.operation, hall, fun i hi => ?_, rfl⟩
      simpa [harp_program_new] using halloc i hi
  refine ⟨hiff, ?_, ?_, ?_⟩
  · intro pre rest operations e err hsplit hall halloc he
    unfold create_program
    simp only [ast_node.child_node]
    rw [hsplit]
    exact create_program_loop_error K HARP_MAX_NUM_DIMS undefined_mask allocates pre operations e
      rest err harp_program_new hall
      (fun i hi => by simpa [harp_program_new] using halloc i hi) he
  · intro pre rest operations e op hsplit hall halloc he hf
    unfold create_program
    simp only [ast_node.child_node]
    rw [hsplit]
    exact create_program_loop_append K HARP_MAX_NUM_DIMS undefined_mask allocates pre operations
      e rest op harp_program_new hall
      (fun i hi => by simpa [harp_program_new] using halloc i hi) he
      (by simpa [harp_program_new] using hf)
  · rintro ⟨e, he, hno⟩ result hres
    obtain ⟨op, hop⟩ := forall2_left ((hiff result).1 hres).1 e he
    exact hno op hop

/-- C21 at the program `keep(latitude, longitude); x not in ("a", "b")` with
appends that succeed: the program holds the two translations in order. -/
theorem C21_create_program_witness :
    create_program sample_constructors 8 (fun _ => 0) (fun _ => true)
        (ast_node.mk ast_node_type.ast_list 0 ast_payload.empty
          ([keep_plain_call,
            ast_node.mk ast_node_type.ast_not_in 2 ast_payload.empty
              [some (ast_node.mk ast_node_type.ast_name 0 (ast_payload.string "x") []),
                some (ast_node.mk ast_node_type.ast_list 9 ast_payload.empty
                  [some (ast_node.mk ast_node_type.ast_string 10 (ast_payload.string "a") []),
                    some (ast_node.mk ast_node_type.ast_string 15 (ast_payload.string "b")
                      [])]),
                none]].map some)) =
      .ok (.ok { operation := ["keep latitude longitude", "string-membership x a b"] }) :=
  ((C21_create_program sample_constructors 8 (fun _ => 0) (fun _ => true)
    ast_node_type.ast_list 0 ast_payload.empty _).1 _).2
    ⟨List.Forall₂.cons rfl (List.Forall₂.cons rfl List.Forall₂.nil), fun _ _ => rfl⟩

/-- C30 does not hold for a dimension of length 0, nor for a variable without
elements when `realloc` returns `NULL` for a buffer of 0 elements.  The int32
variable `empty_series_variable` has consistent num_elements (0, with an empty
buffer), its dimension 0 has length 0 and 2 is greater; resizing to 2 succeeds
and gives two elements 0, but resizing back to the original length 0 is refused
as an invalid argument and leaves the variable with length 2.  The variable
`empty_grid_variable` has the lengths 3 and 0; resizing its dimension 0 to 5
asks `realloc` for 0 elements and fails with out of memory. -/
theorem C30_resize_round_trip_counterexample :
    Consistent sample_heap empty_series_variable [] ∧
    (0 : Int) ≤ 0 ∧ (0 : Int) < empty_series_variable.num_dimensions ∧
    empty_series_variable.dimension.getD (0 : Int).toNat 0 = 0 ∧
    empty_series_variable.dimension.getD (0 : Int).toNat 0 < 2 ∧
    harp_variable_resize_dimension (fun _ => true) sample_heap (some empty_series_variable) 0 2 =
      succeed (reshaped empty_series_variable 0 2 [Cell.int32_data 0, Cell.int32_data 0])
        sample_heap ∧
    harp_variable_resize_dimension (fun _ => true) sample_heap
        (some (reshaped empty_series_variable 0 2 [Cell.int32_data 0, Cell.int32_data 0])) 0
        (empty_series_variable.dimension.getD (0 : Int).toNat 0) =
      fail_with harp_error.HARP_ERROR_INVALID_ARGUMENT
        (some (reshaped empty_series_variable 0 2 [Cell.int32_data 0, Cell.int32_data 0]))
        sample_heap ∧
    (reshaped empty_series_variable 0 2 [Cell.int32_data 0, Cell.int32_data 0]).num_elements = 2 ∧
    empty_series_variable.num_elements = 0 ∧
    Consistent sample_heap empty_grid_variable [] ∧
    (0 : Int) < empty_grid_variable.num_dimensions ∧
    empty_grid_variable.dimension.getD (0 : Int).toNat 0 = 3 ∧
    resized_num_elements empty_grid_variable 0 5 = 0 ∧
    harp_variable_resize_dimension realloc_frees_empty sample_heap (some empty_grid_variable)
        0 5 =
      fail_with harp_error.HARP_ERROR_OUT_OF_MEMORY (some empty_grid_variable) sample_heap :=
  ⟨{ wf := sample_consistent.wf
     owns := fun j p h => by
       rw [peek_of_le (Nat.zero_le j)] at h
       exact Cell.noConfusion h
     data := rfl
     size := rfl
     product := rfl },
    by decide, by decide, rfl, by decide, rfl, rfl, rfl, rfl,
    { wf := sample_consistent.wf
      owns := fun j p h => by
        rw [peek_of_le (Nat.zero_le j)] at h
        exact Cell.noConfusion h
      data := rfl
      size := rfl
      product := rfl },
    by decide, rfl, rfl, rfl⟩

/-- C30 (amended): for every consistent variable, every valid dim_index whose
dimension has a positive length and every length L greater than that length,
when `realloc` returns a buffer for the grown and for the original number of
elements, resizing the dimension to L with `harp_variable_resize_dimension`
succeeds, and resizing it back to the original length succeeds and returns the
original variable: the same lengths, the same num_elements, the same buffer,
and every element has its original value. -/
theorem C30_resize_round_trip (reallocates : Int → Bool) (heap : Heap) (v : harp_variable)
    (D : List Cell)
    (dim_index : Int) (length : Int) (hv : Consistent heap v D) (h0 : 0 ≤ dim_index)
    (h1 : dim_index < v.num_dimensions)
    (hpos : 0 < v.dimension.getD dim_index.toNat 0)
    (hgrow : v.dimension.getD dim_index.toNat 0 < length)
    (hre1 : reallocates (resized_num_elements v dim_index length) = true)
    (hre2 : reallocates v.num_elements = true) :
    ∃ w heap1 heap2,
      harp_variable_resize_dimension reallocates heap (some v) dim_index length =
        succeed w heap1 ∧
      w.dimension.getD dim_index.toNat 0 = length ∧
      w.num_elements = resized_num_elements v dim_index length ∧
      harp_variable_resize_dimension reallocates heap1 (some w) dim_index
          (v.dimension.getD dim_index.toNat 0) = succeed v heap2 ∧
      v.data = some D ∧
      ∀ r, r < v.num_elements.toNat → element heap2 (peek D r) = element heap (peek D r) := by
  obtain ⟨D1, heap1, heap2, hcall1, hcall2, hel⟩ :=
    resize_round_trip reallocates heap v D dim_index length hv h0 h1 hpos hgrow hre1 hre2
  refine ⟨_, heap1, heap2, hcall1, ?_, rfl, hcall2, hv.data, hel⟩
  rw [getD_reshaped_dimension, if_pos ⟨rfl, lt_length_of_getD_ne (by omega)⟩]

/-- The hypotheses of the amended C30 hold for `sample_variable`, its dimension
0 of length 3 and the length 5, with a `realloc` that returns a buffer. -/
theorem C30_resize_round_trip_witness :
    (Consistent sample_heap sample_variable sample_data ∧
      (0 : Int) ≤ 0 ∧ (0 : Int) < sample_variable.num_dimensions ∧
      0 < sample_variable.dimension.getD (0 : Int).toNat 0 ∧
      sample_variable.dimension.getD (0 : Int).toNat 0 < 5 ∧
      (fun _ => true) (resized_num_elements sample_variable 0 5) = true ∧
      (fun _ => true) sample_variable.num_elements = true) ∧
    ∃ w heap1 heap2,
      harp_variable_resize_dimension (fun _ => true) sample_heap (some sample_variable) 0 5 =
        succeed w heap1 ∧
      w.dimension.getD (0 : Int).toNat 0 = 5 ∧
      w.num_elements = resized_num_elements sample_variable 0 5 ∧
      harp_variable_resize_dimension (fun _ => true) heap1 (some w) 0
          (sample_variable.dimension.getD (0 : Int).toNat 0) = succeed sample_variable heap2 ∧
      sample_variable.data = some sample_data ∧
      ∀ r, r < sample_variable.num_elements.toNat →
        element heap2 (peek sample_data r) = element sample_heap (peek sample_data r) :=
  ⟨⟨sample_consistent, by decide, by decide, by decide, by decide, rfl, rfl⟩,
    C30_resize_round_trip (fun _ => true) sample_heap sample_variable sample_data 0 5
      sample_consistent (by decide) (by decide) (by decide) (by decide) rfl rfl⟩

/-- C34 fails: in the argument list of
`regrid_collocated("file.csv", "dir", a{time}, altitude [m])` the third
argument carries a dimension list and the fourth a unit;
`verify_qualified_name_has_no_qualifiers` reports both, and
`create_regrid_collocated` still returns the operation that the constructor
builds. -/
theorem C34_regrid_collocated_qualifiers_counterexample :
    verify_qualified_name_has_no_qualifiers
        (qualified_name_node 36 "a" (some (dimension_list_node 37 ["time"])) none) =
      .ok (.error (analyze_error.unexpected_dimension_list 37)) ∧
    verify_qualified_name_has_no_qualifiers
        (qualified_name_node 45 "altitude" none (some (unit_node 54 "m"))) =
      .ok (.error (analyze_error.unexpected_unit 54)) ∧
    create_regrid_collocated sample_constructors regrid_collocated_arguments =
      .ok (.ok "regrid_collocated file.csv") :=
  ⟨rfl, rfl, rfl⟩

/-- C34, what the code does: for an argument list of two string nodes and two
qualified name nodes, whose target_dataset name has at most one byte,
`create_regrid_collocated` returns what `harp_regrid_collocated_new` builds from
the two strings, the first character of the target_dataset name and the
vertical_axis name, whether or not the two qualified names carry a dimension
list or a unit: the results of the two calls of
`verify_qualified_name_has_no_qualifiers` are not looked at. -/
theorem C34_regrid_collocated_qualifiers {Op : Type} (K : Constructors Op)
    (type : ast_node_type) (position : Nat) (payload : ast_payload)
    (collocation_result dataset_dir target_dataset vertical_axis : ast_node)
    (result dir target axis : String)
    (target_dimension_list target_unit axis_dimension_list axis_unit : Option ast_node)
    (hr : collocation_result.payload = ast_payload.string result)
    (hd : dataset_dir.payload = ast_payload.string dir)
    (ht : is_qualified_name target_dataset target target_dimension_list target_unit)
    (ha : is_qualified_name vertical_axis axis axis_dimension_list axis_unit)
    (hlen : target.utf8ByteSize ≤ 1) :
    create_regrid_collocated K
        (ast_node.mk type position payload
          [some collocation_result, some dataset_dir, some target_dataset,
            some vertical_axis]) =
      .ok (constructed (K.harp_regrid_collocated_new result dir
        (target.data.headD (Char.ofNat 0)) axis)) := by
  obtain ⟨p1, q1, n1, rfl, _, hn1⟩ := ht
  obtain ⟨p2, q2, n2, rfl, _, hn2⟩ := ha
  have hlen' : ¬ target.utf8ByteSize > 1 := by omega
  cases target_dimension_list <;> cases target_unit <;> cases axis_dimension_list <;>
    cases axis_unit <;>
    simp [create_regrid_collocated, child, verify_qualified_name_has_no_qualifiers,
      child_pointer, ast_node.child_node, ast_node.type, ast_node.num_child_nodes,
      payload_string, hr, hd, hn1, hn2, hlen', bind, Except.bind, pure, Except.pure]

/-- C34 at the argument list of
`regrid_collocated("file.csv", "dir", a{time}, altitude [m])`. -/
theorem C34_regrid_collocated_qualifiers_witness :
    create_regrid_collocated sample_constructors regrid_collocated_arguments =
      .ok (constructed (sample_constructors.harp_regrid_collocated_new "file.csv" "dir"
        (("a" : String).data.headD (Char.ofNat 0)) "altitude")) :=
  C34_regrid_collocated_qualifiers sample_constructors ast_node_type.ast_list 17
    ast_payload.empty file_string
    (ast_node.mk ast_node_type.ast_string 29 (ast_payload.string "dir") [])
    (qualified_name_node 36 "a" (some (dimension_list_node 37 ["time"])) none)
    (qualified_name_node 45 "altitude" none (some (unit_node 54 "m")))
    "file.csv" "dir" "a" "altitude" (some (dimension_list_node 37 ["time"])) none none
    (some (unit_node 54 "m")) rfl rfl ⟨36, ast_payload.empty, _, rfl, rfl, rfl⟩
    ⟨45, ast_payload.empty, _, rfl, rfl, rfl⟩ (by decide)

/-- C37: for every variable that passes `harp_variable_verify` and every
dimension dim_index whose type is independent or is not shared by any other
dimension of the variable, a successful `harp_variable_rearrange_dimension`,
`harp_variable_filter_dimension` or `harp_variable_resize_dimension` on
dim_index yields a variable that passes `harp_variable_verify`; for the
rearrangement, every fuel that lets the call return is covered. -/
theorem C37_verify_after_unshared_reshape (HARP_MAX_NUM_DIMS : Nat)
    (harp_unit_is_valid : String → Bool) (fuel : Nat) (heap : Heap) (v : harp_variable)
    (dim_index : Int)
    (hver : harp_variable_verify HARP_MAX_NUM_DIMS harp_unit_is_valid (some v) = .ok ())
    (hu : unshared v dim_index) :
    (∀ n ids r,
      harp_variable_rearrange_dimension fuel heap (some v) dim_index n ids = .ok r → r.ret = 0 →
      harp_variable_verify HARP_MAX_NUM_DIMS harp_unit_is_valid r.var = .ok ()) ∧
    (∀ mask r,
      harp_variable_filter_dimension heap (some v) dim_index mask = r → r.ret = 0 →
      harp_variable_verify HARP_MAX_NUM_DIMS harp_unit_is_valid r.var = .ok ()) ∧
    (∀ reallocates length r,
      harp_variable_resize_dimension reallocates heap (some v) dim_index length = r →
      r.ret = 0 →
      harp_variable_verify HARP_MAX_NUM_DIMS harp_unit_is_valid r.var = .ok ()) :=
  verify_after_unshared_reshape HARP_MAX_NUM_DIMS harp_unit_is_valid fuel heap v dim_index hver hu

/-- The hypotheses of C37 hold for `cube_variable` (time, latitude, time) and
its latitude dimension, the only dimension of that type. -/
theorem C37_verify_after_unshared_reshape_witness :
    (harp_variable_verify 8 (fun _ => true) (some cube_variable) = .ok () ∧
      unshared cube_variable 1) ∧
    ((∀ n ids r,
      harp_variable_rearrange_dimension 4 empty_heap (some cube_variable) 1 n ids = .ok r →
      r.ret = 0 → harp_variable_verify 8 (fun _ => true) r.var = .ok ()) ∧
    (∀ mask r,
      harp_variable_filter_dimension empty_heap (some cube_variable) 1 mask = r → r.ret = 0 →
      harp_variable_verify 8 (fun _ => true) r.var = .ok ()) ∧
    (∀ reallocates length r,
      harp_variable_resize_dimension reallocates empty_heap (some cube_variable) 1 length = r →
      r.ret = 0 → harp_variable_verify 8 (fun _ => true) r.var = .ok ())) :=
  ⟨⟨rfl, by unfold unshared; decide⟩,
    C37_verify_after_unshared_reshape 8 (fun _ => true) 4 empty_heap cube_variable 1 rfl
      (by unfold unshared; decide)⟩

/-- C39: in `harp_variable_rearrange_dimension`, for the table `move_to_id`
built from any id list, a position k of the old range with
move_to_id[k] == to_id is the position from_id = ids[to_id]; so the move-away
step never fails the assertion k == from_id of its cycle branch, whatever the
state of the reordering, and no call of the function fails it; and a call
whose arguments pass the checks (n >= 1, all ids in range) on a consistent
variable returns, for every fuel above the length of the dimension. -/
theorem C39_cycle_assertion (dim n : Nat) (ids : List Int) :
    (∀ k to_id, k < dim → (build_move_to_id dim n ids).getD k none = some to_id →
      k = id_at ids to_id) ∧
    (∀ (fuel nbe base : Nat) (mem : List Cell) (moved : List Bool) (to_id : Nat),
      move_away fuel dim nbe base ids (build_move_to_id dim n ids) mem moved to_id ≠
        .error Stuck.assertion_failed) ∧
    (∀ (fuel : Nat) (heap : Heap) (var : Option harp_variable) (dim_index num_dim_elements : Int)
        (dim_element_ids : Option (List Int)),
      harp_variable_rearrange_dimension fuel heap var dim_index num_dim_elements
          dim_element_ids ≠ .error Stuck.assertion_failed) ∧
    (∀ (fuel : Nat) (heap : Heap) (v : harp_variable) (D : List Cell) (dim_index : Int),
      Consistent heap v D → v.num_elements ≠ 0 → 0 ≤ dim_index →
      dim_index < v.num_dimensions → 1 ≤ ids.length →
      (∀ i, i < ids.length →
        0 ≤ ids.getD i 0 ∧ ids.getD i 0 < v.dimension.getD dim_index.toNat 0) →
      (v.dimension.getD dim_index.toNat 0).toNat < fuel →
      ∃ r, harp_variable_rearrange_dimension fuel heap (some v) dim_index ids.length
          (some ids) = .ok r ∧ r.ret = 0) := by
  refine ⟨?_, ?_, ?_, ?_⟩
  · intro k to_id _ h
    exact move_to_id_source (build_move_to_id_table dim n ids) h
  · intro fuel nbe base mem moved to_id
    exact move_away_assertion (build_move_to_id_table dim n ids) fuel nbe base mem moved to_id
  · intro fuel heap var dim_index num_dim_elements dim_element_ids
    exact rearrange_assertion fuel heap var dim_index num_dim_elements dim_element_ids
  · intro fuel heap v D dim_index hv hne h0 h1 hn hids hfuel
    obtain ⟨D', heap', hcall, _⟩ :=
      rearrange_run fuel heap v D dim_index ids hv.data hv.size hne hv.product h0 h1 hn hids hfuel
    exact ⟨_, hcall, rfl⟩

/-- C39 at the swap `[1, 0, 2]` of a dimension of length 3: position 1 has
move_to_id[1] == 0 and is ids[0]; the move-away step for to_id = 0 takes the
cycle branch and returns. -/
theorem C39_cycle_assertion_witness :
    (build_move_to_id 3 3 [1, 0, 2]).getD 1 none = some 0 ∧
    1 = id_at [1, 0, 2] 0 ∧
    (move_away 4 3 1 0 [1, 0, 2] (build_move_to_id 3 3 [1, 0, 2]) sample_data
      (List.replicate 3 false) 0).map (fun a => a.is_cycle) = .ok true :=
  ⟨rfl, (C39_cycle_assertion 3 3 [1, 0, 2]).1 1 0 (by decide) rfl, rfl⟩

/-- C40: in the move-away step of `harp_variable_rearrange_dimension`, for the
table `move_to_id` built from any id list and any state of the array `moved`,
when the step is entered for `to_id` (to_id is in the old range, has an entry
`first` in `move_to_id` and is not moved), with fuel above the length `dim` of
the dimension: the forward walk k = move_to_id[k] from `first` evaluates its
condition at the positions P, at most `dim` of them, and stops at the last one
because it leaves the old range, is discarded, is already moved or has
move_to_id[k] == to_id; the backward walk k = ids[k] from there copies to the
positions of P in reverse order and reaches to_id (it copies nothing when the
forward walk stopped at to_id itself); and the step returns, for every buffer. -/
theorem C40_walks_terminate (dim n : Nat) (ids : List Int) (moved : List Bool)
    (to_id first fuel : Nat) (h1 : to_id < dim)
    (h2 : (build_move_to_id dim n ids).getD to_id none = some first)
    (h3 : moved.getD to_id false = false) (hfuel : dim < fuel) :
    ∃ P last,
      forward_positions dim (build_move_to_id dim n ids) moved to_id fuel first = some P ∧
      P.head? = some first ∧ P.getLast? = some last ∧ P.length ≤ dim ∧
      walk_forward dim (build_move_to_id dim n ids) moved to_id fuel first = some last ∧
      (dim ≤ last ∨ (build_move_to_id dim n ids).getD last none = none ∨
        moved.getD last false = true ∨
        (build_move_to_id dim n ids).getD last none = some to_id) ∧
      backward_positions ids to_id fuel last =
        some (if last = to_id then [] else P.reverse) ∧
      ∀ (nbe base : Nat) (mem : List Cell),
        ∃ a, move_away fuel dim nbe base ids (build_move_to_id dim n ids) mem moved to_id =
          .ok a := by
  have hmt := build_move_to_id_table dim n ids
  obtain ⟨P, last, hP1, hP2, hP3, hlen, hw, hstop, hb⟩ :=
    move_away_walks hmt moved h1 h2 h3 hfuel
  refine ⟨P, last, hP1, hP2, hP3, hlen, hw, ?_, hb,
    fun nbe base mem => move_away_returns hmt hfuel nbe base mem moved to_id⟩
  cases hm : (build_move_to_id dim n ids).getD last none with
  | none => exact Or.inr (Or.inl rfl)
  | some next =>
    by_cases hn : next = to_id
    · exact Or.inr (Or.inr (Or.inr (by rw [hn])))
    · by_cases hd : last < dim
      · refine Or.inr (Or.inr (Or.inl ?_))
        cases hv : moved.getD last false with
        | true => rfl
        | false => exact absurd ⟨next, hm, hd, hv, hn⟩ hstop
      · exact Or.inl (by omega)

/-- C40 at the rotation `[1, 2, 0]` of a dimension of length 3, for to_id = 0
with nothing moved yet: the forward walk visits 2 and 1, the backward walk
copies to 1 and 2. -/
theorem C40_walks_terminate_witness :
    ((0 : Nat) < 3 ∧ (build_move_to_id 3 3 [1, 2, 0]).getD 0 none = some 2 ∧
      (List.replicate 3 false).getD 0 false = false ∧ 3 < 4) ∧
    forward_positions 3 (build_move_to_id 3 3 [1, 2, 0]) (List.replicate 3 false) 0 4 2 =
      some [2, 1] ∧
    backward_positions [1, 2, 0] 0 4 1 = some [1, 2] ∧
    ∃ P last,
      forward_positions 3 (build_move_to_id 3 3 [1, 2, 0]) (List.replicate 3 false) 0 4 2 =
        some P ∧
      P.head? = some 2 ∧ P.getLast? = some last ∧ P.length ≤ 3 ∧
      walk_forward 3 (build_move_to_id 3 3 [1, 2, 0]) (List.replicate 3 false) 0 4 2 =
        some last ∧
      (3 ≤ last ∨ (build_move_to_id 3 3 [1, 2, 0]).getD last none = none ∨
        (List.replicate 3 false).getD last false = true ∨
        (build_move_to_id 3 3 [1, 2, 0]).getD last none = some 0) ∧
      backward_positions [1, 2, 0] 0 4 last = some (if last = 0 then [] else P.reverse) ∧
      ∀ (nbe base : Nat) (mem : List Cell),
        ∃ a, move_away 4 3 nbe base [1, 2, 0] (build_move_to_id 3 3 [1, 2, 0]) mem
          (List.replicate 3 false) 0 = .ok a :=
  ⟨⟨by decide, rfl, rfl, by decide⟩, rfl, rfl,
    C40_walks_terminate 3 3 [1, 2, 0] (List.replicate 3 false) 0 2 4 (by decide) rfl rfl
      (by decide)⟩

/-- C38 as stated fails: `harp_variable_new` accepts a time dimension of length
0 and returns a variable (the data buffer of no elements being allocated), and
`harp_variable_verify` rejects the variable for the length of its dimension
0. -/
theorem C38_new_passes_verify_counterexample :
    ∃ r, harp_variable_new 8 (fun _ => true) sample_valid_min sample_valid_max blank_variable
        empty_heap (some "x") harp_data_type.harp_type_int32 1
        (some [harp_dimension_type.harp_dimension_time]) [0] = .ok r ∧
      r.ret = 0 ∧
      harp_variable_verify 8 (fun _ => true) r.var =
        .error (verify_error.dimension_invalid_length 0) :=
  ⟨_, rfl, rfl, rfl⟩

/-- C38 (amended): every variable returned by a successful `harp_variable_new`,
for any name, data type, dimension count in [0, HARP_MAX_NUM_DIMS], dimension
types and dimension lengths greater than 0 that it accepts, passes
`harp_variable_verify`, when the default valid_min and valid_max of the
floating point types are not NaN. -/
theorem C38_new_passes_verify (HARP_MAX_NUM_DIMS : Nat) (harp_unit_is_valid : String → Bool)
    (allocates : Int → Bool)
    (harp_get_valid_min_for_type harp_get_valid_max_for_type : harp_data_type → Cell)
    (fresh : harp_variable) (heap : Heap) (name : Option String) (data_type : harp_data_type)
    (num_dimensions : Int) (dimension_type : Option (List harp_dimension_type))
    (dimension : List Int) (r : Outcome)
    (hcap : fresh.dimension.length = HARP_MAX_NUM_DIMS)
    (hcapt : fresh.dimension_type.length = HARP_MAX_NUM_DIMS)
    (hnd : 0 ≤ num_dimensions)
    (hpos : ∀ i, i < num_dimensions.toNat → 0 < dimension.getD i 0)
    (hminf : harp_get_valid_min_for_type harp_data_type.harp_type_float ≠
      Cell.float_data harp_float.nan)
    (hmind : harp_get_valid_min_for_type harp_data_type.harp_type_double ≠
      Cell.double_data harp_float.nan)
    (hmaxf : harp_get_valid_max_for_type harp_data_type.harp_type_float ≠
      Cell.float_data harp_float.nan)
    (hmaxd : harp_get_valid_max_for_type harp_data_type.harp_type_double ≠
      Cell.double_data harp_float.nan)
    (hcall : harp_variable_new HARP_MAX_NUM_DIMS allocates harp_get_valid_min_for_type
      harp_get_valid_max_for_type fresh heap name data_type num_dimensions dimension_type
      dimension = .ok r)
    (hret : r.ret = 0) :
    harp_variable_verify HARP_MAX_NUM_DIMS harp_unit_is_valid r.var = .ok () := by
  have hrun := new_run HARP_MAX_NUM_DIMS allocates harp_get_valid_min_for_type
    harp_get_valid_max_for_type fresh heap name data_type num_dimensions dimension_type
    dimension (fun i hi => by have := hpos i hi; omega)
  by_cases hok : new_accepts num_dimensions dimension_type dimension
  · rw [hrun.2 hok] at hcall
    split at hcall
    · exact Except.noConfusion hcall
    · rename_i hmax
      split at hcall
      · exact Except.noConfusion hcall
      · rename_i s
        split at hcall
        · rw [← Except.ok.inj hcall] at hret
          exact absurd hret (fail_with_ret_ne _ _ _)
        · rw [← Except.ok.inj hcall]
          exact (verify_iff _ _ _).2
            (created_verified HARP_MAX_NUM_DIMS harp_unit_is_valid _ _ fresh s data_type
              num_dimensions dimension_type dimension hcap hcapt hnd (by omega) hpos hok hminf
              hmind hmaxf hmaxd)
  · rw [hrun.1 hok] at hcall
    rw [← Except.ok.inj hcall] at hret
    exact absurd hret (fail_with_ret_ne _ _ _)

/-- The hypotheses of the amended C38 hold for a call that creates a double
variable with a time dimension of length 2 and a latitude dimension of length
3. -/
theorem C38_new_passes_verify_witness :
    (blank_variable.dimension.length = 8 ∧ blank_variable.dimension_type.length = 8 ∧
      (0 : Int) ≤ 2 ∧ (∀ i, i < (2 : Int).toNat → 0 < ([2, 3] : List Int).getD i 0) ∧
      sample_valid_min harp_data_type.harp_type_float ≠ Cell.float_data harp_float.nan ∧
      sample_valid_min harp_data_type.harp_type_double ≠ Cell.double_data harp_float.nan ∧
      sample_valid_max harp_data_type.harp_type_float ≠ Cell.float_data harp_float.nan ∧
      sample_valid_max harp_data_type.harp_type_double ≠ Cell.double_data harp_float.nan ∧
      harp_variable_new 8 (fun _ => true) sample_valid_min sample_valid_max blank_variable
          empty_heap (some "x") harp_data_type.harp_type_double 2
          (some [harp_dimension_type.harp_dimension_time,
            harp_dimension_type.harp_dimension_latitude]) [2, 3] =
        .ok (succeed
          (created sample_valid_min sample_valid_max blank_variable "x"
            harp_data_type.harp_type_double 2
            (some [harp_dimension_type.harp_dimension_time,
              harp_dimension_type.harp_dimension_latitude]) [2, 3]) empty_heap) ∧
      (succeed
          (created sample_valid_min sample_valid_max blank_variable "x"
            harp_data_type.harp_type_double 2
            (some [harp_dimension_type.harp_dimension_time,
              harp_dimension_type.harp_dimension_latitude]) [2, 3]) empty_heap).ret = 0) ∧
    harp_variable_verify 8 (fun _ => true)
        (succeed
          (created sample_valid_min sample_valid_max blank_variable "x"
            harp_data_type.harp_type_double 2
            (some [harp_dimension_type.harp_dimension_time,
              harp_dimension_type.harp_dimension_latitude]) [2, 3]) empty_heap).var =
      .ok () :=
  ⟨⟨rfl, rfl, by decide, by decide, by decide, by decide, by decide, by decide, rfl, rfl⟩,
    C38_new_passes_verify 8 (fun _ => true) (fun _ => true) sample_valid_min sample_valid_max
      blank_variable empty_heap (some "x") harp_data_type.harp_type_double 2
      (some [harp_dimension_type.harp_dimension_time,
        harp_dimension_type.harp_dimension_latitude]) [2, 3] _ rfl rfl (by decide) (by decide)
      (by decide) (by decide) (by decide) (by decide) rfl rfl⟩

/-- C33 fails on a null element: growing the dimension of the string variable
`sample_variable` to length 4 with `harp_variable_resize_dimension` appends a
null element, and `harp_variable_copy` of the result reaches `strdup` of that
null pointer, where it is stuck; no copy is returned. -/
theorem C33_variable_copy_counterexample :
    harp_variable_resize_dimension (fun _ => true) sample_heap (some sample_variable) 0 4 =
      succeed (reshaped sample_variable 0 4 grown_data) sample_heap ∧
    (reshaped sample_variable 0 4 grown_data).name = some "station" ∧
    (reshaped sample_variable 0 4 grown_data).data = some grown_data ∧
    peek grown_data 3 = Cell.string_data none ∧
    harp_variable_copy 8 (fun _ => true) blank_variable sample_heap
        (some (reshaped sample_variable 0 4 grown_data)) =
      .error Stuck.invalid_read :=
  ⟨rfl, rfl, rfl, rfl, rfl⟩

/-- C33, for variables without null elements: for every consistent variable
that has a name, a data buffer and at most HARP_MAX_NUM_DIMS dimensions, and
whose elements all hold a string if it is a string variable,
`harp_variable_copy` succeeds (the data buffer being allocated) and returns a
variable equal to the source in name, data type, number of dimensions,
dimension lengths and types, num_elements, unit, description, valid_min and
valid_max, with a buffer of the same length in which every element has the
value of the source element; the strings of the copy are new strings, and the
elements of the source keep their values. -/
theorem C33_variable_copy (HARP_MAX_NUM_DIMS : Nat) (allocates : Int → Bool)
    (fresh : harp_variable) (heap : Heap) (v : harp_variable) (D : List Cell) (s : String)
    (hv : Consistent heap v D) (hname : v.name = some s)
    (hmax : v.num_dimensions ≤ HARP_MAX_NUM_DIMS)
    (hcap : fresh.dimension.length = HARP_MAX_NUM_DIMS)
    (hcapt : fresh.dimension_type.length = HARP_MAX_NUM_DIMS)
    (halloc : allocates v.num_elements = true)
    (hstr : v.data_type = harp_data_type.harp_type_string →
      ∀ c, c ∈ D → ∃ p, c = Cell.string_data (some p)) :
    ∃ w D' heap',
      harp_variable_copy HARP_MAX_NUM_DIMS allocates fresh heap (some v) =
        .ok (succeed w heap') ∧
      w.name = v.name ∧ w.data_type = v.data_type ∧ w.num_dimensions = v.num_dimensions ∧
      (∀ i, i < v.num_dimensions.toNat →
        w.dimension.getD i 0 = v.dimension.getD i 0 ∧
        w.dimension_type.getD i harp_dimension_type.harp_dimension_independent =
          v.dimension_type.getD i harp_dimension_type.harp_dimension_independent) ∧
      w.num_elements = v.num_elements ∧ w.unit = v.unit ∧ w.description = v.description ∧
      w.valid_min = v.valid_min ∧ w.valid_max = v.valid_max ∧
      w.data = some D' ∧ D'.length = D.length ∧
      (∀ r, element heap' (peek D' r) = element heap (peek D r)) ∧
      (∀ r, element heap' (peek D r) = element heap (peek D r)) ∧
      (v.data_type = harp_data_type.harp_type_string →
        ∀ r p, peek D' r = Cell.string_data (some p) → heap.next ≤ p) := by
  have hcall := copy_run HARP_MAX_NUM_DIMS allocates fresh heap v D s hv.data hv.size hname hmax
    halloc hstr
  have hdims : ∀ D', ∀ i, i < v.num_dimensions.toNat →
      (copied fresh v D').dimension.getD i 0 = v.dimension.getD i 0 ∧
      (copied fresh v D').dimension_type.getD i harp_dimension_type.harp_dimension_independent =
        v.dimension_type.getD i harp_dimension_type.harp_dimension_independent := by
    intro D' i hi
    unfold copied
    simp only
    rw [(assign_entries_spec _ 0 _ _).2 i, (assign_entries_spec _ _ _ _).2 i,
      if_pos ⟨hi, by omega⟩, if_pos ⟨hi, by omega⟩]
    exact ⟨rfl, rfl⟩
  by_cases ht : v.data_type = harp_data_type.harp_type_string
  · rw [if_pos ht] at hcall
    have hp := OldPtrs.of_owns hv.wf hv.owns
    have P := produces_dup D heap 0 D.length hp (fun r p _ hq => (hv.owns _ p hq).1)
    rw [read_block_of_length rfl] at P
    have hlen : (dup_cells D heap).1.length = D.length := length_dup_cells D heap
    refine ⟨_, (dup_cells D heap).1, (dup_cells D heap).2, hcall, rfl, rfl, rfl, hdims _, rfl,
      rfl, rfl, rfl, rfl, rfl, hlen, ?_, ?_, ?_⟩
    · intro r
      by_cases hr : r < D.length
      · have := P.element_eq hp hr (j := 0 + r) (Or.inr rfl) (fun h => Origin.noConfusion h)
        rw [Nat.zero_add] at this
        exact this
      · rw [peek_of_le (by omega), peek_of_le (by omega)]
        rfl
    · intro r
      rcases ptr_or_not (peek D r) with ⟨p, hpr⟩ | hn
      · rw [hpr]
        exact element_of_lookup (P.kept p (hp.lt r p hpr) (fun j hf => absurd hf id))
      · exact element_of_not_ptr hn
    · intro _ r p hpr
      have hr : r < D.length := by
        have := peek_not_ptr_of_le hpr
        omega
      have hc := P.cell r hr
      simp only [CellFrom, Nat.zero_add] at hc
      obtain ⟨q, hq⟩ := hstr ht (peek D r) (peek_mem hr)
      obtain ⟨p', hp', hle, _⟩ := hc.1 q hq
      rw [hpr] at hp'
      have : p = p' := by simpa using hp'
      rw [this]
      exact hle
  · rw [if_neg ht] at hcall
    exact ⟨_, D, heap, hcall, rfl, rfl, rfl, hdims _, rfl, rfl, rfl, rfl, rfl, rfl, rfl,
      fun _ => rfl, fun _ => rfl, fun h => absurd h ht⟩

/-- The hypotheses of C33 hold for the string variable `sample_variable`, whose
three elements hold a string. -/
theorem C33_variable_copy_witness :
    (Consistent sample_heap sample_variable sample_data ∧
      sample_variable.name = some "station" ∧
      sample_variable.num_dimensions ≤ ((8 : Nat) : Int) ∧
      blank_variable.dimension.length = 8 ∧ blank_variable.dimension_type.length = 8 ∧
      (fun _ => true) sample_variable.num_elements = true ∧
      (sample_variable.data_type = harp_data_type.harp_type_string →
        ∀ c, c ∈ sample_data → ∃ p, c = Cell.string_data (some p))) ∧
    ∃ w D' heap',
      harp_variable_copy 8 (fun _ => true) blank_variable sample_heap (some sample_variable) =
        .ok (succeed w heap') ∧
      w.name = sample_variable.name ∧ w.data_type = sample_variable.data_type ∧
      w.num_dimensions = sample_variable.num_dimensions ∧
      (∀ i, i < sample_variable.num_dimensions.toNat →
        w.dimension.getD i 0 = sample_variable.dimension.getD i 0 ∧
        w.dimension_type.getD i harp_dimension_type.harp_dimension_independent =
          sample_variable.dimension_type.getD i
            harp_dimension_type.harp_dimension_independent) ∧
      w.num_elements = sample_variable.num_elements ∧ w.unit = sample_variable.unit ∧
      w.description = sample_variable.description ∧
      w.valid_min = sample_variable.valid_min ∧ w.valid_max = sample_variable.valid_max ∧
      w.data = some D' ∧ D'.length = sample_data.length ∧
      (∀ r, element heap' (peek D' r) = element sample_heap (peek sample_data r)) ∧
      (∀ r, element heap' (peek sample_data r) = element sample_heap (peek sample_data r)) ∧
      (sample_variable.data_type = harp_data_type.harp_type_string →
        ∀ r p, peek D' r = Cell.string_data (some p) → sample_heap.next ≤ p) :=
  have hstr : sample_variable.data_type = harp_data_type.harp_type_string →
      ∀ c, c ∈ sample_data → ∃ p, c = Cell.string_data (some p) := by
    intro _ c hc
    simp only [sample_data, List.mem_cons, List.mem_singleton, List.not_mem_nil, or_false] at hc
    rcases hc with rfl | rfl | rfl
    · exact ⟨0, rfl⟩
    · exact ⟨1, rfl⟩
    · exact ⟨2, rfl⟩
  ⟨⟨sample_consistent, rfl, by decide, rfl, rfl, rfl, hstr⟩,
    C33_variable_copy 8 (fun _ => true) blank_variable sample_heap sample_variable sample_data
      "station" sample_consistent rfl (by decide) rfl rfl rfl hstr⟩

end Harp
